import Mathlib

/-!
# Knot DNS: dynamic-update processing (`src/knot/nameserver/update.c`)

A shallow embedding of the DDNS update cycle.  Every function of `update.c`
is a Lean function of the same name.  Calls that leave `update.c` (changeset,
journal, signer, requestor, packet and socket routines) are not part of the
embedded file: their results are supplied by an environment `Env`, and every
such call is appended to a chronological trace of `Event`s together with the
value it returned.  An environment function receives the trace recorded so
far, so the result of an external call may depend on the whole history.

A dereference of a missing (`NULL`) response packet is a fault: the function
returns `none`.
-/

namespace Knot

/-! ## Constants -/

/-- Success value of the Knot error enumeration (`KNOT_EOK`). -/
@[reducible] def KNOT_EOK : Int := 0

/-- Modelled from the spec: the RCODE `NOERROR` of the response surface; the
numeric value is the one of RFC 1035 (`libknot/consts.h` is not under src/). -/
@[reducible] def KNOT_RCODE_NOERROR : Nat := 0

/-- Modelled from the spec: the RCODE `SERVFAIL` of the response surface
(RFC 1035 value; `libknot/consts.h` is not under src/). -/
@[reducible] def KNOT_RCODE_SERVFAIL : Nat := 2

/-- Modelled from the spec: the RCODE `REFUSED` of the response surface
(RFC 1035 value; `libknot/consts.h` is not under src/). -/
@[reducible] def KNOT_RCODE_REFUSED : Nat := 5

/-- Modelled from the spec: RR type number of DNSKEY (IANA value;
`libknot/descriptor.h` is not under src/). -/
@[reducible] def KNOT_RRTYPE_DNSKEY : Nat := 48

/-- Modelled from the spec: RR type number of NSEC3PARAM (IANA value;
`libknot/descriptor.h` is not under src/). -/
@[reducible] def KNOT_RRTYPE_NSEC3PARAM : Nat := 51

/-- Modelled from the spec: the largest DNS message, used as the size of a
response packet (`libknot/packet/wire.h` is not under src/). -/
@[reducible] def KNOT_WIRE_MAX_PKTSIZE : Nat := 65535

/-- Modelled from the spec: the delay meaning "schedule immediately"
(`knot/zone/events.h` is not under src/). -/
@[reducible] def ZONE_EVENT_NOW : Int := 0

/-! ## Data -/

/-- A DNS message (`knot_pkt_t`): the header fields the update code touches,
the rest of the wire, the TSIG record kept beside the wire and the buffer
size. -/
structure knot_pkt_t where
  id : Nat
  rcode : Nat
  wire : List Nat
  tsig_rr : Option (List Nat)
  max_size : Nat
deriving DecidableEq, Repr

/-- Modelled from the spec: libknot's wire accessor reading the header RCODE
(the wire accessors are not under src/). -/
def knot_wire_get_rcode (p : knot_pkt_t) : Nat := p.rcode

/-- Modelled from the spec: libknot's wire accessor writing the header RCODE;
nothing else of the message changes. -/
def knot_wire_set_rcode (p : knot_pkt_t) (rcode : Nat) : knot_pkt_t :=
  { p with rcode := rcode }

/-- Modelled from the spec: libknot's wire accessor reading the message ID. -/
def knot_wire_get_id (p : knot_pkt_t) : Nat := p.id

/-- Modelled from the spec: libknot's wire accessor writing the message ID;
nothing else of the message changes. -/
def knot_wire_set_id (p : knot_pkt_t) (id : Nat) : knot_pkt_t :=
  { p with id := id }

/-- One queued update (`struct request_data`): the socket, the requester's
address, the query and the response slot (`none` is a `NULL` pointer). -/
structure request_data where
  fd : Int
  remote : Nat
  query : knot_pkt_t
  resp : Option knot_pkt_t
deriving DecidableEq, Repr

/-- The part of the zone configuration read by the update code. -/
structure conf_zone_t where
  dnssec_enable : Bool
  dbsync_timeout : Int
deriving DecidableEq, Repr

/-- A zone (`zone_t`).  `contents` is the reference to the published
snapshot, `master` the configured primary (`none` when there is none) and
`ddns_queue` the pending update requests. -/
structure zone_t (κ : Type) where
  name : List Nat
  contents : κ
  conf : conf_zone_t
  master : Option Nat
  ddns_queue : List request_data
deriving DecidableEq, Repr

/-- The working session of one cycle (`zone_update_t`): the base snapshot and
the changeset being built. -/
structure zone_update_t (κ χ : Type) where
  zone : κ
  change : χ

/-- The two changeset variables of `process_normal`. -/
inductive ChId where
  | ddns
  | sec
deriving DecidableEq, Repr

/-- Zone event kinds used by the update code (`ZONE_EVENT_*`). -/
inductive ZoneEvent where
  | DNSSEC
  | FLUSH
  | NOTIFY
deriving DecidableEq, Repr

/-- Comparison depth of `knot_rrset_equal`. -/
inductive knot_rrset_compare_type_t where
  | KNOT_RRSET_COMPARE_PTR
  | KNOT_RRSET_COMPARE_HEADER
  | KNOT_RRSET_COMPARE_WHOLE
deriving DecidableEq, Repr

/-- The pointer variable handed to `knot_pkt_free`: the local copy made by
`forward_request`, or the query or response slot of a request. -/
inductive PktSlot where
  | forwarded_query
  | request_query
  | request_resp
deriving DecidableEq, Repr

/-- A call leaving `update.c`, with the arguments that identify it and the
value it returned. -/
inductive Event (κ : Type) where
  | changeset_init (ch : ChId) (ret : Int)
  | ddns_process_prereqs (query : knot_pkt_t) (ret : Int) (rcode : Nat)
  | ddns_process_update (query : knot_pkt_t) (ret : Int) (rcode : Nat)
  | apply_changeset (ret : Int) (new_contents : Option κ)
  | knot_dnssec_zone_sign (ret : Int) (refresh_at : Nat)
  | knot_dnssec_sign_changeset (ret : Int) (refresh_at : Nat)
  | apply_changeset_directly (ret : Int)
  | changeset_merge (ret : Int)
  | update_cleanup (ch : ChId)
  | update_rollback (ch : ChId)
  | changeset_clear (ch : ChId)
  | update_free_zone (contents : κ)
  | zone_change_store (ret : Int)
  | zone_switch_contents (new_contents old_contents : κ)
  | synchronize_rcu
  | zone_events_get_time (ev : ZoneEvent) (time : Int)
  | time (now : Int)
  | zone_events_schedule (ev : ZoneEvent) (delay : Int)
  | knot_pkt_new (ok : Bool)
  | knot_pkt_copy (src : knot_pkt_t) (ret : Int)
  | requestor_make (query : knot_pkt_t) (ok : Bool)
  | requestor_enqueue (ret : Int)
  | requestor_exec (ret : Int)
  | requestor_clear
  | knot_pkt_free (slot : PktSlot) (pkt : Option knot_pkt_t)
  | tcp_send_msg (fd : Int) (msg : knot_pkt_t)
  | udp_send_msg (fd : Int) (msg : knot_pkt_t) (remote : Nat)
  | close (fd : Int)
  | free (r : request_data)
deriving DecidableEq, Repr

/-- Chronological record of the external calls made so far. -/
abbrev Trace (κ : Type) := List (Event κ)

/-- Result of `changeset_init`. -/
structure InitChangeset (χ : Type) where
  ret : Int
  change : χ

/-- Result of `ddns_process_prereqs` and `ddns_process_update`: the return
value, the RCODE written through the out-parameter and the changeset of the
update session afterwards. -/
structure DdnsResult (χ : Type) where
  ret : Int
  rcode : Nat
  change : χ

/-- Result of `apply_changeset`: the return value and the snapshot built
(meaningful when the call succeeded). -/
structure ApplyResult (κ : Type) where
  ret : Int
  new_contents : κ

/-- Result of a signer: the return value, the signature changeset and the
refresh delay written through the out-parameter. -/
structure SignerResult (χ : Type) where
  ret : Int
  sec_ch : χ
  refresh_at : Nat

/-- Result of `changeset_merge`: the return value and the first changeset
afterwards. -/
structure MergeResult (χ : Type) where
  ret : Int
  change : χ

/-- Result of `knot_pkt_copy`: the return value and the destination
afterwards. -/
structure CopyResult where
  ret : Int
  pkt : knot_pkt_t

/-- Result of `requestor_exec`: the return value and the capture sink (the
response packet) afterwards. -/
structure ExecResult where
  ret : Int
  sink : knot_pkt_t

/-- The code outside `update.c`.  `κ` is the type of references to zone
snapshots, `χ` of changesets, `ρ` of RRSets.  The two error constants come
from a header that is not under src/, so they are parameters; an error code
differs from `KNOT_EOK`.  The functions are handed values, never the zone
record itself, so none of them can change the published reference
`zone.contents`: that is done by `zone_switch_contents` alone.  A published
snapshot is never changed in place, so `zone_contents_serial` is a function of
the reference. -/
structure Env (κ χ ρ : Type) where
  KNOT_ENOMEM : Int
  KNOT_ETTL : Int
  enomem_ne : KNOT_ENOMEM ≠ KNOT_EOK
  changeset_init : Trace κ → ChId → InitChangeset χ
  ddns_process_prereqs : Trace κ → knot_pkt_t → zone_update_t κ χ → DdnsResult χ
  ddns_process_update :
    Trace κ → zone_t κ → knot_pkt_t → zone_update_t κ χ → DdnsResult χ
  changeset_empty : χ → Bool
  apply_changeset : Trace κ → zone_t κ → χ → ApplyResult κ
  node_rrset : κ → Nat → ρ
  knot_rrset_equal : ρ → ρ → knot_rrset_compare_type_t → Bool
  knot_dnssec_zone_sign : Trace κ → κ → conf_zone_t → χ → SignerResult χ
  knot_dnssec_sign_changeset : Trace κ → κ → conf_zone_t → χ → χ → SignerResult χ
  apply_changeset_directly : Trace κ → κ → χ → Int
  changeset_merge : Trace κ → χ → χ → MergeResult χ
  zone_events_get_time : Trace κ → ZoneEvent → Int
  time : Trace κ → Int
  zone_change_store : Trace κ → zone_t κ → χ → Int
  zone_contents_serial : κ → Nat
  knot_pkt_new : Trace κ → Nat → Option knot_pkt_t
  knot_pkt_init_response : knot_pkt_t → knot_pkt_t → knot_pkt_t
  knot_pkt_copy : Trace κ → Option knot_pkt_t → knot_pkt_t → CopyResult
  knot_random_uint16_t : Trace κ → Nat
  knot_tsig_append : knot_pkt_t → knot_pkt_t
  requestor_make : Trace κ → Option Nat → knot_pkt_t → Bool
  requestor_enqueue : Trace κ → knot_pkt_t → knot_pkt_t → Int
  requestor_exec : Trace κ → knot_pkt_t → knot_pkt_t → ExecResult
  net_is_connected : Trace κ → Int → Bool

/-- Modelled from the spec: `zone_master` (knot/zone/zone.c, not under src/)
returns the zone's configured primary, `NULL` when the zone has none. -/
def zone_master {κ : Type} (zone : zone_t κ) : Option Nat := zone.master

/-- Modelled from the spec: `zone_switch_contents` (knot/zone/zone.c, not
under src/) atomically swaps the zone's current-snapshot reference to the new
contents and returns the previous reference. -/
def zone_switch_contents {κ : Type} (zone : zone_t κ) (new_contents : κ) :
    κ × zone_t κ :=
  (zone.contents, { zone with contents := new_contents })

/-- Modelled from the spec: `zone_update_dequeue` (knot/zone/zone.c, not under
src/) drains all requests queued for the zone at the start of a cycle. -/
def zone_update_dequeue {κ : Type} (zone : zone_t κ) :
    List request_data × zone_t κ :=
  (zone.ddns_queue, { zone with ddns_queue := [] })

/-! ## The functions of `update.c` -/

section Code

variable {κ χ ρ : Type}

/-- Whether the apex RRSet of the given type differs between the old and the
new contents (`apex_rr_changed`). -/
def apex_rr_changed (E : Env κ χ ρ) (old_contents new_contents : κ) (type : Nat) :
    Bool :=
  let old_rr := E.node_rrset old_contents type
  let new_rr := E.node_rrset new_contents type
  !E.knot_rrset_equal old_rr new_rr
    knot_rrset_compare_type_t.KNOT_RRSET_COMPARE_WHOLE

/-- What `sign_update` leaves behind: its return value, both changesets and
the trace. -/
structure SignUpdate (κ χ : Type) where
  ret : Int
  ddns_ch : χ
  sec_ch : χ
  trace : Trace κ

/-- Signs the update (`sign_update`): whole-zone signing when the apex DNSKEY
or NSEC3PARAM changed, changeset signing otherwise; then the signatures are
applied to the new contents, merged into the DDNS changeset, and the next
resign is planned. -/
def sign_update (E : Env κ χ ρ) (zone : zone_t κ) (old_contents new_contents : κ)
    (ddns_ch sec_ch : χ) (tr : Trace κ) : SignUpdate κ χ :=
  let whole :=
    apex_rr_changed E old_contents new_contents KNOT_RRTYPE_DNSKEY ||
    apex_rr_changed E old_contents new_contents KNOT_RRTYPE_NSEC3PARAM
  let s :=
    if whole then E.knot_dnssec_zone_sign tr new_contents zone.conf sec_ch
    else E.knot_dnssec_sign_changeset tr new_contents zone.conf ddns_ch sec_ch
  let tr1 :=
    tr ++ [if whole then Event.knot_dnssec_zone_sign s.ret s.refresh_at
           else Event.knot_dnssec_sign_changeset s.ret s.refresh_at]
  if s.ret ≠ KNOT_EOK then
    ⟨s.ret, ddns_ch, s.sec_ch, tr1⟩
  else
    -- Apply DNSSEC changeset
    let a := E.apply_changeset_directly tr1 new_contents s.sec_ch
    let tr2 := tr1 ++ [Event.apply_changeset_directly a]
    if a ≠ KNOT_EOK then
      ⟨a, ddns_ch, s.sec_ch, tr2⟩
    else
      -- Merge changesets
      let m := E.changeset_merge tr2 ddns_ch s.sec_ch
      let tr3 := tr2 ++ [Event.changeset_merge m.ret]
      if m.ret ≠ KNOT_EOK then
        ⟨m.ret, m.change, s.sec_ch, tr3 ++ [Event.update_cleanup ChId.sec]⟩
      else
        -- Plan next zone resign.
        let resign_time := E.zone_events_get_time tr3 ZoneEvent.DNSSEC
        let tr4 := tr3 ++ [Event.zone_events_get_time ZoneEvent.DNSSEC resign_time]
        let now := E.time tr4
        let tr5 := tr4 ++ [Event.time now]
        if now + (s.refresh_at : Int) < resign_time then
          ⟨KNOT_EOK, m.change, s.sec_ch,
            tr5 ++ [Event.zone_events_schedule ZoneEvent.DNSSEC (s.refresh_at : Int)]⟩
        else
          ⟨KNOT_EOK, m.change, s.sec_ch, tr5⟩

/-- What `process_single_update` leaves behind. -/
structure SingleUpdate (κ χ : Type) where
  ret : Int
  request : request_data
  update : zone_update_t κ χ
  trace : Trace κ

/-- Processes one request of the batch (`process_single_update`): the
prerequisites, then the update section.  A failing step writes its RCODE into
the response of this request.  The two `assert(rcode != KNOT_RCODE_NOERROR)`
are left out, as in a build with `NDEBUG`: a failing step that reports NOERROR
is outside what the code allows, and a statement about the RCODE of a failing
request takes the asserted condition as a hypothesis. -/
def process_single_update (E : Env κ χ ρ) (request : request_data) (zone : zone_t κ)
    (update : zone_update_t κ χ) (tr : Trace κ) : Option (SingleUpdate κ χ) :=
  let p := E.ddns_process_prereqs tr request.query update
  let tr1 := tr ++ [Event.ddns_process_prereqs request.query p.ret p.rcode]
  let update1 : zone_update_t κ χ := { update with change := p.change }
  if p.ret ≠ KNOT_EOK then
    match request.resp with
    | none => none
    | some resp =>
      some ⟨p.ret, { request with resp := some (knot_wire_set_rcode resp p.rcode) },
        update1, tr1⟩
  else
    let u := E.ddns_process_update tr1 zone request.query update1
    let tr2 := tr1 ++ [Event.ddns_process_update request.query u.ret u.rcode]
    let update2 : zone_update_t κ χ := { update1 with change := u.change }
    if u.ret ≠ KNOT_EOK then
      match request.resp with
      | none => none
      | some resp =>
        some ⟨u.ret, { request with resp := some (knot_wire_set_rcode resp u.rcode) },
          update2, tr2⟩
    else
      some ⟨KNOT_EOK, request, update2, tr2⟩

/-- Gives every response still at NOERROR the given RCODE (`set_rcodes`).
Reading the RCODE of a missing response is a fault. -/
def set_rcodes (requests : List request_data) (rcode : Nat) :
    Option (List request_data) :=
  match requests with
  | [] => some []
  | req :: rest =>
    match req.resp with
    | none => none
    | some resp =>
      let req1 : request_data :=
        if knot_wire_get_rcode resp = KNOT_RCODE_NOERROR then
          { req with resp := some (knot_wire_set_rcode resp rcode) }
        else req
      match set_rcodes rest rcode with
      | none => none
      | some rest1 => some (req1 :: rest1)

/-- State after the request loop of `process_normal`. -/
structure WalkResult (κ χ : Type) where
  ret : Int
  requests : List request_data
  update : zone_update_t κ χ
  trace : Trace κ

/-- The loop `WALK_LIST(req, *requests)` of `process_normal` (lines 166-173):
requests are processed in queue order and the loop is left at the first one
that fails. -/
def process_normal_walk (E : Env κ χ ρ) (zone : zone_t κ) :
    List request_data → zone_update_t κ χ → Trace κ → Option (WalkResult κ χ)
  | [], update, tr => some ⟨KNOT_EOK, [], update, tr⟩
  | req :: rest, update, tr =>
    match process_single_update E req zone update tr with
    | none => none
    | some s =>
      if s.ret ≠ KNOT_EOK then
        some ⟨s.ret, s.request :: rest, s.update, s.trace⟩
      else
        match process_normal_walk E zone rest s.update s.trace with
        | none => none
        | some w => some ⟨w.ret, s.request :: w.requests, w.update, w.trace⟩

/-- What a processing function leaves behind: its return value, the zone, the
batch with its responses and the trace. -/
structure Outcome (κ : Type) where
  ret : Int
  zone : zone_t κ
  requests : List request_data
  trace : Trace κ

/-- The end of `process_normal` (lines 212-246): journal store, then either
the rollback or the switch of the contents, the clean-up and the flush
event. -/
def process_normal_store (E : Env κ χ ρ) (zone : zone_t κ)
    (requests : List request_data) (new_contents : κ) (ddns_ch : χ)
    (tr : Trace κ) : Option (Outcome κ) :=
  -- Write changes to journal if all went well. (DNSSEC merged)
  let ret := E.zone_change_store tr zone ddns_ch
  let tr1 := tr ++ [Event.zone_change_store ret]
  if ret ≠ KNOT_EOK then
    let tr2 := tr1 ++ [Event.update_rollback ChId.ddns,
      Event.update_free_zone new_contents, Event.changeset_clear ChId.ddns]
    let tr3 :=
      if zone.conf.dnssec_enable then tr2 ++ [Event.changeset_clear ChId.sec]
      else tr2
    match set_rcodes requests KNOT_RCODE_SERVFAIL with
    | none => none
    | some rs => some ⟨ret, zone, rs, tr3⟩
  else
    -- Switch zone contents.
    let sw := zone_switch_contents zone new_contents
    let old_contents := sw.1
    let zone1 := sw.2
    let tr2 := tr1 ++ [Event.zone_switch_contents new_contents old_contents,
      Event.synchronize_rcu]
    -- Clear DNSSEC changes
    let tr3 :=
      if zone1.conf.dnssec_enable then
        tr2 ++ [Event.update_cleanup ChId.sec, Event.changeset_clear ChId.sec]
      else tr2
    -- Clear obsolete zone contents
    let tr4 := tr3 ++ [Event.update_free_zone old_contents,
      Event.update_cleanup ChId.ddns, Event.changeset_clear ChId.ddns]
    -- Sync zonefile immediately if configured.
    let tr5 :=
      if zone1.conf.dbsync_timeout = 0 then
        tr4 ++ [Event.zone_events_schedule ZoneEvent.FLUSH ZONE_EVENT_NOW]
      else tr4
    some ⟨ret, zone1, requests, tr5⟩

/-- One update cycle on a zone without a primary (`process_normal`): build
the DDNS changeset from the batch, apply it, sign it, store it, publish. -/
def process_normal (E : Env κ χ ρ) (zone : zone_t κ) (requests : List request_data)
    (tr : Trace κ) : Option (Outcome κ) :=
  -- Create DDNS change.
  let i := E.changeset_init tr ChId.ddns
  let tr1 := tr ++ [Event.changeset_init ChId.ddns i.ret]
  if i.ret ≠ KNOT_EOK then
    match set_rcodes requests KNOT_RCODE_SERVFAIL with
    | none => none
    | some rs => some ⟨i.ret, zone, rs, tr1⟩
  else
    -- Init zone update structure, walk all the requests and process.
    match process_normal_walk E zone requests ⟨zone.contents, i.change⟩ tr1 with
    | none => none
    | some w =>
      if w.ret ≠ KNOT_EOK then
        match set_rcodes w.requests KNOT_RCODE_SERVFAIL with
        | none => none
        | some rs =>
          some ⟨w.ret, zone, rs, w.trace ++ [Event.changeset_clear ChId.ddns]⟩
      else
        let ddns_ch := w.update.change
        let change_made := !E.changeset_empty ddns_ch
        if change_made then
          let a := E.apply_changeset w.trace zone ddns_ch
          if a.ret ≠ KNOT_EOK then
            let tr2 := w.trace ++ [Event.apply_changeset a.ret none]
            match set_rcodes w.requests
                (if a.ret = E.KNOT_ETTL then KNOT_RCODE_REFUSED
                 else KNOT_RCODE_SERVFAIL) with
            | none => none
            | some rs =>
              some ⟨a.ret, zone, rs, tr2 ++ [Event.changeset_clear ChId.ddns]⟩
          else
            let new_contents := a.new_contents
            let tr2 := w.trace ++ [Event.apply_changeset a.ret (some new_contents)]
            if zone.conf.dnssec_enable then
              let j := E.changeset_init tr2 ChId.sec
              let tr3 := tr2 ++ [Event.changeset_init ChId.sec j.ret]
              if j.ret ≠ KNOT_EOK then
                match set_rcodes w.requests KNOT_RCODE_SERVFAIL with
                | none => none
                | some rs => some ⟨j.ret, zone, rs, tr3⟩
              else
                let s := sign_update E zone zone.contents new_contents ddns_ch
                  j.change tr3
                if s.ret ≠ KNOT_EOK then
                  let tr4 := s.trace ++ [Event.update_rollback ChId.ddns,
                    Event.update_free_zone new_contents,
                    Event.changeset_clear ChId.ddns]
                  match set_rcodes w.requests KNOT_RCODE_SERVFAIL with
                  | none => none
                  | some rs => some ⟨s.ret, zone, rs, tr4⟩
                else
                  process_normal_store E zone w.requests new_contents s.ddns_ch
                    s.trace
            else
              process_normal_store E zone w.requests new_contents ddns_ch tr2
        else
          some ⟨KNOT_EOK, zone, w.requests,
            w.trace ++ [Event.changeset_clear ChId.ddns]⟩

/-- Runs the cycle and schedules NOTIFY when the serial changed
(`process_requests`).  The zone and the batch are values, so the `NULL` guard
of the C function has no counterpart; time measurement and logging are left
out. -/
def process_requests (E : Env κ χ ρ) (zone : zone_t κ) (requests : List request_data)
    (tr : Trace κ) : Option (Outcome κ) :=
  -- Keep original state.
  let old_serial := E.zone_contents_serial zone.contents
  -- Process authenticated packet.
  match process_normal E zone requests tr with
  | none => none
  | some o =>
    if o.ret ≠ KNOT_EOK then
      some o
    else
      -- Evaluate response.
      let new_serial := E.zone_contents_serial o.zone.contents
      if new_serial = old_serial then
        some { o with ret := KNOT_EOK }
      else
        some { o with
          ret := KNOT_EOK
          trace := o.trace ++
            [Event.zone_events_schedule ZoneEvent.NOTIFY ZONE_EVENT_NOW] }

/-- What `forward_request` leaves behind. -/
structure ForwardResult (κ : Type) where
  ret : Int
  request : request_data
  trace : Trace κ

/-- Forwards one request to the primary and relays the answer
(`forward_request`).  The capture sink of the exchange is the response of the
request; a missing response is dereferenced on every path that reaches the
exchange, so it is a fault from there on.  The random ID is a `uint16_t`,
hence taken modulo 2^16. -/
def forward_request (E : Env κ χ ρ) (zone : zone_t κ) (request : request_data)
    (tr : Trace κ) : Option (ForwardResult κ) :=
  -- Fetch primary master.
  let master := zone_master zone
  -- Copy request and assign new ID.
  let query0 := E.knot_pkt_new tr request.query.max_size
  let tr1 := tr ++ [Event.knot_pkt_new query0.isSome]
  let c := E.knot_pkt_copy tr1 query0 request.query
  let tr2 := tr1 ++ [Event.knot_pkt_copy request.query c.ret]
  if c.ret ≠ KNOT_EOK then
    match request.resp with
    | none => none
    | some resp =>
      some ⟨c.ret,
        { request with resp := some (knot_wire_set_rcode resp KNOT_RCODE_SERVFAIL) },
        tr2⟩
  else
    let query :=
      E.knot_tsig_append (knot_wire_set_id c.pkt (E.knot_random_uint16_t tr2 % 65536))
    -- Create a request.
    let made := E.requestor_make tr2 master query
    let tr3 := tr2 ++ [Event.requestor_make query made]
    if !made then
      some ⟨E.KNOT_ENOMEM, request, tr3 ++ [Event.knot_pkt_free PktSlot.forwarded_query (some query)]⟩
    else
      match request.resp with
      | none => none
      | some resp =>
        -- Enqueue and execute request.
        let e := E.requestor_enqueue tr3 query resp
        let tr4 := tr3 ++ [Event.requestor_enqueue e]
        let x : ExecResult :=
          if e = KNOT_EOK then E.requestor_exec tr4 query resp else ⟨e, resp⟩
        let tr5 := if e = KNOT_EOK then tr4 ++ [Event.requestor_exec x.ret] else tr4
        let tr6 := tr5 ++ [Event.requestor_clear]
        -- Restore message ID and TSIG.
        let resp1 :=
          E.knot_tsig_append (knot_wire_set_id x.sink (knot_wire_get_id request.query))
        -- Set RCODE if forwarding failed.
        let resp2 :=
          if x.ret ≠ KNOT_EOK then knot_wire_set_rcode resp1 KNOT_RCODE_SERVFAIL
          else resp1
        some ⟨x.ret, { request with resp := some resp2 }, tr6⟩

/-- State after `forward_requests`. -/
structure ForwardAll (κ : Type) where
  requests : List request_data
  trace : Trace κ

/-- Forwards every request of the batch in queue order, ignoring the results
(`forward_requests`). -/
def forward_requests (E : Env κ χ ρ) (zone : zone_t κ) :
    List request_data → Trace κ → Option (ForwardAll κ)
  | [], tr => some ⟨[], tr⟩
  | req :: rest, tr =>
    match forward_request E zone req tr with
    | none => none
    | some f =>
      match forward_requests E zone rest f.trace with
      | none => none
      | some fs => some ⟨f.request :: fs.requests, fs.trace⟩

/-- State after `init_update_respones`. -/
structure InitResponses (κ : Type) where
  ret : Int
  updates : List request_data
  trace : Trace κ

/-- Creates and initialises a response for every request, stopping at the
first packet that cannot be allocated (`init_update_respones`). -/
def init_update_respones (E : Env κ χ ρ) :
    List request_data → Trace κ → InitResponses κ
  | [], tr => ⟨KNOT_EOK, [], tr⟩
  | r :: rest, tr =>
    let p := E.knot_pkt_new tr KNOT_WIRE_MAX_PKTSIZE
    let tr1 := tr ++ [Event.knot_pkt_new p.isSome]
    match p with
    | none => ⟨E.KNOT_ENOMEM, { r with resp := none } :: rest, tr1⟩
    | some resp =>
      let r1 : request_data :=
        { r with resp := some (E.knot_pkt_init_response resp r.query) }
      let i := init_update_respones E rest tr1
      ⟨i.ret, r1 :: i.updates, i.trace⟩

/-- Sends every existing response over its transport and releases every
request (`send_update_responses`). -/
def send_update_responses (E : Env κ χ ρ) : List request_data → Trace κ → Trace κ
  | [], tr => tr
  | r :: rest, tr =>
    let tr1 :=
      match r.resp with
      | some resp =>
        if E.net_is_connected tr r.fd then tr ++ [Event.tcp_send_msg r.fd resp]
        else tr ++ [Event.udp_send_msg r.fd resp r.remote]
      | none => tr
    send_update_responses E rest
      (tr1 ++ [Event.close r.fd,
        Event.knot_pkt_free PktSlot.request_query (some r.query),
        Event.knot_pkt_free PktSlot.request_resp r.resp, Event.free r])

/-- What `updates_execute` leaves behind. -/
structure Executed (κ : Type) where
  ret : Int
  zone : zone_t κ
  trace : Trace κ

/-- Drains the zone's update queue and answers every request
(`updates_execute`): forward when the zone has a primary, process locally
otherwise. -/
def updates_execute (E : Env κ χ ρ) (zone : zone_t κ) (tr : Trace κ) :
    Option (Executed κ) :=
  -- Get list of pending updates.
  let d := zone_update_dequeue zone
  let updates := d.1
  let zone1 := d.2
  if updates.isEmpty then
    some ⟨KNOT_EOK, zone1, tr⟩
  else
    -- Init updates respones.
    let i := init_update_respones E updates tr
    if i.ret ≠ KNOT_EOK then
      -- Send what responses we can.
      match set_rcodes i.updates KNOT_RCODE_SERVFAIL with
      | none => none
      | some us => some ⟨i.ret, zone1, send_update_responses E us i.trace⟩
    else
      -- Process update list - forward if zone has master, or execute.
      if (zone_master zone1).isSome then
        match forward_requests E zone1 i.updates i.trace with
        | none => none
        | some f => some ⟨KNOT_EOK, zone1, send_update_responses E f.requests f.trace⟩
      else
        match process_requests E zone1 i.updates i.trace with
        | none => none
        | some o => some ⟨KNOT_EOK, o.zone, send_update_responses E o.requests o.trace⟩

end Code

/-! ## Vocabulary for stating properties of traces -/

section Vocabulary

variable {κ χ ρ : Type}

/-- The loop body of `set_rcodes` on one request: a response at NOERROR gets
the given RCODE, any other response is left alone. -/
def set_rcode_if_noerror (rcode : Nat) (req : request_data) : request_data :=
  match req.resp with
  | none => req
  | some resp =>
    if knot_wire_get_rcode resp = KNOT_RCODE_NOERROR then
      { req with resp := some (knot_wire_set_rcode resp rcode) }
    else req

/-- What identifies a queued request whatever happens to its response: the
socket, the requester's address and the query. -/
def request_data.ident (req : request_data) : Int × Nat × knot_pkt_t :=
  (req.fd, req.remote, req.query)

/-- The RCODE carried by the response of a request, if the response exists. -/
def request_data.rcode (req : request_data) : Option Nat :=
  req.resp.map knot_wire_get_rcode

/-- The Knot return value recorded with an event, for the calls that return
one. -/
def Event.retOf : Event κ → Option Int
  | Event.changeset_init _ ret => some ret
  | Event.ddns_process_prereqs _ ret _ => some ret
  | Event.ddns_process_update _ ret _ => some ret
  | Event.apply_changeset ret _ => some ret
  | Event.knot_dnssec_zone_sign ret _ => some ret
  | Event.knot_dnssec_sign_changeset ret _ => some ret
  | Event.apply_changeset_directly ret => some ret
  | Event.changeset_merge ret => some ret
  | Event.zone_change_store ret => some ret
  | Event.knot_pkt_copy _ ret => some ret
  | Event.requestor_enqueue ret => some ret
  | Event.requestor_exec ret => some ret
  | _ => none

/-- Calls made by `process_single_update`. -/
def Event.isWalk : Event κ → Bool
  | Event.ddns_process_prereqs _ _ _ => true
  | Event.ddns_process_update _ _ _ => true
  | _ => false

/-- Calls made by `sign_update`. -/
def Event.isSign : Event κ → Bool
  | Event.knot_dnssec_zone_sign _ _ => true
  | Event.knot_dnssec_sign_changeset _ _ => true
  | Event.apply_changeset_directly _ => true
  | Event.changeset_merge _ => true
  | Event.update_cleanup ChId.sec => true
  | Event.zone_events_get_time ZoneEvent.DNSSEC _ => true
  | Event.time _ => true
  | Event.zone_events_schedule ZoneEvent.DNSSEC _ => true
  | _ => false

/-- The query of a prerequisite check. -/
def Event.prereqQuery : Event κ → Option knot_pkt_t
  | Event.ddns_process_prereqs q _ _ => some q
  | _ => none

/-- The query of an update-section run. -/
def Event.updateQuery : Event κ → Option knot_pkt_t
  | Event.ddns_process_update q _ _ => some q
  | _ => none

/-- The request loop ran to its end: the events are successful prerequisite
checks and update runs, one of each per request, in queue order. -/
def WalkOk (reqs : List request_data) (W : Trace κ) : Prop :=
  (∀ e ∈ W, e.isWalk = true ∧ e.retOf = some KNOT_EOK) ∧
  W.filterMap Event.prereqQuery = reqs.map request_data.query ∧
  W.filterMap Event.updateQuery = reqs.map request_data.query

/-- The request loop was left at a failing request `r`: the batch is
`pre ++ r :: post`, the last event is the failing step of `r` returning `ret`
with RCODE `rcode`, which is written into the response of `r`; all earlier
steps succeeded, only the requests up to `r` had their prerequisites checked
and only the requests before `r` had their update section run before the
failing step. -/
def WalkFailed (reqs : List request_data) (ret : Int) (reqs1 : List request_data)
    (W : Trace κ) : Prop :=
  ∃ (pre : List request_data) (r : request_data) (resp : knot_pkt_t)
    (post : List request_data) (rcode : Nat) (W0 : Trace κ) (e : Event κ),
    reqs = pre ++ r :: post ∧ r.resp = some resp ∧
    reqs1 = pre ++ { r with resp := some (knot_wire_set_rcode resp rcode) } :: post ∧
    W = W0 ++ [e] ∧
    (e = Event.ddns_process_prereqs r.query ret rcode ∨
      e = Event.ddns_process_update r.query ret rcode) ∧
    (∀ e0 ∈ W0, e0.isWalk = true ∧ e0.retOf = some KNOT_EOK) ∧
    W.filterMap Event.prereqQuery = (pre ++ [r]).map request_data.query ∧
    W0.filterMap Event.updateQuery = pre.map request_data.query

/-- The events of the DNSSEC block of `process_normal` when it is passed
without error: nothing when DNSSEC is off, otherwise the successful
initialisation of the signature changeset followed by calls of `sign_update`
none of which failed. -/
def SecPassed (zone : zone_t κ) (D : Trace κ) : Prop :=
  (zone.conf.dnssec_enable = false ∧ D = []) ∨
  (zone.conf.dnssec_enable = true ∧
    ∃ S : Trace κ, D = Event.changeset_init ChId.sec KNOT_EOK :: S ∧
      ∀ e ∈ S, e.isSign = true ∧ ∀ r, e.retOf = some r → r = KNOT_EOK)

/-- The paths through `process_normal`, each with the return value, the zone
and the batch it leaves and the events it records. -/
inductive NormalPath (E : Env κ χ ρ) (zone : zone_t κ) (reqs : List request_data) :
    Int → zone_t κ → List request_data → Trace κ → Prop where
  | init_failed (ret : Int) (h : ret ≠ KNOT_EOK) :
    NormalPath E zone reqs ret zone
      (reqs.map (set_rcode_if_noerror KNOT_RCODE_SERVFAIL))
      [Event.changeset_init ChId.ddns ret]
  | request_failed (ret : Int) (h : ret ≠ KNOT_EOK) (W : Trace κ)
      (reqs1 : List request_data) (hW : WalkFailed reqs ret reqs1 W) :
    NormalPath E zone reqs ret zone
      (reqs1.map (set_rcode_if_noerror KNOT_RCODE_SERVFAIL))
      (Event.changeset_init ChId.ddns KNOT_EOK :: W ++
        [Event.changeset_clear ChId.ddns])
  | no_change (W : Trace κ) (hW : WalkOk reqs W) :
    NormalPath E zone reqs KNOT_EOK zone reqs
      (Event.changeset_init ChId.ddns KNOT_EOK :: W ++
        [Event.changeset_clear ChId.ddns])
  | apply_failed (ret : Int) (h : ret ≠ KNOT_EOK) (W : Trace κ) (hW : WalkOk reqs W) :
    NormalPath E zone reqs ret zone
      (reqs.map (set_rcode_if_noerror
        (if ret = E.KNOT_ETTL then KNOT_RCODE_REFUSED else KNOT_RCODE_SERVFAIL)))
      (Event.changeset_init ChId.ddns KNOT_EOK :: W ++
        [Event.apply_changeset ret none, Event.changeset_clear ChId.ddns])
  | sec_init_failed (ret : Int) (h : ret ≠ KNOT_EOK) (W : Trace κ)
      (hW : WalkOk reqs W) (new_contents : κ)
      (hd : zone.conf.dnssec_enable = true) :
    NormalPath E zone reqs ret zone
      (reqs.map (set_rcode_if_noerror KNOT_RCODE_SERVFAIL))
      (Event.changeset_init ChId.ddns KNOT_EOK :: W ++
        [Event.apply_changeset KNOT_EOK (some new_contents),
         Event.changeset_init ChId.sec ret])
  | sign_failed (ret : Int) (h : ret ≠ KNOT_EOK) (W : Trace κ)
      (hW : WalkOk reqs W) (new_contents : κ)
      (hd : zone.conf.dnssec_enable = true) (S : Trace κ)
      (hS : ∀ e ∈ S, e.isSign = true) (hf : ∃ e ∈ S, e.retOf = some ret)
      (hu : ∀ e ∈ S, ∀ r, e.retOf = some r → r ≠ KNOT_EOK → r = ret) :
    NormalPath E zone reqs ret zone
      (reqs.map (set_rcode_if_noerror KNOT_RCODE_SERVFAIL))
      (Event.changeset_init ChId.ddns KNOT_EOK :: W ++
        [Event.apply_changeset KNOT_EOK (some new_contents),
         Event.changeset_init ChId.sec KNOT_EOK] ++ S ++
        [Event.update_rollback ChId.ddns, Event.update_free_zone new_contents,
         Event.changeset_clear ChId.ddns])
  | store_failed (ret : Int) (h : ret ≠ KNOT_EOK) (W : Trace κ)
      (hW : WalkOk reqs W) (new_contents : κ) (D : Trace κ)
      (hD : SecPassed zone D) :
    NormalPath E zone reqs ret zone
      (reqs.map (set_rcode_if_noerror KNOT_RCODE_SERVFAIL))
      (Event.changeset_init ChId.ddns KNOT_EOK :: W ++
        [Event.apply_changeset KNOT_EOK (some new_contents)] ++ D ++
        [Event.zone_change_store ret, Event.update_rollback ChId.ddns,
         Event.update_free_zone new_contents, Event.changeset_clear ChId.ddns] ++
        (if zone.conf.dnssec_enable then [Event.changeset_clear ChId.sec] else []))
  | committed (W : Trace κ) (hW : WalkOk reqs W) (new_contents : κ) (D : Trace κ)
      (hD : SecPassed zone D) :
    NormalPath E zone reqs KNOT_EOK { zone with contents := new_contents } reqs
      (Event.changeset_init ChId.ddns KNOT_EOK :: W ++
        [Event.apply_changeset KNOT_EOK (some new_contents)] ++ D ++
        [Event.zone_change_store KNOT_EOK,
         Event.zone_switch_contents new_contents zone.contents,
         Event.synchronize_rcu] ++
        (if zone.conf.dnssec_enable then
          [Event.update_cleanup ChId.sec, Event.changeset_clear ChId.sec]
         else []) ++
        [Event.update_free_zone zone.contents, Event.update_cleanup ChId.ddns,
         Event.changeset_clear ChId.ddns] ++
        (if zone.conf.dbsync_timeout = 0 then
          [Event.zone_events_schedule ZoneEvent.FLUSH ZONE_EVENT_NOW]
         else []))

/-- Calls made by the DNSSEC block of `process_normal`: the initialisation of
the signature changeset and the calls of `sign_update`. -/
def Event.isSecBlock : Event κ → Bool
  | Event.changeset_init ChId.sec _ => true
  | e => e.isSign

/-- The calls whose failure `process_normal` answers with SERVFAIL alone:
`changeset_init` (of either changeset), the steps of `sign_update` (the two
signers, `apply_changeset_directly`, `changeset_merge`) and
`zone_change_store`. -/
def Event.isInitSignStore : Event κ → Bool
  | Event.changeset_init _ _ => true
  | Event.knot_dnssec_zone_sign _ _ => true
  | Event.knot_dnssec_sign_changeset _ _ => true
  | Event.apply_changeset_directly _ => true
  | Event.changeset_merge _ => true
  | Event.zone_change_store _ => true
  | _ => false

/-- The two signers of `sign_update`. -/
def Event.isSigner : Event κ → Bool
  | Event.knot_dnssec_zone_sign _ _ => true
  | Event.knot_dnssec_sign_changeset _ _ => true
  | _ => false

/-- Calls made on behalf of `process_requests`: everything that builds,
applies, signs, stores, publishes or discards a change, and event
scheduling. -/
def Event.isUpdateCycle : Event κ → Bool
  | Event.changeset_init _ _ => true
  | Event.ddns_process_prereqs _ _ _ => true
  | Event.ddns_process_update _ _ _ => true
  | Event.apply_changeset _ _ => true
  | Event.knot_dnssec_zone_sign _ _ => true
  | Event.knot_dnssec_sign_changeset _ _ => true
  | Event.apply_changeset_directly _ => true
  | Event.changeset_merge _ => true
  | Event.update_cleanup _ => true
  | Event.update_rollback _ => true
  | Event.changeset_clear _ => true
  | Event.update_free_zone _ => true
  | Event.zone_change_store _ => true
  | Event.zone_switch_contents _ _ => true
  | Event.synchronize_rcu => true
  | Event.zone_events_get_time _ _ => true
  | Event.time _ => true
  | Event.zone_events_schedule _ _ => true
  | _ => false

/-- Calls made by `forward_request` apart from the allocation of the copy. -/
def Event.isForward : Event κ → Bool
  | Event.knot_pkt_copy _ _ => true
  | Event.requestor_make _ _ => true
  | Event.requestor_enqueue _ => true
  | Event.requestor_exec _ => true
  | Event.requestor_clear => true
  | Event.knot_pkt_free PktSlot.forwarded_query _ => true
  | _ => false

/-- The allocation of a packet. -/
def Event.isPktNew : Event κ → Bool
  | Event.knot_pkt_new _ => true
  | _ => false

/-- Calls made by `send_update_responses`: sending, closing and freeing. -/
def Event.isTransport : Event κ → Bool
  | Event.tcp_send_msg _ _ => true
  | Event.udp_send_msg _ _ _ => true
  | Event.close _ => true
  | Event.knot_pkt_free PktSlot.request_query _ => true
  | Event.knot_pkt_free PktSlot.request_resp _ => true
  | Event.free _ => true
  | _ => false

/-- The socket and the message of a send over TCP or UDP. -/
def Event.sent : Event κ → Option (Int × knot_pkt_t)
  | Event.tcp_send_msg fd msg => some (fd, msg)
  | Event.udp_send_msg fd msg _ => some (fd, msg)
  | _ => none

/-- The socket closed by a `close`. -/
def Event.closed : Event κ → Option Int
  | Event.close fd => some fd
  | _ => none

/-- The packet released from the query slot of a request. -/
def Event.freedQuery : Event κ → Option (Option knot_pkt_t)
  | Event.knot_pkt_free PktSlot.request_query pkt => some pkt
  | _ => none

/-- The packet released from the response slot of a request. -/
def Event.freedResp : Event κ → Option (Option knot_pkt_t)
  | Event.knot_pkt_free PktSlot.request_resp pkt => some pkt
  | _ => none

/-- The request released by `free`. -/
def Event.freedRequest : Event κ → Option request_data
  | Event.free r => some r
  | _ => none

/-- The client query a `forward_request` call starts from (the source of its
`knot_pkt_copy`, which every call performs exactly once). -/
def Event.copySrc : Event κ → Option knot_pkt_t
  | Event.knot_pkt_copy src _ => some src
  | _ => none

/-- The release of a snapshot of the zone contents (`update_free_zone`). -/
def Event.isFreeZone : Event κ → Bool
  | Event.update_free_zone _ => true
  | _ => false

/-- The switch of the published contents (`zone_switch_contents`). -/
def Event.isSwitch : Event κ → Bool
  | Event.zone_switch_contents _ _ => true
  | _ => false

/-- The snapshot published once the calls of a trace have been made, when `c`
was published before: each `zone_switch_contents` publishes its first
argument. -/
def publishedAfter (c : κ) : Trace κ → κ
  | [] => c
  | Event.zone_switch_contents n _ :: rest => publishedAfter n rest
  | _ :: rest => publishedAfter c rest

/-- The request loop of `process_normal` as it is entered on the batch `reqs`
(lines 160-173): over the update session of the published contents and the
DDNS changeset that `changeset_init` has set up, after that call. -/
def cycle_walk (E : Env κ χ ρ) (zone : zone_t κ) (reqs : List request_data)
    (tr : Trace κ) : Option (WalkResult κ χ) :=
  process_normal_walk E zone reqs ⟨zone.contents, (E.changeset_init tr ChId.ddns).change⟩
    (tr ++ [Event.changeset_init ChId.ddns (E.changeset_init tr ChId.ddns).ret])

/-- The environment makes the processing of request `r` fail when the request
loop has reached the session `u` and the trace `tr`: `ddns_process_prereqs`
does not return `KNOT_EOK`, or it does and `ddns_process_update`, called next,
does not.  `ret` is the value the failing call returns and `rcode` the RCODE it
reports through its out-parameter. -/
def StepFails (E : Env κ χ ρ) (zone : zone_t κ) (r : request_data)
    (u : zone_update_t κ χ) (tr : Trace κ) (ret : Int) (rcode : Nat) : Prop :=
  ((E.ddns_process_prereqs tr r.query u).ret ≠ KNOT_EOK ∧
    ret = (E.ddns_process_prereqs tr r.query u).ret ∧
    rcode = (E.ddns_process_prereqs tr r.query u).rcode) ∨
  ((E.ddns_process_prereqs tr r.query u).ret = KNOT_EOK ∧
    (E.ddns_process_update
      (tr ++ [Event.ddns_process_prereqs r.query KNOT_EOK
        (E.ddns_process_prereqs tr r.query u).rcode]) zone r.query
      { u with change := (E.ddns_process_prereqs tr r.query u).change }).ret ≠ KNOT_EOK ∧
    ret = (E.ddns_process_update
      (tr ++ [Event.ddns_process_prereqs r.query KNOT_EOK
        (E.ddns_process_prereqs tr r.query u).rcode]) zone r.query
      { u with change := (E.ddns_process_prereqs tr r.query u).change }).ret ∧
    rcode = (E.ddns_process_update
      (tr ++ [Event.ddns_process_prereqs r.query KNOT_EOK
        (E.ddns_process_prereqs tr r.query u).rcode]) zone r.query
      { u with change := (E.ddns_process_prereqs tr r.query u).change }).rcode)

instance StepFails_decidable (E : Env κ χ ρ) (zone : zone_t κ) (r : request_data)
    (u : zone_update_t κ χ) (tr : Trace κ) (ret : Int) (rcode : Nat) :
    Decidable (StepFails E zone r u tr ret rcode) := by
  unfold StepFails
  exact inferInstance

/-- The calls of `process_normal` outside the request loop whose failure ends
the cycle: the initialisation of the DDNS changeset, `apply_changeset`, the
initialisation of the signature changeset, `sign_update` and
`zone_change_store`. -/
inductive CycleStage where
  | ddns_init
  | apply
  | sec_init
  | sign
  | store
deriving DecidableEq, Repr

/-- The environment lets the cycle pass the request loop with a change to
apply: the DDNS changeset is initialised, the loop over the batch returns
`KNOT_EOK` leaving the state `w`, and the changeset built is not empty. -/
def LoopPassed (E : Env κ χ ρ) (zone : zone_t κ) (reqs : List request_data)
    (tr : Trace κ) (w : WalkResult κ χ) : Prop :=
  (E.changeset_init tr ChId.ddns).ret = KNOT_EOK ∧ cycle_walk E zone reqs tr = some w ∧
    w.ret = KNOT_EOK ∧ E.changeset_empty w.update.change = false

/-- What the environment answers to the call of `apply_changeset` (line 178)
made after the request loop has left the state `w`. -/
def cycle_apply (E : Env κ χ ρ) (zone : zone_t κ) (w : WalkResult κ χ) : ApplyResult κ :=
  E.apply_changeset w.trace zone w.update.change

/-- The trace once `apply_changeset` has succeeded. -/
def cycle_applied_trace (E : Env κ χ ρ) (zone : zone_t κ) (w : WalkResult κ χ) : Trace κ :=
  w.trace ++ [Event.apply_changeset KNOT_EOK (some (cycle_apply E zone w).new_contents)]

/-- What the environment answers to the initialisation of the signature
changeset (line 196), made once `apply_changeset` has succeeded. -/
def cycle_sec_init (E : Env κ χ ρ) (zone : zone_t κ) (w : WalkResult κ χ) :
    InitChangeset χ :=
  E.changeset_init (cycle_applied_trace E zone w) ChId.sec

/-- The run of `sign_update` (line 201) made once the signature changeset is
initialised. -/
def cycle_sign (E : Env κ χ ρ) (zone : zone_t κ) (w : WalkResult κ χ) : SignUpdate κ χ :=
  sign_update E zone zone.contents (cycle_apply E zone w).new_contents w.update.change
    (cycle_sec_init E zone w).change
    (cycle_applied_trace E zone w ++ [Event.changeset_init ChId.sec KNOT_EOK])

/-- What the environment answers to `zone_change_store` (line 213), called
after `sign_update` has succeeded on a zone with DNSSEC and right after
`apply_changeset` on a zone without. -/
def cycle_store (E : Env κ χ ρ) (zone : zone_t κ) (w : WalkResult κ χ) : Int :=
  if zone.conf.dnssec_enable then
    E.zone_change_store (cycle_sign E zone w).trace zone (cycle_sign E zone w).ddns_ch
  else E.zone_change_store (cycle_applied_trace E zone w) zone w.update.change

/-- The environment makes the cycle of `process_normal` on the batch `reqs`
fail at the given call with the return value `ret`: every call of the cycle
before it succeeds (the request loop included, which leaves a non-empty
changeset) and this call does not return `KNOT_EOK`. -/
inductive CycleFails (E : Env κ χ ρ) (zone : zone_t κ) (reqs : List request_data)
    (tr : Trace κ) : CycleStage → Int → Prop where
  | ddns_init (h : (E.changeset_init tr ChId.ddns).ret ≠ KNOT_EOK) :
    CycleFails E zone reqs tr CycleStage.ddns_init (E.changeset_init tr ChId.ddns).ret
  | apply (w : WalkResult κ χ) (hw : LoopPassed E zone reqs tr w)
      (h : (cycle_apply E zone w).ret ≠ KNOT_EOK) :
    CycleFails E zone reqs tr CycleStage.apply (cycle_apply E zone w).ret
  | sec_init (w : WalkResult κ χ) (hw : LoopPassed E zone reqs tr w)
      (ha : (cycle_apply E zone w).ret = KNOT_EOK)
      (hd : zone.conf.dnssec_enable = true)
      (h : (cycle_sec_init E zone w).ret ≠ KNOT_EOK) :
    CycleFails E zone reqs tr CycleStage.sec_init (cycle_sec_init E zone w).ret
  | sign (w : WalkResult κ χ) (hw : LoopPassed E zone reqs tr w)
      (ha : (cycle_apply E zone w).ret = KNOT_EOK)
      (hd : zone.conf.dnssec_enable = true)
      (hj : (cycle_sec_init E zone w).ret = KNOT_EOK)
      (h : (cycle_sign E zone w).ret ≠ KNOT_EOK) :
    CycleFails E zone reqs tr CycleStage.sign (cycle_sign E zone w).ret
  | store (w : WalkResult κ χ) (hw : LoopPassed E zone reqs tr w)
      (ha : (cycle_apply E zone w).ret = KNOT_EOK)
      (hs : zone.conf.dnssec_enable = true →
        (cycle_sec_init E zone w).ret = KNOT_EOK ∧ (cycle_sign E zone w).ret = KNOT_EOK)
      (h : cycle_store E zone w ≠ KNOT_EOK) :
    CycleFails E zone reqs tr CycleStage.store (cycle_store E zone w)

/-- What the environment answers to the copy of the client's query made by
`forward_request` (lines 296-297), called on a trace `tr`. -/
def forward_copy (E : Env κ χ ρ) (request : request_data) (tr : Trace κ) : CopyResult :=
  E.knot_pkt_copy (tr ++ [Event.knot_pkt_new (E.knot_pkt_new tr request.query.max_size).isSome])
    (E.knot_pkt_new tr request.query.max_size) request.query

/-- The trace of `forward_request` once the copy has succeeded. -/
def forward_copied_trace (E : Env κ χ ρ) (request : request_data) (tr : Trace κ) :
    Trace κ :=
  tr ++ [Event.knot_pkt_new (E.knot_pkt_new tr request.query.max_size).isSome] ++
    [Event.knot_pkt_copy request.query KNOT_EOK]

/-- The value `knot_random_uint16_t()` returns when `forward_request` draws
the new message ID (line 302), as a `uint16_t`. -/
def forward_random_id (E : Env κ χ ρ) (request : request_data) (tr : Trace κ) : Nat :=
  E.knot_random_uint16_t (forward_copied_trace E request tr) % 65536

/-- The query `forward_request` builds for the primary (lines 302-303): the
copy the environment made, with the drawn ID written into it and the TSIG
appended. -/
def forward_query (E : Env κ χ ρ) (request : request_data) (tr : Trace κ) : knot_pkt_t :=
  E.knot_tsig_append
    (knot_wire_set_id (forward_copy E request tr).pkt (forward_random_id E request tr))

/-- The exchange with the primary as the environment answers it (lines
313-319): the request made for the forwarded query is enqueued with the
response `resp` of the client's request as capture sink and, if that
succeeded, executed; the result is the last return value and the sink
afterwards. -/
def forward_exchange (E : Env κ χ ρ) (request : request_data) (tr : Trace κ)
    (resp : knot_pkt_t) : ExecResult :=
  if E.requestor_enqueue
      (forward_copied_trace E request tr ++
        [Event.requestor_make (forward_query E request tr) true])
      (forward_query E request tr) resp = KNOT_EOK then
    E.requestor_exec
      (forward_copied_trace E request tr ++
        [Event.requestor_make (forward_query E request tr) true] ++
        [Event.requestor_enqueue KNOT_EOK])
      (forward_query E request tr) resp
  else
    ⟨E.requestor_enqueue
      (forward_copied_trace E request tr ++
        [Event.requestor_make (forward_query E request tr) true])
      (forward_query E request tr) resp, resp⟩

end Vocabulary

/-! ## Concrete environments and inputs -/

section Concrete

/-- A query with the given message ID. -/
def demoQuery (id : Nat) : knot_pkt_t := ⟨id, KNOT_RCODE_NOERROR, [], none, 512⟩

/-- A queued request on socket `fd` carrying `demoQuery fd`, without a
response yet. -/
def demoQueued (fd : Nat) : request_data := ⟨fd, 0, demoQuery fd, none⟩

/-- A request on socket `fd` whose response is initialised at NOERROR. -/
def demoReady (fd : Nat) : request_data :=
  ⟨fd, 0, demoQuery fd, some ⟨fd, KNOT_RCODE_NOERROR, [], none, KNOT_WIRE_MAX_PKTSIZE⟩⟩

/-- A zone without a primary and without DNSSEC, publishing snapshot 100. -/
def demoZone : zone_t Nat := ⟨[], 100, ⟨false, 1⟩, none, []⟩

/-- An environment in which every external call succeeds, except that the
prerequisites of the query with ID 13 are not met (return value -22, RCODE 8).
Changesets are lists of query IDs, the snapshot built from `c` is `c + 1` and
the serial of a snapshot is its number. -/
def demoEnv : Env Nat (List Nat) Nat where
  KNOT_ENOMEM := -12
  KNOT_ETTL := -995
  enomem_ne := by decide
  changeset_init := fun _ _ => ⟨KNOT_EOK, []⟩
  ddns_process_prereqs := fun _ q u =>
    if q.id = 13 then ⟨-22, 8, u.change⟩ else ⟨KNOT_EOK, KNOT_RCODE_NOERROR, u.change⟩
  ddns_process_update := fun _ _ q u => ⟨KNOT_EOK, KNOT_RCODE_NOERROR, q.id :: u.change⟩
  changeset_empty := fun ch => ch.isEmpty
  apply_changeset := fun _ zone _ => ⟨KNOT_EOK, zone.contents + 1⟩
  node_rrset := fun _ _ => 0
  knot_rrset_equal := fun a b _ => a == b
  knot_dnssec_zone_sign := fun _ _ _ sec => ⟨KNOT_EOK, sec, 3600⟩
  knot_dnssec_sign_changeset := fun _ _ _ _ sec => ⟨KNOT_EOK, sec, 3600⟩
  apply_changeset_directly := fun _ _ _ => KNOT_EOK
  changeset_merge := fun _ a b => ⟨KNOT_EOK, a ++ b⟩
  zone_events_get_time := fun _ _ => 0
  time := fun _ => 0
  zone_change_store := fun _ _ _ => KNOT_EOK
  zone_contents_serial := fun c => c
  knot_pkt_new := fun _ size => some ⟨0, KNOT_RCODE_NOERROR, [], none, size⟩
  knot_pkt_init_response := fun resp q => { resp with id := q.id }
  knot_pkt_copy := fun _ _ src => ⟨KNOT_EOK, src⟩
  knot_random_uint16_t := fun _ => 7
  knot_tsig_append := fun p => p
  requestor_make := fun _ _ _ => true
  requestor_enqueue := fun _ _ _ => KNOT_EOK
  requestor_exec := fun _ _ sink => ⟨KNOT_EOK, sink⟩
  net_is_connected := fun _ _ => false

/-- The environment `demoEnv` with a journal that refuses the store. -/
def storeFailEnv : Env Nat (List Nat) Nat :=
  { demoEnv with zone_change_store := fun _ _ _ => -5 }

/-- The environment `demoEnv` in which the signature changeset cannot be
initialised (the DDNS changeset can). -/
def secInitFailEnv : Env Nat (List Nat) Nat :=
  { demoEnv with
    changeset_init := fun _ ch =>
      match ch with
      | ChId.ddns => ⟨KNOT_EOK, []⟩
      | ChId.sec => ⟨-12, []⟩ }

/-- The environment `demoEnv` in which signing the changeset fails. -/
def signFailEnv : Env Nat (List Nat) Nat :=
  { demoEnv with knot_dnssec_sign_changeset := fun _ _ _ _ sec => ⟨-5, sec, 0⟩ }

/-- The environment `demoEnv` in which every snapshot has the same serial (as
with a serial taken from a clock that has not advanced). -/
def sameSerialEnv : Env Nat (List Nat) Nat :=
  { demoEnv with zone_contents_serial := fun _ => 1 }

/-- The environment `demoEnv` without memory for packets. -/
def noPacketEnv : Env Nat (List Nat) Nat :=
  { demoEnv with knot_pkt_new := fun _ _ => none }

/-- The environment `demoEnv` in which the requestor cannot create a
request. -/
def makeFailEnv : Env Nat (List Nat) Nat :=
  { demoEnv with requestor_make := fun _ _ _ => false }

/-- A zone with DNSSEC enabled. -/
def demoSignedZone : zone_t Nat := ⟨[], 100, ⟨true, 1⟩, none, []⟩

/-- A secondary zone (primary 1) with two queued requests. -/
def demoSecondary : zone_t Nat := ⟨[], 100, ⟨false, 1⟩, some 1, [demoQueued 3, demoQueued 4]⟩

/-- A zone without a primary with one queued request. -/
def demoQueuedZone : zone_t Nat := ⟨[], 100, ⟨false, 1⟩, none, [demoQueued 3]⟩

/-- The environment `demoEnv` with memory for one packet only: the first
allocation succeeds, every later one fails. -/
def onePacketEnv : Env Nat (List Nat) Nat :=
  { demoEnv with
    knot_pkt_new := fun tr size =>
      if tr.isEmpty then some ⟨0, KNOT_RCODE_NOERROR, [], none, size⟩ else none }

/-- A zone without a primary with two queued requests. -/
def demoQueuedZone2 : zone_t Nat := ⟨[], 100, ⟨false, 1⟩, none, [demoQueued 3, demoQueued 4]⟩

/-- The environment `demoEnv` in which `apply_changeset` refuses the change
with `KNOT_ETTL`. -/
def ettlEnv : Env Nat (List Nat) Nat :=
  { demoEnv with apply_changeset := fun _ zone _ => ⟨-995, zone.contents⟩ }

/-- The environment `demoEnv` in which `apply_changeset` fails for want of
memory. -/
def applyFailEnv : Env Nat (List Nat) Nat :=
  { demoEnv with apply_changeset := fun _ zone _ => ⟨-12, zone.contents⟩ }

/-- The environment `demoEnv` with a primary that answers: the exchange leaves
in the capture sink a message that carries the ID of the forwarded query and
the wire [1]. -/
def relayEnv : Env Nat (List Nat) Nat :=
  { demoEnv with
    requestor_exec := fun _ q sink => ⟨KNOT_EOK, { sink with id := q.id, wire := [1] }⟩ }

/-- The environment `demoEnv` with a primary that cannot be reached: the
exchange fails with -111 and leaves in the capture sink the ID of the
forwarded query. -/
def execFailEnv : Env Nat (List Nat) Nat :=
  { demoEnv with
    requestor_exec := fun _ q sink => ⟨-111, { sink with id := q.id }⟩ }

end Concrete

/-! ## Changesets -/

section Changeset

/-- Modelled from the spec: the error kind `OutOfMemory` of the changeset
operations, as the Knot error code `KNOT_ENOMEM` (the negated `ENOMEM` of the
platform; `libknot/errcode.h` is not under src/). -/
@[reducible] def KNOT_ENOMEM : Int := -12

/-- Modelled from the spec: RR type number of TXT (IANA value;
`libknot/descriptor.h` is not under src/). -/
@[reducible] def KNOT_RRTYPE_TXT : Nat := 16

/-- Modelled from the spec: RR type number of SPF (IANA value;
`libknot/descriptor.h` is not under src/). -/
@[reducible] def KNOT_RRTYPE_SPF : Nat := 99

/-- Modelled from the spec: the class IN (IANA value; `libknot/consts.h` is
not under src/). -/
@[reducible] def KNOT_CLASS_IN : Nat := 1

/-- Modelled from the spec: an owner name, as its labels from left to right,
each label a list of bytes (`libknot/dname.h` is not under src/). -/
abbrev knot_dname_t := List (List Nat)

/-- Modelled from the spec: the pieces of a dotted owner name between the
dots, as bytes (the last piece is empty when the name ends in a dot). -/
def dname_pieces : List Char → List (List Nat)
  | [] => [[]]
  | c :: rest =>
    if c.toNat = 46 then [] :: dname_pieces rest
    else
      match dname_pieces rest with
      | [] => [[c.toNat]]
      | l :: ls => (c.toNat :: l) :: ls

/-- Modelled from the spec: the owner name written as a dotted string, with or
without the final dot (`knot_dname_from_str`; `libknot/dname.c` is not under
src/). -/
def knot_dname_from_str (s : String) : knot_dname_t :=
  (dname_pieces s.toList).filter (fun l => !l.isEmpty)

/-- Modelled from the spec: the lower-case form of a byte (ASCII letters
only), for the case-insensitive comparison of names. -/
def dname_lower (b : Nat) : Nat := if 65 ≤ b ∧ b ≤ 90 then b + 32 else b

/-- Modelled from the spec: the sort key of canonical DNS name order
("rightmost-label-first lexicographic comparison, case-insensitive"): the
labels from right to left, in lower case.  Names are compared by comparing
their keys lexicographically, label by label and byte by byte. -/
def dname_canonical (d : knot_dname_t) : List (List Nat) :=
  (d.map (fun l => l.map dname_lower)).reverse

/-- Modelled from the spec: "RRSet: owner name, type, class, TTL, ordered set
of rdata records" (`knot_rrset_t`; `libknot/rrset.h` is not under src/). -/
structure knot_rrset_t where
  owner : knot_dname_t
  type : Nat
  rclass : Nat
  ttl : Nat
  rrs : List (List Nat)
deriving DecidableEq, Repr

/-- Modelled from the spec: the "empty" sentinel value that ends an
iteration (`knot_rrset_init_empty`): an RRSet without owner and without
records. -/
def knot_rrset_init_empty : knot_rrset_t := ⟨[], 0, 0, 0, []⟩

/-- Modelled from the spec: the test that tells the sentinel from a real
RRSet (`knot_rrset_empty`): an RRSet is empty when it holds no record; a real
RRSet holds "one or more data records". -/
def knot_rrset_empty (rrset : knot_rrset_t) : Bool := rrset.rrs.isEmpty

/-- Modelled from the spec: whether two RRSets are entries for the same owner
and type (owner names compared case-insensitively), the unit in which a diff
section coalesces ("identical-type merges must be coalesced into one
RRSet"). -/
def rrset_same_entry (a b : knot_rrset_t) : Bool :=
  decide (dname_canonical a.owner = dname_canonical b.owner) && decide (a.type = b.type)

/-- Modelled from the spec: the union of two rdata sets, keeping the order of
the first and appending the records of the second that are new. -/
def rdata_union (a b : List (List Nat)) : List (List Nat) :=
  a ++ b.filter (fun d => !a.contains d)

/-- Modelled from the spec: insertion of an RRSet into a diff section.  A
section is the list of its (owner, RRSet) entries in insertion order, one per
owner and type.  An RRSet for an owner and type already present is coalesced
into that entry "with a unioned rdata set", so inserting the identical tuple
again "has no effect"; otherwise the RRSet becomes a new entry at the end. -/
def section_add : List knot_rrset_t → knot_rrset_t → List knot_rrset_t
  | [], rrset => [rrset]
  | e :: rest, rrset =>
    if rrset_same_entry e rrset then
      { e with rrs := rdata_union e.rrs rrset.rrs } :: rest
    else e :: section_add rest rrset

/-- Modelled from the spec: whether the record (owner, type, rdata) is
present in a diff section. -/
def section_has (sec : List knot_rrset_t) (owner : knot_dname_t) (type : Nat)
    (rdata : List Nat) : Bool :=
  sec.any (fun e =>
    decide (dname_canonical e.owner = dname_canonical owner) && decide (e.type = type) &&
      e.rrs.contains rdata)

/-- Modelled from the spec: a diff section with the records present in another
section cancelled out of it.  An RRSet left without records is dropped, and a
name left without RRSets is thereby not an entry any more (a non-terminal,
never surfaced). -/
def section_cancel (sec other : List knot_rrset_t) : List knot_rrset_t :=
  (sec.map (fun e =>
    { e with rrs := e.rrs.filter (fun d => !section_has other e.owner e.type d) })).filter
    (fun e => !knot_rrset_empty e)

/-- Modelled from the spec: "Changeset: { zone_name, serial_from, serial_to,
add: DiffSection, remove: DiffSection }" (`changeset_t`;
`knot/updates/changesets.h` is not under src/).  A serial is `none` until it
is defined. -/
structure changeset_t where
  zone_name : knot_dname_t
  serial_from : Option Nat
  serial_to : Option Nat
  add : List knot_rrset_t
  remove : List knot_rrset_t
deriving DecidableEq, Repr

/-- Modelled from the spec: what a changeset operation leaves behind, its
return value and the changeset it works on. -/
structure ChangesetResult where
  ret : Int
  ch : changeset_t
deriving DecidableEq, Repr

/-- Modelled from the spec: creation of an empty changeset for a zone
(`changeset_new`); `NULL` when the allocation fails (`alloc` is whether the
allocator succeeds). -/
def changeset_new (alloc : Bool) (apex : knot_dname_t) : Option changeset_t :=
  if alloc then some ⟨apex, none, none, [], []⟩ else none

/-- Modelled from the spec: "size() = total number of (owner, RRSet) entries
across both sections" (`changeset_size`); 0 for the `NULL` changeset, as in
`tests/changeset.c`. -/
def changeset_size (ch : Option changeset_t) : Nat :=
  match ch with
  | none => 0
  | some c => c.add.length + c.remove.length

/-- Modelled from the spec: "A changeset is empty iff both sections are
empty" (`changeset_empty`); the `NULL` changeset is empty, as in
`tests/changeset.c`. -/
def changeset_empty (ch : Option changeset_t) : Bool :=
  match ch with
  | none => true
  | some c => c.add.isEmpty && c.remove.isEmpty

/-- Modelled from the spec: "add(owner, rrset): insert into the respective
diff section; fails with OutOfMemory on allocation failure"
(`changeset_add_rrset`); a failed call leaves the changeset as it was. -/
def changeset_add_rrset (alloc : Bool) (ch : changeset_t) (rrset : knot_rrset_t) :
    ChangesetResult :=
  if alloc then ⟨KNOT_EOK, { ch with add := section_add ch.add rrset }⟩
  else ⟨KNOT_ENOMEM, ch⟩

/-- Modelled from the spec: "remove(owner, rrset): insert into the respective
diff section; fails with OutOfMemory on allocation failure"
(`changeset_rem_rrset`); a failed call leaves the changeset as it was. -/
def changeset_rem_rrset (alloc : Bool) (ch : changeset_t) (rrset : knot_rrset_t) :
    ChangesetResult :=
  if alloc then ⟨KNOT_EOK, { ch with remove := section_add ch.remove rrset }⟩
  else ⟨KNOT_ENOMEM, ch⟩

/-- Modelled from the spec: "clear(): releases all owned RRSet memory"
(`changeset_clear`): both sections are left empty. -/
def changeset_clear (ch : changeset_t) : changeset_t :=
  { ch with add := [], remove := [] }

/-- Modelled from the spec: the merge of two changesets applied in sequence
(`changeset_merge`).  A record added by `second` that is present in
`first.remove` is cancelled out of `first.remove`, a record removed by `second`
that is present in `first.add` is cancelled out of `first.add`, and every other
record of `second` is appended to the corresponding section of `first`;
`first.serial_to` becomes `second.serial_to`.  Presence is judged on `first` as
passed in.  On allocation failure the unspecified state of `first` is taken to
be `first` itself. -/
def changeset_merge (alloc : Bool) (first second : changeset_t) : ChangesetResult :=
  if alloc then
    ⟨KNOT_EOK, { first with
      serial_to := second.serial_to
      add := (section_cancel second.add first.remove).foldl section_add
        (section_cancel first.add second.remove)
      remove := (section_cancel second.remove first.add).foldl section_add
        (section_cancel first.remove second.add) }⟩
  else ⟨KNOT_ENOMEM, first⟩

/-- Modelled from the spec: the canonical DNS name order on the owners of two
RRSets. -/
def rrset_owner_le (a b : knot_rrset_t) : Prop :=
  dname_canonical a.owner ≤ dname_canonical b.owner

instance rrset_owner_le_decidable : DecidableRel rrset_owner_le :=
  fun a b => inferInstanceAs (Decidable (dname_canonical a.owner ≤ dname_canonical b.owner))

instance rrset_owner_le_total : IsTotal knot_rrset_t rrset_owner_le :=
  ⟨fun a b => le_total (dname_canonical a.owner) (dname_canonical b.owner)⟩

instance rrset_owner_le_trans : IsTrans knot_rrset_t rrset_owner_le :=
  ⟨fun _ _ _ h1 h2 => le_trans h1 h2⟩

/-- Modelled from the spec: a Changeset Iterator, as the finite sequence of
RRSets it has still to produce (`changeset_iter_t`). -/
structure changeset_iter_t where
  remaining : List knot_rrset_t
deriving DecidableEq, Repr

/-- Modelled from the spec: the traversal order of an iterator.  A sorted
iterator visits the owners in canonical DNS name order and, within an owner,
the RRSets in insertion order (a stable sort of the entries by owner); the
spec leaves the order of an unsorted one open, and it is taken to be the
insertion order. -/
def changeset_iter_order (sorted : Bool) (entries : List knot_rrset_t) :
    List knot_rrset_t :=
  if sorted then entries.insertionSort rrset_owner_le else entries

/-- Modelled from the spec: `iterate(ADD)` (`changeset_iter_add`). -/
def changeset_iter_add (ch : changeset_t) (sorted : Bool) : changeset_iter_t :=
  ⟨changeset_iter_order sorted ch.add⟩

/-- Modelled from the spec: `iterate(REMOVE)` (`changeset_iter_rem`). -/
def changeset_iter_rem (ch : changeset_t) (sorted : Bool) : changeset_iter_t :=
  ⟨changeset_iter_order sorted ch.remove⟩

/-- Modelled from the spec: `iterate(ALL)` (`changeset_iter_all`): "all
add-side RRSets for an owner precede all remove-side RRSets for the same
owner, before moving to the next owner". -/
def changeset_iter_all (ch : changeset_t) (sorted : Bool) : changeset_iter_t :=
  ⟨changeset_iter_order sorted (ch.add ++ ch.remove)⟩

/-- Modelled from the spec: the next RRSet of an iteration
(`changeset_iter_next`), and the iterator after the call; once the sequence is
exhausted the empty sentinel is returned. -/
def changeset_iter_next (it : changeset_iter_t) : knot_rrset_t × changeset_iter_t :=
  match it.remaining with
  | [] => (knot_rrset_init_empty, it)
  | r :: rest => (r, ⟨rest⟩)

/-- The loop of a caller that follows the iterator contract, as in
`tests/changeset.c` (lines 102-107): `changeset_iter_next` is called until it
returns an empty RRSet, and the RRSets returned before that are collected.
The fuel bounds the number of calls; `none` means it ran out. -/
def changeset_iter_collect : Nat → changeset_iter_t → Option (List knot_rrset_t)
  | 0, _ => none
  | fuel + 1, it =>
    let n := changeset_iter_next it
    if knot_rrset_empty n.1 then some []
    else (changeset_iter_collect fuel n.2).map (fun l => n.1 :: l)

/-- Modelled from the spec: the changesets that can be reached with the
operations of section 4.1 and 4.3, a new one, and one obtained from reachable
ones by adding or removing a real RRSet (one with at least one record), by a
merge or by a clear, whether or not the allocations succeed. -/
inductive changeset_reachable : changeset_t → Prop where
  | new (apex : knot_dname_t) : changeset_reachable ⟨apex, none, none, [], []⟩
  | add (alloc : Bool) (ch : changeset_t) (rrset : knot_rrset_t)
      (h : changeset_reachable ch) (hr : knot_rrset_empty rrset = false) :
    changeset_reachable (changeset_add_rrset alloc ch rrset).ch
  | rem (alloc : Bool) (ch : changeset_t) (rrset : knot_rrset_t)
      (h : changeset_reachable ch) (hr : knot_rrset_empty rrset = false) :
    changeset_reachable (changeset_rem_rrset alloc ch rrset).ch
  | merge (alloc : Bool) (first second : changeset_t)
      (h1 : changeset_reachable first) (h2 : changeset_reachable second) :
    changeset_reachable (changeset_merge alloc first second).ch
  | clear (ch : changeset_t) (h : changeset_reachable ch) :
    changeset_reachable (changeset_clear ch)

/-! ### The data of `tests/changeset.c` -/

/-- The record data of the test (`"\7teststr"`, 8 bytes). -/
def test_data : List Nat := [7, 116, 101, 115, 116, 115, 116, 114]

/-- The RRSet `apex_txt_rr` of the test: `non.terminals.test.` TXT. -/
def apex_txt_rr : knot_rrset_t :=
  ⟨knot_dname_from_str "non.terminals.test.", KNOT_RRTYPE_TXT, KNOT_CLASS_IN, 3600, [test_data]⟩

/-- The RRSet `apex_spf_rr` of the test: `non.terminals.test.` SPF. -/
def apex_spf_rr : knot_rrset_t :=
  ⟨knot_dname_from_str "non.terminals.test.", KNOT_RRTYPE_SPF, KNOT_CLASS_IN, 3600, [test_data]⟩

/-- The RRSet `other_rr` of the test: `here.come.more.non.terminals.test` TXT. -/
def other_rr : knot_rrset_t :=
  ⟨knot_dname_from_str "here.come.more.non.terminals.test", KNOT_RRTYPE_TXT, KNOT_CLASS_IN,
    3600, [test_data]⟩

/-- The changeset `ch` of the test when it is created (line 35). -/
def test_ch0 : changeset_t := ⟨knot_dname_from_str "test.", none, none, [], []⟩

/-- The changeset `ch` of the test after `apex_txt_rr` is added (line 48). -/
def test_ch1 : changeset_t := (changeset_add_rrset true test_ch0 apex_txt_rr).ch

/-- The changeset `ch` of the test after `apex_txt_rr` is also put into the
remove section (line 51). -/
def test_ch2 : changeset_t := (changeset_rem_rrset true test_ch1 apex_txt_rr).ch

/-- The changeset `ch` of the test after the additions of `apex_spf_rr` and
`other_rr` (lines 60 and 70), the one the iterators of the test run over. -/
def test_ch : changeset_t :=
  (changeset_add_rrset true (changeset_add_rrset true test_ch2 apex_spf_rr).ch other_rr).ch

/-- The record `"x"` of the merge examples. -/
def data_x : List Nat := [1, 120]

/-- The record `"y"` of the merge examples. -/
def data_y : List Nat := [1, 121]

/-- The owner `a.example.` of the merge examples. -/
def merge_owner : knot_dname_t := knot_dname_from_str "a.example."

/-- A changeset that adds `a.example.` TXT `"x"`. -/
def merge_first : changeset_t :=
  (changeset_add_rrset true ⟨knot_dname_from_str "example.", none, none, [], []⟩
    ⟨merge_owner, KNOT_RRTYPE_TXT, KNOT_CLASS_IN, 3600, [data_x]⟩).ch

/-- A changeset that removes `a.example.` TXT `"x"`. -/
def merge_second_exact : changeset_t :=
  (changeset_rem_rrset true ⟨knot_dname_from_str "example.", none, none, [], []⟩
    ⟨merge_owner, KNOT_RRTYPE_TXT, KNOT_CLASS_IN, 3600, [data_x]⟩).ch

/-- A changeset that removes `a.example.` TXT `"x"` and `"y"`. -/
def merge_second_surplus : changeset_t :=
  (changeset_rem_rrset true ⟨knot_dname_from_str "example.", none, none, [], []⟩
    ⟨merge_owner, KNOT_RRTYPE_TXT, KNOT_CLASS_IN, 3600, [data_x, data_y]⟩).ch

/-- Modelled from the spec: a diff section holds one entry per owner and type
(RRSets of the same owner and type are coalesced), so no two of its entries
are for the same owner and type. -/
def section_distinct (sec : List knot_rrset_t) : Prop :=
  sec.Pairwise (fun a b => rrset_same_entry a b = false)

/-- Modelled from the spec: a changeset "meant to be applied" to a zone, the
zone taken as the set of its (owner, type, rdata) records: it removes only
records the zone holds and adds only records the zone does not hold. -/
def changeset_applies (ch : changeset_t) (zone : knot_dname_t → Nat → List Nat → Prop) :
    Prop :=
  ∀ owner type rdata,
    (section_has ch.remove owner type rdata = true → zone owner type rdata) ∧
    (section_has ch.add owner type rdata = true → ¬ zone owner type rdata)

/-- Modelled from the spec: the zone after a changeset is applied to it: the
records of the zone that the changeset does not remove, and the records it
adds. -/
def changeset_apply (ch : changeset_t) (zone : knot_dname_t → Nat → List Nat → Prop) :
    knot_dname_t → Nat → List Nat → Prop :=
  fun owner type rdata =>
    (zone owner type rdata ∧ section_has ch.remove owner type rdata = false) ∨
    section_has ch.add owner type rdata = true

/-- Modelled from the spec: three changesets "meant to be applied in sequence"
against the same base: there is a zone to which the first applies, the second
applies to the result, and the third to the result of that. -/
def changesets_sequential (a b c : changeset_t) : Prop :=
  ∃ zone : knot_dname_t → Nat → List Nat → Prop,
    changeset_applies a zone ∧ changeset_applies b (changeset_apply a zone) ∧
    changeset_applies c (changeset_apply b (changeset_apply a zone))

/-- The changeset `ch2` of the test (lines 111-131): `something.test.` TXT in
the add section and `and.now.for.something.completely.different.test.` TXT in
the remove section. -/
def test_ch2_merge : changeset_t :=
  (changeset_rem_rrset true
    (changeset_add_rrset true ⟨knot_dname_from_str "test.", none, none, [], []⟩
      { apex_txt_rr with owner := knot_dname_from_str "something.test." }).ch
    { apex_txt_rr with
      owner := knot_dname_from_str "and.now.for.something.completely.different.test." }).ch

/-- The RRSet `a.example.` TXT "x" of the scenario. -/
def scenario_txt : knot_rrset_t := ⟨merge_owner, KNOT_RRTYPE_TXT, KNOT_CLASS_IN, 3600, [data_x]⟩

/-- The RRSet `a.example.` SPF "x" of the scenario. -/
def scenario_spf : knot_rrset_t := ⟨merge_owner, KNOT_RRTYPE_SPF, KNOT_CLASS_IN, 3600, [data_x]⟩

/-- The changeset of the scenario: on an empty changeset, `a.example.` TXT "x"
is added, `a.example.` SPF "x" is added, and the TXT record is removed. -/
def scenario_ch : changeset_t :=
  (changeset_rem_rrset true
    (changeset_add_rrset true
      (changeset_add_rrset true ⟨knot_dname_from_str "example.", none, none, [], []⟩
        scenario_txt).ch
      scenario_spf).ch
    scenario_txt).ch

/-- Modelled from the spec: the memory a caller of the iterator interface
works with: the changeset (`none` once it has been freed) and the iterator
over it (`none` while there is none, before it is created and after it is
freed). -/
structure changeset_memory where
  ch : Option changeset_t
  it : Option changeset_iter_t
deriving DecidableEq, Repr

/-- Modelled from the spec: the creation of an ALL-mode iterator over the
changeset in memory (`changeset_iter_all`, which returns `NULL` when there is
nothing to iterate over).  "Creating a new iterator over the same changeset"
reads the changeset and leaves it as it is. -/
def changeset_memory_iter_all (m : changeset_memory) (sorted : Bool) : changeset_memory :=
  match m.ch with
  | none => { m with it := none }
  | some ch => { m with it := some (changeset_iter_all ch sorted) }

/-- Modelled from the spec: one call of `changeset_iter_next` on the iterator
in memory.  "Iteration is non-destructive": the call advances the iterator and
leaves the changeset as it is.  Without an iterator the sentinel is
returned. -/
def changeset_memory_iter_next (m : changeset_memory) : knot_rrset_t × changeset_memory :=
  match m.it with
  | none => (knot_rrset_init_empty, m)
  | some it => ((changeset_iter_next it).1, { m with it := some (changeset_iter_next it).2 })

/-- Modelled from the spec: `changeset_iter_free`.  "Freeing the iterator must
not free the underlying changeset": the iterator is gone and the changeset is
left as it is. -/
def changeset_iter_free (m : changeset_memory) : changeset_memory :=
  { m with it := none }

/-- The loop of `tests/changeset.c` (lines 103-107) on the iterator in memory:
`changeset_iter_next` is called until it returns an empty RRSet; the result is
the RRSets returned before that and the memory afterwards.  The fuel bounds the
number of calls; `none` means it ran out. -/
def changeset_memory_iter_loop :
    Nat → changeset_memory → Option (List knot_rrset_t × changeset_memory)
  | 0, _ => none
  | fuel + 1, m =>
    let n := changeset_memory_iter_next m
    if knot_rrset_empty n.1 then some ([], n.2)
    else (changeset_memory_iter_loop fuel n.2).map (fun r => (n.1 :: r.1, r.2))

/-- One whole iteration as in `tests/changeset.c` (lines 100-108): an ALL-mode
iterator is created, run until the sentinel, and freed. -/
def changeset_memory_iterate (fuel : Nat) (sorted : Bool) (m : changeset_memory) :
    Option (List knot_rrset_t × changeset_memory) :=
  (changeset_memory_iter_loop fuel (changeset_memory_iter_all m sorted)).map
    (fun r => (r.1, changeset_iter_free r.2))

/-- Some calls of `changeset_iter_next` on the iterator in memory, the RRSets
returned being dropped. -/
def changeset_memory_iter_skip : Nat → changeset_memory → changeset_memory
  | 0, m => m
  | k + 1, m => changeset_memory_iter_skip k (changeset_memory_iter_next m).2

end Changeset

/-! ## The dynamic array of `contrib/dynarray.h` -/

section Dynarray

variable {α : Type}

/-- Modelled from the spec: the largest value of `ssize_t`, taken as a 64-bit
type (the platform headers are not under src/). -/
def SSIZE_MAX : Int := 2 ^ 63 - 1

/-- What the field `arr` of a dynarray points to: nothing (after
zero-initialisation, or a block that has been freed), the inline buffer `init`
of the structure, or a block obtained from `calloc`, given by its items. -/
inductive dynarray_arr (α : Type) where
  | null
  | init
  | heap (block : List α)
deriving DecidableEq, Repr

/-- The structure `prefix_dynarray` declared by `dynarray_declare`: `capacity`,
`size`, the inline buffer `init[initial_capacity]` and the pointer `arr`. -/
structure dynarray_t (α : Type) where
  capacity : Int
  size : Int
  init : List α
  arr : dynarray_arr α
deriving DecidableEq, Repr

/-- A zero-initialised dynarray with an inline buffer of `initial_capacity`
items (`zero` is the all-zero item). -/
def dynarray_zero (initial_capacity : Nat) (zero : α) : dynarray_t α :=
  ⟨0, 0, List.replicate initial_capacity zero, dynarray_arr.null⟩

/-- The items of the buffer `arr` points to. -/
def dynarray_buffer (dynarray : dynarray_t α) : List α :=
  match dynarray.arr with
  | dynarray_arr.null => []
  | dynarray_arr.init => dynarray.init
  | dynarray_arr.heap block => block

/-- The assignment `arr[i] = x`.  A write outside the buffer `arr` points to
(a negative index, an index at or past its end, or any index when `arr` points
to nothing) is undefined behaviour, given as `none`: no state after it is
defined. -/
def dynarray_store (dynarray : dynarray_t α) (i : Int) (x : α) : Option (dynarray_t α) :=
  if 0 ≤ i ∧ i < (dynarray_buffer dynarray).length then
    match dynarray.arr with
    | dynarray_arr.null => none
    | dynarray_arr.init => some { dynarray with init := dynarray.init.set i.toNat x }
    | dynarray_arr.heap block =>
      some { dynarray with arr := dynarray_arr.heap (block.set i.toNat x) }
  else none

/-- Releases the heap block, if there is one (`prefix_dynarray_free__`): the
block is in use when `capacity > initial_capacity`.  The pointer is left
dangling by the C code; here it points to nothing. -/
def dynarray_free__ (initial_capacity : Nat) (dynarray : dynarray_t α) : dynarray_t α :=
  if dynarray.capacity > initial_capacity then { dynarray with arr := dynarray_arr.null }
  else dynarray

/-- Makes `arr` point to the inline buffer again while that buffer is in use
(`prefix_dynarray_fix`).  `none` is the failure of
`assert(dynarray->size <= dynarray->capacity)`. -/
def dynarray_fix (initial_capacity : Nat) (dynarray : dynarray_t α) :
    Option (dynarray_t α) :=
  if dynarray.size ≤ dynarray.capacity then
    if dynarray.capacity ≤ initial_capacity then
      some { dynarray with capacity := initial_capacity, arr := dynarray_arr.init }
    else some dynarray
  else none

/-- What `prefix_dynarray_add` leaves behind: the dynarray, and the index of
the element write `arr[size++] = *to_add` if the function got that far. -/
structure dynarray_added (α : Type) where
  dynarray : dynarray_t α
  written : Option Int
deriving DecidableEq, Repr

/-- Adds an item (`prefix_dynarray_add`).  `alloc` is whether `calloc`
succeeds, should it be called.  A full buffer is replaced by a zeroed block of
`capacity * 2 + 1` items into which the `capacity` old items are copied; when
the block cannot be allocated, `capacity` and `size` are set to -1 and nothing
is written.  `none` is a failed assertion in `prefix_dynarray_fix`, the
overflow of `capacity * 2 + 1` in `ssize_t`, or an element write
`arr[size++] = *to_add` outside the buffer. -/
def dynarray_add (initial_capacity : Nat) (zero : α) (alloc : Bool)
    (dynarray : dynarray_t α) (to_add : α) : Option (dynarray_added α) :=
  match dynarray_fix initial_capacity dynarray with
  | none => none
  | some d1 =>
    if d1.size ≥ d1.capacity then
      let new_capacity := d1.capacity * 2 + 1
      if new_capacity > SSIZE_MAX then none
      else if alloc = false then
        let d2 := dynarray_free__ initial_capacity d1
        some ⟨{ d2 with capacity := -1, size := -1 }, none⟩
      else
        let new_arr :=
          if d1.capacity > 0 then
            (dynarray_buffer d1).take d1.capacity.toNat ++
              List.replicate (new_capacity.toNat - d1.capacity.toNat) zero
          else List.replicate new_capacity.toNat zero
        let d2 := dynarray_free__ initial_capacity d1
        let d3 : dynarray_t α :=
          { d2 with arr := dynarray_arr.heap new_arr, capacity := new_capacity }
        match dynarray_store d3 d3.size to_add with
        | none => none
        | some d4 => some ⟨{ d4 with size := d3.size + 1 }, some d3.size⟩
    else
      match dynarray_store d1 d1.size to_add with
      | none => none
      | some d4 => some ⟨{ d4 with size := d1.size + 1 }, some d1.size⟩

/-- The items visited by `dynarray_foreach`, in the order of the visit: after
`prefix_dynarray_fix`, the items from `arr` up to `arr + size`. -/
def dynarray_foreach (initial_capacity : Nat) (dynarray : dynarray_t α) :
    Option (List α) :=
  (dynarray_fix initial_capacity dynarray).map
    (fun d1 => (dynarray_buffer d1).take d1.size.toNat)

/-- Successive calls of `prefix_dynarray_add`, each with the outcome of its
allocation and its item; the result is the final dynarray and the index
written by each call. -/
def dynarray_add_all (initial_capacity : Nat) (zero : α) :
    List (Bool × α) → dynarray_t α → Option (dynarray_t α × List (Option Int))
  | [], dynarray => some (dynarray, [])
  | (alloc, x) :: rest, dynarray =>
    match dynarray_add initial_capacity zero alloc dynarray x with
    | none => none
    | some r =>
      match dynarray_add_all initial_capacity zero rest r.dynarray with
      | none => none
      | some (d, ws) => some (d, r.written :: ws)

/-- A dynarray in a valid state: `0 <= size <= capacity`, the inline buffer has
`initial_capacity` items, and a capacity above `initial_capacity` is the length
of a heap block that `arr` points to. -/
def dynarray_valid (initial_capacity : Nat) (dynarray : dynarray_t α) : Prop :=
  0 ≤ dynarray.size ∧ dynarray.size ≤ dynarray.capacity ∧
  dynarray.init.length = initial_capacity ∧
  ((initial_capacity : Int) < dynarray.capacity →
    ∃ block, dynarray.arr = dynarray_arr.heap block ∧ (block.length : Int) = dynarray.capacity)

end Dynarray

/-! ## The DNSSEC key of `dnssec/lib/key/key.c` -/

section Key

variable {π σ : Type}

/-- Success value of the error enumeration of the DNSSEC library
(`DNSSEC_EOK`). -/
@[reducible] def DNSSEC_EOK : Int := 0

/-- Modelled from the spec: offset of the flags in DNSKEY RDATA (RFC 4034;
`key/dnskey.h` is not under src/). -/
@[reducible] def DNSKEY_RDATA_OFFSET_FLAGS : Nat := 0

/-- Modelled from the spec: offset of the protocol in DNSKEY RDATA (RFC 4034;
`key/dnskey.h` is not under src/). -/
@[reducible] def DNSKEY_RDATA_OFFSET_PROTOCOL : Nat := 2

/-- Modelled from the spec: offset of the algorithm in DNSKEY RDATA (RFC 4034;
`key/dnskey.h` is not under src/). -/
@[reducible] def DNSKEY_RDATA_OFFSET_ALGORITHM : Nat := 3

/-- Modelled from the spec: offset of the public key in DNSKEY RDATA (RFC 4034;
`key/dnskey.h` is not under src/). -/
@[reducible] def DNSKEY_RDATA_OFFSET_PUBKEY : Nat := 4

/-- Minimal size of DNSKEY RDATA (`DNSKEY_RDATA_MIN_SIZE`). -/
@[reducible] def DNSKEY_RDATA_MIN_SIZE : Nat := DNSKEY_RDATA_OFFSET_PUBKEY

/-- RDATA template for newly allocated keys (`DNSKEY_RDATA_TEMPLATE`, 4 bytes). -/
def DNSKEY_RDATA_TEMPLATE : List Nat := [0x01, 0x00, 0x03, 0x00]

/-- A binary passed by the caller (`dnssec_binary_t`): its size and its data
pointer, `none` for `NULL`. -/
structure dnssec_binary_t where
  size : Nat
  data : Option (List Nat)
deriving DecidableEq, Repr

/-- The bytes of a binary: the first `size` bytes of its data. -/
def dnssec_binary_t.bytes (b : dnssec_binary_t) : List Nat :=
  (b.data.getD []).take b.size

/-- The key structure (`dnssec_key_t`), with the fields `key.c` uses: the
owner name, the RDATA (its `size` bytes), the public and the private key
handles (`none` for `NULL`), the key tag and the key ID (the characters before
the terminating NUL, so that an all-zero ID is the empty list). -/
structure dnssec_key_t (π σ : Type) where
  dname : Option (List Nat)
  rdata : List Nat
  public_key : Option π
  private_key : Option σ
  keytag : Nat
  id : List Nat
deriving DecidableEq, Repr

/-- Result of an external call that works on a binary in place. -/
structure BinaryResult where
  ret : Int
  binary : List Nat
deriving DecidableEq, Repr

/-- Result of `dnskey_rdata_to_crypto_key`: the return value and the key
handle left in the output pointer. -/
structure CryptoKeyResult (π : Type) where
  ret : Int
  key : Option π

/-- The external world of `key.c`: the error codes of the library other than
`DNSSEC_EOK`, the allocator, and the functions of other files, each as a
function of its arguments. -/
structure KeyEnv (π : Type) where
  DNSSEC_EINVAL : Int
  DNSSEC_ENOMEM : Int
  DNSSEC_MALFORMED_DATA : Int
  DNSSEC_KEY_ALREADY_PRESENT : Int
  DNSSEC_INVALID_KEY_ALGORITHM : Int
  einval_ne : DNSSEC_EINVAL ≠ DNSSEC_EOK
  enomem_ne : DNSSEC_ENOMEM ≠ DNSSEC_EOK
  malformed_ne : DNSSEC_MALFORMED_DATA ≠ DNSSEC_EOK
  present_ne : DNSSEC_KEY_ALREADY_PRESENT ≠ DNSSEC_EOK
  algorithm_ne : DNSSEC_INVALID_KEY_ALGORITHM ≠ DNSSEC_EOK
  -- Whether `calloc` of the key structure succeeds.
  calloc : Bool
  -- Copy of a binary (`dnssec_binary_dup`).
  dnssec_binary_dup : List Nat → BinaryResult
  -- Resize of a binary in place (`dnssec_binary_resize`).
  dnssec_binary_resize : List Nat → Nat → BinaryResult
  -- Key tag of DNSKEY RDATA (`dnssec_keytag`); `none` when it reports an
  -- error and writes no tag.
  dnssec_keytag : List Nat → Option Nat
  -- Writes the public key into RDATA, in place (`dnskey_rdata_set_pubkey`).
  dnskey_rdata_set_pubkey : List Nat → List Nat → BinaryResult
  -- Builds the public key from RDATA (`dnskey_rdata_to_crypto_key`).
  dnskey_rdata_to_crypto_key : List Nat → CryptoKeyResult π
  -- Hexadecimal key ID of a public key (`gnutls_pubkey_hex_key_id`); `none`
  -- for `NULL`.
  gnutls_pubkey_hex_key_id : π → Option (List Nat)
  -- The GnuTLS algorithm of a DNSSEC algorithm number (`algorithm_to_gnutls`);
  -- `none` for `GNUTLS_PK_UNKNOWN`.
  algorithm_to_gnutls : Nat → Option Int
  -- The algorithm of a public key (`gnutls_pubkey_get_pk_algorithm`).
  gnutls_pubkey_get_pk_algorithm : π → Int

/-- Modelled from the spec: read of one byte at a position of a wire
(`wire_seek`, `wire_read_u8`; `wire.h` is not under src/). -/
def wire_read_u8 (wire : List Nat) (position : Nat) : Nat := wire.getD position 0

/-- Modelled from the spec: read of a 16-bit number in network byte order at a
position of a wire (`wire_seek`, `wire_read_u16`; `wire.h` is not under
src/). -/
def wire_read_u16 (wire : List Nat) (position : Nat) : Nat :=
  wire.getD position 0 * 256 + wire.getD (position + 1) 0

/-- Modelled from the spec: write of one byte at a position of a wire
(`wire_seek`, `wire_write_u8`; `wire.h` is not under src/). -/
def wire_write_u8 (wire : List Nat) (position : Nat) (value : Nat) : List Nat :=
  wire.set position (value % 256)

/-- Modelled from the spec: write of a 16-bit number in network byte order at a
position of a wire (`wire_seek`, `wire_write_u16`; `wire.h` is not under
src/). -/
def wire_write_u16 (wire : List Nat) (position : Nat) (value : Nat) : List Nat :=
  (wire.set position (value / 256 % 256)).set (position + 1) (value % 256)

/-- Modelled from the spec: the rest of a wire from a position
(`wire_seek`, `wire_available_binary`; `wire.h` is not under src/). -/
def wire_available_binary (wire : List Nat) (position : Nat) : List Nat :=
  wire.drop position

/-- What a function of `key.c` that returns an error code leaves behind: the
return value and the key (`none` when there is no key). -/
structure KeyResult (π σ : Type) where
  ret : Int
  key : Option (dnssec_key_t π σ)
deriving DecidableEq, Repr

/-- Allocates a key with the template RDATA (`dnssec_key_new`).  `key_ptr` is
whether the output pointer is not `NULL`; the key of the result is what is
stored through it. -/
def dnssec_key_new (E : KeyEnv π) (key_ptr : Bool) : KeyResult π σ :=
  if key_ptr = false then ⟨E.DNSSEC_EINVAL, none⟩
  else if E.calloc = false then ⟨E.DNSSEC_ENOMEM, none⟩
  else
    let r := E.dnssec_binary_dup DNSKEY_RDATA_TEMPLATE
    if r.ret ≠ DNSSEC_EOK then ⟨E.DNSSEC_ENOMEM, none⟩
    else ⟨DNSSEC_EOK, some ⟨none, r.binary, none, none, 0, []⟩⟩

/-- Clears the allocated fields of the key, except RDATA
(`key_free_internals`). -/
def key_free_internals (key : dnssec_key_t π σ) : dnssec_key_t π σ :=
  { key with dname := none, private_key := none, public_key := none }

/-- Resets the key to the state of a new key, reusing its RDATA buffer
(`dnssec_key_clear`).  The outer `none` is the failure of
`assert(rdata.size >= DNSKEY_RDATA_MIN_SIZE)`. -/
def dnssec_key_clear (key : Option (dnssec_key_t π σ)) :
    Option (Option (dnssec_key_t π σ)) :=
  match key with
  | none => some none
  | some k =>
    -- reuse RDATA
    let rdata := k.rdata
    -- clear the structure
    let k1 := key_free_internals k
    let k2 : dnssec_key_t π σ := { k1 with rdata := [], keytag := 0, id := [] }
    -- restore template RDATA (downsize, no need to realloc)
    if rdata.length ≥ DNSKEY_RDATA_MIN_SIZE then
      some (some { k2 with rdata := DNSKEY_RDATA_TEMPLATE.take DNSKEY_RDATA_MIN_SIZE })
    else none

/-- Updates the key tag from the RDATA (`update_keytag`); the return value of
`dnssec_keytag` is not looked at. -/
def update_keytag (E : KeyEnv π) (key : dnssec_key_t π σ) : dnssec_key_t π σ :=
  match E.dnssec_keytag key.rdata with
  | some keytag => { key with keytag := keytag }
  | none => key

/-- Updates the key ID from the public key (`update_key_id`); `none` is the
failure of `assert(key->public_key)` or of `assert(new_id)`. -/
def update_key_id (E : KeyEnv π) (key : dnssec_key_t π σ) : Option (dnssec_key_t π σ) :=
  match key.public_key with
  | none => none
  | some public_key =>
    match E.gnutls_pubkey_hex_key_id public_key with
    | none => none
    | some new_id => some { key with id := new_id }

/-- Updates key tag and key ID (`key_update_identifiers`). -/
def key_update_identifiers (E : KeyEnv π) (key : dnssec_key_t π σ) :
    Option (dnssec_key_t π σ) :=
  update_key_id E (update_keytag E key)

/-- Reads the flags of the key (`dnssec_key_get_flags`). -/
def dnssec_key_get_flags (key : Option (dnssec_key_t π σ)) : Nat :=
  match key with
  | none => 0
  | some k => wire_read_u16 k.rdata DNSKEY_RDATA_OFFSET_FLAGS

/-- Writes the flags of the key, a `uint16_t` (`dnssec_key_set_flags`). -/
def dnssec_key_set_flags (E : KeyEnv π) (key : Option (dnssec_key_t π σ)) (flags : Nat) :
    KeyResult π σ :=
  match key with
  | none => ⟨E.DNSSEC_EINVAL, none⟩
  | some k =>
    let k1 : dnssec_key_t π σ :=
      { k with rdata := wire_write_u16 k.rdata DNSKEY_RDATA_OFFSET_FLAGS (flags % 65536) }
    ⟨DNSSEC_EOK, some (update_keytag E k1)⟩

/-- Reads the protocol of the key (`dnssec_key_get_protocol`); without a key
the error code is returned, cut to a `uint8_t`. -/
def dnssec_key_get_protocol (E : KeyEnv π) (key : Option (dnssec_key_t π σ)) : Nat :=
  match key with
  | none => (E.DNSSEC_EINVAL % 256).toNat
  | some k => wire_read_u8 k.rdata DNSKEY_RDATA_OFFSET_PROTOCOL

/-- Writes the protocol of the key, a `uint8_t` (`dnssec_key_set_protocol`). -/
def dnssec_key_set_protocol (E : KeyEnv π) (key : Option (dnssec_key_t π σ))
    (protocol : Nat) : KeyResult π σ :=
  match key with
  | none => ⟨E.DNSSEC_EINVAL, none⟩
  | some k =>
    let k1 : dnssec_key_t π σ :=
      { k with rdata := wire_write_u8 k.rdata DNSKEY_RDATA_OFFSET_PROTOCOL (protocol % 256) }
    ⟨DNSSEC_EOK, some (update_keytag E k1)⟩

/-- Whether the algorithm of the present public key matches the new algorithm
(`can_change_algorithm`); `none` is the failure of `assert(current >= 0)`. -/
def can_change_algorithm (E : KeyEnv π) (key : dnssec_key_t π σ) (algorithm : Nat) :
    Option Bool :=
  match key.public_key with
  | none => some true
  | some public_key =>
    match E.algorithm_to_gnutls algorithm with
    | none => some false
    | some update =>
      let current := E.gnutls_pubkey_get_pk_algorithm public_key
      if current ≥ 0 then some (decide (current = update)) else none

/-- Reads the algorithm of the key (`dnssec_key_get_algorithm`). -/
def dnssec_key_get_algorithm (key : Option (dnssec_key_t π σ)) : Nat :=
  match key with
  | none => 0
  | some k => wire_read_u8 k.rdata DNSKEY_RDATA_OFFSET_ALGORITHM

/-- Writes the algorithm of the key, a `uint8_t` (`dnssec_key_set_algorithm`). -/
def dnssec_key_set_algorithm (E : KeyEnv π) (key : Option (dnssec_key_t π σ))
    (algorithm : Nat) : Option (KeyResult π σ) :=
  match key with
  | none => some ⟨E.DNSSEC_EINVAL, none⟩
  | some k =>
    match can_change_algorithm E k (algorithm % 256) with
    | none => none
    | some false => some ⟨E.DNSSEC_INVALID_KEY_ALGORITHM, some k⟩
    | some true =>
      let k1 : dnssec_key_t π σ :=
        { k with
          rdata := wire_write_u8 k.rdata DNSKEY_RDATA_OFFSET_ALGORITHM (algorithm % 256) }
      some ⟨DNSSEC_EOK, some (update_keytag E k1)⟩

/-- Reads the public key part of the RDATA (`dnssec_key_get_pubkey`); `pubkey`
is whether the output pointer is not `NULL`, the binary of the result is what
is stored through it. -/
def dnssec_key_get_pubkey (E : KeyEnv π) (key : Option (dnssec_key_t π σ))
    (pubkey : Bool) : Int × Option (List Nat) :=
  match key with
  | none => (E.DNSSEC_EINVAL, none)
  | some k =>
    if pubkey = false then (E.DNSSEC_EINVAL, none)
    else (DNSSEC_EOK, some (wire_available_binary k.rdata DNSKEY_RDATA_OFFSET_PUBKEY))

/-- Sets the public key of a key that has none (`dnssec_key_set_pubkey`).
`none` is a failed assertion in `key_update_identifiers`. -/
def dnssec_key_set_pubkey (E : KeyEnv π) (key : Option (dnssec_key_t π σ))
    (pubkey : Option dnssec_binary_t) : Option (KeyResult π σ) :=
  match key, pubkey with
  | none, _ => some ⟨E.DNSSEC_EINVAL, none⟩
  | some k, none => some ⟨E.DNSSEC_EINVAL, some k⟩
  | some k, some p =>
    if p.data.isNone then some ⟨E.DNSSEC_EINVAL, some k⟩
    else if k.public_key.isSome then some ⟨E.DNSSEC_KEY_ALREADY_PRESENT, some k⟩
    else if dnssec_key_get_algorithm (some k) = 0 then
      some ⟨E.DNSSEC_INVALID_KEY_ALGORITHM, some k⟩
    else
      let s := E.dnskey_rdata_set_pubkey k.rdata p.bytes
      let k1 : dnssec_key_t π σ := { k with rdata := s.binary }
      if s.ret ≠ DNSSEC_EOK then some ⟨s.ret, some k1⟩
      else
        let c := E.dnskey_rdata_to_crypto_key k1.rdata
        let k2 : dnssec_key_t π σ := { k1 with public_key := c.key }
        if c.ret ≠ DNSSEC_EOK then
          -- downsize
          some ⟨c.ret, some { k2 with rdata := k2.rdata.take DNSKEY_RDATA_OFFSET_PUBKEY }⟩
        else
          match key_update_identifiers E k2 with
          | none => none
          | some k3 => some ⟨DNSSEC_EOK, some k3⟩

/-- Sets the whole RDATA of a key that has no public key
(`dnssec_key_set_rdata`).  `none` is a failed assertion in
`key_update_identifiers`. -/
def dnssec_key_set_rdata (E : KeyEnv π) (key : Option (dnssec_key_t π σ))
    (rdata : Option dnssec_binary_t) : Option (KeyResult π σ) :=
  match key, rdata with
  | none, _ => some ⟨E.DNSSEC_EINVAL, none⟩
  | some k, none => some ⟨E.DNSSEC_EINVAL, some k⟩
  | some k, some r =>
    if r.data.isNone then some ⟨E.DNSSEC_EINVAL, some k⟩
    else if r.size < DNSKEY_RDATA_MIN_SIZE then some ⟨E.DNSSEC_MALFORMED_DATA, some k⟩
    else if k.public_key.isSome then some ⟨E.DNSSEC_KEY_ALREADY_PRESENT, some k⟩
    else
      let c := E.dnskey_rdata_to_crypto_key r.bytes
      if c.ret ≠ DNSSEC_EOK then some ⟨c.ret, some k⟩
      else
        let z := E.dnssec_binary_resize k.rdata r.size
        let k1 : dnssec_key_t π σ := { k with rdata := z.binary }
        if z.ret ≠ DNSSEC_EOK then some ⟨z.ret, some k1⟩
        else
          -- commit result
          let k2 : dnssec_key_t π σ :=
            { k1 with rdata := r.bytes ++ k1.rdata.drop r.size, public_key := c.key }
          match key_update_identifiers E k2 with
          | none => none
          | some k3 => some ⟨DNSSEC_EOK, some k3⟩

/-- Concrete externals: every call succeeds, a copy is exact, a resize keeps
the bytes and pads with zeros, the public key is written behind the 4-byte
header, the key tag is the sum of the bytes modulo 2^16, and the public key
handle is the list of the key bytes. -/
def demoKeyEnv : KeyEnv (List Nat) where
  DNSSEC_EINVAL := -22
  DNSSEC_ENOMEM := -12
  DNSSEC_MALFORMED_DATA := -1498
  DNSSEC_KEY_ALREADY_PRESENT := -1488
  DNSSEC_INVALID_KEY_ALGORITHM := -1490
  einval_ne := by decide
  enomem_ne := by decide
  malformed_ne := by decide
  present_ne := by decide
  algorithm_ne := by decide
  calloc := true
  dnssec_binary_dup := fun b => ⟨DNSSEC_EOK, b⟩
  dnssec_binary_resize := fun b n => ⟨DNSSEC_EOK, b.take n ++ List.replicate (n - b.length) 0⟩
  dnssec_keytag := fun r => some (r.sum % 65536)
  dnskey_rdata_set_pubkey := fun r p => ⟨DNSSEC_EOK, r.take 4 ++ p⟩
  dnskey_rdata_to_crypto_key := fun r => ⟨DNSSEC_EOK, some (r.drop 4)⟩
  gnutls_pubkey_hex_key_id := fun k => some (97 :: k)
  algorithm_to_gnutls := fun a => some a
  gnutls_pubkey_get_pk_algorithm := fun _ => 1

/-- The externals of `demoKeyEnv`, except that no public key can be built
from RDATA. -/
def badKeyEnv : KeyEnv (List Nat) :=
  { demoKeyEnv with dnskey_rdata_to_crypto_key := fun _ => ⟨-1490, none⟩ }

/-- A key without public key whose RDATA is the 4-byte header with flags 257,
protocol 3 and algorithm 8. -/
def demoKey : dnssec_key_t (List Nat) Nat := ⟨none, [1, 1, 3, 8], none, none, 0, []⟩

end Key

/-! ## Basic facts about the embedded functions -/

section Basic

variable {κ χ ρ : Type}

theorem set_rcodes_eq_map (rcode : Nat) :
    ∀ reqs : List request_data, (∀ r ∈ reqs, r.resp.isSome = true) →
      set_rcodes reqs rcode = some (reqs.map (set_rcode_if_noerror rcode))
  | [], _ => rfl
  | req :: rest, h => by
    have hr : req.resp.isSome = true := h req (List.mem_cons_self _ _)
    have ih := set_rcodes_eq_map rcode rest
      (fun r hm => h r (List.mem_cons_of_mem _ hm))
    obtain ⟨resp, hresp⟩ := Option.isSome_iff_exists.mp hr
    simp only [set_rcodes, hresp, ih, List.map_cons, set_rcode_if_noerror]

theorem set_rcode_if_noerror_isSome (rcode : Nat) (r : request_data) :
    (set_rcode_if_noerror rcode r).resp.isSome = r.resp.isSome := by
  unfold set_rcode_if_noerror
  cases h : r.resp with
  | none => simp [h]
  | some resp => by_cases hc : knot_wire_get_rcode resp = KNOT_RCODE_NOERROR <;> simp [hc, h]

theorem process_single_update_spec (E : Env κ χ ρ) (r : request_data)
    (zone : zone_t κ) (u : zone_update_t κ χ) (tr : Trace κ) (resp : knot_pkt_t)
    (hr : r.resp = some resp) :
    ∃ s, process_single_update E r zone u tr = some s ∧
      ((s.ret = KNOT_EOK ∧ s.request = r ∧
          ∃ c1 c2, s.trace = tr ++ [Event.ddns_process_prereqs r.query KNOT_EOK c1,
            Event.ddns_process_update r.query KNOT_EOK c2]) ∨
       (s.ret ≠ KNOT_EOK ∧ ∃ rcode,
          s.request = { r with resp := some (knot_wire_set_rcode resp rcode) } ∧
          (s.trace = tr ++ [Event.ddns_process_prereqs r.query s.ret rcode] ∨
           ∃ c1, s.trace = tr ++ [Event.ddns_process_prereqs r.query KNOT_EOK c1,
              Event.ddns_process_update r.query s.ret rcode]))) := by
  by_cases hp : (E.ddns_process_prereqs tr r.query u).ret = KNOT_EOK
  · by_cases hu : (E.ddns_process_update
        (tr ++ [Event.ddns_process_prereqs r.query KNOT_EOK
          (E.ddns_process_prereqs tr r.query u).rcode]) zone r.query
        { u with change := (E.ddns_process_prereqs tr r.query u).change }).ret = KNOT_EOK
    · simp only [process_single_update, hp, hu, ne_eq, not_true_eq_false, if_false]
      exact ⟨_, rfl, Or.inl ⟨rfl, rfl, _, _, List.append_assoc _ _ _⟩⟩
    · simp only [process_single_update, hp, hu, hr, ne_eq, not_true_eq_false,
        not_false_eq_true, if_false, if_true]
      exact ⟨_, rfl, Or.inr ⟨hu, _, rfl, Or.inr ⟨_, List.append_assoc _ _ _⟩⟩⟩
  · simp only [process_single_update, hp, hr, ne_eq, not_false_eq_true, if_true]
    exact ⟨_, rfl, Or.inr ⟨hp, _, rfl, Or.inl rfl⟩⟩

theorem process_normal_walk_spec (E : Env κ χ ρ) (zone : zone_t κ) :
    ∀ (reqs : List request_data) (u : zone_update_t κ χ) (tr : Trace κ),
      (∀ r ∈ reqs, r.resp.isSome = true) →
      ∃ w W, process_normal_walk E zone reqs u tr = some w ∧ w.trace = tr ++ W ∧
        ((w.ret = KNOT_EOK ∧ w.requests = reqs ∧ WalkOk reqs W) ∨
         (w.ret ≠ KNOT_EOK ∧ WalkFailed reqs w.ret w.requests W))
  | [], u, tr, _ =>
    ⟨⟨KNOT_EOK, [], u, tr⟩, [], rfl, by simp, Or.inl ⟨rfl, rfl, by simp [WalkOk]⟩⟩
  | req :: rest, u, tr, h => by
    obtain ⟨resp, hresp⟩ :=
      Option.isSome_iff_exists.mp (h req (List.mem_cons_self _ _))
    obtain ⟨s, hs, hcase⟩ := process_single_update_spec E req zone u tr resp hresp
    rcases hcase with ⟨hret, hreq, c1, c2, htr⟩ | ⟨hret, rcode, hreq, htr⟩
    · obtain ⟨w, W, hw, hwtr, hwcase⟩ :=
        process_normal_walk_spec E zone rest s.update s.trace
          (fun r hm => h r (List.mem_cons_of_mem _ hm))
      refine ⟨⟨w.ret, s.request :: w.requests, w.update, w.trace⟩,
        [Event.ddns_process_prereqs req.query KNOT_EOK c1,
          Event.ddns_process_update req.query KNOT_EOK c2] ++ W, ?_, ?_, ?_⟩
      · simp [process_normal_walk, hs, hret, hw]
      · simp [hwtr, htr]
      · rcases hwcase with ⟨h1, h2, h3, h4, h5⟩ | ⟨h1, h3⟩
        · refine Or.inl ⟨h1, by simp [hreq, h2], ?_, ?_, ?_⟩
          · intro e he
            simp only [List.cons_append, List.nil_append, List.mem_cons] at he
            rcases he with he | he | he
            · subst he; exact ⟨rfl, rfl⟩
            · subst he; exact ⟨rfl, rfl⟩
            · exact h3 e he
          · simp [List.filterMap_cons, Event.prereqQuery, h4]
          · simp [List.filterMap_cons, Event.updateQuery, h5]
        · obtain ⟨pre, r, rresp, post, rc, W0, e, e1, e2, e3, e4, e5, e6, e7, e8⟩ := h3
          refine Or.inr ⟨h1, req :: pre, r, rresp, post, rc,
            [Event.ddns_process_prereqs req.query KNOT_EOK c1,
              Event.ddns_process_update req.query KNOT_EOK c2] ++ W0, e,
            by simp [e1], e2, by simp [hreq, e3], by simp [e4], e5, ?_, ?_, ?_⟩
          · intro e0 he
            simp only [List.cons_append, List.nil_append, List.mem_cons] at he
            rcases he with he | he | he
            · subst he; exact ⟨rfl, rfl⟩
            · subst he; exact ⟨rfl, rfl⟩
            · exact e6 e0 he
          · simp only [List.cons_append, List.nil_append, List.filterMap_cons,
              Event.prereqQuery, e7, List.map_cons]
          · simp only [List.cons_append, List.nil_append, List.filterMap_cons,
              Event.updateQuery, e8, List.map_cons]
    · have hwalk : process_normal_walk E zone (req :: rest) u tr =
          some ⟨s.ret, s.request :: rest, s.update, s.trace⟩ := by
        simp [process_normal_walk, hs, hret]
      rcases htr with htr | ⟨c1, htr⟩
      · refine ⟨_, [Event.ddns_process_prereqs req.query s.ret rcode], hwalk, htr,
          Or.inr ⟨hret, [], req, resp, rest, rcode, [], _, rfl, hresp, by simp [hreq],
            rfl, Or.inl rfl, by simp, ?_, rfl⟩⟩
        simp [Event.prereqQuery]
      · refine ⟨_, [Event.ddns_process_prereqs req.query KNOT_EOK c1,
            Event.ddns_process_update req.query s.ret rcode], hwalk, htr,
          Or.inr ⟨hret, [], req, resp, rest, rcode,
            [Event.ddns_process_prereqs req.query KNOT_EOK c1], _, rfl, hresp,
            by simp [hreq], rfl, Or.inr rfl, ?_, ?_, ?_⟩⟩
        · intro e0 he
          simp only [List.mem_singleton] at he
          subst he; exact ⟨rfl, rfl⟩
        · simp [Event.prereqQuery]
        · simp [Event.updateQuery]

theorem walkFailed_resp_isSome {reqs reqs1 : List request_data} {ret : Int}
    {W : Trace κ} (hW : WalkFailed reqs ret reqs1 W)
    (h : ∀ r ∈ reqs, r.resp.isSome = true) : ∀ r ∈ reqs1, r.resp.isSome = true := by
  obtain ⟨pre, r, rresp, post, rc, W0, e, e1, e2, e3, -⟩ := hW
  subst e1 e3
  intro x hx
  simp only [List.mem_append, List.mem_cons] at hx
  rcases hx with hx | hx | hx
  · exact h x (by simp [hx])
  · subst hx; rfl
  · exact h x (by simp [hx])

theorem sign_update_spec (E : Env κ χ ρ) (zone : zone_t κ) (old_contents new_contents : κ)
    (ddns_ch sec_ch : χ) (tr : Trace κ) :
    ∃ S, (sign_update E zone old_contents new_contents ddns_ch sec_ch tr).trace = tr ++ S ∧
      (∀ e ∈ S, e.isSign = true) ∧
      ((sign_update E zone old_contents new_contents ddns_ch sec_ch tr).ret ≠ KNOT_EOK →
        ∃ e ∈ S, e.retOf =
          some (sign_update E zone old_contents new_contents ddns_ch sec_ch tr).ret) ∧
      (∀ e ∈ S, ∀ r, e.retOf = some r → r ≠ KNOT_EOK →
        r = (sign_update E zone old_contents new_contents ddns_ch sec_ch tr).ret) ∧
      ((sign_update E zone old_contents new_contents ddns_ch sec_ch tr).ret = KNOT_EOK →
        ∀ e ∈ S, ∀ r, e.retOf = some r → r = KNOT_EOK) := by
  generalize hr : sign_update E zone old_contents new_contents ddns_ch sec_ch tr = r
  unfold sign_update at hr
  dsimp only at hr
  split_ifs at hr <;> subst hr <;>
    refine ⟨_, by simp only [List.append_assoc]; rfl, ?_⟩ <;>
    simp_all [Event.isSign, Event.retOf]

theorem process_normal_store_spec (E : Env κ χ ρ) (zone : zone_t κ)
    (reqs : List request_data) (new_contents : κ) (ddns_ch : χ) (tr : Trace κ)
    (h : ∀ r ∈ reqs, r.resp.isSome = true) :
    ∃ out, process_normal_store E zone reqs new_contents ddns_ch tr = some out ∧
      ((out.ret ≠ KNOT_EOK ∧ out.zone = zone ∧
          out.requests = reqs.map (set_rcode_if_noerror KNOT_RCODE_SERVFAIL) ∧
          out.trace = tr ++ ([Event.zone_change_store out.ret,
            Event.update_rollback ChId.ddns, Event.update_free_zone new_contents,
            Event.changeset_clear ChId.ddns] ++
            (if zone.conf.dnssec_enable then [Event.changeset_clear ChId.sec] else []))) ∨
       (out.ret = KNOT_EOK ∧ out.zone = { zone with contents := new_contents } ∧
          out.requests = reqs ∧
          out.trace = tr ++ ([Event.zone_change_store KNOT_EOK,
            Event.zone_switch_contents new_contents zone.contents,
            Event.synchronize_rcu] ++
            (if zone.conf.dnssec_enable then
              [Event.update_cleanup ChId.sec, Event.changeset_clear ChId.sec]
             else []) ++
            [Event.update_free_zone zone.contents, Event.update_cleanup ChId.ddns,
             Event.changeset_clear ChId.ddns] ++
            (if zone.conf.dbsync_timeout = 0 then
              [Event.zone_events_schedule ZoneEvent.FLUSH ZONE_EVENT_NOW]
             else [])))) := by
  have hset := set_rcodes_eq_map KNOT_RCODE_SERVFAIL reqs h
  generalize hr : process_normal_store E zone reqs new_contents ddns_ch tr = r
  unfold process_normal_store at hr
  simp only [hset, zone_switch_contents] at hr
  split_ifs at hr <;> subst hr <;> refine ⟨_, rfl, ?_⟩ <;> simp_all

theorem process_normal_paths (E : Env κ χ ρ) (zone : zone_t κ)
    (reqs : List request_data) (tr : Trace κ)
    (hinit : ∀ r ∈ reqs, r.resp.isSome = true) :
    ∃ out suffix, process_normal E zone reqs tr = some out ∧
      out.trace = tr ++ suffix ∧
      NormalPath E zone reqs out.ret out.zone out.requests suffix := by
  obtain ⟨w, W, hw, hwtr, hwcase⟩ := process_normal_walk_spec E zone reqs
    ⟨zone.contents, (E.changeset_init tr ChId.ddns).change⟩
    (tr ++ [Event.changeset_init ChId.ddns (E.changeset_init tr ChId.ddns).ret]) hinit
  have hset := fun c => set_rcodes_eq_map c reqs hinit
  generalize hr : process_normal E zone reqs tr = r
  unfold process_normal at hr
  simp only [hw] at hr
  by_cases h1 : (E.changeset_init tr ChId.ddns).ret = KNOT_EOK
  swap
  · simp only [h1, hset, ne_eq, not_false_eq_true, if_true] at hr
    subst hr
    exact ⟨_, _, rfl, rfl, NormalPath.init_failed _ h1⟩
  simp only [h1, ne_eq, not_true_eq_false, if_false] at hr hwtr
  rcases hwcase with ⟨hret, hreqs, hWok⟩ | ⟨hret, hWf⟩
  swap
  · have hset1 := fun c => set_rcodes_eq_map c w.requests (walkFailed_resp_isSome hWf hinit)
    simp only [hret, hset1, ne_eq, not_false_eq_true, if_true] at hr
    subst hr
    refine ⟨_, _, rfl, ?_, NormalPath.request_failed _ hret W _ hWf⟩
    simp [hwtr]
  simp only [hret, hreqs, hset, ne_eq, not_true_eq_false, if_false] at hr
  by_cases hce : E.changeset_empty w.update.change = true
  · simp only [hce, Bool.not_true, Bool.false_eq_true, if_false] at hr
    subst hr
    refine ⟨_, _, rfl, ?_, NormalPath.no_change W hWok⟩
    simp [hwtr]
  simp only [hce, Bool.not_false, if_true] at hr
  generalize E.apply_changeset w.trace zone w.update.change = a at hr
  by_cases ha : a.ret = KNOT_EOK
  swap
  · simp only [ha, not_false_eq_true, if_true] at hr
    subst hr
    refine ⟨_, _, rfl, ?_, NormalPath.apply_failed _ ha W hWok⟩
    simp [hwtr]
  simp only [ha, not_true_eq_false, if_false] at hr
  by_cases hd : zone.conf.dnssec_enable = true
  · simp only [hd, if_true] at hr
    generalize E.changeset_init
      (w.trace ++ [Event.apply_changeset KNOT_EOK (some a.new_contents)]) ChId.sec = j at hr
    by_cases hj : j.ret = KNOT_EOK
    swap
    · simp only [hj, not_false_eq_true, if_true] at hr
      subst hr
      refine ⟨_, _, rfl, ?_, NormalPath.sec_init_failed _ hj W hWok a.new_contents hd⟩
      simp [hwtr]
    simp only [hj, not_true_eq_false, if_false] at hr
    obtain ⟨S, hS1, hS2, hS3, hS5, hS4⟩ := sign_update_spec E zone zone.contents
      a.new_contents w.update.change j.change
      (w.trace ++ [Event.apply_changeset KNOT_EOK (some a.new_contents)] ++
        [Event.changeset_init ChId.sec KNOT_EOK])
    generalize sign_update E zone zone.contents a.new_contents w.update.change j.change
      (w.trace ++ [Event.apply_changeset KNOT_EOK (some a.new_contents)] ++
        [Event.changeset_init ChId.sec KNOT_EOK]) = su at hr hS1 hS3 hS4 hS5
    by_cases hsu : su.ret = KNOT_EOK
    swap
    · simp only [hsu, not_false_eq_true, if_true] at hr
      subst hr
      refine ⟨_, _, rfl, ?_,
        NormalPath.sign_failed _ hsu W hWok a.new_contents hd S hS2 (hS3 hsu) hS5⟩
      simp [hS1, hwtr]
    simp only [hsu, not_true_eq_false, if_false] at hr
    obtain ⟨out, hout, hcase⟩ := process_normal_store_spec E zone reqs a.new_contents
      su.ddns_ch su.trace hinit
    rw [hout] at hr
    subst hr
    have hD : SecPassed zone (Event.changeset_init ChId.sec KNOT_EOK :: S) :=
      Or.inr ⟨hd, S, rfl, fun e he => ⟨hS2 e he, hS4 hsu e he⟩⟩
    rcases hcase with ⟨h2, h3, h4, h5⟩ | ⟨h2, h3, h4, h5⟩
    · refine ⟨out, ?_, rfl, ?_, ?_⟩
      pick_goal 3
      · rw [h3, h4]
        exact NormalPath.store_failed _ h2 W hWok a.new_contents _ hD
      · simp [h5, hS1, hwtr]
    · refine ⟨out, ?_, rfl, ?_, ?_⟩
      pick_goal 3
      · rw [h2, h3, h4]
        exact NormalPath.committed W hWok a.new_contents _ hD
      · simp [h5, hS1, hwtr]
  · simp only [hd, Bool.false_eq_true, if_false] at hr
    obtain ⟨out, hout, hcase⟩ := process_normal_store_spec E zone reqs a.new_contents
      w.update.change (w.trace ++ [Event.apply_changeset KNOT_EOK (some a.new_contents)])
      hinit
    rw [hout] at hr
    subst hr
    have hD : SecPassed zone ([] : Trace κ) := Or.inl ⟨by simpa using hd, rfl⟩
    rcases hcase with ⟨h2, h3, h4, h5⟩ | ⟨h2, h3, h4, h5⟩
    · refine ⟨out, ?_, rfl, ?_, ?_⟩
      pick_goal 3
      · rw [h3, h4]
        exact NormalPath.store_failed _ h2 W hWok a.new_contents _ hD
      · simp [h5, hwtr]
    · refine ⟨out, ?_, rfl, ?_, ?_⟩
      pick_goal 3
      · rw [h2, h3, h4]
        exact NormalPath.committed W hWok a.new_contents _ hD
      · simp [h5, hwtr]

theorem not_mem_of_flag {l : Trace κ} {f : Event κ → Bool}
    (h : ∀ e ∈ l, f e = true) (e : Event κ) (he : f e = false) : e ∉ l := by
  intro hm
  rw [h e hm] at he
  exact Bool.noConfusion he

theorem walkOk_isWalk {reqs : List request_data} {W : Trace κ} (h : WalkOk reqs W) :
    ∀ e ∈ W, e.isWalk = true :=
  fun e he => (h.1 e he).1

theorem walkFailed_isWalk {reqs reqs1 : List request_data} {ret : Int} {W : Trace κ}
    (h : WalkFailed reqs ret reqs1 W) : ∀ e ∈ W, e.isWalk = true := by
  obtain ⟨pre, r, rresp, post, rc, W0, e, -, -, -, e4, e5, e6, -⟩ := h
  subst e4
  intro x hx
  simp only [List.mem_append, List.mem_singleton] at hx
  rcases hx with hx | hx
  · exact (e6 x hx).1
  · subst hx
    rcases e5 with e5 | e5 <;> subst e5 <;> rfl

theorem secPassed_isSecBlock {zone : zone_t κ} {D : Trace κ} (h : SecPassed zone D) :
    ∀ e ∈ D, e.isSecBlock = true := by
  rcases h with ⟨-, rfl⟩ | ⟨-, S, rfl, hS⟩
  · simp
  · intro e he
    simp only [List.mem_cons] at he
    rcases he with he | he
    · subst he; rfl
    · have := (hS e he).1
      revert this
      cases e <;> simp [Event.isSecBlock, Event.isSign]

theorem secPassed_retOf {zone : zone_t κ} {D : Trace κ} (h : SecPassed zone D) :
    ∀ e ∈ D, ∀ r, e.retOf = some r → r = KNOT_EOK := by
  rcases h with ⟨-, rfl⟩ | ⟨-, S, rfl, hS⟩
  · simp
  · intro e he r hr
    simp only [List.mem_cons] at he
    rcases he with he | he
    · subst he
      simpa [Event.retOf, eq_comm] using hr
    · exact (hS e he).2 r hr

theorem isSign_isSecBlock {S : Trace κ} (h : ∀ e ∈ S, e.isSign = true) :
    ∀ e ∈ S, e.isSecBlock = true := by
  intro e he
  have := h e he
  revert this
  cases e <;> simp [Event.isSecBlock, Event.isSign]

theorem process_requests_spec (E : Env κ χ ρ) (zone : zone_t κ)
    (reqs : List request_data) (tr : Trace κ)
    (hinit : ∀ r ∈ reqs, r.resp.isSome = true) :
    ∃ ret zone1 reqs1 sfx,
      process_normal E zone reqs tr = some ⟨ret, zone1, reqs1, tr ++ sfx⟩ ∧
      NormalPath E zone reqs ret zone1 reqs1 sfx ∧
      process_requests E zone reqs tr = some ⟨ret, zone1, reqs1, tr ++ (sfx ++
        (if ret = KNOT_EOK ∧
            E.zone_contents_serial zone1.contents ≠ E.zone_contents_serial zone.contents
         then [Event.zone_events_schedule ZoneEvent.NOTIFY ZONE_EVENT_NOW] else []))⟩ := by
  obtain ⟨⟨ret, zone1, reqs1, otr⟩, sfx, ho, htr, hpath⟩ :=
    process_normal_paths E zone reqs tr hinit
  simp only at htr hpath
  subst htr
  refine ⟨ret, zone1, reqs1, sfx, ho, hpath, ?_⟩
  unfold process_requests
  simp only [ho]
  by_cases h1 : ret = KNOT_EOK
  · by_cases h2 : E.zone_contents_serial zone1.contents = E.zone_contents_serial zone.contents
    · simp [h1, h2]
    · simp [h1, h2]
  · simp [h1]

theorem process_requests_outcome (E : Env κ χ ρ) (zone : zone_t κ)
    (reqs : List request_data) (tr : Trace κ)
    (hinit : ∀ r ∈ reqs, r.resp.isSome = true) :
    ∃ ret zone1 reqs1 sfx N, NormalPath E zone reqs ret zone1 reqs1 sfx ∧
      (∀ e ∈ N, e = Event.zone_events_schedule ZoneEvent.NOTIFY ZONE_EVENT_NOW) ∧
      process_requests E zone reqs tr = some ⟨ret, zone1, reqs1, tr ++ (sfx ++ N)⟩ := by
  obtain ⟨ret, zone1, reqs1, sfx, -, hpath, hreq⟩ :=
    process_requests_spec E zone reqs tr hinit
  refine ⟨ret, zone1, reqs1, sfx, _, hpath, ?_, hreq⟩
  intro e he
  split at he
  · simpa using he
  · simp at he

theorem isSecBlock_not_isWalk (e : Event κ) (h : e.isSecBlock = true) :
    e.isWalk = false := by
  revert h
  cases e <;> simp [Event.isSecBlock, Event.isSign, Event.isWalk]

theorem isSign_not_isWalk (e : Event κ) (h : e.isSign = true) : e.isWalk = false := by
  revert h
  cases e <;> simp [Event.isSign, Event.isWalk]

theorem no_failed_step (W X sfx : Trace κ)
    (hs : sfx = Event.changeset_init ChId.ddns KNOT_EOK :: W ++ X)
    (hW : ∀ e ∈ W, e.isWalk = true ∧ e.retOf = some KNOT_EOK)
    (hX : ∀ e ∈ X, e.isWalk = false) :
    ∀ e ∈ sfx, e.isWalk = true → ∀ ret, e.retOf = some ret → ret = KNOT_EOK := by
  subst hs
  intro e he hw ret hr
  simp only [List.cons_append, List.mem_cons, List.mem_append] at he
  rcases he with he | he | he
  · subst he; simp [Event.isWalk] at hw
  · have := (hW e he).2
    rw [this] at hr
    exact (Option.some.inj hr).symm
  · rw [hX e he] at hw
    exact Bool.noConfusion hw

theorem normalPath_of_failed_step {E : Env κ χ ρ} {zone zone1 : zone_t κ}
    {reqs reqs1 : List request_data} {ret : Int} {sfx : Trace κ}
    (hpath : NormalPath E zone reqs ret zone1 reqs1 sfx) :
    ∀ e ∈ sfx, e.isWalk = true → ∀ ret1, e.retOf = some ret1 → ret1 ≠ KNOT_EOK →
      ret = ret1 ∧ zone1 = zone ∧
      ∃ pre r resp post rcode W0, reqs = pre ++ r :: post ∧ r.resp = some resp ∧
        reqs1 = (pre ++ { r with resp := some (knot_wire_set_rcode resp rcode) } :: post).map
          (set_rcode_if_noerror KNOT_RCODE_SERVFAIL) ∧
        sfx = Event.changeset_init ChId.ddns KNOT_EOK :: W0 ++
          [e, Event.changeset_clear ChId.ddns] ∧
        (e = Event.ddns_process_prereqs r.query ret1 rcode ∨
          e = Event.ddns_process_update r.query ret1 rcode) ∧
        (∀ e0 ∈ W0, e0.isWalk = true ∧ e0.retOf = some KNOT_EOK) ∧
        (W0 ++ [e]).filterMap Event.prereqQuery =
          (pre ++ [r]).map request_data.query ∧
        W0.filterMap Event.updateQuery = pre.map request_data.query := by
  cases hpath with
  | init_failed _ h =>
    intro e he hw
    simp only [List.mem_singleton] at he
    subst he
    simp [Event.isWalk] at hw
  | request_failed _ h W reqs2 hW =>
    obtain ⟨pre, r, rresp, post, rc, W0, e1, h1, h2, h3, h4, h5, h6, h7, h8⟩ := hW
    subst h4
    intro e he hw ret1 hr hne
    have hee : e = e1 := by
      simp only [List.cons_append, List.mem_cons, List.mem_append, List.mem_singleton,
        List.not_mem_nil, or_false] at he
      rcases he with he | (he | he) | he
      · subst he; simp [Event.isWalk] at hw
      · have := (h6 e he).2
        rw [this] at hr
        exact absurd (Option.some.inj hr).symm hne
      · exact he
      · subst he; simp [Event.isWalk] at hw
    subst hee
    have hret : ret = ret1 := by
      rcases h5 with h5 | h5 <;> rw [h5] at hr <;> simpa [Event.retOf] using hr
    subst hret
    exact ⟨rfl, rfl, pre, r, rresp, post, rc, W0, h1, h2, by rw [h3], by simp, h5,
      h6, h7, h8⟩
  | no_change W hW =>
    intro e he hw ret1 hr hne
    exact absurd (no_failed_step W _ _ rfl hW.1 (by simp [Event.isWalk]) e he hw ret1 hr) hne
  | apply_failed _ h W hW =>
    intro e he hw ret1 hr hne
    exact absurd (no_failed_step W _ _ rfl hW.1 (by simp [Event.isWalk]) e he hw ret1 hr) hne
  | sec_init_failed _ h W hW new_contents hd =>
    intro e he hw ret1 hr hne
    exact absurd (no_failed_step W _ _ rfl hW.1 (by simp [Event.isWalk]) e he hw ret1 hr) hne
  | sign_failed _ h W hW new_contents hd S hS hf hu =>
    intro e he hw ret1 hr hne
    have hS1 := fun e he => isSign_not_isWalk e (hS e he)
    refine absurd (no_failed_step W ?_ _ ?_ hW.1 ?_ e he hw ret1 hr) hne
    · exact [Event.apply_changeset KNOT_EOK (some new_contents),
        Event.changeset_init ChId.sec KNOT_EOK] ++ S ++
        [Event.update_rollback ChId.ddns, Event.update_free_zone new_contents,
         Event.changeset_clear ChId.ddns]
    · simp
    · intro a ha
      by_cases haS : a ∈ S
      · exact hS1 a haS
      · simp [haS] at ha
        casesm* _ ∨ _ <;> subst_vars <;> rfl
  | store_failed ret0 h W hW new_contents D hD =>
    intro e he hw ret1 hr hne
    have hD1 := fun e he => isSecBlock_not_isWalk e ((secPassed_isSecBlock hD) e he)
    refine absurd (no_failed_step W ?_ _ ?_ hW.1 ?_ e he hw ret1 hr) hne
    · exact [Event.apply_changeset KNOT_EOK (some new_contents)] ++ D ++
        [Event.zone_change_store ret, Event.update_rollback ChId.ddns,
         Event.update_free_zone new_contents, Event.changeset_clear ChId.ddns] ++
        (if zone.conf.dnssec_enable then [Event.changeset_clear ChId.sec] else [])
    · simp
    · intro a ha
      by_cases haD : a ∈ D
      · exact hD1 a haD
      · by_cases hdn : zone.conf.dnssec_enable = true <;> simp [haD, hdn] at ha <;>
          casesm* _ ∨ _ <;> subst_vars <;> rfl
  | committed W hW new_contents D hD =>
    intro e he hw ret1 hr hne
    have hD1 := fun e he => isSecBlock_not_isWalk e ((secPassed_isSecBlock hD) e he)
    refine absurd (no_failed_step W ?_ _ ?_ hW.1 ?_ e he hw ret1 hr) hne
    · exact [Event.apply_changeset KNOT_EOK (some new_contents)] ++ D ++
        [Event.zone_change_store KNOT_EOK,
         Event.zone_switch_contents new_contents zone.contents,
         Event.synchronize_rcu] ++
        (if zone.conf.dnssec_enable then
          [Event.update_cleanup ChId.sec, Event.changeset_clear ChId.sec]
         else []) ++
        [Event.update_free_zone zone.contents, Event.update_cleanup ChId.ddns,
         Event.changeset_clear ChId.ddns] ++
        (if zone.conf.dbsync_timeout = 0 then
          [Event.zone_events_schedule ZoneEvent.FLUSH ZONE_EVENT_NOW]
         else [])
    · simp
    · intro a ha
      by_cases haD : a ∈ D
      · exact hD1 a haD
      · by_cases hdn : zone.conf.dnssec_enable = true <;>
          by_cases hdb : zone.conf.dbsync_timeout = 0 <;>
          simp [haD, hdn, hdb] at ha <;>
          casesm* _ ∨ _ <;> subst_vars <;> rfl

theorem rcode_isSome {r : request_data} {c : Nat} (h : r.rcode = some c) :
    r.resp.isSome = true := by
  unfold request_data.rcode at h
  cases hr : r.resp with
  | none => rw [hr] at h; exact Option.noConfusion h
  | some p => rfl

theorem rcode_set_rcode_if_noerror (c : Nat) (r : request_data)
    (h : r.rcode = some KNOT_RCODE_NOERROR) :
    (set_rcode_if_noerror c r).rcode = some c := by
  unfold request_data.rcode at h
  cases hr : r.resp with
  | none => rw [hr] at h; exact Option.noConfusion h
  | some p =>
    rw [hr] at h
    have hp : p.rcode = KNOT_RCODE_NOERROR := Option.some.inj h
    simp only [set_rcode_if_noerror, hr, hp, if_true, request_data.rcode, Option.map_some',
      knot_wire_get_rcode, knot_wire_set_rcode]

theorem rcode_set_rcode_if_noerror_failed (c rc : Nat) (r : request_data) (resp : knot_pkt_t) :
    (set_rcode_if_noerror c
      { r with resp := some (knot_wire_set_rcode resp rc) }).rcode =
      some (if rc = KNOT_RCODE_NOERROR then c else rc) := by
  by_cases h : rc = KNOT_RCODE_NOERROR <;>
    simp [set_rcode_if_noerror, h, request_data.rcode, knot_wire_get_rcode,
      knot_wire_set_rcode]

theorem map_rcode_set_rcode_if_noerror (c : Nat) (l : List request_data)
    (h : ∀ r ∈ l, r.rcode = some KNOT_RCODE_NOERROR) :
    (l.map (set_rcode_if_noerror c)).map request_data.rcode = l.map (fun _ => some c) := by
  rw [List.map_map]
  apply List.map_congr_left
  intro r hr
  exact rcode_set_rcode_if_noerror c r (h r hr)

theorem isSign_retOf_isInitSignStore (e : Event κ) (h : e.isSign = true) (r : Int)
    (hr : e.retOf = some r) : e.isInitSignStore = true := by
  revert h hr
  cases e <;> simp [Event.isSign, Event.retOf, Event.isInitSignStore]

theorem normalPath_of_failed_event {E : Env κ χ ρ} {zone zone1 : zone_t κ}
    {reqs reqs1 : List request_data} {ret : Int} {sfx : Trace κ}
    (hpath : NormalPath E zone reqs ret zone1 reqs1 sfx) :
    ∀ e ∈ sfx, ∀ r, e.retOf = some r → r ≠ KNOT_EOK →
      ret = r ∧
      (e.isWalk = true ∨
       ((∃ new, e = Event.apply_changeset r new) ∧
          reqs1 = reqs.map (set_rcode_if_noerror
            (if r = E.KNOT_ETTL then KNOT_RCODE_REFUSED else KNOT_RCODE_SERVFAIL))) ∨
       (e.isInitSignStore = true ∧
          reqs1 = reqs.map (set_rcode_if_noerror KNOT_RCODE_SERVFAIL))) := by
  cases hpath with
  | init_failed _ h =>
    intro e he r hr hne
    simp only [List.mem_singleton] at he
    subst he
    simp only [Event.retOf, Option.some.injEq] at hr
    exact ⟨hr, Or.inr (Or.inr ⟨rfl, rfl⟩)⟩
  | request_failed _ h W reqs2 hW =>
    intro e he r hr hne
    by_cases heW : e ∈ W
    · have hw := (walkFailed_isWalk hW) e heW
      refine ⟨?_, Or.inl hw⟩
      obtain ⟨pre, r0, rresp, post, rc, W0, e1, h1, h2, h3, h4, h5, h6, h7, h8⟩ := hW
      subst h4
      simp only [List.mem_append, List.mem_singleton] at heW
      rcases heW with heW | heW
      · rw [(h6 e heW).2] at hr
        exact absurd (Option.some.inj hr).symm hne
      · subst heW
        rcases h5 with h5 | h5 <;> rw [h5] at hr <;> simpa [Event.retOf] using hr
    · simp [heW] at he
      casesm* _ ∨ _ <;> subst_vars <;> simp [Event.retOf] at hr
      exact absurd hr.symm hne
  | no_change W hW =>
    intro e he r hr hne
    by_cases heW : e ∈ W
    · rw [(hW.1 e heW).2] at hr
      exact absurd (Option.some.inj hr).symm hne
    · simp [heW] at he
      casesm* _ ∨ _ <;> subst_vars <;> simp [Event.retOf] at hr
      exact absurd hr.symm hne
  | apply_failed _ h W hW =>
    intro e he r hr hne
    by_cases heW : e ∈ W
    · rw [(hW.1 e heW).2] at hr
      exact absurd (Option.some.inj hr).symm hne
    · simp [heW] at he
      casesm* _ ∨ _ <;> subst_vars <;> simp [Event.retOf] at hr
      · exact absurd hr.symm hne
      · subst hr
        exact ⟨rfl, Or.inr (Or.inl ⟨⟨_, rfl⟩, rfl⟩)⟩
  | sec_init_failed _ h W hW new_contents hd =>
    intro e he r hr hne
    by_cases heW : e ∈ W
    · rw [(hW.1 e heW).2] at hr
      exact absurd (Option.some.inj hr).symm hne
    · simp [heW] at he
      casesm* _ ∨ _ <;> subst_vars <;> simp [Event.retOf] at hr
      · exact absurd hr.symm hne
      · exact absurd hr.symm hne
      · subst hr
        exact ⟨rfl, Or.inr (Or.inr ⟨rfl, rfl⟩)⟩
  | sign_failed _ h W hW new_contents hd S hS hf hu =>
    intro e he r hr hne
    by_cases heW : e ∈ W
    · rw [(hW.1 e heW).2] at hr
      exact absurd (Option.some.inj hr).symm hne
    · by_cases heS : e ∈ S
      · exact ⟨(hu e heS r hr hne).symm,
          Or.inr (Or.inr ⟨isSign_retOf_isInitSignStore e (hS e heS) r hr, rfl⟩)⟩
      · simp [heW, heS] at he
        casesm* _ ∨ _ <;> subst_vars <;> simp [Event.retOf] at hr <;>
          exact absurd hr.symm hne
  | store_failed _ h W hW new_contents D hD =>
    intro e he r hr hne
    by_cases heW : e ∈ W
    · rw [(hW.1 e heW).2] at hr
      exact absurd (Option.some.inj hr).symm hne
    · by_cases heD : e ∈ D
      · exact absurd (secPassed_retOf hD e heD r hr) hne
      · by_cases hdn : zone.conf.dnssec_enable = true <;> simp [heW, heD, hdn] at he <;>
          casesm* _ ∨ _ <;> subst_vars <;> simp [Event.retOf] at hr <;>
          first
          | exact absurd hr.symm hne
          | (subst hr; exact ⟨rfl, Or.inr (Or.inr ⟨rfl, rfl⟩)⟩)
  | committed W hW new_contents D hD =>
    intro e he r hr hne
    by_cases heW : e ∈ W
    · rw [(hW.1 e heW).2] at hr
      exact absurd (Option.some.inj hr).symm hne
    · by_cases heD : e ∈ D
      · exact absurd (secPassed_retOf hD e heD r hr) hne
      · by_cases hdn : zone.conf.dnssec_enable = true <;>
          by_cases hdb : zone.conf.dbsync_timeout = 0 <;>
          simp [heW, heD, hdn, hdb] at he <;>
          casesm* _ ∨ _ <;> subst_vars <;> simp [Event.retOf] at hr <;>
          exact absurd hr.symm hne

theorem walkFailed_length {reqs reqs1 : List request_data} {ret : Int} {W : Trace κ}
    (hW : WalkFailed reqs ret reqs1 W) : reqs1.length = reqs.length := by
  obtain ⟨pre, r, rresp, post, rc, W0, e, e1, e2, e3, -⟩ := hW
  subst e1 e3
  simp

theorem normalPath_requests_cases {E : Env κ χ ρ} {zone zone1 : zone_t κ}
    {reqs reqs1 : List request_data} {ret : Int} {sfx : Trace κ}
    (hpath : NormalPath E zone reqs ret zone1 reqs1 sfx) :
    (ret = KNOT_EOK ∧ reqs1 = reqs) ∨
    (ret ≠ KNOT_EOK ∧ ∃ L c, (c = KNOT_RCODE_SERVFAIL ∨ c = KNOT_RCODE_REFUSED) ∧
      reqs1 = L.map (set_rcode_if_noerror c) ∧
      (L = reqs ∨ ∃ W : Trace κ, WalkFailed reqs ret L W)) := by
  cases hpath with
  | init_failed _ h => exact Or.inr ⟨h, reqs, _, Or.inl rfl, rfl, Or.inl rfl⟩
  | request_failed _ h W reqs2 hW =>
    exact Or.inr ⟨h, reqs2, _, Or.inl rfl, rfl, Or.inr ⟨W, hW⟩⟩
  | no_change W hW => exact Or.inl ⟨rfl, rfl⟩
  | apply_failed _ h W hW =>
    refine Or.inr ⟨h, reqs, _, ?_, rfl, Or.inl rfl⟩
    split
    · exact Or.inr rfl
    · exact Or.inl rfl
  | sec_init_failed _ h W hW new_contents hd =>
    exact Or.inr ⟨h, reqs, _, Or.inl rfl, rfl, Or.inl rfl⟩
  | sign_failed _ h W hW new_contents hd S hS hf hu =>
    exact Or.inr ⟨h, reqs, _, Or.inl rfl, rfl, Or.inl rfl⟩
  | store_failed _ h W hW new_contents D hD =>
    exact Or.inr ⟨h, reqs, _, Or.inl rfl, rfl, Or.inl rfl⟩
  | committed W hW new_contents D hD => exact Or.inl ⟨rfl, rfl⟩

theorem rcode_set_rcode_if_noerror_ne (c : Nat) (hc : c ≠ KNOT_RCODE_NOERROR)
    (r : request_data) (h : r.resp.isSome = true) :
    ∃ c1, (set_rcode_if_noerror c r).rcode = some c1 ∧ c1 ≠ KNOT_RCODE_NOERROR := by
  obtain ⟨p, hp⟩ := Option.isSome_iff_exists.mp h
  by_cases h0 : p.rcode = KNOT_RCODE_NOERROR
  · exact ⟨c, by simp [set_rcode_if_noerror, hp, h0, request_data.rcode,
      knot_wire_get_rcode, knot_wire_set_rcode], hc⟩
  · exact ⟨p.rcode, by simp [set_rcode_if_noerror, hp, h0, request_data.rcode,
      knot_wire_get_rcode], h0⟩

theorem ident_set_rcode_if_noerror (c : Nat) (r : request_data) :
    (set_rcode_if_noerror c r).ident = r.ident := by
  unfold set_rcode_if_noerror
  cases h : r.resp with
  | none => rfl
  | some resp =>
    by_cases hc : knot_wire_get_rcode resp = KNOT_RCODE_NOERROR <;> simp [hc, request_data.ident]

theorem map_ident_set_rcode_if_noerror (c : Nat) (l : List request_data) :
    (l.map (set_rcode_if_noerror c)).map request_data.ident = l.map request_data.ident := by
  rw [List.map_map]
  apply List.map_congr_left
  intro r _
  exact ident_set_rcode_if_noerror c r

theorem forall_isSome_map_set_rcode_if_noerror (c : Nat) (l : List request_data)
    (h : ∀ r ∈ l, r.resp.isSome = true) :
    ∀ r ∈ l.map (set_rcode_if_noerror c), r.resp.isSome = true := by
  intro r hr
  obtain ⟨x, hx, rfl⟩ := List.mem_map.mp hr
  rw [set_rcode_if_noerror_isSome]
  exact h x hx

theorem walkFailed_ident {reqs reqs1 : List request_data} {ret : Int} {W : Trace κ}
    (hW : WalkFailed reqs ret reqs1 W) :
    reqs1.map request_data.ident = reqs.map request_data.ident := by
  obtain ⟨pre, r, rresp, post, rc, W0, e, e1, e2, e3, -⟩ := hW
  subst e1 e3
  simp [request_data.ident]

theorem normalPath_requests {E : Env κ χ ρ} {zone zone1 : zone_t κ}
    {reqs reqs1 : List request_data} {ret : Int} {sfx : Trace κ}
    (hpath : NormalPath E zone reqs ret zone1 reqs1 sfx)
    (hinit : ∀ r ∈ reqs, r.resp.isSome = true) :
    reqs1.map request_data.ident = reqs.map request_data.ident ∧
    ∀ r ∈ reqs1, r.resp.isSome = true := by
  rcases normalPath_requests_cases hpath with ⟨-, h2⟩ | ⟨-, L, c, -, h2, hL⟩
  · subst h2; exact ⟨rfl, hinit⟩
  · subst h2
    rcases hL with hL | ⟨W, hW⟩
    · subst hL
      exact ⟨map_ident_set_rcode_if_noerror c _,
        forall_isSome_map_set_rcode_if_noerror c _ hinit⟩
    · exact ⟨(map_ident_set_rcode_if_noerror c _).trans (walkFailed_ident hW),
        forall_isSome_map_set_rcode_if_noerror c _ (walkFailed_resp_isSome hW hinit)⟩

theorem process_single_update_of_stepFails (E : Env κ χ ρ) (zone : zone_t κ)
    (r : request_data) (u : zone_update_t κ χ) (tr : Trace κ) (ret : Int) (rcode : Nat)
    (resp : knot_pkt_t) (hr : r.resp = some resp)
    (h : StepFails E zone r u tr ret rcode) :
    ret ≠ KNOT_EOK ∧
    ∃ s, process_single_update E r zone u tr = some s ∧ s.ret = ret ∧
      s.request = { r with resp := some (knot_wire_set_rcode resp rcode) } := by
  rcases h with ⟨h1, h2, h3⟩ | ⟨h1, h2, h3, h4⟩
  · subst h2 h3
    refine ⟨h1, ?_⟩
    simp only [process_single_update, h1, hr, ne_eq, not_false_eq_true, if_true]
    exact ⟨_, rfl, rfl, rfl⟩
  · subst h3 h4
    refine ⟨h2, ?_⟩
    simp only [process_single_update, h1, h2, hr, ne_eq, not_true_eq_false,
      not_false_eq_true, if_false, if_true]
    exact ⟨_, rfl, rfl, rfl⟩

theorem process_normal_walk_ok_requests (E : Env κ χ ρ) (zone : zone_t κ) :
    ∀ (reqs : List request_data) (u : zone_update_t κ χ) (tr : Trace κ)
      (w : WalkResult κ χ),
      process_normal_walk E zone reqs u tr = some w → w.ret = KNOT_EOK → w.requests = reqs
  | [], u, tr, w, h, _ => by
    simp only [process_normal_walk, Option.some.injEq] at h
    subst h; rfl
  | req :: rest, u, tr, w, h, hok => by
    simp only [process_normal_walk] at h
    cases hs : process_single_update E req zone u tr with
    | none => rw [hs] at h; exact Option.noConfusion h
    | some s =>
      rw [hs] at h
      simp only at h
      have hsreq : s.ret = KNOT_EOK → s.request = req := by
        intro hse
        unfold process_single_update at hs
        dsimp only at hs
        split_ifs at hs with g1 g2
        · cases hq : req.resp with
          | none => rw [hq] at hs; exact Option.noConfusion hs
          | some resp => rw [hq] at hs; cases hs; exact absurd hse g1
        · cases hq : req.resp with
          | none => rw [hq] at hs; exact Option.noConfusion hs
          | some resp => rw [hq] at hs; cases hs; exact absurd hse g2
        · cases hs; rfl
      split_ifs at h with g
      · cases h
        exact absurd hok g
      · cases hw : process_normal_walk E zone rest s.update s.trace with
        | none => rw [hw] at h; exact Option.noConfusion h
        | some w1 =>
          rw [hw] at h
          cases h
          simp only at hok
          have := process_normal_walk_ok_requests E zone rest s.update s.trace w1 hw hok
          simp only [this, hsreq (not_not.mp g)]

theorem process_normal_walk_append (E : Env κ χ ρ) (zone : zone_t κ) :
    ∀ (pre rest : List request_data) (u : zone_update_t κ χ) (tr : Trace κ)
      (w0 : WalkResult κ χ),
      process_normal_walk E zone pre u tr = some w0 → w0.ret = KNOT_EOK →
      process_normal_walk E zone (pre ++ rest) u tr =
        (process_normal_walk E zone rest w0.update w0.trace).map
          (fun w => ⟨w.ret, pre ++ w.requests, w.update, w.trace⟩)
  | [], rest, u, tr, w0, h, _ => by
    simp only [process_normal_walk, Option.some.injEq] at h
    subst h
    simp only [List.nil_append]
    cases process_normal_walk E zone rest u tr <;> rfl
  | req :: pre, rest, u, tr, w0, h, hok => by
    have hreqs := process_normal_walk_ok_requests E zone (req :: pre) u tr w0 h hok
    simp only [process_normal_walk] at h
    simp only [List.cons_append, process_normal_walk]
    cases hs : process_single_update E req zone u tr with
    | none => rw [hs] at h; exact Option.noConfusion h
    | some s =>
      rw [hs] at h
      simp only at h ⊢
      split_ifs at h with g
      · cases h
        exact absurd hok g
      · rw [if_neg g]
        cases hw : process_normal_walk E zone pre s.update s.trace with
        | none => rw [hw] at h; exact Option.noConfusion h
        | some w1 =>
          rw [hw] at h
          cases h
          simp only at hok hreqs
          have ih := process_normal_walk_append E zone pre rest s.update s.trace w1 hw hok
          have e1 : s.request = req := (List.cons.inj hreqs).1
          simp only [List.append_eq, ih]
          cases process_normal_walk E zone rest w1.update w1.trace with
          | none => rfl
          | some w2 => simp [e1]

theorem process_normal_of_cycleFails (E : Env κ χ ρ) (zone : zone_t κ)
    (reqs : List request_data) (tr : Trace κ)
    (hinit : ∀ r ∈ reqs, r.resp.isSome = true) (stage : CycleStage) (ret : Int)
    (h : CycleFails E zone reqs tr stage ret) :
    ret ≠ KNOT_EOK ∧
    ∃ out, process_normal E zone reqs tr = some out ∧ out.ret = ret ∧ out.zone = zone ∧
      out.requests = reqs.map (set_rcode_if_noerror
        (if stage = CycleStage.apply ∧ ret = E.KNOT_ETTL then KNOT_RCODE_REFUSED
         else KNOT_RCODE_SERVFAIL)) := by
  have hs1 := set_rcodes_eq_map KNOT_RCODE_SERVFAIL reqs hinit
  have hs2 := set_rcodes_eq_map KNOT_RCODE_REFUSED reqs hinit
  cases h with
  | ddns_init h =>
    refine ⟨h, ?_⟩
    simp only [process_normal, h, ne_eq, not_false_eq_true, if_true, hs1]
    exact ⟨_, rfl, rfl, rfl, by simp⟩
  | apply w hw h =>
    obtain ⟨h1, h2, h3, h4⟩ := hw
    have hreq := process_normal_walk_ok_requests E zone reqs _ _ w h2 h3
    refine ⟨h, ?_⟩
    unfold cycle_walk at h2
    rw [h1] at h2
    unfold cycle_apply at h ⊢
    by_cases he : (E.apply_changeset w.trace zone w.update.change).ret = E.KNOT_ETTL
    · have hk : ¬ E.KNOT_ETTL = KNOT_EOK := by rw [← he]; exact h
      simp only [process_normal, h1, ne_eq, not_true_eq_false, if_false, h2, h3, h4,
        Bool.not_false, if_true, hk, not_false_eq_true, he, hreq, hs2]
      refine ⟨_, rfl, rfl, rfl, by simp⟩
    · simp only [process_normal, h1, ne_eq, not_true_eq_false, if_false, h2, h3, h4,
        Bool.not_false, if_true, h, not_false_eq_true, he, hreq, hs1]
      exact ⟨_, rfl, rfl, rfl, by simp [he]⟩
  | sec_init w hw ha hd h =>
    obtain ⟨h1, h2, h3, h4⟩ := hw
    have hreq := process_normal_walk_ok_requests E zone reqs _ _ w h2 h3
    refine ⟨h, ?_⟩
    unfold cycle_walk at h2
    rw [h1] at h2
    unfold cycle_sec_init cycle_applied_trace at h ⊢
    unfold cycle_apply at ha h ⊢
    simp only [process_normal, h1, ne_eq, not_true_eq_false, if_false, h2, h3, h4,
      Bool.not_false, if_true, ha, hd, h, not_false_eq_true, hreq, hs1]
    exact ⟨_, rfl, rfl, rfl, by simp⟩
  | sign w hw ha hd hj h =>
    obtain ⟨h1, h2, h3, h4⟩ := hw
    have hreq := process_normal_walk_ok_requests E zone reqs _ _ w h2 h3
    refine ⟨h, ?_⟩
    unfold cycle_walk at h2
    rw [h1] at h2
    unfold cycle_sign at h ⊢
    unfold cycle_sec_init at hj h ⊢
    unfold cycle_applied_trace at hj h ⊢
    unfold cycle_apply at ha hj h ⊢
    simp only [process_normal, h1, ne_eq, not_true_eq_false, if_false, h2, h3, h4,
      Bool.not_false, if_true, ha, hd, hj, h, not_false_eq_true, hreq, hs1]
    exact ⟨_, rfl, rfl, rfl, by simp⟩
  | store w hw ha hs h =>
    obtain ⟨h1, h2, h3, h4⟩ := hw
    have hreq := process_normal_walk_ok_requests E zone reqs _ _ w h2 h3
    refine ⟨h, ?_⟩
    unfold cycle_walk at h2
    rw [h1] at h2
    unfold cycle_store at h ⊢
    unfold cycle_sign at hs h ⊢
    unfold cycle_sec_init at hs h ⊢
    unfold cycle_applied_trace at hs h ⊢
    unfold cycle_apply at ha hs h ⊢
    by_cases hd : zone.conf.dnssec_enable = true
    · obtain ⟨hj, hg⟩ := hs hd
      simp only [hd, if_true] at h ⊢
      simp only [process_normal, h1, ne_eq, not_true_eq_false, if_false, h2, h3, h4,
        Bool.not_false, if_true, ha, hd, hj, hg, process_normal_store, h,
        not_false_eq_true, hreq, hs1]
      exact ⟨_, rfl, rfl, rfl, by simp⟩
    · simp only [hd, if_false, Bool.false_eq_true] at h ⊢
      simp only [process_normal, h1, ne_eq, not_true_eq_false, if_false, h2, h3, h4,
        Bool.not_false, if_true, ha, hd, process_normal_store, h,
        not_false_eq_true, hreq, hs1, Bool.false_eq_true]
      exact ⟨_, rfl, rfl, rfl, by simp⟩

theorem process_normal_failure_cases (E : Env κ χ ρ) (zone : zone_t κ)
    (reqs : List request_data) (tr : Trace κ)
    (hinit : ∀ r ∈ reqs, r.resp.isSome = true) :
    ∃ out, process_normal E zone reqs tr = some out ∧
      (out.ret = KNOT_EOK → out.requests = reqs) ∧
      (out.ret ≠ KNOT_EOK →
        (∃ stage, CycleFails E zone reqs tr stage out.ret) ∨
        (∃ w, (E.changeset_init tr ChId.ddns).ret = KNOT_EOK ∧
          cycle_walk E zone reqs tr = some w ∧ w.ret ≠ KNOT_EOK ∧ out.ret = w.ret ∧
          out.requests = w.requests.map (set_rcode_if_noerror KNOT_RCODE_SERVFAIL))) := by
  obtain ⟨⟨ret, zone1, reqs1, otr⟩, sfx, ho, -, hpath⟩ :=
    process_normal_paths E zone reqs tr hinit
  simp only at hpath
  refine ⟨_, ho, ?_, ?_⟩
  · intro h
    rcases normalPath_requests_cases hpath with ⟨-, h2⟩ | ⟨h1, -⟩
    · exact h2
    · exact absurd h h1
  · simp only
    intro hne
    -- a failing call of the environment identifies the outcome
    have key : ∀ stage r, CycleFails E zone reqs tr stage r →
        ∃ stage, CycleFails E zone reqs tr stage ret := by
      intro stage r hf
      obtain ⟨-, out, ho2, hr, -⟩ := process_normal_of_cycleFails E zone reqs tr hinit stage r hf
      rw [ho] at ho2
      cases ho2
      simp only at hr
      subst hr
      exact ⟨stage, hf⟩
    by_cases h1 : (E.changeset_init tr ChId.ddns).ret = KNOT_EOK
    · obtain ⟨w, W, hw, -, hcase⟩ := process_normal_walk_spec E zone reqs
        ⟨zone.contents, (E.changeset_init tr ChId.ddns).change⟩
        (tr ++ [Event.changeset_init ChId.ddns KNOT_EOK]) hinit
      have hcw : cycle_walk E zone reqs tr = some w := by
        unfold cycle_walk; rw [h1]; exact hw
      by_cases h3 : w.ret = KNOT_EOK
      · have hreq := process_normal_walk_ok_requests E zone reqs _ _ w hw h3
        by_cases h4 : E.changeset_empty w.update.change = false
        · have hlp : LoopPassed E zone reqs tr w := ⟨h1, hcw, h3, h4⟩
          by_cases ha : (cycle_apply E zone w).ret = KNOT_EOK
          · by_cases hst : cycle_store E zone w = KNOT_EOK
            · by_cases hd : zone.conf.dnssec_enable = true
              · by_cases hj : (cycle_sec_init E zone w).ret = KNOT_EOK
                · by_cases hg : (cycle_sign E zone w).ret = KNOT_EOK
                  · exfalso
                    unfold cycle_store at hst
                    unfold cycle_sign at hg hst
                    unfold cycle_sec_init at hj hg hst
                    unfold cycle_applied_trace at hj hg hst
                    unfold cycle_apply at ha hj hg hst
                    simp only [hd, if_true] at hst
                    have hx : ∃ o, process_normal E zone reqs tr = some o ∧
                        o.ret = KNOT_EOK := by
                      simp only [process_normal, h1, ne_eq, not_true_eq_false, if_false, hw,
                        h3, h4, Bool.not_false, if_true, ha, hd, hj, hg, process_normal_store,
                        hst]
                      exact ⟨_, rfl, rfl⟩
                    obtain ⟨o, e1, e2⟩ := hx
                    rw [ho] at e1
                    cases e1
                    exact hne e2
                  · exact Or.inl (key _ _ (CycleFails.sign w hlp ha hd hj hg))
                · exact Or.inl (key _ _ (CycleFails.sec_init w hlp ha hd hj))
              · exfalso
                unfold cycle_store at hst
                unfold cycle_applied_trace at hst
                unfold cycle_apply at ha hst
                simp only [hd, if_false, Bool.false_eq_true] at hst
                have hx : ∃ o, process_normal E zone reqs tr = some o ∧
                    o.ret = KNOT_EOK := by
                  simp only [process_normal, h1, ne_eq, not_true_eq_false, if_false, hw,
                    h3, h4, Bool.not_false, if_true, ha, hd, process_normal_store,
                    hst, Bool.false_eq_true]
                  exact ⟨_, rfl, rfl⟩
                obtain ⟨o, e1, e2⟩ := hx
                rw [ho] at e1
                cases e1
                exact hne e2
            · by_cases hd : zone.conf.dnssec_enable = true
              · by_cases hj : (cycle_sec_init E zone w).ret = KNOT_EOK
                · by_cases hg : (cycle_sign E zone w).ret = KNOT_EOK
                  · exact Or.inl (key _ _ (CycleFails.store w hlp ha (fun _ => ⟨hj, hg⟩) hst))
                  · exact Or.inl (key _ _ (CycleFails.sign w hlp ha hd hj hg))
                · exact Or.inl (key _ _ (CycleFails.sec_init w hlp ha hd hj))
              · exact Or.inl (key _ _
                  (CycleFails.store w hlp ha (fun h => absurd h hd) hst))
          · exact Or.inl (key _ _ (CycleFails.apply w hlp ha))
        · exfalso
          have h4t : E.changeset_empty w.update.change = true := by
            cases hb : E.changeset_empty w.update.change with
            | true => rfl
            | false => exact absurd hb h4
          have hx : ∃ o, process_normal E zone reqs tr = some o ∧ o.ret = KNOT_EOK := by
            simp only [process_normal, h1, ne_eq, not_true_eq_false, if_false, hw,
              h3, h4t, Bool.not_true, Bool.false_eq_true]
            exact ⟨_, rfl, rfl⟩
          obtain ⟨o, e1, e2⟩ := hx
          rw [ho] at e1
          cases e1
          exact hne e2
      · have hsome : ∀ r ∈ w.requests, r.resp.isSome = true := by
          rcases hcase with ⟨h5, -⟩ | ⟨-, hWF⟩
          · exact absurd h5 h3
          · exact walkFailed_resp_isSome hWF hinit
        have hset := set_rcodes_eq_map KNOT_RCODE_SERVFAIL w.requests hsome
        have hx : ∃ o, process_normal E zone reqs tr = some o ∧ o.ret = w.ret ∧
            o.requests = w.requests.map (set_rcode_if_noerror KNOT_RCODE_SERVFAIL) := by
          simp only [process_normal, h1, ne_eq, not_true_eq_false, if_false, hw,
            h3, not_false_eq_true, if_true, hset]
          exact ⟨_, rfl, rfl, rfl⟩
        obtain ⟨o, e1, e2, e3⟩ := hx
        rw [ho] at e1
        cases e1
        exact Or.inr ⟨w, h1, hcw, h3, e2, e3⟩
    · exact Or.inl (key _ _ (CycleFails.ddns_init h1))

theorem isWalk_isUpdateCycle (e : Event κ) (h : e.isWalk = true) :
    e.isUpdateCycle = true := by
  revert h
  cases e <;> simp [Event.isWalk, Event.isUpdateCycle]

theorem isSecBlock_isUpdateCycle (e : Event κ) (h : e.isSecBlock = true) :
    e.isUpdateCycle = true := by
  revert h
  cases e <;> simp [Event.isSecBlock, Event.isSign, Event.isUpdateCycle]

theorem normalPath_isUpdateCycle {E : Env κ χ ρ} {zone zone1 : zone_t κ}
    {reqs reqs1 : List request_data} {ret : Int} {sfx : Trace κ}
    (hpath : NormalPath E zone reqs ret zone1 reqs1 sfx) :
    ∀ e ∈ sfx, e.isUpdateCycle = true := by
  cases hpath with
  | init_failed _ h => simp [Event.isUpdateCycle]
  | request_failed _ h W reqs2 hW =>
    intro e he
    by_cases heW : e ∈ W
    · exact isWalk_isUpdateCycle e (walkFailed_isWalk hW e heW)
    · simp [heW] at he
      casesm* _ ∨ _ <;> subst_vars <;> rfl
  | no_change W hW =>
    intro e he
    by_cases heW : e ∈ W
    · exact isWalk_isUpdateCycle e (walkOk_isWalk hW e heW)
    · simp [heW] at he
      casesm* _ ∨ _ <;> subst_vars <;> rfl
  | apply_failed _ h W hW =>
    intro e he
    by_cases heW : e ∈ W
    · exact isWalk_isUpdateCycle e (walkOk_isWalk hW e heW)
    · simp [heW] at he
      casesm* _ ∨ _ <;> subst_vars <;> rfl
  | sec_init_failed _ h W hW new_contents hd =>
    intro e he
    by_cases heW : e ∈ W
    · exact isWalk_isUpdateCycle e (walkOk_isWalk hW e heW)
    · simp [heW] at he
      casesm* _ ∨ _ <;> subst_vars <;> rfl
  | sign_failed _ h W hW new_contents hd S hS hf hu =>
    intro e he
    by_cases heW : e ∈ W
    · exact isWalk_isUpdateCycle e (walkOk_isWalk hW e heW)
    · by_cases heS : e ∈ S
      · exact isSecBlock_isUpdateCycle e (isSign_isSecBlock hS e heS)
      · simp [heW, heS] at he
        casesm* _ ∨ _ <;> subst_vars <;> rfl
  | store_failed _ h W hW new_contents D hD =>
    intro e he
    by_cases heW : e ∈ W
    · exact isWalk_isUpdateCycle e (walkOk_isWalk hW e heW)
    · by_cases heD : e ∈ D
      · exact isSecBlock_isUpdateCycle e (secPassed_isSecBlock hD e heD)
      · by_cases hdn : zone.conf.dnssec_enable = true <;> simp [heW, heD, hdn] at he <;>
          casesm* _ ∨ _ <;> subst_vars <;> rfl
  | committed W hW new_contents D hD =>
    intro e he
    by_cases heW : e ∈ W
    · exact isWalk_isUpdateCycle e (walkOk_isWalk hW e heW)
    · by_cases heD : e ∈ D
      · exact isSecBlock_isUpdateCycle e (secPassed_isSecBlock hD e heD)
      · by_cases hdn : zone.conf.dnssec_enable = true <;>
          by_cases hdb : zone.conf.dbsync_timeout = 0 <;>
          simp [heW, heD, hdn, hdb] at he <;>
          casesm* _ ∨ _ <;> subst_vars <;> rfl

theorem not_isTransport_filterMap {T : Trace κ} (h : ∀ e ∈ T, e.isTransport = false) :
    T.filterMap Event.sent = [] ∧ T.filterMap Event.closed = [] ∧
    T.filterMap Event.freedQuery = [] ∧ T.filterMap Event.freedResp = [] ∧
    T.filterMap Event.freedRequest = [] := by
  simp only [List.filterMap_eq_nil_iff]
  refine ⟨?_, ?_, ?_, ?_, ?_⟩ <;> intro e he <;> have := h e he <;> revert this <;>
    cases e <;> simp [Event.isTransport, Event.sent, Event.closed, Event.freedQuery,
      Event.freedResp, Event.freedRequest] <;>
    (rename_i slot _; cases slot <;> simp [Event.isTransport, Event.freedQuery, Event.freedResp])

theorem isUpdateCycle_not_isTransport (e : Event κ) (h : e.isUpdateCycle = true) :
    e.isTransport = false ∧ e.isForward = false ∧ e.copySrc = none := by
  revert h
  cases e <;> simp [Event.isUpdateCycle, Event.isTransport, Event.isForward, Event.copySrc]

theorem isForward_not_isTransport (e : Event κ) (h : (e.isForward || e.isPktNew) = true) :
    e.isTransport = false ∧ e.isUpdateCycle = false := by
  revert h
  cases e <;> simp [Event.isUpdateCycle, Event.isTransport, Event.isForward, Event.isPktNew]
  rename_i slot _
  cases slot <;> simp [Event.isTransport, Event.isForward]

theorem isPktNew_not_isForward (e : Event κ) (h : e.isPktNew = true) :
    e.isForward = false ∧ e.isTransport = false ∧ e.isUpdateCycle = false ∧
      e.copySrc = none := by
  revert h
  cases e <;> simp [Event.isUpdateCycle, Event.isTransport, Event.isForward, Event.isPktNew,
    Event.copySrc]

theorem isTransport_not_isForward (e : Event κ) (h : e.isTransport = true) :
    e.isForward = false ∧ e.isUpdateCycle = false ∧ e.copySrc = none := by
  revert h
  cases e <;> simp [Event.isUpdateCycle, Event.isTransport, Event.isForward, Event.copySrc]
  rename_i slot _
  cases slot <;> simp [Event.isTransport, Event.isForward]

theorem init_update_respones_spec (E : Env κ χ ρ) :
    ∀ (updates : List request_data) (tr : Trace κ),
      ∃ T, (init_update_respones E updates tr).trace = tr ++ T ∧
        (∀ e ∈ T, e.isPktNew = true) ∧
        (init_update_respones E updates tr).updates.map request_data.ident =
          updates.map request_data.ident ∧
        ((init_update_respones E updates tr).ret = KNOT_EOK →
          ∀ r ∈ (init_update_respones E updates tr).updates, r.resp.isSome = true)
  | [], tr => ⟨[], by simp [init_update_respones], by simp, rfl, by simp [init_update_respones]⟩
  | r :: rest, tr => by
    cases hp : E.knot_pkt_new tr KNOT_WIRE_MAX_PKTSIZE with
    | none =>
      refine ⟨[Event.knot_pkt_new false], ?_, ?_, ?_, ?_⟩
      · simp [init_update_respones, hp]
      · simp [Event.isPktNew]
      · simp [init_update_respones, hp, request_data.ident]
      · intro h
        simp only [init_update_respones, hp] at h
        exact absurd h E.enomem_ne
    | some resp =>
      obtain ⟨T, h1, h2, h3, h4⟩ := init_update_respones_spec E rest
        (tr ++ [Event.knot_pkt_new true])
      refine ⟨Event.knot_pkt_new true :: T, ?_, ?_, ?_, ?_⟩
      · simp [init_update_respones, hp, h1]
      · intro e he
        simp only [List.mem_cons] at he
        rcases he with he | he
        · subst he; rfl
        · exact h2 e he
      · simp only [init_update_respones, hp, Option.isSome_some, List.map_cons, h3]
        rfl
      · intro h
        simp only [init_update_respones, hp, Option.isSome_some] at h ⊢
        intro x hx
        simp only [List.mem_cons] at hx
        rcases hx with hx | hx
        · subst hx; rfl
        · exact h4 h x hx

theorem forward_request_spec (E : Env κ χ ρ) (zone : zone_t κ) (request : request_data)
    (tr : Trace κ) (resp : knot_pkt_t) (hresp : request.resp = some resp) :
    ∃ f T, forward_request E zone request tr = some f ∧ f.trace = tr ++ T ∧
      f.request.ident = request.ident ∧ f.request.resp.isSome = true ∧
      T.filterMap Event.copySrc = [request.query] ∧
      ∀ e ∈ T, (e.isForward || e.isPktNew) = true := by
  generalize hr : forward_request E zone request tr = r
  unfold forward_request at hr
  simp only [hresp] at hr
  split_ifs at hr <;> subst hr <;>
    refine ⟨_, _, rfl, by simp only [List.append_assoc]; rfl, ?_⟩ <;>
    simp [request_data.ident, Event.copySrc, Event.isForward, Event.isPktNew, hresp]

theorem forward_requests_spec (E : Env κ χ ρ) (zone : zone_t κ) :
    ∀ (reqs : List request_data) (tr : Trace κ), (∀ r ∈ reqs, r.resp.isSome = true) →
      ∃ fs T, forward_requests E zone reqs tr = some fs ∧ fs.trace = tr ++ T ∧
        fs.requests.map request_data.ident = reqs.map request_data.ident ∧
        (∀ r ∈ fs.requests, r.resp.isSome = true) ∧
        T.filterMap Event.copySrc = reqs.map request_data.query ∧
        ∀ e ∈ T, (e.isForward || e.isPktNew) = true
  | [], tr, _ => ⟨⟨[], tr⟩, [], rfl, by simp, rfl, by simp, rfl, by simp⟩
  | req :: rest, tr, h => by
    obtain ⟨resp, hresp⟩ :=
      Option.isSome_iff_exists.mp (h req (List.mem_cons_self _ _))
    obtain ⟨f, T1, hf, h1, h2, h3, h4, h5⟩ := forward_request_spec E zone req tr resp hresp
    obtain ⟨fs, T2, hfs, g1, g2, g3, g4, g5⟩ := forward_requests_spec E zone rest f.trace
      (fun r hm => h r (List.mem_cons_of_mem _ hm))
    refine ⟨⟨f.request :: fs.requests, fs.trace⟩, T1 ++ T2, ?_, ?_, ?_, ?_, ?_, ?_⟩
    · simp [forward_requests, hf, hfs]
    · simp [g1, h1]
    · simp [h2, g2]
    · intro x hx
      simp only [List.mem_cons] at hx
      rcases hx with hx | hx
      · subst hx; exact h3
      · exact g3 x hx
    · simp [h4, g4]
    · intro e he
      simp only [List.mem_append] at he
      rcases he with he | he
      · exact h5 e he
      · exact g5 e he

theorem send_update_responses_spec (E : Env κ χ ρ) :
    ∀ (reqs : List request_data) (tr : Trace κ),
      ∃ T, send_update_responses E reqs tr = tr ++ T ∧
        (∀ e ∈ T, e.isTransport = true) ∧
        T.filterMap Event.sent =
          reqs.filterMap (fun r => r.resp.map (fun p => (r.fd, p))) ∧
        T.filterMap Event.closed = reqs.map request_data.fd ∧
        T.filterMap Event.freedQuery = reqs.map (fun r => some r.query) ∧
        T.filterMap Event.freedResp = reqs.map request_data.resp ∧
        T.filterMap Event.freedRequest = reqs
  | [], tr => ⟨[], by simp [send_update_responses], by simp, rfl, rfl, rfl, rfl, rfl⟩
  | r :: rest, tr => by
    generalize hs : send_update_responses E (r :: rest) tr = out
    unfold send_update_responses at hs
    cases hresp : r.resp with
    | none =>
      simp only [hresp] at hs
      obtain ⟨T, h1, h2, h3, h4, h5, h6, h7⟩ := send_update_responses_spec E rest
        (tr ++ [Event.close r.fd, Event.knot_pkt_free PktSlot.request_query (some r.query),
          Event.knot_pkt_free PktSlot.request_resp none, Event.free r])
      rw [h1] at hs
      subst hs
      refine ⟨_, by simp only [List.append_assoc]; rfl, ?_, ?_, ?_, ?_, ?_, ?_⟩
      · intro e he
        simp only [List.mem_append, List.mem_cons, List.not_mem_nil, or_false] at he
        rcases he with (he | he | he | he) | he
        · subst he; rfl
        · subst he; rfl
        · subst he; rfl
        · subst he; rfl
        · exact h2 e he
      · simp [Event.sent, h3, hresp]
      · simp [Event.closed, h4]
      · simp [Event.freedQuery, h5]
      · simp [Event.freedResp, h6, hresp]
      · simp [Event.freedRequest, h7]
    | some resp =>
      simp only [hresp] at hs
      split_ifs at hs
      · obtain ⟨T, h1, h2, h3, h4, h5, h6, h7⟩ := send_update_responses_spec E rest
          (tr ++ [Event.tcp_send_msg r.fd resp] ++
            [Event.close r.fd, Event.knot_pkt_free PktSlot.request_query (some r.query),
            Event.knot_pkt_free PktSlot.request_resp (some resp), Event.free r])
        rw [h1] at hs
        subst hs
        refine ⟨_, by simp only [List.append_assoc]; rfl, ?_, ?_, ?_, ?_, ?_, ?_⟩
        · intro e he
          simp only [List.mem_append, List.mem_cons, List.not_mem_nil, or_false] at he
          rcases he with he | (he | he | he | he) | he
          · subst he; rfl
          · subst he; rfl
          · subst he; rfl
          · subst he; rfl
          · subst he; rfl
          · exact h2 e he
        · simp [Event.sent, h3, hresp]
        · simp [Event.closed, h4]
        · simp [Event.freedQuery, h5]
        · simp [Event.freedResp, h6, hresp]
        · simp [Event.freedRequest, h7]
      · obtain ⟨T, h1, h2, h3, h4, h5, h6, h7⟩ := send_update_responses_spec E rest
          (tr ++ [Event.udp_send_msg r.fd resp r.remote] ++
            [Event.close r.fd, Event.knot_pkt_free PktSlot.request_query (some r.query),
            Event.knot_pkt_free PktSlot.request_resp (some resp), Event.free r])
        rw [h1] at hs
        subst hs
        refine ⟨_, by simp only [List.append_assoc]; rfl, ?_, ?_, ?_, ?_, ?_, ?_⟩
        · intro e he
          simp only [List.mem_append, List.mem_cons, List.not_mem_nil, or_false] at he
          rcases he with he | (he | he | he | he) | he
          · subst he; rfl
          · subst he; rfl
          · subst he; rfl
          · subst he; rfl
          · subst he; rfl
          · exact h2 e he
        · simp [Event.sent, h3, hresp]
        · simp [Event.closed, h4]
        · simp [Event.freedQuery, h5]
        · simp [Event.freedResp, h6, hresp]
        · simp [Event.freedRequest, h7]

theorem updates_execute_spec (E : Env κ χ ρ) (zone : zone_t κ) (tr : Trace κ)
    (hinit : (init_update_respones E zone.ddns_queue tr).ret = KNOT_EOK) :
    ∃ out final P T, updates_execute E zone tr = some out ∧ out.ret = KNOT_EOK ∧
      out.trace = tr ++ (P ++ T) ∧
      final.map request_data.ident = zone.ddns_queue.map request_data.ident ∧
      (∀ r ∈ final, r.resp.isSome = true) ∧
      (∀ e ∈ T, e.isTransport = true) ∧
      T.filterMap Event.sent = final.filterMap (fun r => r.resp.map (fun p => (r.fd, p))) ∧
      T.filterMap Event.closed = final.map request_data.fd ∧
      T.filterMap Event.freedQuery = final.map (fun r => some r.query) ∧
      T.filterMap Event.freedResp = final.map request_data.resp ∧
      T.filterMap Event.freedRequest = final ∧
      (zone.ddns_queue = [] → P = [] ∧ T = []) ∧
      ((zone_master zone).isSome = true →
        P.filterMap Event.copySrc = zone.ddns_queue.map request_data.query ∧
        (∀ e ∈ P, (e.isForward || e.isPktNew) = true) ∧
        out.zone.contents = zone.contents) ∧
      ((zone_master zone).isSome = false →
        ∀ e ∈ P, (e.isUpdateCycle || e.isPktNew) = true) := by
  by_cases hq : zone.ddns_queue = []
  · refine ⟨⟨KNOT_EOK, { zone with ddns_queue := [] }, tr⟩, [], [], [], ?_, rfl, by simp,
      by simp [hq], by simp, by simp, rfl, rfl, rfl, rfl, rfl, fun _ => ⟨rfl, rfl⟩,
      fun _ => ⟨by simp [hq], by simp, rfl⟩, fun _ => by simp⟩
    simp [updates_execute, zone_update_dequeue, hq]
  · obtain ⟨Ti, i1, i2, i3, i4⟩ := init_update_respones_spec E zone.ddns_queue tr
    have i4 := i4 hinit
    have hemp : zone.ddns_queue.isEmpty = false := by
      cases hz : zone.ddns_queue with
      | nil => exact absurd hz hq
      | cons a l => rfl
    by_cases hm : (zone_master zone).isSome = true
    · obtain ⟨fs, Tf, f1, f2, f3, f4, f5, f6⟩ := forward_requests_spec E
        { zone with ddns_queue := [] }
        (init_update_respones E zone.ddns_queue tr).updates
        (init_update_respones E zone.ddns_queue tr).trace i4
      obtain ⟨T, s1, s2, s3, s4, s5, s6, s7⟩ :=
        send_update_responses_spec E fs.requests fs.trace
      have hm1 : (zone_master { zone with ddns_queue := [] }).isSome = true := hm
      refine ⟨⟨KNOT_EOK, { zone with ddns_queue := [] }, send_update_responses E fs.requests
        fs.trace⟩, fs.requests, Ti ++ Tf, T, ?_, rfl, ?_, f3.trans i3, f4, s2, s3, s4, s5,
        s6, s7, fun h => absurd h hq, fun _ => ⟨?_, ?_, rfl⟩,
        fun h => absurd (h.symm.trans hm) Bool.false_ne_true⟩
      · simp [updates_execute, zone_update_dequeue, hemp, hinit, hm1, f1]
      · show send_update_responses E fs.requests fs.trace = _
        rw [s1, f2, i1]
        simp
      · have hTi : Ti.filterMap Event.copySrc = [] := by
          rw [List.filterMap_eq_nil_iff]
          exact fun e he => (isPktNew_not_isForward e (i2 e he)).2.2.2
        have hq1 : (init_update_respones E zone.ddns_queue tr).updates.map request_data.query =
            zone.ddns_queue.map request_data.query := by
          have := congrArg (List.map (fun x : Int × Nat × knot_pkt_t => x.2.2)) i3
          simpa [List.map_map, Function.comp_def, request_data.ident] using this
        rw [List.filterMap_append, hTi, f5, hq1, List.nil_append]
      · intro e he
        simp only [List.mem_append] at he
        rcases he with he | he
        · simp [i2 e he]
        · exact f6 e he
    · have hm0 : (zone_master zone).isSome = false := by simpa using hm
      obtain ⟨ret, zone1, reqs1, sfx, N, hpath, hN, hreq⟩ := process_requests_outcome E
        { zone with ddns_queue := [] }
        (init_update_respones E zone.ddns_queue tr).updates
        (init_update_respones E zone.ddns_queue tr).trace i4
      obtain ⟨p1, p2⟩ := normalPath_requests hpath i4
      have p3 := normalPath_isUpdateCycle hpath
      obtain ⟨T, s1, s2, s3, s4, s5, s6, s7⟩ :=
        send_update_responses_spec E reqs1
          ((init_update_respones E zone.ddns_queue tr).trace ++ (sfx ++ N))
      have hm1 : (zone_master { zone with ddns_queue := [] }).isSome = false := hm0
      refine ⟨⟨KNOT_EOK, zone1, send_update_responses E reqs1
          ((init_update_respones E zone.ddns_queue tr).trace ++ (sfx ++ N))⟩, reqs1,
        Ti ++ (sfx ++ N), T, ?_, rfl, ?_, p1.trans i3, p2, s2, s3, s4, s5,
        s6, s7, fun h => absurd h hq,
        fun h => absurd (hm0.symm.trans h) Bool.false_ne_true, fun _ => ?_⟩
      · simp [updates_execute, zone_update_dequeue, hemp, hinit, hm1, hreq]
      · show send_update_responses E reqs1 _ = _
        rw [s1, i1]
        simp
      · intro e he
        simp only [List.mem_append] at he
        rcases he with he | he | he
        · simp [i2 e he]
        · simp [p3 e he]
        · rw [hN e he]; rfl

theorem length_filterMap_resp :
    ∀ l : List request_data, (∀ r ∈ l, r.resp.isSome = true) →
      (l.filterMap (fun r => r.resp.map (fun p => (r.fd, p)))).length = l.length
  | [], _ => rfl
  | r :: rest, h => by
    obtain ⟨p, hp⟩ := Option.isSome_iff_exists.mp (h r (List.mem_cons_self _ _))
    have ih := length_filterMap_resp rest (fun x hx => h x (List.mem_cons_of_mem _ hx))
    simp [List.filterMap_cons, hp, ih]

theorem updates_execute_prefix_not_isTransport {zone : zone_t κ} {P : Trace κ}
    (h1 : (zone_master zone).isSome = true → ∀ e ∈ P, (e.isForward || e.isPktNew) = true)
    (h2 : (zone_master zone).isSome = false →
      ∀ e ∈ P, (e.isUpdateCycle || e.isPktNew) = true) :
    ∀ e ∈ P, e.isTransport = false := by
  intro e he
  cases hm : (zone_master zone).isSome with
  | true => exact (isForward_not_isTransport e (h1 hm e he)).1
  | false =>
    have := h2 hm e he
    rw [Bool.or_eq_true] at this
    rcases this with h | h
    · exact (isUpdateCycle_not_isTransport e h).1
    · exact (isPktNew_not_isForward e h).2.1

theorem process_normal_no_change (E : Env κ χ ρ) (zone : zone_t κ)
    (reqs : List request_data) (tr : Trace κ) (w : WalkResult κ χ)
    (h1 : (E.changeset_init tr ChId.ddns).ret = KNOT_EOK)
    (hw : process_normal_walk E zone reqs
      ⟨zone.contents, (E.changeset_init tr ChId.ddns).change⟩
      (tr ++ [Event.changeset_init ChId.ddns (E.changeset_init tr ChId.ddns).ret]) = some w)
    (hret : w.ret = KNOT_EOK) (hce : E.changeset_empty w.update.change = true) :
    process_normal E zone reqs tr =
      some ⟨KNOT_EOK, zone, w.requests, w.trace ++ [Event.changeset_clear ChId.ddns]⟩ := by
  unfold process_normal
  simp only [hw]
  simp [h1, hret, hce]

theorem normalPath_no_notify {E : Env κ χ ρ} {zone zone1 : zone_t κ}
    {reqs reqs1 : List request_data} {ret : Int} {sfx : Trace κ}
    (hpath : NormalPath E zone reqs ret zone1 reqs1 sfx) :
    ∀ t, Event.zone_events_schedule ZoneEvent.NOTIFY t ∉ sfx := by
  intro t
  cases hpath with
  | init_failed _ h => simp
  | request_failed _ h W reqs2 hW =>
    have w := not_mem_of_flag (walkFailed_isWalk hW)
      (Event.zone_events_schedule ZoneEvent.NOTIFY t) rfl
    simp [w]
  | no_change W hW =>
    have w := not_mem_of_flag (walkOk_isWalk hW)
      (Event.zone_events_schedule ZoneEvent.NOTIFY t) rfl
    simp [w]
  | apply_failed _ h W hW =>
    have w := not_mem_of_flag (walkOk_isWalk hW)
      (Event.zone_events_schedule ZoneEvent.NOTIFY t) rfl
    simp [w]
  | sec_init_failed _ h W hW new_contents hd =>
    have w := not_mem_of_flag (walkOk_isWalk hW)
      (Event.zone_events_schedule ZoneEvent.NOTIFY t) rfl
    simp [w]
  | sign_failed _ h W hW new_contents hd S hS hf hu =>
    have w := not_mem_of_flag (walkOk_isWalk hW)
      (Event.zone_events_schedule ZoneEvent.NOTIFY t) rfl
    have s := not_mem_of_flag hS (Event.zone_events_schedule ZoneEvent.NOTIFY t) rfl
    simp [w, s]
  | store_failed _ h W hW new_contents D hD =>
    have w := not_mem_of_flag (walkOk_isWalk hW)
      (Event.zone_events_schedule ZoneEvent.NOTIFY t) rfl
    have s := not_mem_of_flag (secPassed_isSecBlock hD)
      (Event.zone_events_schedule ZoneEvent.NOTIFY t) rfl
    by_cases hdn : zone.conf.dnssec_enable = true <;> simp [w, s, hdn]
  | committed W hW new_contents D hD =>
    have w := not_mem_of_flag (walkOk_isWalk hW)
      (Event.zone_events_schedule ZoneEvent.NOTIFY t) rfl
    have s := not_mem_of_flag (secPassed_isSecBlock hD)
      (Event.zone_events_schedule ZoneEvent.NOTIFY t) rfl
    by_cases hdn : zone.conf.dnssec_enable = true <;>
      by_cases hdb : zone.conf.dbsync_timeout = 0 <;> simp [w, s, hdn, hdb]

theorem publishedAfter_append (c : κ) (A B : Trace κ) :
    publishedAfter c (A ++ B) = publishedAfter (publishedAfter c A) B := by
  induction A generalizing c with
  | nil => rfl
  | cons e A ih => cases e <;> simp [publishedAfter, ih]

theorem publishedAfter_of_no_switch (c : κ) (A : Trace κ)
    (h : ∀ e ∈ A, e.isSwitch = false) : publishedAfter c A = c := by
  induction A with
  | nil => rfl
  | cons e A ih =>
    have h1 := h e (List.mem_cons_self _ _)
    have h2 := ih (fun x hx => h x (List.mem_cons_of_mem _ hx))
    cases e <;> simp_all [publishedAfter, Event.isSwitch]

theorem split_at_flag_unique {α : Type} (p : α → Bool) {X Y P Q : List α} {a c : α}
    (hX : ∀ e ∈ X, p e = false) (hY : ∀ e ∈ Y, p e = false)
    (hc : p c = true) (h : X ++ a :: Y = P ++ c :: Q) :
    P = X ∧ c = a ∧ Q = Y := by
  induction X generalizing P with
  | nil =>
    cases P with
    | nil =>
      simp only [List.nil_append, List.cons.injEq] at h
      exact ⟨rfl, h.1.symm, h.2.symm⟩
    | cons b P =>
      simp only [List.nil_append, List.cons_append, List.cons.injEq] at h
      have : c ∈ Y := by rw [h.2]; simp
      rw [hY c this] at hc
      exact absurd hc Bool.false_ne_true
  | cons x X ih =>
    cases P with
    | nil =>
      simp only [List.nil_append, List.cons_append, List.cons.injEq] at h
      have := hX x (List.mem_cons_self _ _)
      rw [h.1, hc] at this
      exact absurd this.symm Bool.false_ne_true
    | cons b P =>
      simp only [List.cons_append, List.cons.injEq] at h
      obtain ⟨h1, h2, h3⟩ := ih (fun e he => hX e (List.mem_cons_of_mem _ he)) h.2
      exact ⟨by rw [h.1, h1], h2, h3⟩

theorem isWalk_not_free_switch (e : Event κ) (h : e.isWalk = true) :
    e.isFreeZone = false ∧ e.isSwitch = false := by
  cases e <;> simp_all [Event.isWalk, Event.isFreeZone, Event.isSwitch]

theorem isSecBlock_not_free_switch (e : Event κ) (h : e.isSecBlock = true) :
    e.isFreeZone = false ∧ e.isSwitch = false := by
  cases e <;> simp_all [Event.isSecBlock, Event.isSign, Event.isFreeZone, Event.isSwitch]

theorem normalPath_free_cases {E : Env κ χ ρ} {zone zone1 : zone_t κ}
    {reqs reqs1 : List request_data} {ret : Int} {sfx : Trace κ}
    (hpath : NormalPath E zone reqs ret zone1 reqs1 sfx) :
    (zone1 = zone ∧ ∀ e ∈ sfx, e.isFreeZone = false ∧ e.isSwitch = false) ∨
    (ret ≠ KNOT_EOK ∧ zone1 = zone ∧ ∃ X new_contents Y,
      sfx = X ++ Event.update_free_zone new_contents :: Y ∧
      Event.apply_changeset KNOT_EOK (some new_contents) ∈ X ∧
      (∀ e ∈ X, e.isFreeZone = false ∧ e.isSwitch = false) ∧
      (∀ e ∈ Y, e.isFreeZone = false ∧ e.isSwitch = false)) ∨
    (ret = KNOT_EOK ∧ ∃ A new_contents B C,
      zone1 = { zone with contents := new_contents } ∧
      sfx = A ++ Event.zone_switch_contents new_contents zone.contents ::
        Event.synchronize_rcu :: B ++ Event.update_free_zone zone.contents :: C ∧
      Event.apply_changeset KNOT_EOK (some new_contents) ∈ A ∧
      (∀ e ∈ A, e.isFreeZone = false ∧ e.isSwitch = false) ∧
      (∀ e ∈ B, e.isFreeZone = false ∧ e.isSwitch = false) ∧
      (∀ e ∈ C, e.isFreeZone = false ∧ e.isSwitch = false)) := by
  cases hpath with
  | init_failed _ h =>
    exact Or.inl ⟨rfl, by simp [Event.isFreeZone, Event.isSwitch]⟩
  | request_failed _ h W reqs2 hW =>
    have hw := fun e he => isWalk_not_free_switch e (walkFailed_isWalk hW e he)
    refine Or.inl ⟨rfl, ?_⟩
    intro e he
    simp only [List.cons_append, List.mem_cons, List.mem_append, List.mem_singleton,
      List.not_mem_nil, or_false] at he
    casesm* _ ∨ _ <;> first | exact hw e ‹_› | (subst_vars; exact ⟨rfl, rfl⟩)
  | no_change W hW =>
    have hw := fun e he => isWalk_not_free_switch e (walkOk_isWalk hW e he)
    refine Or.inl ⟨rfl, ?_⟩
    intro e he
    simp only [List.cons_append, List.mem_cons, List.mem_append, List.mem_singleton,
      List.not_mem_nil, or_false] at he
    casesm* _ ∨ _ <;> first | exact hw e ‹_› | (subst_vars; exact ⟨rfl, rfl⟩)
  | apply_failed _ h W hW =>
    have hw := fun e he => isWalk_not_free_switch e (walkOk_isWalk hW e he)
    refine Or.inl ⟨rfl, ?_⟩
    intro e he
    simp only [List.cons_append, List.mem_cons, List.mem_append, List.mem_singleton,
      List.not_mem_nil, or_false] at he
    casesm* _ ∨ _ <;> first | exact hw e ‹_› | (subst_vars; exact ⟨rfl, rfl⟩)
  | sec_init_failed _ h W hW new_contents hd =>
    have hw := fun e he => isWalk_not_free_switch e (walkOk_isWalk hW e he)
    refine Or.inl ⟨rfl, ?_⟩
    intro e he
    simp only [List.cons_append, List.mem_cons, List.mem_append, List.mem_singleton,
      List.not_mem_nil, or_false] at he
    casesm* _ ∨ _ <;> first | exact hw e ‹_› | (subst_vars; exact ⟨rfl, rfl⟩)
  | sign_failed _ h W hW new_contents hd S hS hf hu =>
    have hw := fun e he => isWalk_not_free_switch e (walkOk_isWalk hW e he)
    have hs := fun e he => isSecBlock_not_free_switch e (isSign_isSecBlock hS e he)
    refine Or.inr (Or.inl ⟨h, rfl, Event.changeset_init ChId.ddns KNOT_EOK :: W ++
        [Event.apply_changeset KNOT_EOK (some new_contents),
         Event.changeset_init ChId.sec KNOT_EOK] ++ S ++ [Event.update_rollback ChId.ddns],
      new_contents, [Event.changeset_clear ChId.ddns], by simp, by simp, ?_, ?_⟩)
    · intro e he
      simp only [List.cons_append, List.mem_cons, List.mem_append, List.mem_singleton,
        List.not_mem_nil, or_false] at he
      rcases he with rfl | (((he | rfl | rfl) | he) | rfl)
      · exact ⟨rfl, rfl⟩
      · exact hw e he
      · exact ⟨rfl, rfl⟩
      · exact ⟨rfl, rfl⟩
      · exact hs e he
      · exact ⟨rfl, rfl⟩
    · simp [Event.isFreeZone, Event.isSwitch]
  | store_failed _ h W hW new_contents D hD =>
    have hw := fun e he => isWalk_not_free_switch e (walkOk_isWalk hW e he)
    have hs := fun e he => isSecBlock_not_free_switch e (secPassed_isSecBlock hD e he)
    refine Or.inr (Or.inl ⟨h, rfl, Event.changeset_init ChId.ddns KNOT_EOK :: W ++
        [Event.apply_changeset KNOT_EOK (some new_contents)] ++ D ++
        [Event.zone_change_store ret, Event.update_rollback ChId.ddns],
      new_contents, Event.changeset_clear ChId.ddns ::
        (if zone.conf.dnssec_enable then [Event.changeset_clear ChId.sec] else []),
      by simp, by simp, ?_, ?_⟩)
    · intro e he
      simp only [List.cons_append, List.mem_cons, List.mem_append, List.mem_singleton,
        List.not_mem_nil, or_false] at he
      rcases he with rfl | (((he | rfl) | he) | rfl | rfl)
      · exact ⟨rfl, rfl⟩
      · exact hw e he
      · exact ⟨rfl, rfl⟩
      · exact hs e he
      · exact ⟨rfl, rfl⟩
      · exact ⟨rfl, rfl⟩
    · by_cases hdn : zone.conf.dnssec_enable = true <;>
        simp [Event.isFreeZone, Event.isSwitch, hdn]
  | committed W hW new_contents D hD =>
    have hw := fun e he => isWalk_not_free_switch e (walkOk_isWalk hW e he)
    have hs := fun e he => isSecBlock_not_free_switch e (secPassed_isSecBlock hD e he)
    refine Or.inr (Or.inr ⟨rfl, Event.changeset_init ChId.ddns KNOT_EOK :: W ++
        [Event.apply_changeset KNOT_EOK (some new_contents)] ++ D ++
        [Event.zone_change_store KNOT_EOK],
      new_contents,
      (if zone.conf.dnssec_enable then
          [Event.update_cleanup ChId.sec, Event.changeset_clear ChId.sec]
         else []),
      [Event.update_cleanup ChId.ddns, Event.changeset_clear ChId.ddns] ++
        (if zone.conf.dbsync_timeout = 0 then
          [Event.zone_events_schedule ZoneEvent.FLUSH ZONE_EVENT_NOW]
         else []),
      rfl, by simp, by simp, ?_, ?_, ?_⟩)
    · intro e he
      simp only [List.cons_append, List.mem_cons, List.mem_append, List.mem_singleton,
        List.not_mem_nil, or_false] at he
      rcases he with rfl | (((he | rfl) | he) | rfl)
      · exact ⟨rfl, rfl⟩
      · exact hw e he
      · exact ⟨rfl, rfl⟩
      · exact hs e he
      · exact ⟨rfl, rfl⟩
    · by_cases hdn : zone.conf.dnssec_enable = true <;>
        simp [Event.isFreeZone, Event.isSwitch, hdn]
    · by_cases hdb : zone.conf.dbsync_timeout = 0 <;>
        simp [Event.isFreeZone, Event.isSwitch, hdb]

theorem section_add_forall (P : knot_rrset_t → Prop) (sec : List knot_rrset_t)
    (rrset : knot_rrset_t) (hs : ∀ e ∈ sec, P e) (hr : P rrset)
    (hu : ∀ e ∈ sec, P { e with rrs := rdata_union e.rrs rrset.rrs }) :
    ∀ e ∈ section_add sec rrset, P e := by
  induction sec with
  | nil => simpa [section_add] using hr
  | cons a rest ih =>
    intro e he
    unfold section_add at he
    split_ifs at he with hk
    · simp only [List.mem_cons] at he
      rcases he with rfl | he
      · exact hu a (List.mem_cons_self _ _)
      · exact hs e (List.mem_cons_of_mem _ he)
    · simp only [List.mem_cons] at he
      rcases he with rfl | he
      · exact hs e (List.mem_cons_self _ _)
      · exact ih (fun x hx => hs x (List.mem_cons_of_mem _ hx))
          (fun x hx => hu x (List.mem_cons_of_mem _ hx)) e he

theorem foldl_section_add_forall (P : knot_rrset_t → Prop) (more : List knot_rrset_t)
    (hu : ∀ e r : knot_rrset_t, P e → P { e with rrs := rdata_union e.rrs r.rrs }) :
    ∀ sec : List knot_rrset_t, (∀ e ∈ sec, P e) → (∀ e ∈ more, P e) →
      ∀ e ∈ more.foldl section_add sec, P e := by
  induction more with
  | nil => intro sec hs _; simpa using hs
  | cons r more ih =>
    intro sec hs hm
    simp only [List.foldl_cons]
    exact ih _ (section_add_forall P sec r hs (hm r (List.mem_cons_self _ _))
      (fun e he => hu e r (hs e he))) (fun e he => hm e (List.mem_cons_of_mem _ he))

theorem section_cancel_mem {sec other : List knot_rrset_t} {e : knot_rrset_t}
    (h : e ∈ section_cancel sec other) :
    knot_rrset_empty e = false ∧ ∃ e0 ∈ sec, e.owner = e0.owner ∧ e.type = e0.type ∧
      e.rrs = e0.rrs.filter (fun d => !section_has other e0.owner e0.type d) := by
  unfold section_cancel at h
  simp only [List.mem_filter, List.mem_map, Bool.not_eq_true'] at h
  obtain ⟨⟨e0, he0, rfl⟩, hne⟩ := h
  exact ⟨hne, e0, he0, rfl, rfl, rfl⟩

theorem rdata_union_empty (a b : List (List Nat)) (h : a.isEmpty = false) :
    (rdata_union a b).isEmpty = false := by
  cases a with
  | nil => simp at h
  | cons x a => simp [rdata_union]

theorem changeset_reachable_valid {ch : changeset_t} (h : changeset_reachable ch) :
    ∀ e ∈ ch.add ++ ch.remove, knot_rrset_empty e = false := by
  have hu : ∀ e r : knot_rrset_t, knot_rrset_empty e = false →
      knot_rrset_empty { e with rrs := rdata_union e.rrs r.rrs } = false :=
    fun e r he => rdata_union_empty e.rrs r.rrs he
  induction h with
  | new apex => simp
  | add alloc ch rrset h hr ih =>
    simp only [List.forall_mem_append] at ih ⊢
    cases alloc
    · exact ih
    · exact ⟨section_add_forall _ ch.add rrset ih.1 hr (fun e he => hu e rrset (ih.1 e he)),
        ih.2⟩
  | rem alloc ch rrset h hr ih =>
    simp only [List.forall_mem_append] at ih ⊢
    cases alloc
    · exact ih
    · exact ⟨ih.1,
        section_add_forall _ ch.remove rrset ih.2 hr (fun e he => hu e rrset (ih.2 e he))⟩
  | merge alloc first second h1 h2 ih1 _ =>
    simp only [List.forall_mem_append] at ih1 ⊢
    cases alloc
    · exact ih1
    · exact ⟨foldl_section_add_forall _ _ hu _ (fun e he => (section_cancel_mem he).1)
          (fun e he => (section_cancel_mem he).1),
        foldl_section_add_forall _ _ hu _ (fun e he => (section_cancel_mem he).1)
          (fun e he => (section_cancel_mem he).1)⟩
  | clear ch h _ => simp [changeset_clear]

theorem changeset_iter_collect_some (l : List knot_rrset_t)
    (hl : ∀ r ∈ l, knot_rrset_empty r = false) :
    ∀ fuel, l.length + 1 ≤ fuel → changeset_iter_collect fuel ⟨l⟩ = some l := by
  induction l with
  | nil =>
    intro fuel hf
    obtain ⟨n, rfl⟩ : ∃ n, fuel = n + 1 := ⟨fuel - 1, by omega⟩
    rfl
  | cons r l ih =>
    intro fuel hf
    obtain ⟨n, rfl⟩ : ∃ n, fuel = n + 1 := ⟨fuel - 1, by omega⟩
    have hr := hl r (List.mem_cons_self _ _)
    simp only [changeset_iter_collect, changeset_iter_next, hr, Bool.false_eq_true, if_false]
    rw [ih (fun x hx => hl x (List.mem_cons_of_mem _ hx)) n
      (by simp only [List.length_cons] at hf; omega)]
    rfl

theorem changeset_iter_collect_none (l : List knot_rrset_t)
    (hl : ∀ r ∈ l, knot_rrset_empty r = false) :
    ∀ fuel, fuel ≤ l.length → changeset_iter_collect fuel ⟨l⟩ = none := by
  induction l with
  | nil =>
    intro fuel hf
    obtain rfl : fuel = 0 := by simpa using hf
    rfl
  | cons r l ih =>
    intro fuel hf
    cases fuel with
    | zero => rfl
    | succ n =>
      have hr := hl r (List.mem_cons_self _ _)
      simp only [changeset_iter_collect, changeset_iter_next, hr, Bool.false_eq_true, if_false]
      rw [ih (fun x hx => hl x (List.mem_cons_of_mem _ hx)) n
        (by simp only [List.length_cons] at hf; omega)]
      rfl

theorem changeset_iter_order_perm (sorted : Bool) (l : List knot_rrset_t) :
    (changeset_iter_order sorted l).Perm l := by
  cases sorted
  · exact List.Perm.refl _
  · exact List.perm_insertionSort _ _

theorem changeset_reachable_test_ch : changeset_reachable test_ch :=
  changeset_reachable.add true _ other_rr
    (changeset_reachable.add true _ apex_spf_rr
      (changeset_reachable.rem true _ apex_txt_rr
        (changeset_reachable.add true _ apex_txt_rr (changeset_reachable.new _) rfl) rfl)
      rfl) rfl

theorem filter_orderedInsert_owner (o : knot_dname_t) (a : knot_rrset_t) :
    ∀ l : List knot_rrset_t,
      (l.orderedInsert rrset_owner_le a).filter
          (fun r => decide (dname_canonical r.owner = dname_canonical o)) =
        (a :: l).filter (fun r => decide (dname_canonical r.owner = dname_canonical o)) := by
  intro l
  induction l with
  | nil => rfl
  | cons b l ih =>
    simp only [List.orderedInsert]
    split_ifs with hab
    · rfl
    · -- `b` sorts strictly before `a`, so they are entries of different owners
      have hne : dname_canonical a.owner ≠ dname_canonical b.owner := by
        intro heq
        exact hab (by unfold rrset_owner_le; rw [heq])
      rw [List.filter_cons, ih]
      by_cases ha : dname_canonical a.owner = dname_canonical o
      · have hb : dname_canonical b.owner ≠ dname_canonical o := fun h => hne (ha.trans h.symm)
        simp [List.filter_cons, ha, hb]
      · by_cases hb : dname_canonical b.owner = dname_canonical o <;>
          simp [List.filter_cons, ha, hb]

theorem filter_insertionSort_owner (o : knot_dname_t) (l : List knot_rrset_t) :
    (l.insertionSort rrset_owner_le).filter
        (fun r => decide (dname_canonical r.owner = dname_canonical o)) =
      l.filter (fun r => decide (dname_canonical r.owner = dname_canonical o)) := by
  induction l with
  | nil => rfl
  | cons a l ih =>
    rw [List.insertionSort, filter_orderedInsert_owner, List.filter_cons, List.filter_cons, ih]

theorem section_has_eq_true {sec : List knot_rrset_t} {owner : knot_dname_t} {type : Nat}
    {rdata : List Nat} :
    section_has sec owner type rdata = true ↔
      ∃ e ∈ sec, dname_canonical e.owner = dname_canonical owner ∧ e.type = type ∧
        rdata ∈ e.rrs := by
  unfold section_has
  simp only [List.any_eq_true, Bool.and_eq_true, decide_eq_true_eq, List.elem_iff,
    and_assoc]

theorem section_has_nil (owner : knot_dname_t) (type : Nat) (rdata : List Nat) :
    section_has [] owner type rdata = false := rfl

theorem section_has_cons (a : knot_rrset_t) (sec : List knot_rrset_t) (owner : knot_dname_t)
    (type : Nat) (rdata : List Nat) :
    section_has (a :: sec) owner type rdata = true ↔
      (dname_canonical a.owner = dname_canonical owner ∧ a.type = type ∧ rdata ∈ a.rrs) ∨
      section_has sec owner type rdata = true := by
  simp only [section_has_eq_true, List.mem_cons, exists_eq_or_imp]

theorem section_has_congr (sec : List knot_rrset_t) {o1 o2 : knot_dname_t}
    (h : dname_canonical o1 = dname_canonical o2) (type : Nat) (rdata : List Nat) :
    section_has sec o1 type rdata = section_has sec o2 type rdata := by
  unfold section_has
  rw [h]

theorem mem_rdata_union {a b : List (List Nat)} {d : List Nat} :
    d ∈ rdata_union a b ↔ d ∈ a ∨ d ∈ b := by
  unfold rdata_union
  simp only [List.mem_append, List.mem_filter, Bool.not_eq_true']
  constructor
  · rintro (h | ⟨h, -⟩)
    · exact Or.inl h
    · exact Or.inr h
  · intro h
    by_cases ha : d ∈ a
    · exact Or.inl ha
    · rcases h with h | h
      · exact absurd h ha
      · exact Or.inr ⟨h, by simpa using ha⟩

theorem section_has_section_add (sec : List knot_rrset_t) (rrset : knot_rrset_t)
    (owner : knot_dname_t) (type : Nat) (rdata : List Nat) :
    section_has (section_add sec rrset) owner type rdata = true ↔
      section_has sec owner type rdata = true ∨
      (dname_canonical rrset.owner = dname_canonical owner ∧ rrset.type = type ∧
        rdata ∈ rrset.rrs) := by
  induction sec with
  | nil =>
    simp [section_add, section_has_cons, section_has_nil]
  | cons a rest ih =>
    unfold section_add
    split_ifs with hk
    · simp only [rrset_same_entry, Bool.and_eq_true, decide_eq_true_eq] at hk
      obtain ⟨hk1, hk2⟩ := hk
      simp only [section_has_cons, mem_rdata_union]
      constructor
      · rintro (⟨h1, h2, h3 | h3⟩ | h)
        · exact Or.inl (Or.inl ⟨h1, h2, h3⟩)
        · exact Or.inr ⟨hk1.symm.trans h1, hk2.symm.trans h2, h3⟩
        · exact Or.inl (Or.inr h)
      · rintro ((⟨h1, h2, h3⟩ | h) | ⟨h1, h2, h3⟩)
        · exact Or.inl ⟨h1, h2, Or.inl h3⟩
        · exact Or.inr h
        · exact Or.inl ⟨hk1.trans h1, hk2.trans h2, Or.inr h3⟩
    · rw [section_has_cons, section_has_cons, ih]
      tauto

theorem section_has_foldl_section_add (more : List knot_rrset_t) (owner : knot_dname_t)
    (type : Nat) (rdata : List Nat) :
    ∀ sec : List knot_rrset_t,
      section_has (more.foldl section_add sec) owner type rdata = true ↔
        section_has sec owner type rdata = true ∨ section_has more owner type rdata = true := by
  induction more with
  | nil => intro sec; simp [section_has_nil]
  | cons r more ih =>
    intro sec
    rw [List.foldl_cons, ih, section_has_section_add, section_has_cons]
    tauto

theorem section_has_section_cancel (sec other : List knot_rrset_t) (owner : knot_dname_t)
    (type : Nat) (rdata : List Nat) :
    section_has (section_cancel sec other) owner type rdata = true ↔
      section_has sec owner type rdata = true ∧ section_has other owner type rdata = false := by
  constructor
  · intro h
    obtain ⟨e, he, h1, h2, h3⟩ := section_has_eq_true.mp h
    obtain ⟨-, e0, he0, ho, ht, hr⟩ := section_cancel_mem he
    rw [hr, List.mem_filter] at h3
    rw [ho] at h1
    rw [ht] at h2
    refine ⟨section_has_eq_true.mpr ⟨e0, he0, h1, h2, h3.1⟩, ?_⟩
    have := h3.2
    rw [section_has_congr other h1, h2] at this
    simpa using this
  · rintro ⟨h, hn⟩
    obtain ⟨e, he, h1, h2, h3⟩ := section_has_eq_true.mp h
    have hn2 : section_has other e.owner e.type rdata = false := by
      rw [section_has_congr other h1, h2]; exact hn
    refine section_has_eq_true.mpr
      ⟨{ e with rrs := e.rrs.filter (fun d => !section_has other e.owner e.type d) }, ?_, h1, h2,
        ?_⟩
    · unfold section_cancel
      simp only [List.mem_filter, List.mem_map, Bool.not_eq_true']
      refine ⟨⟨e, he, rfl⟩, ?_⟩
      simp only [knot_rrset_empty, List.isEmpty_eq_false]
      exact List.ne_nil_of_mem (List.mem_filter.mpr ⟨h3, by simp [hn2]⟩)
    · exact List.mem_filter.mpr ⟨h3, by simp [hn2]⟩

theorem changeset_merge_records (first second : changeset_t) (owner : knot_dname_t)
    (type : Nat) (rdata : List Nat) :
    (section_has (changeset_merge true first second).ch.add owner type rdata = true ↔
      (section_has first.add owner type rdata = true ∧
        section_has second.remove owner type rdata = false) ∨
      (section_has second.add owner type rdata = true ∧
        section_has first.remove owner type rdata = false)) ∧
    (section_has (changeset_merge true first second).ch.remove owner type rdata = true ↔
      (section_has first.remove owner type rdata = true ∧
        section_has second.add owner type rdata = false) ∨
      (section_has second.remove owner type rdata = true ∧
        section_has first.add owner type rdata = false)) := by
  constructor <;>
    simp only [changeset_merge, if_true, section_has_foldl_section_add,
      section_has_section_cancel]

theorem section_cancel_owner {sec other : List knot_rrset_t} {o : knot_dname_t}
    (h : ∀ e ∈ sec, dname_canonical e.owner = dname_canonical o →
      ∀ d ∈ e.rrs, section_has other e.owner e.type d = true) :
    ∀ e ∈ section_cancel sec other, dname_canonical e.owner ≠ dname_canonical o := by
  intro e he ho
  obtain ⟨hne, e0, he0, h1, -, h3⟩ := section_cancel_mem he
  rw [h1] at ho
  have : e.rrs = [] := by
    rw [h3, List.filter_eq_nil_iff]
    intro d hd
    simp [h e0 he0 ho d hd]
  simp [knot_rrset_empty, this] at hne

theorem section_cancel_owner_of_forall {sec other : List knot_rrset_t} {o : knot_dname_t}
    (h : ∀ e ∈ sec, dname_canonical e.owner ≠ dname_canonical o) :
    ∀ e ∈ section_cancel sec other, dname_canonical e.owner ≠ dname_canonical o := by
  intro e he
  obtain ⟨-, e0, he0, h1, -, -⟩ := section_cancel_mem he
  rw [h1]
  exact h e0 he0

theorem rrset_same_entry_refl (a : knot_rrset_t) : rrset_same_entry a a = true := by
  simp [rrset_same_entry]

theorem rrset_same_entry_rrs (a b : knot_rrset_t) (rrs : List (List Nat)) :
    rrset_same_entry { a with rrs := rrs } b = rrset_same_entry a b := rfl

theorem rrset_same_entry_false_of_true {a b c : knot_rrset_t}
    (hab : rrset_same_entry a b = true) (hac : rrset_same_entry a c = false) :
    rrset_same_entry b c = false := by
  simp only [rrset_same_entry, Bool.and_eq_true, decide_eq_true_eq, Bool.and_eq_false_imp,
    decide_eq_false_iff_not] at *
  intro h
  exact fun h2 => hac (hab.1.trans h) (hab.2.trans h2)

theorem rdata_union_self (a : List (List Nat)) : rdata_union a a = a := by
  unfold rdata_union
  rw [List.filter_eq_nil_iff.mpr, List.append_nil]
  intro d hd
  simp [hd]

theorem rdata_union_absorb (a b : List (List Nat)) :
    rdata_union (rdata_union a b) b = rdata_union a b := by
  show rdata_union a b ++ b.filter (fun d => !(rdata_union a b).contains d) = rdata_union a b
  rw [List.filter_eq_nil_iff.mpr, List.append_nil]
  intro d hd
  have : d ∈ rdata_union a b := mem_rdata_union.mpr (Or.inr hd)
  simp [this]

theorem section_add_idempotent (rrset : knot_rrset_t) :
    ∀ sec : List knot_rrset_t,
      section_add (section_add sec rrset) rrset = section_add sec rrset
  | [] => by
    simp only [section_add, rrset_same_entry_refl, if_true, rdata_union_self]
  | e :: rest => by
    by_cases hk : rrset_same_entry e rrset = true
    · simp only [section_add, hk, if_true, rrset_same_entry_rrs, rdata_union_absorb]
    · simp only [section_add, hk, if_false, Bool.false_eq_true]
      rw [section_add_idempotent rrset rest]

theorem section_add_of_mem {sec : List knot_rrset_t} {rrset : knot_rrset_t}
    (hd : section_distinct sec) (hm : rrset ∈ sec) : section_add sec rrset = sec := by
  induction sec with
  | nil => simp at hm
  | cons e rest ih =>
    rw [section_distinct, List.pairwise_cons] at hd
    rcases List.mem_cons.mp hm with rfl | hm
    · simp only [section_add, rrset_same_entry_refl, if_true, rdata_union_self]
    · have : rrset_same_entry e rrset = false := hd.1 rrset hm
      simp only [section_add, this, Bool.false_eq_true, if_false]
      rw [ih hd.2 hm]

theorem section_add_of_new {sec : List knot_rrset_t} {rrset : knot_rrset_t}
    (h : ∀ e ∈ sec, rrset_same_entry e rrset = false) : section_add sec rrset = sec ++ [rrset] := by
  induction sec with
  | nil => rfl
  | cons e rest ih =>
    have he := h e (List.mem_cons_self _ _)
    simp only [section_add, he, Bool.false_eq_true, if_false, List.cons_append]
    rw [ih (fun x hx => h x (List.mem_cons_of_mem _ hx))]

theorem section_add_distinct {sec : List knot_rrset_t} (rrset : knot_rrset_t)
    (hd : section_distinct sec) : section_distinct (section_add sec rrset) := by
  induction sec with
  | nil => simp [section_add, section_distinct]
  | cons e rest ih =>
    rw [section_distinct, List.pairwise_cons] at hd
    by_cases hk : rrset_same_entry e rrset = true
    · simp only [section_add, hk, if_true]
      rw [section_distinct, List.pairwise_cons]
      exact ⟨fun x hx => hd.1 x hx, hd.2⟩
    · simp only [section_add, hk, if_false, Bool.false_eq_true]
      rw [section_distinct, List.pairwise_cons]
      refine ⟨?_, ih hd.2⟩
      exact section_add_forall (fun x => rrset_same_entry e x = false) rest rrset hd.1
        (by simpa using hk) (fun x hx => hd.1 x hx)

theorem foldl_section_add_distinct (more : List knot_rrset_t) :
    ∀ sec : List knot_rrset_t, section_distinct sec →
      section_distinct (more.foldl section_add sec) := by
  induction more with
  | nil => intro sec h; exact h
  | cons r more ih => intro sec h; exact ih _ (section_add_distinct r h)

theorem section_cancel_distinct {sec : List knot_rrset_t} (other : List knot_rrset_t)
    (hd : section_distinct sec) : section_distinct (section_cancel sec other) := by
  unfold section_cancel section_distinct
  apply List.Pairwise.filter
  rw [List.pairwise_map]
  exact hd

theorem changeset_reachable_distinct {ch : changeset_t} (h : changeset_reachable ch) :
    section_distinct ch.add ∧ section_distinct ch.remove := by
  induction h with
  | new apex => exact ⟨List.Pairwise.nil, List.Pairwise.nil⟩
  | add alloc ch rrset h hr ih =>
    cases alloc
    · exact ih
    · exact ⟨section_add_distinct rrset ih.1, ih.2⟩
  | rem alloc ch rrset h hr ih =>
    cases alloc
    · exact ih
    · exact ⟨ih.1, section_add_distinct rrset ih.2⟩
  | merge alloc first second h1 h2 ih1 ih2 =>
    cases alloc
    · exact ih1
    · exact ⟨foldl_section_add_distinct _ _ (section_cancel_distinct _ ih1.1),
        foldl_section_add_distinct _ _ (section_cancel_distinct _ ih1.2)⟩
  | clear ch h _ => exact ⟨List.Pairwise.nil, List.Pairwise.nil⟩

theorem section_cancel_of_disjoint {sec other : List knot_rrset_t}
    (hv : ∀ e ∈ sec, knot_rrset_empty e = false)
    (hn : ∀ e ∈ sec, ∀ d ∈ e.rrs, section_has other e.owner e.type d = false) :
    section_cancel sec other = sec := by
  unfold section_cancel
  have hmap : sec.map (fun e : knot_rrset_t =>
      { e with rrs := e.rrs.filter (fun d => !section_has other e.owner e.type d) }) = sec := by
    conv_rhs => rw [← List.map_id sec]
    apply List.map_congr_left
    intro e he
    have : e.rrs.filter (fun d => !section_has other e.owner e.type d) = e.rrs := by
      rw [List.filter_eq_self]
      intro d hd
      simp [hn e he d hd]
    simp [this]
  rw [hmap, List.filter_eq_self]
  intro e he
  simp [hv e he]

theorem foldl_section_add_of_new (more : List knot_rrset_t) :
    ∀ sec : List knot_rrset_t, section_distinct more →
      (∀ r ∈ more, ∀ e ∈ sec, rrset_same_entry e r = false) →
      more.foldl section_add sec = sec ++ more := by
  induction more with
  | nil => intro sec _ _; simp
  | cons r more ih =>
    intro sec hd hn
    rw [section_distinct, List.pairwise_cons] at hd
    rw [List.foldl_cons, section_add_of_new (hn r (List.mem_cons_self _ _)),
      ih (sec ++ [r]) hd.2, List.append_assoc]
    · rfl
    · intro x hx e he
      rcases List.mem_append.mp he with he | he
      · exact hn x (List.mem_cons_of_mem _ hx) e he
      · rw [List.mem_singleton.mp he]
        exact hd.1 x hx

theorem section_has_false_symm {sec other : List knot_rrset_t}
    (h : ∀ e ∈ other, ∀ d ∈ e.rrs, section_has sec e.owner e.type d = false) :
    ∀ e ∈ sec, ∀ d ∈ e.rrs, section_has other e.owner e.type d = false := by
  intro e he d hd
  by_contra hc
  rw [Bool.not_eq_false] at hc
  obtain ⟨f, hf, h1, h2, h3⟩ := section_has_eq_true.mp hc
  have := h f hf d h3
  rw [section_has_eq_true.mpr ⟨e, he, h1.symm, h2.symm, hd⟩] at this
  exact Bool.noConfusion this

theorem changeset_reachable_test_ch2_merge : changeset_reachable test_ch2_merge :=
  changeset_reachable.rem true _ _
    (changeset_reachable.add true _ _ (changeset_reachable.new _) rfl) rfl

theorem section_has_singleton (e : knot_rrset_t) (owner : knot_dname_t) (type : Nat)
    (rdata : List Nat) :
    section_has [e] owner type rdata = true ↔
      dname_canonical e.owner = dname_canonical owner ∧ e.type = type ∧ rdata ∈ e.rrs := by
  rw [section_has_cons, section_has_nil]
  simp

theorem changesets_sequential_example :
    changesets_sequential merge_first merge_second_exact merge_first := by
  have a1 : merge_first.add = [⟨merge_owner, KNOT_RRTYPE_TXT, KNOT_CLASS_IN, 3600, [data_x]⟩] :=
    rfl
  have a2 : merge_first.remove = [] := rfl
  have b1 : merge_second_exact.add = [] := rfl
  have b2 : merge_second_exact.remove =
      [⟨merge_owner, KNOT_RRTYPE_TXT, KNOT_CLASS_IN, 3600, [data_x]⟩] := rfl
  refine ⟨fun _ _ _ => False, ?_, ?_, ?_⟩
  · intro o t d
    simp [a1, a2, section_has_nil]
  · intro o t d
    simp only [changeset_apply, a1, a2, b1, b2, section_has_nil, section_has_singleton]
    simp
  · intro o t d
    simp only [changeset_apply, a1, a2, b1, b2, section_has_nil, section_has_singleton]
    simp only [← Bool.not_eq_true, section_has_singleton]
    tauto

theorem changeset_memory_iter_loop_eq (ch : changeset_t) :
    ∀ (fuel : Nat) (it : changeset_iter_t),
      (changeset_memory_iter_loop fuel ⟨some ch, some it⟩).map
          (fun r => (r.1, changeset_iter_free r.2)) =
        (changeset_iter_collect fuel it).map (fun l => (l, ⟨some ch, none⟩))
  | 0, _ => rfl
  | fuel + 1, it => by
    simp only [changeset_memory_iter_loop, changeset_memory_iter_next, changeset_iter_collect]
    by_cases h : knot_rrset_empty (changeset_iter_next it).1 = true
    · simp only [h, if_true, Option.map_some', changeset_iter_free]
    · simp only [h, if_false, Option.map_map, Bool.false_eq_true]
      have ih := changeset_memory_iter_loop_eq ch fuel (changeset_iter_next it).2
      cases h1 : changeset_memory_iter_loop fuel ⟨some ch, some (changeset_iter_next it).2⟩ with
      | none =>
        rw [h1] at ih
        cases h2 : changeset_iter_collect fuel (changeset_iter_next it).2 with
        | none => rfl
        | some l => rw [h2] at ih; exact Option.noConfusion ih
      | some r =>
        rw [h1] at ih
        cases h2 : changeset_iter_collect fuel (changeset_iter_next it).2 with
        | none => rw [h2] at ih; exact Option.noConfusion ih
        | some l =>
          rw [h2] at ih
          simp only [Option.map_some', Option.some.injEq, Prod.mk.injEq] at ih
          simp only [Option.map_some', Function.comp_apply, ih.1, ih.2]

theorem changeset_memory_iterate_eq (ch : changeset_t) (fuel : Nat) (sorted : Bool) :
    changeset_memory_iterate fuel sorted ⟨some ch, none⟩ =
      (changeset_iter_collect fuel (changeset_iter_all ch sorted)).map
        (fun l => (l, ⟨some ch, none⟩)) :=
  changeset_memory_iter_loop_eq ch fuel (changeset_iter_all ch sorted)

theorem changeset_memory_iter_skip_ch :
    ∀ (k : Nat) (m : changeset_memory), (changeset_memory_iter_skip k m).ch = m.ch
  | 0, _ => rfl
  | k + 1, m => by
    rw [changeset_memory_iter_skip, changeset_memory_iter_skip_ch k]
    unfold changeset_memory_iter_next
    cases m.it <;> rfl

variable {α : Type}

theorem take_set_succ (x : α) : ∀ (l : List α) (n : Nat), n < l.length →
    (l.set n x).take (n + 1) = l.take n ++ [x]
  | [], n, h => by simp at h
  | a :: l, 0, _ => by simp
  | a :: l, n + 1, h => by
    simp only [List.set_cons_succ, List.take_succ_cons, List.cons_append, List.cons.injEq,
      true_and]
    exact take_set_succ x l n (by simpa using h)

theorem dynarray_add_of_valid (initial_capacity : Nat) (zero : α) (d : dynarray_t α) (x : α)
    (hv : dynarray_valid initial_capacity d) (hov : 2 * d.size + 1 ≤ SSIZE_MAX) :
    ∃ items r, dynarray_foreach initial_capacity d = some items ∧
      (items.length : Int) = d.size ∧
      dynarray_add initial_capacity zero true d x = some r ∧
      r.written = some d.size ∧ r.dynarray.size = d.size + 1 ∧
      dynarray_valid initial_capacity r.dynarray ∧
      dynarray_foreach initial_capacity r.dynarray = some (items ++ [x]) ∧
      (d.size < max d.capacity initial_capacity →
        r.dynarray.capacity = max d.capacity initial_capacity) ∧
      (d.size = max d.capacity initial_capacity →
        r.dynarray.capacity = 2 * max d.capacity initial_capacity + 1) ∧
      d.size < r.dynarray.capacity := by
  obtain ⟨cap, size, init, arr⟩ := d
  obtain ⟨h0, h1, h2, h3⟩ := hv
  simp only at h0 h1 h2 h3 hov
  obtain ⟨n, rfl⟩ := Int.eq_ofNat_of_zero_le h0
  obtain ⟨m, rfl⟩ := Int.eq_ofNat_of_zero_le (le_trans h0 h1)
  have hnm : n ≤ m := by exact_mod_cast h1
  by_cases hc : m ≤ initial_capacity
  · -- the inline buffer is in use
    have hmax : max (m : Int) (initial_capacity : Int) = initial_capacity :=
      max_eq_right (by exact_mod_cast hc)
    by_cases hg : n < initial_capacity
    · refine ⟨init.take n, ⟨⟨initial_capacity, n + 1, init.set n x, dynarray_arr.init⟩, some n⟩,
        ?_, ?_, ?_, rfl, rfl, ?_, ?_, ?_, ?_, ?_⟩
      · simp [dynarray_foreach, dynarray_fix, hnm, hc, dynarray_buffer]
      · simp; omega
      · simp [dynarray_add, dynarray_fix, hnm, hc, hg, dynarray_store, dynarray_buffer, h2]
      · refine ⟨by simp; omega, by simp; omega, by simp [h2], fun h => absurd h (by simp)⟩
      · have : n + 1 ≤ initial_capacity := hg
        simp [dynarray_foreach, dynarray_fix, this, dynarray_buffer]
        exact ⟨by omega, take_set_succ x init n (by omega)⟩
      · intro _; simp [hmax]
      · intro h; rw [hmax] at h; simp only at h; omega
      · simp; omega
    · -- the inline buffer is full: the array moves to a block of `2 * capacity + 1` items
      have hn : n = initial_capacity := by omega
      subst hn
      have hm : m = n := by omega
      subst hm
      have hlen : ((if (0 : Int) < (m : Int) then
            List.take m init ++ List.replicate ((2 * (m : Int) + 1).toNat - m) zero
          else List.replicate (2 * (m : Int) + 1).toNat zero).length) = 2 * m + 1 := by
        have e : (2 * (m : Int) + 1).toNat = 2 * m + 1 := by omega
        split_ifs <;> simp [e, h2]
        all_goals omega
      have htake : List.take m (if (0 : Int) < (m : Int) then
            List.take m init ++ List.replicate ((2 * (m : Int) + 1).toNat - m) zero
          else List.replicate (2 * (m : Int) + 1).toNat zero) = List.take m init := by
        split_ifs with hpos
        · rw [List.take_append_of_le_length (by simp [h2]), List.take_take, min_self]
        · have : m = 0 := by omega
          subst this
          simp
      refine ⟨init.take m, ⟨⟨2 * (m : Int) + 1, (m : Int) + 1, init,
        dynarray_arr.heap ((if (0 : Int) < (m : Int) then
            List.take m init ++ List.replicate ((2 * (m : Int) + 1).toNat - m) zero
          else List.replicate (2 * (m : Int) + 1).toNat zero).set m x)⟩, some m⟩,
        ?_, ?_, ?_, rfl, rfl, ?_, ?_, ?_, ?_, ?_⟩
      · simp [dynarray_foreach, dynarray_fix, dynarray_buffer]
      · simp [h2]
      · have hov2 : ¬ ((m : Int) * 2 + 1 > SSIZE_MAX) := by
          omega
        have hlen2 : m < (if 0 < m then
              List.take m init ++ List.replicate (((m : Int) * 2 + 1).toNat - m) zero
            else List.replicate ((m : Int) * 2 + 1).toNat zero).length := by
          have e : ((m : Int) * 2 + 1).toNat = 2 * m + 1 := by omega
          split_ifs <;> simp [e, h2]
          all_goals omega
        simp [dynarray_add, dynarray_fix, dynarray_store, dynarray_free__, dynarray_buffer,
          hov2, mul_comm, hlen2]
      · refine ⟨by simp; omega, by simp; omega, by simp [h2], fun _ => ⟨_, rfl, ?_⟩⟩
        simp only [List.length_set, hlen]
        push_cast
        ring
      · have h4 : ¬ (2 * (m : Int) + 1 ≤ (m : Int)) := by omega
        have h5 : (m : Int) + 1 ≤ 2 * (m : Int) + 1 := by omega
        simp only [dynarray_foreach, dynarray_fix, h4, h5, if_true, if_false, Option.map_some',
          dynarray_buffer, Option.some.injEq]
        have e : ((m : Int) + 1).toNat = m + 1 := by omega
        rw [e, take_set_succ x _ m (by rw [hlen]; omega), htake]
      · intro h; simp only [hmax] at h; omega
      · intro _; simp [hmax]
      · simp; omega
  · -- a heap block is in use
    have hc2 : (initial_capacity : Int) < (m : Int) := by exact_mod_cast not_le.mp hc
    have hc3 : ¬ ((m : Int) ≤ (initial_capacity : Int)) := not_le.mpr hc2
    have hmax : max (m : Int) (initial_capacity : Int) = m := max_eq_left (le_of_lt hc2)
    obtain ⟨block, rfl, hl⟩ := h3 hc2
    have hl2 : block.length = m := by exact_mod_cast hl
    have hc4 : initial_capacity < m := not_le.mp hc
    by_cases hg : n < m
    · refine ⟨block.take n, ⟨⟨m, (n : Int) + 1, init, dynarray_arr.heap (block.set n x)⟩,
        some n⟩, ?_, ?_, ?_, rfl, rfl, ?_, ?_, ?_, ?_, ?_⟩
      · simp [dynarray_foreach, dynarray_fix, hnm, hc3, dynarray_buffer]
      · simp; omega
      · simp [dynarray_add, dynarray_fix, hnm, hc3, hg, dynarray_store, dynarray_buffer, hl2]
      · exact ⟨by simp; omega, by simp; omega, by simp [h2],
          fun _ => ⟨_, rfl, by simp [hl2]⟩⟩
      · have h5 : (n : Int) + 1 ≤ (m : Int) := by omega
        simp only [dynarray_foreach, dynarray_fix, h5, hc3, if_true, if_false,
          Option.map_some', dynarray_buffer, Option.some.injEq]
        have e : ((n : Int) + 1).toNat = n + 1 := by omega
        rw [e, take_set_succ x block n (by omega)]
      · intro _; simp [hmax]
      · intro h; simp only [hmax] at h; omega
      · simp; omega
    · have hn : n = m := by omega
      subst hn
      have hpos : (0 : Int) < (n : Int) := by omega
      have hlen : (List.take n block ++
          List.replicate ((2 * (n : Int) + 1).toNat - n) zero).length = 2 * n + 1 := by
        have e : (2 * (n : Int) + 1).toNat = 2 * n + 1 := by omega
        simp [e, hl2]; omega
      have htake : List.take n (List.take n block ++
          List.replicate ((2 * (n : Int) + 1).toNat - n) zero) = List.take n block := by
        rw [List.take_append_of_le_length (by simp [hl2]), List.take_take, min_self]
      refine ⟨block.take n, ⟨⟨2 * (n : Int) + 1, (n : Int) + 1, init,
        dynarray_arr.heap ((List.take n block ++
          List.replicate ((2 * (n : Int) + 1).toNat - n) zero).set n x)⟩, some n⟩,
        ?_, ?_, ?_, rfl, rfl, ?_, ?_, ?_, ?_, ?_⟩
      · simp [dynarray_foreach, dynarray_fix, hc3, dynarray_buffer]
      · simp [hl2]
      · have hov2 : ¬ ((n : Int) * 2 + 1 > SSIZE_MAX) := by
          omega
        have hlen2 : n < (List.take n block ++
            List.replicate (((n : Int) * 2 + 1).toNat - n) zero).length := by
          have e : ((n : Int) * 2 + 1).toNat = 2 * n + 1 := by omega
          simp [e, hl2]
          omega
        simp [dynarray_add, dynarray_fix, dynarray_store, dynarray_free__, dynarray_buffer,
          hov2, hc3, hc4, hpos, mul_comm, hl2]
        have hlt : (n : Int) < (n : Int) * 2 + 1 := by omega
        simp [hlt]
      · refine ⟨by simp; omega, by simp; omega, by simp [h2], fun _ => ⟨_, rfl, ?_⟩⟩
        simp only [List.length_set, hlen]
        push_cast
        ring
      · have h4 : ¬ (2 * (n : Int) + 1 ≤ (initial_capacity : Int)) := by omega
        have h5 : (n : Int) + 1 ≤ 2 * (n : Int) + 1 := by omega
        simp only [dynarray_foreach, dynarray_fix, h4, h5, if_true, if_false, Option.map_some',
          dynarray_buffer, Option.some.injEq]
        have e : ((n : Int) + 1).toNat = n + 1 := by omega
        rw [e, take_set_succ x _ n (by rw [hlen]; omega), htake]
      · intro h; simp only [hmax] at h; omega
      · intro _; simp [hmax]
      · simp; omega

theorem dynarray_valid_zero (initial_capacity : Nat) (zero : α) :
    dynarray_valid initial_capacity (dynarray_zero initial_capacity zero) :=
  ⟨le_refl _, le_refl _, by simp [dynarray_zero],
    fun h => absurd h (by simp [dynarray_zero])⟩

theorem dynarray_add_all_of_valid (initial_capacity : Nat) (zero : α) :
    ∀ (xs : List α) (d : dynarray_t α) (items : List α),
      dynarray_valid initial_capacity d → 2 * (d.size + xs.length) + 1 ≤ SSIZE_MAX →
      dynarray_foreach initial_capacity d = some items →
      ∃ d1 ws, dynarray_add_all initial_capacity zero (xs.map (fun x => (true, x))) d =
          some (d1, ws) ∧
        dynarray_valid initial_capacity d1 ∧
        dynarray_foreach initial_capacity d1 = some (items ++ xs) ∧
        d1.size = d.size + xs.length ∧
        ws = (List.range xs.length).map (fun (i : Nat) => some (d.size + (i : Int)))
  | [], d, items, hv, _, hf => ⟨d, [], rfl, hv, by simpa using hf, by simp, rfl⟩
  | x :: xs, d, items, hv, hov, hf => by
    obtain ⟨items0, r, h1, -, h3, h4, h5, h6, h7, -⟩ :=
      dynarray_add_of_valid initial_capacity zero d x hv
        (by simp only [List.length_cons] at hov; push_cast at hov; omega)
    rw [hf] at h1
    obtain rfl := Option.some.inj h1
    obtain ⟨d1, ws, e1, e2, e3, e4, e5⟩ :=
      dynarray_add_all_of_valid initial_capacity zero xs r.dynarray (items ++ [x]) h6
        (by simp only [List.length_cons] at hov; push_cast at hov; rw [h5]; omega) h7
    refine ⟨d1, r.written :: ws, ?_, e2, ?_, ?_, ?_⟩
    · simp only [List.map_cons, dynarray_add_all, h3, e1]
    · rw [e3, List.append_assoc]; rfl
    · rw [e4, h5]; simp only [List.length_cons]; push_cast; ring
    · rw [h4, e5, h5, List.length_cons, List.range_succ_eq_map, List.map_cons, List.map_map]
      simp only [Nat.cast_zero, add_zero, List.cons.injEq, true_and]
      apply List.map_congr_left
      intro i _
      simp only [Function.comp_apply, Nat.cast_succ]
      congr 1
      ring

theorem dynarray_store_some (d d1 : dynarray_t α) (i : Int) (x : α)
    (h : dynarray_store d i x = some d1) :
    d1.size = d.size ∧ d1.capacity = d.capacity ∧ 0 ≤ i ∧
      i < ((dynarray_buffer d).length : Int) := by
  unfold dynarray_store at h
  split_ifs at h with hb
  cases ha : d.arr with
  | null => rw [ha] at h; exact Option.noConfusion h
  | init => rw [ha] at h; cases h; exact ⟨rfl, rfl, hb.1, hb.2⟩
  | heap block => rw [ha] at h; cases h; exact ⟨rfl, rfl, hb.1, hb.2⟩

theorem dynarray_free_size_capacity (initial_capacity : Nat) (d : dynarray_t α) :
    (dynarray_free__ initial_capacity d).size = d.size ∧
      (dynarray_free__ initial_capacity d).capacity = d.capacity := by
  unfold dynarray_free__
  split_ifs <;> exact ⟨rfl, rfl⟩

theorem dynarray_add_size_le_capacity (initial_capacity : Nat) (zero : α) (alloc : Bool)
    (d : dynarray_t α) (x : α) (r : dynarray_added α)
    (h : dynarray_add initial_capacity zero alloc d x = some r) :
    r.dynarray.size ≤ r.dynarray.capacity ∧ d.size ≤ d.capacity ∧
      ∀ i, r.written = some i → 0 ≤ i ∧ i < r.dynarray.capacity := by
  unfold dynarray_add at h
  cases hf : dynarray_fix initial_capacity d with
  | none => rw [hf] at h; exact Option.noConfusion h
  | some d1 =>
    rw [hf] at h
    have hfix : d.size ≤ d.capacity ∧ d1.size = d.size ∧ d.capacity ≤ d1.capacity ∧
        0 ≤ d1.capacity := by
      unfold dynarray_fix at hf
      split_ifs at hf with h1 h2
      · cases hf
        exact ⟨h1, rfl, h2, by simp⟩
      · cases hf
        exact ⟨h1, rfl, le_refl _, by omega⟩
    obtain ⟨a1, a2, a3, a4⟩ := hfix
    have f1 := dynarray_free_size_capacity initial_capacity d1
    simp only at h
    split_ifs at h with g1 g2 g3
    · cases h
      exact ⟨le_refl _, a1, fun i hi => Option.noConfusion hi⟩
    · cases hs : dynarray_store _ _ x with
      | none => rw [hs] at h; exact Option.noConfusion h
      | some d4 =>
        rw [hs] at h
        cases h
        obtain ⟨s1, s2, s3, -⟩ := dynarray_store_some _ _ _ _ hs
        simp only [f1.1] at s3
        refine ⟨?_, a1, ?_⟩
        · simp only [s2, f1.1]
          omega
        · intro i hi
          cases hi
          simp only [s2, f1.1]
          omega
    · cases hs : dynarray_store _ _ x with
      | none => rw [hs] at h; exact Option.noConfusion h
      | some d4 =>
        rw [hs] at h
        cases h
        obtain ⟨s1, s2, s3, -⟩ := dynarray_store_some _ _ _ _ hs
        simp only [f1.1] at s3
        refine ⟨?_, a1, ?_⟩
        · simp only [s2, f1.1]
          omega
        · intro i hi
          cases hi
          simp only [s2, f1.1]
          omega
    · cases hs : dynarray_store _ _ x with
      | none => rw [hs] at h; exact Option.noConfusion h
      | some d4 =>
        rw [hs] at h
        cases h
        obtain ⟨s1, s2, s3, -⟩ := dynarray_store_some _ _ _ _ hs
        refine ⟨?_, a1, ?_⟩
        · simp only [s2]
          omega
        · intro i hi
          cases hi
          simp only [s2]
          omega

theorem dynarray_fix_of_valid (initial_capacity : Nat) (d : dynarray_t α)
    (hv : dynarray_valid initial_capacity d) :
    ∃ d1, dynarray_fix initial_capacity d = some d1 ∧ d1.size = d.size ∧
      d1.capacity = max d.capacity initial_capacity := by
  obtain ⟨h0, h1, -, -⟩ := hv
  unfold dynarray_fix
  by_cases hc : d.capacity ≤ initial_capacity
  · simp only [h1, hc, if_true]
    exact ⟨_, rfl, rfl, (max_eq_right hc).symm⟩
  · simp only [h1, hc, if_true, if_false]
    exact ⟨_, rfl, rfl, (max_eq_left (le_of_lt (not_le.mp hc))).symm⟩

theorem dynarray_add_valid_result (initial_capacity : Nat) (zero : α) (alloc : Bool)
    (d : dynarray_t α) (x : α)
    (hv : dynarray_valid initial_capacity d) (hov : 2 * d.size + 1 ≤ SSIZE_MAX) :
    ∃ r, dynarray_add initial_capacity zero alloc d x = some r ∧
      r.dynarray.size ≤ r.dynarray.capacity ∧
      (∀ i, r.written = some i → i = d.size ∧ 0 ≤ i ∧ i < r.dynarray.capacity ∧
        dynarray_valid initial_capacity r.dynarray) ∧
      (r.written = none ↔ alloc = false ∧ d.size = max d.capacity initial_capacity) ∧
      (r.written = none → r.dynarray.size = -1 ∧ r.dynarray.capacity = -1) := by
  obtain ⟨items, r1, -, -, h3, h4, -, h6, -, -, -, h10⟩ :=
    dynarray_add_of_valid initial_capacity zero d x hv hov
  obtain ⟨d1, hf, hs, hcap⟩ := dynarray_fix_of_valid initial_capacity d hv
  have hle : d.size ≤ max d.capacity initial_capacity := le_trans hv.2.1 (le_max_left _ _)
  by_cases hfull : d1.size ≥ d1.capacity
  · have hfull2 : d.size = max d.capacity initial_capacity := by
      rw [hs, hcap] at hfull
      exact le_antisymm hle hfull
    cases alloc with
    | true =>
      have hb := dynarray_add_size_le_capacity initial_capacity zero true d x r1 h3
      refine ⟨r1, h3, hb.1, ?_, ?_, ?_⟩
      · intro i hi
        rw [h4] at hi
        cases hi
        exact ⟨rfl, hv.1, h10, h6⟩
      · rw [h4]; simp
      · rw [h4]; intro h; exact Option.noConfusion h
    | false =>
      have hov2 : ¬ (d1.capacity * 2 + 1 > SSIZE_MAX) := by
        rw [hcap, ← hfull2]
        omega
      refine ⟨⟨{ dynarray_free__ initial_capacity d1 with capacity := -1, size := -1 }, none⟩,
        ?_, le_refl _, fun i hi => Option.noConfusion hi, ?_, fun _ => ⟨rfl, rfl⟩⟩
      · unfold dynarray_add
        rw [hf]
        simp only [hfull, if_true, hov2, if_false]
      · simp [hfull2]
  · have hnf : ¬ d.size = max d.capacity initial_capacity := by
      intro h
      apply hfull
      rw [hs, hcap, h]
    have hirr : dynarray_add initial_capacity zero alloc d x =
        dynarray_add initial_capacity zero true d x := by
      unfold dynarray_add
      rw [hf]
      simp only [hfull, if_false]
    rw [hirr]
    have hb := dynarray_add_size_le_capacity initial_capacity zero true d x r1 h3
    refine ⟨r1, h3, hb.1, ?_, ?_, ?_⟩
    · intro i hi
      rw [h4] at hi
      cases hi
      exact ⟨rfl, hv.1, h10, h6⟩
    · rw [h4]; simp [hnf]
    · rw [h4]; intro h; exact Option.noConfusion h

variable {π σ : Type}

theorem update_keytag_spec (E : KeyEnv π) (k : dnssec_key_t π σ) :
    (update_keytag E k).rdata = k.rdata ∧ (update_keytag E k).dname = k.dname ∧
    (update_keytag E k).public_key = k.public_key ∧
    (update_keytag E k).private_key = k.private_key ∧ (update_keytag E k).id = k.id ∧
    (∀ t, E.dnssec_keytag (update_keytag E k).rdata = some t →
      (update_keytag E k).keytag = t) := by
  unfold update_keytag
  cases h : E.dnssec_keytag k.rdata with
  | none => simp [h]
  | some t => simp [h]

theorem key_update_identifiers_spec (E : KeyEnv π) (k k1 : dnssec_key_t π σ)
    (h : key_update_identifiers E k = some k1) :
    k1.rdata = k.rdata ∧ k1.dname = k.dname ∧ k1.public_key = k.public_key ∧
    k1.private_key = k.private_key ∧
    (∀ t, E.dnssec_keytag k1.rdata = some t → k1.keytag = t) := by
  obtain ⟨u1, u2, u3, u4, -, u6⟩ := update_keytag_spec E k
  unfold key_update_identifiers update_key_id at h
  cases hp : (update_keytag E k).public_key with
  | none => simp [hp] at h
  | some pk =>
    cases hi : E.gnutls_pubkey_hex_key_id pk with
    | none => simp [hp, hi] at h
    | some new_id =>
      simp only [hp, hi, Option.some.injEq] at h
      subst h
      exact ⟨u1, u2, by rw [← u3, hp], u4, u6⟩

theorem rdata_header (rdata : List Nat) (h : 4 ≤ rdata.length) :
    ∃ a b c d rest, rdata = a :: b :: c :: d :: rest := by
  match rdata, h with
  | a :: b :: c :: d :: rest, _ => exact ⟨a, b, c, d, rest, rfl⟩

theorem set_rcodes_none_of_missing (rcode : Nat) :
    ∀ requests : List request_data, (∃ r ∈ requests, r.resp = none) →
      set_rcodes requests rcode = none
  | [], h => by simp at h
  | req :: rest, h => by
    cases hr : req.resp with
    | none => simp [set_rcodes, hr]
    | some resp =>
      have h2 : ∃ r ∈ rest, r.resp = none := by
        obtain ⟨r, hm, hn⟩ := h
        rcases List.mem_cons.mp hm with rfl | hm
        · rw [hr] at hn; exact Option.noConfusion hn
        · exact ⟨r, hm, hn⟩
      simp [set_rcodes, hr, set_rcodes_none_of_missing rcode rest h2]

theorem init_update_respones_missing (E : Env κ χ ρ) :
    ∀ (updates : List request_data) (tr : Trace κ),
      (init_update_respones E updates tr).ret ≠ KNOT_EOK →
      ∃ r ∈ (init_update_respones E updates tr).updates, r.resp = none
  | [], tr, h => by simp [init_update_respones] at h
  | r :: rest, tr, h => by
    cases hp : E.knot_pkt_new tr KNOT_WIRE_MAX_PKTSIZE with
    | none =>
      exact ⟨{ r with resp := none }, by simp [init_update_respones, hp], rfl⟩
    | some resp =>
      simp only [init_update_respones, hp] at h ⊢
      obtain ⟨x, hx, hn⟩ := init_update_respones_missing E rest _ h
      exact ⟨x, List.mem_cons_of_mem _ hx, hn⟩

end Basic

/-! ## The claims -/

section Claims

variable {κ χ ρ : Type}

/-- C1: `zone_switch_contents` is called in an update cycle only if
`zone_change_store` returned `KNOT_EOK` in that cycle.  For every batch (with
initialised responses) in which the journal store fails, the cycle returns
the error of the store, the zone (its published contents reference, hence
its serial) is the one from before the cycle, the contents are not switched
and `process_requests` schedules no NOTIFY. -/
theorem store_failure_keeps_published_contents (E : Env κ χ ρ) (zone : zone_t κ)
    (reqs : List request_data) (tr : Trace κ)
    (hinit : ∀ r ∈ reqs, r.resp.isSome = true) :
    ∃ out sfx, process_requests E zone reqs tr = some out ∧ out.trace = tr ++ sfx ∧
      (∀ n o, Event.zone_switch_contents n o ∈ sfx →
        Event.zone_change_store KNOT_EOK ∈ sfx ∧
        ∀ ret, Event.zone_change_store ret ∈ sfx → ret = KNOT_EOK) ∧
      (∀ ret, ret ≠ KNOT_EOK → Event.zone_change_store ret ∈ sfx →
        out.ret = ret ∧ out.zone = zone ∧
        E.zone_contents_serial out.zone.contents =
          E.zone_contents_serial zone.contents ∧
        (∀ n o, Event.zone_switch_contents n o ∉ sfx) ∧
        (∀ t, Event.zone_events_schedule ZoneEvent.NOTIFY t ∉ sfx)) := by
  obtain ⟨ret, zone1, reqs1, sfx, -, hpath, hreq⟩ :=
    process_requests_spec E zone reqs tr hinit
  refine ⟨_, _, hreq, rfl, ?_⟩
  cases hpath with
  | init_failed ret h => simp [h]
  | request_failed ret h W reqs2 hW =>
    have hw := (walkFailed_isWalk hW)
    have w1 := fun r => not_mem_of_flag hw (Event.zone_change_store r) rfl
    have w2 := fun n o => not_mem_of_flag hw (Event.zone_switch_contents n o) rfl
    simp [h, w1, w2]
  | no_change W hW =>
    have hw := (walkOk_isWalk hW)
    have w1 := fun r => not_mem_of_flag hw (Event.zone_change_store r) rfl
    have w2 := fun n o => not_mem_of_flag hw (Event.zone_switch_contents n o) rfl
    simp [w1, w2]
  | apply_failed ret h W hW =>
    have hw := (walkOk_isWalk hW)
    have w1 := fun r => not_mem_of_flag hw (Event.zone_change_store r) rfl
    have w2 := fun n o => not_mem_of_flag hw (Event.zone_switch_contents n o) rfl
    simp [h, w1, w2]
  | sec_init_failed ret h W hW new_contents hd =>
    have hw := (walkOk_isWalk hW)
    have w1 := fun r => not_mem_of_flag hw (Event.zone_change_store r) rfl
    have w2 := fun n o => not_mem_of_flag hw (Event.zone_switch_contents n o) rfl
    simp [h, w1, w2]
  | sign_failed ret h W hW new_contents hd S hS hf hu =>
    have hw := (walkOk_isWalk hW)
    have w1 := fun r => not_mem_of_flag hw (Event.zone_change_store r) rfl
    have w2 := fun n o => not_mem_of_flag hw (Event.zone_switch_contents n o) rfl
    have s1 := fun r => not_mem_of_flag hS (Event.zone_change_store r) rfl
    have s2 := fun n o => not_mem_of_flag hS (Event.zone_switch_contents n o) rfl
    simp [h, w1, w2, s1, s2]
  | store_failed ret h W hW new_contents D hD =>
    have hw := (walkOk_isWalk hW)
    have hd := (secPassed_isSecBlock hD)
    have w1 := fun r => not_mem_of_flag hw (Event.zone_change_store r) rfl
    have w2 := fun n o => not_mem_of_flag hw (Event.zone_switch_contents n o) rfl
    have w3 := fun t => not_mem_of_flag hw (Event.zone_events_schedule ZoneEvent.NOTIFY t) rfl
    have s1 := fun r => not_mem_of_flag hd (Event.zone_change_store r) rfl
    have s2 := fun n o => not_mem_of_flag hd (Event.zone_switch_contents n o) rfl
    have s3 := fun t => not_mem_of_flag hd (Event.zone_events_schedule ZoneEvent.NOTIFY t) rfl
    by_cases hdn : zone.conf.dnssec_enable = true <;>
      (simp [h, w1, w2, w3, s1, s2, s3, hdn]; exact fun r _ h2 => h2.symm)
  | committed W hW new_contents D hD =>
    have hw := (walkOk_isWalk hW)
    have hd := (secPassed_isSecBlock hD)
    have w1 := fun r => not_mem_of_flag hw (Event.zone_change_store r) rfl
    have s1 := fun r => not_mem_of_flag hd (Event.zone_change_store r) rfl
    by_cases hdn : zone.conf.dnssec_enable = true <;>
      by_cases hdb : zone.conf.dbsync_timeout = 0 <;>
      by_cases hse : E.zone_contents_serial new_contents =
        E.zone_contents_serial zone.contents <;>
      (simp [w1, s1, hdn, hdb, hse]; try (intro r h1 h2; exact absurd h2 h1))

/-- C1 at a concrete input: one request on a zone whose journal refuses the
store. -/
theorem store_failure_keeps_published_contents_witness :
    (∀ r ∈ [demoReady 3], r.resp.isSome = true) ∧
    ∃ out sfx, process_requests storeFailEnv demoZone [demoReady 3] [] = some out ∧
      out.trace = [] ++ sfx ∧
      (∀ n o, Event.zone_switch_contents n o ∈ sfx →
        Event.zone_change_store KNOT_EOK ∈ sfx ∧
        ∀ ret, Event.zone_change_store ret ∈ sfx → ret = KNOT_EOK) ∧
      (∀ ret, ret ≠ KNOT_EOK → Event.zone_change_store ret ∈ sfx →
        out.ret = ret ∧ out.zone = demoZone ∧
        storeFailEnv.zone_contents_serial out.zone.contents =
          storeFailEnv.zone_contents_serial demoZone.contents ∧
        (∀ n o, Event.zone_switch_contents n o ∉ sfx) ∧
        (∀ t, Event.zone_events_schedule ZoneEvent.NOTIFY t ∉ sfx)) :=
  ⟨by decide,
    store_failure_keeps_published_contents storeFailEnv demoZone [demoReady 3] []
      (by decide)⟩

/-- C2: when `process_single_update` fails for a request `r` of the batch
`pre ++ r :: post` (a prerequisite or update step `e` returns `ret`, not
`KNOT_EOK`), `process_normal` returns `ret` and leaves the zone as it was, and
the calls of the whole cycle are: the initialisation of the DDNS changeset,
the successful steps `W0` of the requests up to `r`, the failing step `e`, and
`changeset_clear` of the DDNS changeset.  So no request after `r` is processed
and `apply_changeset`, `sign_update`, `zone_change_store` and
`zone_switch_contents` are not called. -/
theorem failing_request_aborts_batch (E : Env κ χ ρ) (zone : zone_t κ)
    (reqs : List request_data) (tr : Trace κ)
    (hinit : ∀ r ∈ reqs, r.resp.isSome = true) :
    ∃ out sfx, process_normal E zone reqs tr = some out ∧ out.trace = tr ++ sfx ∧
      ∀ e ∈ sfx, e.isWalk = true → ∀ ret, e.retOf = some ret → ret ≠ KNOT_EOK →
        out.ret = ret ∧ out.zone = zone ∧
        ∃ pre r post W0, reqs = pre ++ r :: post ∧
          sfx = Event.changeset_init ChId.ddns KNOT_EOK :: W0 ++
            [e, Event.changeset_clear ChId.ddns] ∧
          (∀ e0 ∈ W0, e0.isWalk = true ∧ e0.retOf = some KNOT_EOK) ∧
          (W0 ++ [e]).filterMap Event.prereqQuery =
            (pre ++ [r]).map request_data.query ∧
          W0.filterMap Event.updateQuery = pre.map request_data.query ∧
          (e.prereqQuery = some r.query ∨ e.updateQuery = some r.query) := by
  obtain ⟨⟨ret, zone1, reqs1, otr⟩, sfx, ho, htr, hpath⟩ :=
    process_normal_paths E zone reqs tr hinit
  simp only at htr hpath
  refine ⟨_, sfx, ho, htr, ?_⟩
  simp only
  intro e he hw ret1 hr hne
  obtain ⟨h1, h2, pre, r, resp, post, rcode, W0, h3, -, -, h5, h6, h7, h8, h9⟩ :=
    normalPath_of_failed_step hpath e he hw ret1 hr hne
  refine ⟨h1, h2, pre, r, post, W0, h3, h5, h7, h8, h9, ?_⟩
  rcases h6 with h6 | h6 <;> subst h6
  · exact Or.inl rfl
  · exact Or.inr rfl

/-- C2 at a concrete input: the second of two requests does not meet its
prerequisites. -/
theorem failing_request_aborts_batch_witness :
    (∀ r ∈ [demoReady 3, demoReady 13], r.resp.isSome = true) ∧
    ∃ out sfx, process_normal demoEnv demoZone [demoReady 3, demoReady 13] [] = some out ∧
      out.trace = [] ++ sfx ∧
      ∀ e ∈ sfx, e.isWalk = true → ∀ ret, e.retOf = some ret → ret ≠ KNOT_EOK →
        out.ret = ret ∧ out.zone = demoZone ∧
        ∃ pre r post W0, [demoReady 3, demoReady 13] = pre ++ r :: post ∧
          sfx = Event.changeset_init ChId.ddns KNOT_EOK :: W0 ++
            [e, Event.changeset_clear ChId.ddns] ∧
          (∀ e0 ∈ W0, e0.isWalk = true ∧ e0.retOf = some KNOT_EOK) ∧
          (W0 ++ [e]).filterMap Event.prereqQuery =
            (pre ++ [r]).map request_data.query ∧
          W0.filterMap Event.updateQuery = pre.map request_data.query ∧
          (e.prereqQuery = some r.query ∨ e.updateQuery = some r.query) :=
  ⟨by decide,
    failing_request_aborts_batch demoEnv demoZone [demoReady 3, demoReady 13] []
      (by decide)⟩

/-- C3 (the claim fails): in a batch of two requests whose second request does
not meet its prerequisites (RCODE 8), the first response ends with SERVFAIL
and the second with 8, so the batch does not end with one and the same
RCODE. -/
theorem batch_rcodes_differ :
    ∃ out, process_normal demoEnv demoZone [demoReady 3, demoReady 13] [] = some out ∧
      out.ret ≠ KNOT_EOK ∧
      out.requests.map request_data.rcode = [some KNOT_RCODE_SERVFAIL, some 8] ∧
      ¬ ∃ c, ∀ r ∈ out.requests, r.rcode = some c := by
  refine ⟨_, rfl, by decide, rfl, ?_⟩
  rintro ⟨c, hc⟩
  have h1 := hc _ (List.mem_cons_self _ _)
  have h2 := hc _ (List.mem_cons_of_mem _ (List.mem_cons_self _ _))
  rw [← h2] at h1
  revert h1
  decide

/-- C3 (as amended): when the environment makes a request `r` of a batch
`pre ++ r :: post`, all of whose responses were initialised with NOERROR, fail
its prerequisite or update step (the DDNS changeset is initialised, the
requests of `pre` pass, and the failing call returns `ret` and reports the
RCODE `rcode`, which the code asserts is not NOERROR), `process_normal` returns
`ret`, the response of `r` ends with `rcode`, and the response of every other
request of the batch, processed before or not processed at all, ends with
SERVFAIL. -/
theorem failing_request_rcodes (E : Env κ χ ρ) (zone : zone_t κ)
    (pre : List request_data) (r : request_data) (post : List request_data)
    (tr : Trace κ) (w0 : WalkResult κ χ) (ret : Int) (rcode : Nat)
    (hinit : ∀ x ∈ pre ++ r :: post, x.rcode = some KNOT_RCODE_NOERROR)
    (hci : (E.changeset_init tr ChId.ddns).ret = KNOT_EOK)
    (hpre : cycle_walk E zone pre tr = some w0) (hok : w0.ret = KNOT_EOK)
    (hfail : StepFails E zone r w0.update w0.trace ret rcode)
    (hrc : rcode ≠ KNOT_RCODE_NOERROR) :
    ∃ out, process_normal E zone (pre ++ r :: post) tr = some out ∧
      out.ret = ret ∧ ret ≠ KNOT_EOK ∧ out.zone = zone ∧
      out.requests.map request_data.rcode =
        pre.map (fun _ => some KNOT_RCODE_SERVFAIL) ++
          some rcode :: post.map (fun _ => some KNOT_RCODE_SERVFAIL) ∧
      out.requests.map request_data.ident =
        (pre ++ r :: post).map request_data.ident := by
  have hrsome : r.resp.isSome = true := rcode_isSome (hinit r (by simp))
  obtain ⟨resp, hresp⟩ := Option.isSome_iff_exists.mp hrsome
  obtain ⟨hne, s, hs, hsret, hsreq⟩ :=
    process_single_update_of_stepFails E zone r w0.update w0.trace ret rcode resp hresp hfail
  have hwalk : cycle_walk E zone (pre ++ r :: post) tr =
      some ⟨ret, pre ++ s.request :: post, s.update, s.trace⟩ := by
    unfold cycle_walk at hpre ⊢
    rw [process_normal_walk_append E zone pre (r :: post) _ _ w0 hpre hok]
    simp only [process_normal_walk, hs, hsret, hne, ne_eq, not_false_eq_true, if_true,
      Option.map_some']
  have hpre1 : ∀ x ∈ pre, x.rcode = some KNOT_RCODE_NOERROR :=
    fun x hx => hinit x (by simp [hx])
  have hpost1 : ∀ x ∈ post, x.rcode = some KNOT_RCODE_NOERROR :=
    fun x hx => hinit x (by simp [hx])
  have hsome : ∀ x ∈ pre ++ s.request :: post, x.resp.isSome = true := by
    intro x hx
    simp only [List.mem_append, List.mem_cons] at hx
    rcases hx with hx | hx | hx
    · exact rcode_isSome (hpre1 x hx)
    · subst hx; rw [hsreq]; rfl
    · exact rcode_isSome (hpost1 x hx)
  have hset := set_rcodes_eq_map KNOT_RCODE_SERVFAIL _ hsome
  unfold cycle_walk at hwalk
  rw [hci] at hwalk
  refine ⟨⟨ret, zone, (pre ++ s.request :: post).map
    (set_rcode_if_noerror KNOT_RCODE_SERVFAIL), s.trace ++ [Event.changeset_clear ChId.ddns]⟩,
    ?_, rfl, hne, rfl, ?_, ?_⟩
  · simp only [process_normal, hci, ne_eq, not_true_eq_false, if_false, hwalk, hne,
      not_false_eq_true, if_true, hset]
  · simp only [List.map_append, List.map_cons, hsreq,
      map_rcode_set_rcode_if_noerror _ pre hpre1,
      map_rcode_set_rcode_if_noerror _ post hpost1, rcode_set_rcode_if_noerror_failed,
      if_neg hrc]
  · rw [map_ident_set_rcode_if_noerror]
    simp only [List.map_append, List.map_cons, hsreq]
    rfl

/-- C3 (as amended) at a concrete input: the second of three requests does not
meet its prerequisites (return value -22, RCODE 8). -/
theorem failing_request_rcodes_witness :
    (∀ x ∈ [demoReady 3] ++ demoReady 13 :: [demoReady 4],
      x.rcode = some KNOT_RCODE_NOERROR) ∧
    ∃ out, process_normal demoEnv demoZone
        ([demoReady 3] ++ demoReady 13 :: [demoReady 4]) [] = some out ∧
      out.ret = -22 ∧ (-22 : Int) ≠ KNOT_EOK ∧ out.zone = demoZone ∧
      out.requests.map request_data.rcode =
        [demoReady 3].map (fun _ => some KNOT_RCODE_SERVFAIL) ++
          some 8 :: [demoReady 4].map (fun _ => some KNOT_RCODE_SERVFAIL) ∧
      out.requests.map request_data.ident =
        ([demoReady 3] ++ demoReady 13 :: [demoReady 4]).map request_data.ident :=
  ⟨by decide,
    failing_request_rcodes demoEnv demoZone [demoReady 3] (demoReady 13) [demoReady 4] []
      _ (-22) 8 (by decide) rfl rfl rfl (by decide) (by decide)⟩

/-- C4 (the code departs from the claim): on a DNSSEC zone, after
`apply_changeset` has built snapshot 101, (1) a failing initialisation of the
signature changeset makes `process_normal` return at once: the new snapshot
is not freed and the DDNS changeset is neither rolled back nor cleared;
(2) a failing `sign_update` rolls back, frees the new snapshot and clears the
DDNS changeset, but the initialised signature changeset is not cleared.  In
both cases the contents are not switched. -/
theorem failure_after_apply_leaks :
    (∃ out, process_normal secInitFailEnv demoSignedZone [demoReady 3] [] = some out ∧
      out.ret = -12 ∧ out.zone = demoSignedZone ∧
      out.trace = [Event.changeset_init ChId.ddns KNOT_EOK,
        Event.ddns_process_prereqs (demoQuery 3) KNOT_EOK KNOT_RCODE_NOERROR,
        Event.ddns_process_update (demoQuery 3) KNOT_EOK KNOT_RCODE_NOERROR,
        Event.apply_changeset KNOT_EOK (some 101),
        Event.changeset_init ChId.sec (-12)] ∧
      Event.update_free_zone 101 ∉ out.trace ∧
      Event.update_rollback ChId.ddns ∉ out.trace ∧
      Event.changeset_clear ChId.ddns ∉ out.trace) ∧
    (∃ out, process_normal signFailEnv demoSignedZone [demoReady 3] [] = some out ∧
      out.ret = -5 ∧ out.zone = demoSignedZone ∧
      out.trace = [Event.changeset_init ChId.ddns KNOT_EOK,
        Event.ddns_process_prereqs (demoQuery 3) KNOT_EOK KNOT_RCODE_NOERROR,
        Event.ddns_process_update (demoQuery 3) KNOT_EOK KNOT_RCODE_NOERROR,
        Event.apply_changeset KNOT_EOK (some 101),
        Event.changeset_init ChId.sec KNOT_EOK,
        Event.knot_dnssec_sign_changeset (-5) 0,
        Event.update_rollback ChId.ddns,
        Event.update_free_zone 101,
        Event.changeset_clear ChId.ddns] ∧
      Event.changeset_clear ChId.sec ∉ out.trace) := by
  refine ⟨⟨_, rfl, rfl, rfl, rfl, ?_, ?_, ?_⟩, ⟨_, rfl, rfl, rfl, rfl, ?_⟩⟩ <;> decide

/-- C5: `sign_update` calls the whole-zone signer exactly when the apex DNSKEY
RRSet or the apex NSEC3PARAM RRSet of the new contents is not equal (whole
comparison) to that of the old contents, it calls the changeset signer exactly
when both are equal, and every call of `sign_update` makes exactly one signer
call. -/
theorem sign_update_signer_choice (E : Env κ χ ρ) (zone : zone_t κ)
    (old_contents new_contents : κ) (ddns_ch sec_ch : χ) (tr : Trace κ) :
    ∃ S, (sign_update E zone old_contents new_contents ddns_ch sec_ch tr).trace = tr ++ S ∧
      ((∃ ret t, Event.knot_dnssec_zone_sign ret t ∈ S) ↔
        (E.knot_rrset_equal (E.node_rrset old_contents KNOT_RRTYPE_DNSKEY)
            (E.node_rrset new_contents KNOT_RRTYPE_DNSKEY)
            knot_rrset_compare_type_t.KNOT_RRSET_COMPARE_WHOLE = false ∨
         E.knot_rrset_equal (E.node_rrset old_contents KNOT_RRTYPE_NSEC3PARAM)
            (E.node_rrset new_contents KNOT_RRTYPE_NSEC3PARAM)
            knot_rrset_compare_type_t.KNOT_RRSET_COMPARE_WHOLE = false)) ∧
      ((∃ ret t, Event.knot_dnssec_sign_changeset ret t ∈ S) ↔
        (E.knot_rrset_equal (E.node_rrset old_contents KNOT_RRTYPE_DNSKEY)
            (E.node_rrset new_contents KNOT_RRTYPE_DNSKEY)
            knot_rrset_compare_type_t.KNOT_RRSET_COMPARE_WHOLE = true ∧
         E.knot_rrset_equal (E.node_rrset old_contents KNOT_RRTYPE_NSEC3PARAM)
            (E.node_rrset new_contents KNOT_RRTYPE_NSEC3PARAM)
            knot_rrset_compare_type_t.KNOT_RRSET_COMPARE_WHOLE = true)) ∧
      (S.filter Event.isSigner).length = 1 := by
  generalize hr : sign_update E zone old_contents new_contents ddns_ch sec_ch tr = r
  unfold sign_update at hr
  dsimp only at hr
  split_ifs at hr <;> subst hr <;>
    refine ⟨_, by simp only [List.append_assoc]; rfl, ?_⟩ <;>
    simp_all [apex_rr_changed, Event.isSigner, List.filter_cons] <;>
    intro h1 <;> casesm* _ ∨ _ <;> simp_all

/-- C6: for every batch whose responses were all initialised with NOERROR,
`process_normal` returns a result; on any failure every response carries an
RCODE other than NOERROR, and on success (change applied or empty changeset)
the batch, with every response, is as it was.  Hence, for a batch that holds
at least one request (`updates_execute` hands over no other), `process_normal`
returns `KNOT_EOK` if and only if every response still carries NOERROR
afterwards.  No assumption on the RCODE reported by a failing step is
needed. -/
theorem process_normal_eok_iff_noerror (E : Env κ χ ρ) (zone : zone_t κ)
    (reqs : List request_data) (tr : Trace κ)
    (hinit : ∀ r ∈ reqs, r.rcode = some KNOT_RCODE_NOERROR) :
    ∃ out, process_normal E zone reqs tr = some out ∧
      (reqs ≠ [] →
        (out.ret = KNOT_EOK ↔ ∀ r ∈ out.requests, r.rcode = some KNOT_RCODE_NOERROR)) ∧
      (out.ret ≠ KNOT_EOK →
        ∀ r ∈ out.requests, ∃ c, r.rcode = some c ∧ c ≠ KNOT_RCODE_NOERROR) ∧
      (out.ret = KNOT_EOK → out.requests = reqs) := by
  have hsome : ∀ r ∈ reqs, r.resp.isSome = true := fun r hr => rcode_isSome (hinit r hr)
  obtain ⟨⟨ret, zone1, reqs1, otr⟩, sfx, ho, -, hpath⟩ :=
    process_normal_paths E zone reqs tr hsome
  simp only at hpath
  refine ⟨_, ho, ?_⟩
  simp only
  rcases normalPath_requests_cases hpath with ⟨h1, h2⟩ | ⟨h1, L, c, hc, h2, hL⟩
  · subst h2
    exact ⟨fun _ => ⟨fun _ => hinit, fun _ => h1⟩, fun h => absurd h1 h, fun _ => rfl⟩
  · have hc0 : c ≠ KNOT_RCODE_NOERROR := by rcases hc with hc | hc <;> subst hc <;> decide
    have hLsome : ∀ r ∈ L, r.resp.isSome = true := by
      rcases hL with hL | ⟨W, hW⟩
      · subst hL; exact hsome
      · exact walkFailed_resp_isSome hW hsome
    have hLlen : L.length = reqs.length := by
      rcases hL with hL | ⟨W, hW⟩
      · subst hL; rfl
      · exact walkFailed_length hW
    have hall : ∀ r ∈ reqs1, ∃ c1, r.rcode = some c1 ∧ c1 ≠ KNOT_RCODE_NOERROR := by
      intro r hr
      subst h2
      obtain ⟨x, hx, rfl⟩ := List.mem_map.mp hr
      exact rcode_set_rcode_if_noerror_ne c hc0 x (hLsome x hx)
    refine ⟨fun hne => ⟨fun h => absurd h h1, fun h => ?_⟩, fun _ => hall,
      fun h => absurd h h1⟩
    exfalso
    have hlen : reqs1.length = reqs.length := by rw [h2, List.length_map, hLlen]
    have hpos : 0 < reqs1.length := by
      rw [hlen]; exact List.length_pos.mpr hne
    obtain ⟨x, hx⟩ := List.exists_mem_of_length_pos hpos
    obtain ⟨c1, hc1, hc2⟩ := hall x hx
    rw [h x hx] at hc1
    exact hc2 (Option.some.inj hc1).symm

/-- C6 at a concrete input: a batch of two requests, the second of which
fails. -/
theorem process_normal_eok_iff_noerror_witness :
    (∀ r ∈ [demoReady 3, demoReady 13], r.rcode = some KNOT_RCODE_NOERROR) ∧
    ∃ out, process_normal demoEnv demoZone [demoReady 3, demoReady 13] [] = some out ∧
      ([demoReady 3, demoReady 13] ≠ [] →
        (out.ret = KNOT_EOK ↔ ∀ r ∈ out.requests, r.rcode = some KNOT_RCODE_NOERROR)) ∧
      (out.ret ≠ KNOT_EOK →
        ∀ r ∈ out.requests, ∃ c, r.rcode = some c ∧ c ≠ KNOT_RCODE_NOERROR) ∧
      (out.ret = KNOT_EOK → out.requests = [demoReady 3, demoReady 13]) :=
  ⟨by decide,
    process_normal_eok_iff_noerror demoEnv demoZone [demoReady 3, demoReady 13] []
      (by decide)⟩

/-- C7: in `process_normal`, when the environment makes `apply_changeset` fail
(after a request loop that passed and left a change to apply), every response
still at NOERROR receives REFUSED if the error is `KNOT_ETTL` and SERVFAIL for
every other error; when it makes the initialisation of the DDNS or of the
signature changeset, `sign_update` or `zone_change_store` fail, every response
still at NOERROR receives SERVFAIL; in each case `process_normal` returns the
error of the failing call.  No other RCODE is assigned by `process_normal`
itself: a cycle that returns `KNOT_EOK` leaves the batch as it was, and a
cycle that fails does so at one of these calls or in the request loop, after
which the responses the loop left at NOERROR receive SERVFAIL. -/
theorem process_normal_assigned_rcodes (E : Env κ χ ρ) (zone : zone_t κ)
    (reqs : List request_data) (tr : Trace κ)
    (hinit : ∀ r ∈ reqs, r.resp.isSome = true) :
    (∀ stage ret, CycleFails E zone reqs tr stage ret →
      ret ≠ KNOT_EOK ∧
      ∃ out, process_normal E zone reqs tr = some out ∧ out.ret = ret ∧
        out.requests = reqs.map (set_rcode_if_noerror
          (if stage = CycleStage.apply ∧ ret = E.KNOT_ETTL then KNOT_RCODE_REFUSED
           else KNOT_RCODE_SERVFAIL))) ∧
    (∃ out, process_normal E zone reqs tr = some out ∧
      (out.ret = KNOT_EOK → out.requests = reqs) ∧
      (out.ret ≠ KNOT_EOK →
        (∃ stage, CycleFails E zone reqs tr stage out.ret) ∨
        (∃ w, (E.changeset_init tr ChId.ddns).ret = KNOT_EOK ∧
          cycle_walk E zone reqs tr = some w ∧ w.ret ≠ KNOT_EOK ∧ out.ret = w.ret ∧
          out.requests = w.requests.map (set_rcode_if_noerror KNOT_RCODE_SERVFAIL)))) := by
  refine ⟨fun stage ret h => ?_, process_normal_failure_cases E zone reqs tr hinit⟩
  obtain ⟨h1, out, h2, h3, -, h4⟩ := process_normal_of_cycleFails E zone reqs tr hinit stage ret h
  exact ⟨h1, out, h2, h3, h4⟩

/-- C7 at concrete inputs: one request on a zone whose `apply_changeset`
returns `KNOT_ETTL` (the response ends with REFUSED), one whose
`apply_changeset` returns another error and one whose journal refuses the
store (the response ends with SERVFAIL). -/
theorem process_normal_assigned_rcodes_witness :
    (∀ r ∈ [demoReady 3], r.resp.isSome = true) ∧
    (CycleFails ettlEnv demoZone [demoReady 3] [] CycleStage.apply ettlEnv.KNOT_ETTL ∧
      ∃ out, process_normal ettlEnv demoZone [demoReady 3] [] = some out ∧
        out.ret = ettlEnv.KNOT_ETTL ∧
        out.requests.map request_data.rcode = [some KNOT_RCODE_REFUSED]) ∧
    (CycleFails applyFailEnv demoZone [demoReady 3] [] CycleStage.apply (-12) ∧
      ∃ out, process_normal applyFailEnv demoZone [demoReady 3] [] = some out ∧
        out.ret = -12 ∧
        out.requests.map request_data.rcode = [some KNOT_RCODE_SERVFAIL]) ∧
    (CycleFails storeFailEnv demoZone [demoReady 3] [] CycleStage.store (-5) ∧
      ∃ out, process_normal storeFailEnv demoZone [demoReady 3] [] = some out ∧
        out.ret = -5 ∧
        out.requests.map request_data.rcode = [some KNOT_RCODE_SERVFAIL]) := by
  have h1 : CycleFails ettlEnv demoZone [demoReady 3] [] CycleStage.apply ettlEnv.KNOT_ETTL :=
    CycleFails.apply _ ⟨rfl, rfl, rfl, rfl⟩ (by decide)
  have h2 : CycleFails applyFailEnv demoZone [demoReady 3] [] CycleStage.apply (-12) :=
    CycleFails.apply _ ⟨rfl, rfl, rfl, rfl⟩ (by decide)
  have h3 : CycleFails storeFailEnv demoZone [demoReady 3] [] CycleStage.store (-5) :=
    CycleFails.store _ ⟨rfl, rfl, rfl, rfl⟩ rfl (fun h => absurd h (by decide)) (by decide)
  refine ⟨by decide, ⟨h1, ?_⟩, ⟨h2, ?_⟩, ⟨h3, ?_⟩⟩
  · obtain ⟨-, out, a, b, c⟩ :=
      (process_normal_assigned_rcodes ettlEnv demoZone [demoReady 3] [] (by decide)).1 _ _ h1
    exact ⟨out, a, b, by rw [c]; rfl⟩
  · obtain ⟨-, out, a, b, c⟩ :=
      (process_normal_assigned_rcodes applyFailEnv demoZone [demoReady 3] []
        (by decide)).1 _ _ h2
    exact ⟨out, a, b, by rw [c]; rfl⟩
  · obtain ⟨-, out, a, b, c⟩ :=
      (process_normal_assigned_rcodes storeFailEnv demoZone [demoReady 3] []
        (by decide)).1 _ _ h3
    exact ⟨out, a, b, by rw [c]; rfl⟩

/-- C8 (the claim fails): when the response packet of the only queued request
cannot be allocated, `updates_execute` reads the RCODE of the missing response
in `set_rcodes` and faults: it produces no result, so no response is sent. -/
theorem response_init_failure_faults :
    updates_execute noPacketEnv demoQueuedZone [] = none ∧
    ¬ ∃ out, updates_execute noPacketEnv demoQueuedZone [] = some out ∧
      (out.trace.filterMap Event.sent).length = demoQueuedZone.ddns_queue.length := by
  have h : updates_execute noPacketEnv demoQueuedZone [] = none := rfl
  refine ⟨h, ?_⟩
  rintro ⟨out, ho, -⟩
  rw [h] at ho
  exact Option.noConfusion ho

/-- C8 (as amended): for every batch dequeued by `updates_execute` whose
responses could all be initialised, whether the batch is forwarded or processed
locally and whatever the results, `updates_execute` returns `KNOT_EOK`, the
response of each request is sent exactly once, and the socket, the query, the
response and the request itself are released exactly once each, all in queue
order (`final` is the batch with its responses as sent); for an empty queue
nothing is sent or released. -/
theorem responses_sent_and_released_once (E : Env κ χ ρ) (zone : zone_t κ) (tr : Trace κ)
    (hinit : (init_update_respones E zone.ddns_queue tr).ret = KNOT_EOK) :
    ∃ out final sfx, updates_execute E zone tr = some out ∧ out.ret = KNOT_EOK ∧
      out.trace = tr ++ sfx ∧
      final.map request_data.ident = zone.ddns_queue.map request_data.ident ∧
      (∀ r ∈ final, r.resp.isSome = true) ∧
      sfx.filterMap Event.sent = final.filterMap (fun r => r.resp.map (fun p => (r.fd, p))) ∧
      (sfx.filterMap Event.sent).length = zone.ddns_queue.length ∧
      sfx.filterMap Event.closed = zone.ddns_queue.map request_data.fd ∧
      sfx.filterMap Event.freedQuery = zone.ddns_queue.map (fun r => some r.query) ∧
      sfx.filterMap Event.freedResp = final.map request_data.resp ∧
      sfx.filterMap Event.freedRequest = final ∧
      (zone.ddns_queue = [] → sfx = []) := by
  obtain ⟨out, final, P, T, h1, h2, h3, h4, h5, h6, h7, h8, h9, h10, h11, h12, h13, h14⟩ :=
    updates_execute_spec E zone tr hinit
  have hP := not_isTransport_filterMap
    (updates_execute_prefix_not_isTransport (fun hm => (h13 hm).2.1) h14)
  obtain ⟨q1, q2, q3, q4, q5⟩ := hP
  have hfd : final.map request_data.fd = zone.ddns_queue.map request_data.fd := by
    have := congrArg (List.map (fun x : Int × Nat × knot_pkt_t => x.1)) h4
    simpa [List.map_map, Function.comp_def, request_data.ident] using this
  have hqu : final.map (fun r => some r.query) =
      zone.ddns_queue.map (fun r => some r.query) := by
    have := congrArg (List.map (fun x : Int × Nat × knot_pkt_t => some x.2.2)) h4
    simpa [List.map_map, Function.comp_def, request_data.ident] using this
  have hlen : final.length = zone.ddns_queue.length := by
    have := congrArg List.length h4
    simpa using this
  refine ⟨out, final, P ++ T, h1, h2, h3, h4, h5, ?_, ?_, ?_, ?_, ?_, ?_, ?_⟩
  · rw [List.filterMap_append, q1, h7, List.nil_append]
  · rw [List.filterMap_append, q1, h7, List.nil_append, length_filterMap_resp final h5, hlen]
  · rw [List.filterMap_append, q2, h8, List.nil_append, hfd]
  · rw [List.filterMap_append, q3, h9, List.nil_append, hqu]
  · rw [List.filterMap_append, q4, h10, List.nil_append]
  · rw [List.filterMap_append, q5, h11, List.nil_append]
  · intro hq
    obtain ⟨a, b⟩ := h12 hq
    rw [a, b]
    rfl

/-- C8 (as amended) at a concrete input: a secondary zone with two queued
requests. -/
theorem responses_sent_and_released_once_witness :
    (init_update_respones demoEnv demoSecondary.ddns_queue []).ret = KNOT_EOK ∧
    ∃ out final sfx, updates_execute demoEnv demoSecondary [] = some out ∧
      out.ret = KNOT_EOK ∧ out.trace = [] ++ sfx ∧
      final.map request_data.ident = demoSecondary.ddns_queue.map request_data.ident ∧
      (∀ r ∈ final, r.resp.isSome = true) ∧
      sfx.filterMap Event.sent = final.filterMap (fun r => r.resp.map (fun p => (r.fd, p))) ∧
      (sfx.filterMap Event.sent).length = demoSecondary.ddns_queue.length ∧
      sfx.filterMap Event.closed = demoSecondary.ddns_queue.map request_data.fd ∧
      sfx.filterMap Event.freedQuery = demoSecondary.ddns_queue.map (fun r => some r.query) ∧
      sfx.filterMap Event.freedResp = final.map request_data.resp ∧
      sfx.filterMap Event.freedRequest = final ∧
      (demoSecondary.ddns_queue = [] → sfx = []) :=
  ⟨rfl, responses_sent_and_released_once demoEnv demoSecondary [] rfl⟩

/-- C9: in `updates_execute` (once the responses are initialised), when the
zone has a configured primary `forward_request` is run exactly once for each
request of the batch, in queue order, whatever the results of the others (each
run is identified by its `knot_pkt_copy` of the client query); no call of the
update cycle is made (no changeset built, nothing applied, signed, stored or
switched) and the contents reference of the zone is untouched.  When the zone
has no primary no forwarding call is made. -/
theorem secondary_forwards_every_request (E : Env κ χ ρ) (zone : zone_t κ) (tr : Trace κ)
    (hinit : (init_update_respones E zone.ddns_queue tr).ret = KNOT_EOK) :
    ∃ out sfx, updates_execute E zone tr = some out ∧ out.trace = tr ++ sfx ∧
      ((zone_master zone).isSome = true →
        sfx.filterMap Event.copySrc = zone.ddns_queue.map request_data.query ∧
        (∀ e ∈ sfx, e.isUpdateCycle = false) ∧
        out.zone.contents = zone.contents) ∧
      ((zone_master zone).isSome = false →
        (∀ e ∈ sfx, e.isForward = false) ∧ sfx.filterMap Event.copySrc = []) := by
  obtain ⟨out, final, P, T, h1, h2, h3, h4, h5, h6, h7, h8, h9, h10, h11, h12, h13, h14⟩ :=
    updates_execute_spec E zone tr hinit
  have hT : T.filterMap Event.copySrc = [] := by
    rw [List.filterMap_eq_nil_iff]
    exact fun e he => (isTransport_not_isForward e (h6 e he)).2.2
  refine ⟨out, P ++ T, h1, h3, ?_, ?_⟩
  · intro hm
    obtain ⟨a, b, c⟩ := h13 hm
    refine ⟨by rw [List.filterMap_append, a, hT, List.append_nil], ?_, c⟩
    intro e he
    simp only [List.mem_append] at he
    rcases he with he | he
    · exact (isForward_not_isTransport e (b e he)).2
    · exact (isTransport_not_isForward e (h6 e he)).2.1
  · intro hm
    have hP : ∀ e ∈ P, e.isForward = false ∧ e.copySrc = none := by
      intro e he
      have := h14 hm e he
      rw [Bool.or_eq_true] at this
      rcases this with h | h
      · exact (isUpdateCycle_not_isTransport e h).2
      · exact ⟨(isPktNew_not_isForward e h).1, (isPktNew_not_isForward e h).2.2.2⟩
    refine ⟨?_, ?_⟩
    · intro e he
      simp only [List.mem_append] at he
      rcases he with he | he
      · exact (hP e he).1
      · exact (isTransport_not_isForward e (h6 e he)).1
    · rw [List.filterMap_append, hT, List.append_nil, List.filterMap_eq_nil_iff]
      exact fun e he => (hP e he).2

/-- C9 at a concrete input: a secondary zone with two queued requests. -/
theorem secondary_forwards_every_request_witness :
    (init_update_respones demoEnv demoSecondary.ddns_queue []).ret = KNOT_EOK ∧
    ∃ out sfx, updates_execute demoEnv demoSecondary [] = some out ∧ out.trace = [] ++ sfx ∧
      ((zone_master demoSecondary).isSome = true →
        sfx.filterMap Event.copySrc = demoSecondary.ddns_queue.map request_data.query ∧
        (∀ e ∈ sfx, e.isUpdateCycle = false) ∧
        out.zone.contents = demoSecondary.contents) ∧
      ((zone_master demoSecondary).isSome = false →
        (∀ e ∈ sfx, e.isForward = false) ∧ sfx.filterMap Event.copySrc = []) :=
  ⟨rfl, secondary_forwards_every_request demoEnv demoSecondary [] rfl⟩

/-- C10 (the code departs from the claim): when the requestor cannot create
the request (`requestor_make` returns `NULL`), `forward_request` returns
`KNOT_ENOMEM`, which is not `KNOT_EOK`, and leaves the response of the request
untouched, at NOERROR instead of SERVFAIL; `updates_execute` then sends both
responses of the batch with RCODE NOERROR. -/
theorem forward_make_failure_keeps_noerror :
    (∃ f, forward_request makeFailEnv demoSecondary (demoReady 3) [] = some f ∧
      f.ret = makeFailEnv.KNOT_ENOMEM ∧ f.ret ≠ KNOT_EOK ∧
      f.request = demoReady 3 ∧
      f.request.rcode = some KNOT_RCODE_NOERROR) ∧
    (∃ out, updates_execute makeFailEnv demoSecondary [] = some out ∧
      (out.trace.filterMap Event.sent).map (fun x => knot_wire_get_rcode x.2) =
        [KNOT_RCODE_NOERROR, KNOT_RCODE_NOERROR]) := by
  refine ⟨⟨_, rfl, rfl, ?_, rfl, rfl⟩, ⟨_, rfl, rfl⟩⟩
  decide

/-- C11: for a request that `forward_request` forwards (its response exists,
the environment lets the copy of the client's query succeed and the requestor
make a request), the query handed to the requestor is the copy of the client's
query (same wire, RCODE and TSIG record) with the message ID replaced by the
16-bit value that `knot_random_uint16_t` returns and the TSIG appended; and
after the exchange, whether it succeeded or not, `forward_request` returns the
result of the exchange and the response relayed to the client is the capture
sink of the exchange with the message ID of the client's query set and the
TSIG appended again (and SERVFAIL set on failure), so it carries the ID of the
client's query.  The client's query is left as it was.  The copy and the TSIG
routine are external: a successful copy is assumed to reproduce the source,
and appending the TSIG to leave the ID alone. -/
theorem forwarded_query_and_relayed_response (E : Env κ χ ρ) (zone : zone_t κ)
    (request : request_data) (tr : Trace κ) (resp : knot_pkt_t)
    (hresp : request.resp = some resp)
    (hcopy : ∀ t dst src, (E.knot_pkt_copy t dst src).ret = KNOT_EOK →
      (E.knot_pkt_copy t dst src).pkt.wire = src.wire ∧
      (E.knot_pkt_copy t dst src).pkt.rcode = src.rcode ∧
      (E.knot_pkt_copy t dst src).pkt.tsig_rr = src.tsig_rr)
    (htsig : ∀ p, (E.knot_tsig_append p).id = p.id)
    (hc : (forward_copy E request tr).ret = KNOT_EOK)
    (hmade : E.requestor_make (forward_copied_trace E request tr) (zone_master zone)
      (forward_query E request tr) = true) :
    ∃ f T, forward_request E zone request tr = some f ∧
      f.trace = forward_copied_trace E request tr ++
        Event.requestor_make (forward_query E request tr) true :: T ∧
      (∀ q ok, Event.requestor_make q ok ∉ T) ∧
      (∃ copy, copy.wire = request.query.wire ∧ copy.rcode = request.query.rcode ∧
        copy.tsig_rr = request.query.tsig_rr ∧
        forward_query E request tr =
          E.knot_tsig_append (knot_wire_set_id copy (forward_random_id E request tr))) ∧
      knot_wire_get_id (forward_query E request tr) = forward_random_id E request tr ∧
      forward_random_id E request tr < 65536 ∧
      f.ret = (forward_exchange E request tr resp).ret ∧
      f.request.resp = some
        (if (forward_exchange E request tr resp).ret = KNOT_EOK then
          E.knot_tsig_append (knot_wire_set_id (forward_exchange E request tr resp).sink
            (knot_wire_get_id request.query))
         else
          knot_wire_set_rcode
            (E.knot_tsig_append (knot_wire_set_id (forward_exchange E request tr resp).sink
              (knot_wire_get_id request.query)))
            KNOT_RCODE_SERVFAIL) ∧
      (∃ relayed, f.request.resp = some relayed ∧
        knot_wire_get_id relayed = knot_wire_get_id request.query) ∧
      f.request.query = request.query ∧ f.request.fd = request.fd ∧
      f.request.remote = request.remote := by
  obtain ⟨c1, c2, c3⟩ := hcopy _ _ _ hc
  have hid : knot_wire_get_id (forward_query E request tr) = forward_random_id E request tr := by
    simp [forward_query, knot_wire_get_id, knot_wire_set_id, htsig]
  have hlt : forward_random_id E request tr < 65536 := Nat.mod_lt _ (by decide)
  unfold forward_exchange
  unfold forward_query forward_random_id forward_copied_trace forward_copy at *
  generalize hr : forward_request E zone request tr = r
  unfold forward_request at hr
  simp only [hresp, hc, hmade, ne_eq, not_true_eq_false, if_false, Bool.not_true,
    Bool.false_eq_true] at hr
  split_ifs at hr with h3 h4 <;> subst hr <;>
    refine ⟨_, _, rfl, by simp only [List.append_assoc, List.singleton_append,
      List.cons_append, List.nil_append]; rfl, ?_, ⟨_, c1, c2, c3, rfl⟩, hid, hlt, ?_, ?_, ?_,
      rfl, rfl, rfl⟩
  all_goals first
    | (intro q ok hq
       simp at hq)
    | exact ⟨_, rfl, by simp [knot_wire_get_id, knot_wire_set_id, knot_wire_set_rcode, htsig]⟩
    | (simp only [List.append_assoc, List.singleton_append, List.cons_append,
         List.nil_append] at *
       simp_all)

/-- C11 at concrete inputs: a request with an initialised response (query ID
3) forwarded by a secondary zone.  The drawn ID is 7, so the query made for
the primary carries ID 7.  With a primary that answers, the captured answer
(ID 7, wire [1]) is relayed with ID 3; with a primary that cannot be reached,
the response is relayed with ID 3 and SERVFAIL.  The client's query keeps ID
3. -/
theorem forwarded_query_and_relayed_response_witness :
    (∃ f, forward_request relayEnv demoSecondary (demoReady 3) [] = some f ∧
      f.ret = KNOT_EOK ∧
      Event.requestor_make ⟨7, KNOT_RCODE_NOERROR, [], none, 512⟩ true ∈ f.trace ∧
      f.request.resp = some ⟨3, KNOT_RCODE_NOERROR, [1], none, KNOT_WIRE_MAX_PKTSIZE⟩ ∧
      f.request.query = demoQuery 3) ∧
    (∃ f, forward_request execFailEnv demoSecondary (demoReady 3) [] = some f ∧
      f.ret = -111 ∧
      Event.requestor_make ⟨7, KNOT_RCODE_NOERROR, [], none, 512⟩ true ∈ f.trace ∧
      f.request.resp = some ⟨3, KNOT_RCODE_SERVFAIL, [], none, KNOT_WIRE_MAX_PKTSIZE⟩ ∧
      f.request.query = demoQuery 3) := by
  constructor
  · obtain ⟨f, T, h1, h2, -, -, -, -, h7, h8, -, h10, -, -⟩ :=
      forwarded_query_and_relayed_response relayEnv demoSecondary (demoReady 3) [] _ rfl
        (fun _ _ _ _ => ⟨rfl, rfl, rfl⟩) (fun _ => rfl) rfl rfl
    refine ⟨f, h1, h7.trans rfl, ?_, h8.trans rfl, h10⟩
    rw [h2]
    exact List.mem_append_right _ (List.mem_cons_self _ _)
  · obtain ⟨f, T, h1, h2, -, -, -, -, h7, h8, -, h10, -, -⟩ :=
      forwarded_query_and_relayed_response execFailEnv demoSecondary (demoReady 3) [] _ rfl
        (fun _ _ _ _ => ⟨rfl, rfl, rfl⟩) (fun _ => rfl) rfl rfl
    refine ⟨f, h1, h7.trans rfl, ?_, h8.trans rfl, h10⟩
    rw [h2]
    exact List.mem_append_right _ (List.mem_cons_self _ _)

/-- C12: `process_requests` schedules NOTIFY exactly when `process_normal`
succeeded and the serial of the zone's contents read after the cycle differs
from the serial read before it.  If `process_normal` succeeded and the serial
is unchanged, no NOTIFY is scheduled and `KNOT_EOK` is returned; in particular,
when the batch yields an empty changeset, the calls of the whole cycle are the
initialisation of the DDNS changeset, the steps of the requests and
`changeset_clear`: nothing is applied, signed, stored or switched, the zone is
as it was and `KNOT_EOK` is returned. -/
theorem notify_only_on_serial_change (E : Env κ χ ρ) (zone : zone_t κ)
    (reqs : List request_data) (tr : Trace κ)
    (hinit : ∀ r ∈ reqs, r.resp.isSome = true) :
    ∃ o out sfx, process_normal E zone reqs tr = some o ∧
      process_requests E zone reqs tr = some out ∧ out.trace = tr ++ sfx ∧
      out.ret = o.ret ∧ out.zone = o.zone ∧
      ((∃ t, Event.zone_events_schedule ZoneEvent.NOTIFY t ∈ sfx) ↔
        (o.ret = KNOT_EOK ∧
          E.zone_contents_serial o.zone.contents ≠ E.zone_contents_serial zone.contents)) ∧
      (∀ w, (E.changeset_init tr ChId.ddns).ret = KNOT_EOK →
        process_normal_walk E zone reqs
          ⟨zone.contents, (E.changeset_init tr ChId.ddns).change⟩
          (tr ++ [Event.changeset_init ChId.ddns KNOT_EOK]) = some w →
        w.ret = KNOT_EOK → E.changeset_empty w.update.change = true →
        out.ret = KNOT_EOK ∧ out.zone = zone ∧
        ∃ W, WalkOk reqs W ∧
          sfx = Event.changeset_init ChId.ddns KNOT_EOK :: W ++
            [Event.changeset_clear ChId.ddns]) := by
  obtain ⟨ret, zone1, reqs1, sfx, ho, hpath, hreq⟩ :=
    process_requests_spec E zone reqs tr hinit
  have hno := normalPath_no_notify hpath
  refine ⟨_, _, _, ho, hreq, rfl, rfl, rfl, ?_, ?_⟩
  · simp only
    constructor
    · rintro ⟨t, ht⟩
      simp only [List.mem_append] at ht
      rcases ht with ht | ht
      · exact absurd ht (hno t)
      · split at ht
        · assumption
        · simp at ht
    · intro h
      exact ⟨ZONE_EVENT_NOW, by simp [h]⟩
  · intro w h1 hw hret hce
    have hw1 : process_normal_walk E zone reqs
        ⟨zone.contents, (E.changeset_init tr ChId.ddns).change⟩
        (tr ++ [Event.changeset_init ChId.ddns (E.changeset_init tr ChId.ddns).ret]) =
        some w := by rw [h1]; exact hw
    have hpn := process_normal_no_change E zone reqs tr w h1 hw1 hret hce
    rw [ho] at hpn
    obtain ⟨w1, W, hw2, hwtr, hwcase⟩ := process_normal_walk_spec E zone reqs
      ⟨zone.contents, (E.changeset_init tr ChId.ddns).change⟩
      (tr ++ [Event.changeset_init ChId.ddns KNOT_EOK]) hinit
    rw [hw] at hw2
    obtain rfl := Option.some.inj hw2
    simp only [Option.some.injEq, Outcome.mk.injEq] at hpn
    obtain ⟨e1, e2, e3, e4⟩ := hpn
    have hWok : WalkOk reqs W := by
      rcases hwcase with ⟨-, -, h⟩ | ⟨h, -⟩
      · exact h
      · exact absurd hret h
    rw [hwtr, List.append_assoc, List.append_assoc] at e4
    have e5 := List.append_cancel_left e4
    subst e1 e2 e5
    refine ⟨rfl, rfl, W, hWok, ?_⟩
    simp


/-- C12 at a concrete input: a batch of one request on a zone without DNSSEC,
every external call succeeding. -/
theorem notify_only_on_serial_change_witness :
    (∀ r ∈ [demoReady 3], r.resp.isSome = true) ∧
    ∃ o out sfx, process_normal demoEnv demoZone [demoReady 3] [] = some o ∧
      process_requests demoEnv demoZone [demoReady 3] [] = some out ∧ out.trace = [] ++ sfx ∧
      out.ret = o.ret ∧ out.zone = o.zone ∧
      ((∃ t, Event.zone_events_schedule ZoneEvent.NOTIFY t ∈ sfx) ↔
        (o.ret = KNOT_EOK ∧
          demoEnv.zone_contents_serial o.zone.contents ≠
            demoEnv.zone_contents_serial demoZone.contents)) ∧
      (∀ w, (demoEnv.changeset_init [] ChId.ddns).ret = KNOT_EOK →
        process_normal_walk demoEnv demoZone [demoReady 3]
          ⟨demoZone.contents, (demoEnv.changeset_init [] ChId.ddns).change⟩
          ([] ++ [Event.changeset_init ChId.ddns KNOT_EOK]) = some w →
        w.ret = KNOT_EOK → demoEnv.changeset_empty w.update.change = true →
        out.ret = KNOT_EOK ∧ out.zone = demoZone ∧
        ∃ W, WalkOk [demoReady 3] W ∧
          sfx = Event.changeset_init ChId.ddns KNOT_EOK :: W ++
            [Event.changeset_clear ChId.ddns]) :=
  ⟨by simp [demoReady], notify_only_on_serial_change demoEnv demoZone [demoReady 3] []
    (by simp [demoReady])⟩

/-- C13 (counterexample): a cycle that commits a non-empty changeset but
schedules no NOTIFY.  With external calls under which the serial read after
the switch equals the serial read before the cycle, `process_requests` on a
batch of one update returns `KNOT_EOK`, the contents are switched (snapshot 101
replaces snapshot 100), and no NOTIFY event is scheduled. -/
theorem commit_without_notify :
    ∃ out, process_requests sameSerialEnv demoZone [demoReady 3] [] = some out ∧
      out.ret = KNOT_EOK ∧ out.zone.contents = 101 ∧
      Event.apply_changeset KNOT_EOK (some 101) ∈ out.trace ∧
      Event.zone_change_store KNOT_EOK ∈ out.trace ∧
      Event.zone_switch_contents 101 100 ∈ out.trace ∧
      ∀ t, Event.zone_events_schedule ZoneEvent.NOTIFY t ∉ out.trace := by
  refine ⟨_, rfl, rfl, rfl, ?_, ?_, ?_, ?_⟩ <;>
    simp [process_requests, process_normal, process_normal_walk, process_single_update,
      process_normal_store, zone_switch_contents, sameSerialEnv, demoEnv, demoZone, demoReady,
      demoQuery, KNOT_EOK]

/-- C13 (as amended): whenever an update cycle commits (the trace of
`process_requests` holds a `zone_switch_contents`), `KNOT_EOK` is returned, the
switch publishes the new contents in place of the ones from before the cycle, a
NOTIFY event is scheduled if and only if the serial of the new contents differs
from the serial read before the cycle, and a FLUSH event is scheduled if and
only if the zone is configured for immediate flush (`dbsync_timeout == 0`). -/
theorem commit_schedules_notify_and_flush (E : Env κ χ ρ) (zone : zone_t κ)
    (reqs : List request_data) (tr : Trace κ)
    (hinit : ∀ r ∈ reqs, r.resp.isSome = true) :
    ∃ out sfx, process_requests E zone reqs tr = some out ∧ out.trace = tr ++ sfx ∧
      ∀ n o, Event.zone_switch_contents n o ∈ sfx →
        out.ret = KNOT_EOK ∧ out.zone.contents = n ∧ o = zone.contents ∧
        Event.apply_changeset KNOT_EOK (some n) ∈ sfx ∧
        (Event.zone_events_schedule ZoneEvent.NOTIFY ZONE_EVENT_NOW ∈ sfx ↔
          E.zone_contents_serial n ≠ E.zone_contents_serial zone.contents) ∧
        (Event.zone_events_schedule ZoneEvent.FLUSH ZONE_EVENT_NOW ∈ sfx ↔
          zone.conf.dbsync_timeout = 0) := by
  obtain ⟨ret, zone1, reqs1, sfx, -, hpath, hreq⟩ :=
    process_requests_spec E zone reqs tr hinit
  refine ⟨_, _, hreq, rfl, ?_⟩
  cases hpath with
  | init_failed ret h => simp [h]
  | request_failed ret h W reqs2 hW =>
    have hw := (walkFailed_isWalk hW)
    have w2 := fun n o => not_mem_of_flag hw (Event.zone_switch_contents n o) rfl
    simp [h, w2]
  | no_change W hW =>
    have hw := (walkOk_isWalk hW)
    have w2 := fun n o => not_mem_of_flag hw (Event.zone_switch_contents n o) rfl
    simp [w2]
  | apply_failed ret h W hW =>
    have hw := (walkOk_isWalk hW)
    have w2 := fun n o => not_mem_of_flag hw (Event.zone_switch_contents n o) rfl
    simp [h, w2]
  | sec_init_failed ret h W hW new_contents hd =>
    have hw := (walkOk_isWalk hW)
    have w2 := fun n o => not_mem_of_flag hw (Event.zone_switch_contents n o) rfl
    simp [h, w2]
  | sign_failed ret h W hW new_contents hd S hS hf hu =>
    have hw := (walkOk_isWalk hW)
    have w2 := fun n o => not_mem_of_flag hw (Event.zone_switch_contents n o) rfl
    have s2 := fun n o => not_mem_of_flag hS (Event.zone_switch_contents n o) rfl
    simp [h, w2, s2]
  | store_failed ret h W hW new_contents D hD =>
    have hw := (walkOk_isWalk hW)
    have hd := (secPassed_isSecBlock hD)
    have w2 := fun n o => not_mem_of_flag hw (Event.zone_switch_contents n o) rfl
    have s2 := fun n o => not_mem_of_flag hd (Event.zone_switch_contents n o) rfl
    by_cases hdn : zone.conf.dnssec_enable = true <;> simp [h, w2, s2, hdn]
  | committed W hW new_contents D hD =>
    have hw := (walkOk_isWalk hW)
    have hd := (secPassed_isSecBlock hD)
    have w2 := fun n o => not_mem_of_flag hw (Event.zone_switch_contents n o) rfl
    have s2 := fun n o => not_mem_of_flag hd (Event.zone_switch_contents n o) rfl
    have w3 := fun t => not_mem_of_flag hw (Event.zone_events_schedule ZoneEvent.NOTIFY t) rfl
    have s3 := fun t => not_mem_of_flag hd (Event.zone_events_schedule ZoneEvent.NOTIFY t) rfl
    have w4 := fun t => not_mem_of_flag hw (Event.zone_events_schedule ZoneEvent.FLUSH t) rfl
    have s4 := fun t => not_mem_of_flag hd (Event.zone_events_schedule ZoneEvent.FLUSH t) rfl
    intro n o hm
    have hno : n = new_contents ∧ o = zone.contents := by
      by_cases hdn : zone.conf.dnssec_enable = true <;>
        by_cases hdb : zone.conf.dbsync_timeout = 0 <;>
        by_cases hse : E.zone_contents_serial new_contents =
          E.zone_contents_serial zone.contents <;>
        simpa [w2, s2, hdn, hdb, hse] using hm
    obtain ⟨rfl, rfl⟩ := hno
    refine ⟨rfl, rfl, rfl, by simp, ?_, ?_⟩
    · by_cases hdn : zone.conf.dnssec_enable = true <;>
        by_cases hdb : zone.conf.dbsync_timeout = 0 <;>
        by_cases hse : E.zone_contents_serial n =
          E.zone_contents_serial zone.contents <;>
        simp [w3, s3, hdn, hdb, hse]
    · by_cases hdn : zone.conf.dnssec_enable = true <;>
        by_cases hdb : zone.conf.dbsync_timeout = 0 <;>
        by_cases hse : E.zone_contents_serial n =
          E.zone_contents_serial zone.contents <;>
        simp [w4, s4, hdn, hdb, hse]

/-- C13 (as amended) at a concrete input: a batch of one request on a zone
without DNSSEC, every external call succeeding. -/
theorem commit_schedules_notify_and_flush_witness :
    (∀ r ∈ [demoReady 3], r.resp.isSome = true) ∧
    ∃ out sfx, process_requests demoEnv demoZone [demoReady 3] [] = some out ∧
      out.trace = [] ++ sfx ∧
      ∀ n o, Event.zone_switch_contents n o ∈ sfx →
        out.ret = KNOT_EOK ∧ out.zone.contents = n ∧ o = demoZone.contents ∧
        Event.apply_changeset KNOT_EOK (some n) ∈ sfx ∧
        (Event.zone_events_schedule ZoneEvent.NOTIFY ZONE_EVENT_NOW ∈ sfx ↔
          demoEnv.zone_contents_serial n ≠ demoEnv.zone_contents_serial demoZone.contents) ∧
        (Event.zone_events_schedule ZoneEvent.FLUSH ZONE_EVENT_NOW ∈ sfx ↔
          demoZone.conf.dbsync_timeout = 0) :=
  ⟨by simp [demoReady], commit_schedules_notify_and_flush demoEnv demoZone [demoReady 3] []
    (by simp [demoReady])⟩

/-- C14: `sign_update` returns `KNOT_EOK` exactly when the signer, the
application of the signature changeset and the merge all returned `KNOT_EOK`;
it then reads the scheduled resign time and the clock, and schedules the DNSSEC
event at `refresh_at` if and only if the clock value plus `refresh_at` is
strictly smaller than the scheduled resign time, making no other scheduling
call.  When signing, applying or merging fails, no event is scheduled (and
neither the resign time nor the clock is read). -/
theorem sign_update_reschedules_iff_sooner (E : Env κ χ ρ) (zone : zone_t κ)
    (old_contents new_contents : κ) (ddns_ch sec_ch : χ) (tr : Trace κ) :
    ∃ S, (sign_update E zone old_contents new_contents ddns_ch sec_ch tr).trace = tr ++ S ∧
      ((sign_update E zone old_contents new_contents ddns_ch sec_ch tr).ret = KNOT_EOK →
        ∃ (sg : Event κ) (refresh_at : Nat) (resign_time now : Int),
          (sg = Event.knot_dnssec_zone_sign KNOT_EOK refresh_at ∨
            sg = Event.knot_dnssec_sign_changeset KNOT_EOK refresh_at) ∧
          S = [sg, Event.apply_changeset_directly KNOT_EOK, Event.changeset_merge KNOT_EOK,
              Event.zone_events_get_time ZoneEvent.DNSSEC resign_time, Event.time now] ++
            (if now + (refresh_at : Int) < resign_time then
              [Event.zone_events_schedule ZoneEvent.DNSSEC (refresh_at : Int)]
             else []) ∧
          ((∃ ev t, Event.zone_events_schedule ev t ∈ S) ↔
            now + (refresh_at : Int) < resign_time)) ∧
      ((sign_update E zone old_contents new_contents ddns_ch sec_ch tr).ret ≠ KNOT_EOK →
        (∃ e ∈ S, (e.isSigner = true ∨ (∃ r, e = Event.apply_changeset_directly r) ∨
            ∃ r, e = Event.changeset_merge r) ∧
          e.retOf =
            some (sign_update E zone old_contents new_contents ddns_ch sec_ch tr).ret) ∧
        ∀ e ∈ S, (∀ ev t, e ≠ Event.zone_events_schedule ev t) ∧
          (∀ ev t, e ≠ Event.zone_events_get_time ev t) ∧ ∀ t, e ≠ Event.time t) := by
  generalize hr : sign_update E zone old_contents new_contents ddns_ch sec_ch tr = r
  unfold sign_update at hr
  dsimp only at hr
  split_ifs at hr with hw h1 h2 h3 h4 h1 h2 h3 h4 <;> subst hr <;>
    refine ⟨_, by simp only [List.append_assoc]; rfl, ?_, ?_⟩
  all_goals first
    | (intro h
       exact absurd rfl h)
    | (intro h
       exact absurd h ‹_›)
    | (intro _
       simp_all
       first
         | exact ⟨_, _, Or.inl rfl, _, _, ⟨rfl, rfl, rfl, by simp_all⟩, by assumption⟩
         | exact ⟨_, _, Or.inr rfl, _, _, ⟨rfl, rfl, rfl, by simp_all⟩, by assumption⟩)
    | (intro _
       simp_all [Event.isSigner, Event.retOf])

/-- C15: in every trace of `process_normal` (on a batch with initialised
responses) that switches the contents, `KNOT_EOK` is returned, the old contents
returned by `zone_switch_contents` are the contents published before the cycle,
`synchronize_rcu` is called right after the switch, and `update_free_zone` is
called on the old contents after it; no other `update_free_zone` and no other
switch occurs in the trace, so the old contents are freed exactly once.  On a
failing cycle the contents are never switched, the zone is unchanged, and every
snapshot freed is one that `apply_changeset` built in this cycle.  Provided the
snapshot built by `apply_changeset` is not the one published before the cycle,
no `update_free_zone` is ever called on the snapshot published at the time of
the call. -/
theorem old_contents_freed_once_after_rcu (E : Env κ χ ρ) (zone : zone_t κ)
    (reqs : List request_data) (tr : Trace κ)
    (hinit : ∀ r ∈ reqs, r.resp.isSome = true) :
    ∃ out sfx, process_normal E zone reqs tr = some out ∧ out.trace = tr ++ sfx ∧
      (∀ n old, Event.zone_switch_contents n old ∈ sfx →
        out.ret = KNOT_EOK ∧ old = zone.contents ∧ out.zone.contents = n ∧
        ∃ A B C, sfx = A ++ Event.zone_switch_contents n old :: Event.synchronize_rcu ::
            B ++ Event.update_free_zone old :: C ∧
          (∀ e ∈ A ++ B ++ C, e.isFreeZone = false ∧ e.isSwitch = false)) ∧
      (out.ret ≠ KNOT_EOK →
        out.zone = zone ∧ (∀ e ∈ sfx, e.isSwitch = false) ∧
        ∀ c, Event.update_free_zone c ∈ sfx →
          Event.apply_changeset KNOT_EOK (some c) ∈ sfx) ∧
      ((∀ n, Event.apply_changeset KNOT_EOK (some n) ∈ sfx → n ≠ zone.contents) →
        ∀ P c Q, sfx = P ++ Event.update_free_zone c :: Q →
          c ≠ publishedAfter zone.contents P) := by
  obtain ⟨out, sfx, ho, htr, hpath⟩ := process_normal_paths E zone reqs tr hinit
  refine ⟨out, sfx, ho, htr, ?_⟩
  rcases normalPath_free_cases hpath with ⟨hz, hfl⟩ | ⟨hret, hz, X, nc, Y, rfl, hap, hX, hY⟩ |
    ⟨hret, A, nc, B, C, hz, rfl, hap, hA, hB, hC⟩
  · refine ⟨?_, ?_, ?_⟩
    · intro n old hm
      exact absurd (hfl _ hm).2 (by simp [Event.isSwitch])
    · intro _
      refine ⟨hz, fun e he => (hfl e he).2, ?_⟩
      intro c hm
      exact absurd (hfl _ hm).1 (by simp [Event.isFreeZone])
    · intro _ P c Q hs
      have hm : Event.update_free_zone c ∈ sfx := by rw [hs]; simp
      exact absurd (hfl _ hm).1 (by simp [Event.isFreeZone])
  · refine ⟨?_, ?_, ?_⟩
    · intro n old hm
      exfalso
      simp only [List.mem_append, List.mem_cons] at hm
      rcases hm with hm | hm | hm
      · exact absurd (hX _ hm).2 (by simp [Event.isSwitch])
      · cases hm
      · exact absurd (hY _ hm).2 (by simp [Event.isSwitch])
    · intro _
      refine ⟨hz, ?_, ?_⟩
      · intro e he
        simp only [List.mem_append, List.mem_cons] at he
        rcases he with he | rfl | he
        · exact (hX e he).2
        · rfl
        · exact (hY e he).2
      · intro c hm
        simp only [List.mem_append, List.mem_cons] at hm
        rcases hm with hm | hm | hm
        · exact absurd (hX _ hm).1 (by simp [Event.isFreeZone])
        · cases hm
          exact List.mem_append_left _ hap
        · exact absurd (hY _ hm).1 (by simp [Event.isFreeZone])
    · intro hfresh P c Q hs
      obtain ⟨rfl, hc, rfl⟩ := @split_at_flag_unique _ Event.isFreeZone X Y P Q
        (Event.update_free_zone nc) (Event.update_free_zone c)
        (fun e he => (hX e he).1) (fun e he => (hY e he).1) rfl hs
      cases hc
      rw [publishedAfter_of_no_switch _ _ (fun e he => (hX e he).2)]
      exact hfresh _ (List.mem_append_left _ hap)
  · have hABC : ∀ e ∈ A ++ B ++ C, e.isFreeZone = false ∧ e.isSwitch = false := by
      intro e he
      simp only [List.mem_append] at he
      rcases he with (he | he) | he
      · exact hA e he
      · exact hB e he
      · exact hC e he
    refine ⟨?_, ?_, ?_⟩
    · intro n old hm
      have : n = nc ∧ old = zone.contents := by
        simp only [List.mem_append, List.mem_cons] at hm
        rcases hm with (hm | hm | hm | hm) | hm | hm
        · exact absurd (hA _ hm).2 (by simp [Event.isSwitch])
        · cases hm; exact ⟨rfl, rfl⟩
        · cases hm
        · exact absurd (hB _ hm).2 (by simp [Event.isSwitch])
        · cases hm
        · exact absurd (hC _ hm).2 (by simp [Event.isSwitch])
      obtain ⟨rfl, rfl⟩ := this
      exact ⟨hret, rfl, by rw [hz], A, B, C, by simp, hABC⟩
    · intro h
      exact absurd hret h
    · intro hfresh P c Q hs
      obtain ⟨rfl, hc, rfl⟩ := @split_at_flag_unique _ Event.isFreeZone
        (A ++ Event.zone_switch_contents nc zone.contents :: Event.synchronize_rcu :: B) C P Q
        (Event.update_free_zone zone.contents) (Event.update_free_zone c)
        (by
          intro e he
          simp only [List.mem_append, List.mem_cons] at he
          rcases he with he | rfl | rfl | he
          · exact (hA e he).1
          · rfl
          · rfl
          · exact (hB e he).1)
        (fun e he => (hC e he).1) rfl hs
      cases hc
      rw [publishedAfter_append, publishedAfter_of_no_switch _ _ (fun e he => (hA e he).2)]
      have : publishedAfter zone.contents
          (Event.zone_switch_contents nc zone.contents :: Event.synchronize_rcu :: B) = nc := by
        simp only [publishedAfter]
        exact publishedAfter_of_no_switch _ _ (fun e he => (hB e he).2)
      rw [this]
      exact fun h => hfresh nc (by simp [hap]) h.symm

/-- C15 at a concrete input: a batch of one request on a zone without DNSSEC,
every external call succeeding. -/
theorem old_contents_freed_once_after_rcu_witness :
    (∀ r ∈ [demoReady 3], r.resp.isSome = true) ∧
    ∃ out sfx, process_normal demoEnv demoZone [demoReady 3] [] = some out ∧
      out.trace = [] ++ sfx ∧
      (∀ n old, Event.zone_switch_contents n old ∈ sfx →
        out.ret = KNOT_EOK ∧ old = demoZone.contents ∧ out.zone.contents = n ∧
        ∃ A B C, sfx = A ++ Event.zone_switch_contents n old :: Event.synchronize_rcu ::
            B ++ Event.update_free_zone old :: C ∧
          (∀ e ∈ A ++ B ++ C, e.isFreeZone = false ∧ e.isSwitch = false)) ∧
      (out.ret ≠ KNOT_EOK →
        out.zone = demoZone ∧ (∀ e ∈ sfx, e.isSwitch = false) ∧
        ∀ c, Event.update_free_zone c ∈ sfx →
          Event.apply_changeset KNOT_EOK (some c) ∈ sfx) ∧
      ((∀ n, Event.apply_changeset KNOT_EOK (some n) ∈ sfx → n ≠ demoZone.contents) →
        ∀ P c Q, sfx = P ++ Event.update_free_zone c :: Q →
          c ≠ publishedAfter demoZone.contents P) :=
  ⟨by simp [demoReady], old_contents_freed_once_after_rcu demoEnv demoZone [demoReady 3] []
    (by simp [demoReady])⟩

/-- C16: for every changeset, the `NULL` one included, `changeset_empty` holds
if and only if `changeset_size` is 0; hence also for every changeset reached by
additions, removals, merges and clears.  As in the test: the `NULL` changeset
and a new changeset are empty and of size 0, the changeset holding one addition
and one removal is not empty and of size 2, and a cleared changeset is empty
and of size 0. -/
theorem changeset_empty_iff_size_zero :
    (∀ ch : Option changeset_t, changeset_empty ch = true ↔ changeset_size ch = 0) ∧
    (∀ ch, changeset_reachable ch →
      (changeset_empty (some ch) = true ↔ changeset_size (some ch) = 0)) ∧
    (changeset_size none = 0 ∧ changeset_empty none = true) ∧
    (∀ apex, changeset_empty (changeset_new true apex) = true ∧
      changeset_size (changeset_new true apex) = 0) ∧
    (changeset_empty (some test_ch2) = false ∧ changeset_size (some test_ch2) = 2) ∧
    (∀ ch, changeset_empty (some (changeset_clear ch)) = true ∧
      changeset_size (some (changeset_clear ch)) = 0) := by
  have key : ∀ ch : Option changeset_t,
      changeset_empty ch = true ↔ changeset_size ch = 0 := by
    intro ch
    cases ch with
    | none => simp [changeset_empty, changeset_size]
    | some c =>
      simp [changeset_empty, changeset_size, List.isEmpty_iff, List.length_eq_zero]
  refine ⟨key, fun ch _ => key (some ch), ⟨rfl, rfl⟩, fun apex => ⟨rfl, rfl⟩, ⟨rfl, rfl⟩,
    fun ch => ⟨rfl, rfl⟩⟩

/-- C17: for every reachable changeset, the loop that calls
`changeset_iter_next` on an ALL-mode iterator (sorted or not) until an empty
RRSet comes back ends at call number `changeset_size + 1`, not earlier, having
collected exactly `changeset_size` RRSets, none of them empty: the entries of
the add and of the remove section, each once; the RRSet that ends the loop is
the sentinel returned when nothing remains.  Creating the iterator, running it
to the sentinel and freeing it leaves the changeset in memory as it was, with
no iterator left; so does freeing the iterator after any number of calls; and a
second iteration over the memory the first one left yields the same
sequence. -/
theorem iter_all_yields_size_entries (ch : changeset_t) (sorted : Bool)
    (h : changeset_reachable ch) :
    ∃ ys, changeset_iter_collect (changeset_size (some ch) + 1)
        (changeset_iter_all ch sorted) = some ys ∧
      ys.length = changeset_size (some ch) ∧
      (∀ r ∈ ys, knot_rrset_empty r = false) ∧
      ys.Perm (ch.add ++ ch.remove) ∧
      (∀ fuel, changeset_size (some ch) + 1 ≤ fuel →
        changeset_iter_collect fuel (changeset_iter_all ch sorted) = some ys) ∧
      (∀ fuel, fuel ≤ changeset_size (some ch) →
        changeset_iter_collect fuel (changeset_iter_all ch sorted) = none) ∧
      (changeset_iter_all ch sorted).remaining = ys ∧
      (changeset_iter_next ⟨[]⟩).1 = knot_rrset_init_empty ∧
      changeset_memory_iterate (changeset_size (some ch) + 1) sorted ⟨some ch, none⟩ =
        some (ys, ⟨some ch, none⟩) ∧
      (∀ m1 ys1, changeset_memory_iterate (changeset_size (some ch) + 1) sorted
          ⟨some ch, none⟩ = some (ys1, m1) →
        changeset_memory_iterate (changeset_size (some ch) + 1) sorted m1 =
          some (ys1, m1)) ∧
      (∀ k, changeset_iter_free (changeset_memory_iter_skip k
          (changeset_memory_iter_all ⟨some ch, none⟩ sorted)) = ⟨some ch, none⟩) := by
  have hperm := changeset_iter_order_perm sorted (ch.add ++ ch.remove)
  have hvalid : ∀ r ∈ changeset_iter_order sorted (ch.add ++ ch.remove),
      knot_rrset_empty r = false :=
    fun r hr => changeset_reachable_valid h r (hperm.mem_iff.mp hr)
  have hlen : (changeset_iter_order sorted (ch.add ++ ch.remove)).length =
      changeset_size (some ch) := by
    rw [hperm.length_eq]
    simp [changeset_size]
  have hcol : changeset_iter_collect (changeset_size (some ch) + 1)
      (changeset_iter_all ch sorted) =
      some (changeset_iter_order sorted (ch.add ++ ch.remove)) :=
    changeset_iter_collect_some _ hvalid _ (by rw [hlen])
  have hrun : changeset_memory_iterate (changeset_size (some ch) + 1) sorted ⟨some ch, none⟩ =
      some (changeset_iter_order sorted (ch.add ++ ch.remove), ⟨some ch, none⟩) := by
    rw [changeset_memory_iterate_eq, hcol]
    rfl
  refine ⟨changeset_iter_order sorted (ch.add ++ ch.remove), hcol, hlen, hvalid, hperm, ?_, ?_,
    rfl, rfl, hrun, ?_, ?_⟩
  · intro fuel hf
    exact changeset_iter_collect_some _ hvalid _ (by rw [hlen]; exact hf)
  · intro fuel hf
    exact changeset_iter_collect_none _ hvalid _ (by rw [hlen]; exact hf)
  · intro m1 ys1 h1
    rw [hrun] at h1
    cases h1
    exact hrun
  · intro k
    have := changeset_memory_iter_skip_ch k (changeset_memory_iter_all ⟨some ch, none⟩ sorted)
    simp only [changeset_iter_free]
    rw [this]
    rfl

/-- C17 at the changeset of the test (three additions and one removal): the
loop collects 4 RRSets, and a second iteration collects the same 4. -/
theorem iter_all_yields_size_entries_witness :
    changeset_reachable test_ch ∧ changeset_size (some test_ch) = 4 ∧
    changeset_memory_iterate 5 false ⟨some test_ch, none⟩ =
      some ([apex_txt_rr, apex_spf_rr, other_rr, apex_txt_rr], ⟨some test_ch, none⟩) ∧
    ∃ ys, changeset_iter_collect (changeset_size (some test_ch) + 1)
        (changeset_iter_all test_ch false) = some ys ∧
      ys.length = changeset_size (some test_ch) ∧
      (∀ r ∈ ys, knot_rrset_empty r = false) ∧
      ys.Perm (test_ch.add ++ test_ch.remove) ∧
      (∀ fuel, changeset_size (some test_ch) + 1 ≤ fuel →
        changeset_iter_collect fuel (changeset_iter_all test_ch false) = some ys) ∧
      (∀ fuel, fuel ≤ changeset_size (some test_ch) →
        changeset_iter_collect fuel (changeset_iter_all test_ch false) = none) ∧
      (changeset_iter_all test_ch false).remaining = ys ∧
      (changeset_iter_next ⟨[]⟩).1 = knot_rrset_init_empty ∧
      changeset_memory_iterate (changeset_size (some test_ch) + 1) false
          ⟨some test_ch, none⟩ = some (ys, ⟨some test_ch, none⟩) ∧
      (∀ m1 ys1, changeset_memory_iterate (changeset_size (some test_ch) + 1) false
          ⟨some test_ch, none⟩ = some (ys1, m1) →
        changeset_memory_iterate (changeset_size (some test_ch) + 1) false m1 =
          some (ys1, m1)) ∧
      (∀ k, changeset_iter_free (changeset_memory_iter_skip k
          (changeset_memory_iter_all ⟨some test_ch, none⟩ false)) = ⟨some test_ch, none⟩) :=
  ⟨changeset_reachable_test_ch, rfl, by decide,
    iter_all_yields_size_entries test_ch false changeset_reachable_test_ch⟩

/-- C18: additions and removals are counted independently.  On a new changeset,
adding an RRSet returns `KNOT_EOK` and makes the size 1, and putting the very
same RRSet into the remove section returns `KNOT_EOK` and makes the size 2: the
RRSet is then an entry of both sections, nothing is cancelled.  In general
`changeset_size` is the number of entries of the add section plus the number
of entries of the remove section, an addition leaves the remove section as it
is and a removal leaves the add section as it is. -/
theorem add_and_remove_counted_independently :
    (∀ apex rrset, ∃ ch0, changeset_new true apex = some ch0 ∧
      changeset_size (some ch0) = 0 ∧
      (changeset_add_rrset true ch0 rrset).ret = KNOT_EOK ∧
      changeset_size (some (changeset_add_rrset true ch0 rrset).ch) = 1 ∧
      (changeset_rem_rrset true (changeset_add_rrset true ch0 rrset).ch rrset).ret =
        KNOT_EOK ∧
      changeset_size
        (some (changeset_rem_rrset true (changeset_add_rrset true ch0 rrset).ch rrset).ch) =
        2 ∧
      (changeset_rem_rrset true (changeset_add_rrset true ch0 rrset).ch rrset).ch.add =
        [rrset] ∧
      (changeset_rem_rrset true (changeset_add_rrset true ch0 rrset).ch rrset).ch.remove =
        [rrset]) ∧
    (∀ ch, changeset_size (some ch) = ch.add.length + ch.remove.length) ∧
    (∀ alloc ch rrset, (changeset_add_rrset alloc ch rrset).ch.remove = ch.remove ∧
      (changeset_rem_rrset alloc ch rrset).ch.add = ch.add) ∧
    (changeset_size (some test_ch0) = 0 ∧ changeset_size (some test_ch1) = 1 ∧
      changeset_size (some test_ch2) = 2) := by
  refine ⟨fun apex rrset => ⟨_, rfl, rfl, rfl, rfl, rfl, rfl, rfl, rfl⟩, fun ch => rfl, ?_,
    ⟨rfl, rfl, rfl⟩⟩
  intro alloc ch rrset
  cases alloc <;> exact ⟨rfl, rfl⟩

/-- C19: for every reachable changeset, the loop over a sorted ADD-mode
iterator collects exactly the entries of the add section, each once and none of
them empty, with the owners in canonical DNS name order and, for each owner,
its RRSets in the order of the add section (insertion order); an owner without
an entry in the add section is never yielded; after the last RRSet the sentinel
is returned. -/
theorem sorted_add_iterator_order (ch : changeset_t) (h : changeset_reachable ch) :
    ∃ ys, changeset_iter_collect (ch.add.length + 1) (changeset_iter_add ch true) = some ys ∧
      ys.Perm ch.add ∧
      ys.Sorted rrset_owner_le ∧
      (∀ o, ys.filter (fun r => decide (dname_canonical r.owner = dname_canonical o)) =
        ch.add.filter (fun r => decide (dname_canonical r.owner = dname_canonical o))) ∧
      (∀ r ∈ ys, knot_rrset_empty r = false) ∧
      (∀ o, (∀ e ∈ ch.add, dname_canonical e.owner ≠ dname_canonical o) →
        ∀ r ∈ ys, dname_canonical r.owner ≠ dname_canonical o) ∧
      (changeset_iter_add ch true).remaining = ys ∧
      (changeset_iter_next ⟨[]⟩).1 = knot_rrset_init_empty := by
  have hperm : (ch.add.insertionSort rrset_owner_le).Perm ch.add :=
    List.perm_insertionSort _ _
  have hvalid : ∀ r ∈ ch.add.insertionSort rrset_owner_le, knot_rrset_empty r = false :=
    fun r hr => changeset_reachable_valid h r
      (List.mem_append_left _ (hperm.mem_iff.mp hr))
  refine ⟨ch.add.insertionSort rrset_owner_le, ?_, hperm, List.sorted_insertionSort _ _,
    fun o => filter_insertionSort_owner o ch.add, hvalid, ?_, rfl, rfl⟩
  · exact changeset_iter_collect_some _ hvalid _ (by rw [hperm.length_eq])
  · intro o ho r hr
    exact ho r (hperm.mem_iff.mp hr)

/-- C19 at the changeset of the test: the sorted ADD-mode iterator yields
`non.terminals.test.` TXT, then its SPF, then
`here.come.more.non.terminals.test.` TXT, then the sentinel. -/
theorem sorted_add_iterator_order_witness :
    changeset_reachable test_ch ∧
    changeset_iter_collect 4 (changeset_iter_add test_ch true) =
      some [apex_txt_rr, apex_spf_rr, other_rr] ∧
    ∃ ys, changeset_iter_collect (test_ch.add.length + 1) (changeset_iter_add test_ch true) =
        some ys ∧
      ys.Perm test_ch.add ∧
      ys.Sorted rrset_owner_le ∧
      (∀ o, ys.filter (fun r => decide (dname_canonical r.owner = dname_canonical o)) =
        test_ch.add.filter (fun r => decide (dname_canonical r.owner = dname_canonical o))) ∧
      (∀ r ∈ ys, knot_rrset_empty r = false) ∧
      (∀ o, (∀ e ∈ test_ch.add, dname_canonical e.owner ≠ dname_canonical o) →
        ∀ r ∈ ys, dname_canonical r.owner ≠ dname_canonical o) ∧
      (changeset_iter_add test_ch true).remaining = ys ∧
      (changeset_iter_next ⟨[]⟩).1 = knot_rrset_init_empty :=
  ⟨changeset_reachable_test_ch, by decide,
    sorted_add_iterator_order test_ch changeset_reachable_test_ch⟩

/-- C20 (counterexample): `first` adds `a.example.` TXT "x" and `second`
removes `a.example.` TXT "x" and "y".  The remove section of `second` contains
every record that the add section of `first` holds at `a.example.`, `second`
adds nothing there and `first` removes nothing there; yet after the merge the
remove section has an entry for `a.example.` (the record "y", carried forward),
and a REMOVE-mode iteration yields it. -/
theorem merge_keeps_surplus_removal :
    changeset_reachable merge_first ∧ changeset_reachable merge_second_surplus ∧
    (∀ e ∈ merge_first.add, dname_canonical e.owner = dname_canonical merge_owner →
      ∀ d ∈ e.rrs, section_has merge_second_surplus.remove e.owner e.type d = true) ∧
    (∀ e ∈ merge_second_surplus.add, dname_canonical e.owner ≠ dname_canonical merge_owner) ∧
    (∀ e ∈ merge_first.remove, dname_canonical e.owner ≠ dname_canonical merge_owner) ∧
    (changeset_merge true merge_first merge_second_surplus).ret = KNOT_EOK ∧
    (changeset_merge true merge_first merge_second_surplus).ch.add = [] ∧
    (changeset_merge true merge_first merge_second_surplus).ch.remove =
      [⟨merge_owner, KNOT_RRTYPE_TXT, KNOT_CLASS_IN, 3600, [data_y]⟩] ∧
    changeset_iter_collect 2
      (changeset_iter_rem (changeset_merge true merge_first merge_second_surplus).ch true) =
      some [⟨merge_owner, KNOT_RRTYPE_TXT, KNOT_CLASS_IN, 3600, [data_y]⟩] := by
  refine ⟨changeset_reachable.add true _ _ (changeset_reachable.new _) rfl,
    changeset_reachable.rem true _ _ (changeset_reachable.new _) rfl, ?_, ?_, ?_, rfl, ?_, ?_, ?_⟩
  all_goals decide

/-- C20 (as amended): if, at an owner `o`, the remove section of `second` holds
exactly the records that the add section of `first` holds (each record of one
is present in the other), `second` adds nothing at `o` and `first` removes
nothing at `o`, then the merge returns `KNOT_EOK`, the merged changeset has no
entry for `o` in either section, and an iteration in any mode, sorted or not,
yields nothing for `o`.  Symmetrically, for any two changesets, a record added
by `second` that is present in `first.remove` is cancelled out of
`first.remove`: the merged remove section holds it only if `second` itself
removes it and `first` did not add it. -/
theorem merge_cancels_owner (first second : changeset_t) (o : knot_dname_t)
    (h1 : ∀ e ∈ first.add, dname_canonical e.owner = dname_canonical o →
      ∀ d ∈ e.rrs, section_has second.remove e.owner e.type d = true)
    (h2 : ∀ e ∈ second.remove, dname_canonical e.owner = dname_canonical o →
      ∀ d ∈ e.rrs, section_has first.add e.owner e.type d = true)
    (h3 : ∀ e ∈ second.add, dname_canonical e.owner ≠ dname_canonical o)
    (h4 : ∀ e ∈ first.remove, dname_canonical e.owner ≠ dname_canonical o) :
    (changeset_merge true first second).ret = KNOT_EOK ∧
    (∀ e ∈ (changeset_merge true first second).ch.add ++
        (changeset_merge true first second).ch.remove,
      dname_canonical e.owner ≠ dname_canonical o) ∧
    (∀ sorted, ∀ r ∈ (changeset_iter_add (changeset_merge true first second).ch sorted).remaining ++
        (changeset_iter_rem (changeset_merge true first second).ch sorted).remaining ++
        (changeset_iter_all (changeset_merge true first second).ch sorted).remaining,
      dname_canonical r.owner ≠ dname_canonical o) ∧
    (∀ (f s : changeset_t) (owner : knot_dname_t) (type : Nat) (rdata : List Nat),
      section_has s.add owner type rdata = true →
      section_has f.remove owner type rdata = true →
      (section_has (changeset_merge true f s).ch.remove owner type rdata = true ↔
        section_has s.remove owner type rdata = true ∧
          section_has f.add owner type rdata = false)) := by
  have hu : ∀ e r : knot_rrset_t, dname_canonical e.owner ≠ dname_canonical o →
      dname_canonical ({ e with rrs := rdata_union e.rrs r.rrs } : knot_rrset_t).owner ≠
        dname_canonical o := fun _ _ h => h
  have hadd : ∀ e ∈ (changeset_merge true first second).ch.add,
      dname_canonical e.owner ≠ dname_canonical o :=
    foldl_section_add_forall (fun e => dname_canonical e.owner ≠ dname_canonical o) _ hu _
      (section_cancel_owner h1) (section_cancel_owner_of_forall h3)
  have hrem : ∀ e ∈ (changeset_merge true first second).ch.remove,
      dname_canonical e.owner ≠ dname_canonical o :=
    foldl_section_add_forall (fun e => dname_canonical e.owner ≠ dname_canonical o) _ hu _
      (section_cancel_owner_of_forall h4) (section_cancel_owner h2)
  have hall : ∀ e ∈ (changeset_merge true first second).ch.add ++
      (changeset_merge true first second).ch.remove,
      dname_canonical e.owner ≠ dname_canonical o := by
    intro e he
    rcases List.mem_append.mp he with he | he
    · exact hadd e he
    · exact hrem e he
  refine ⟨rfl, hall, ?_, ?_⟩
  · intro sorted r hr
    simp only [changeset_iter_add, changeset_iter_rem, changeset_iter_all, List.mem_append,
      (changeset_iter_order_perm sorted _).mem_iff] at hr
    rcases hr with (hr | hr) | hr | hr
    · exact hadd r hr
    · exact hrem r hr
    · exact hadd r hr
    · exact hrem r hr
  · intro f s owner type rdata hs hf
    rw [(changeset_merge_records f s owner type rdata).2]
    constructor
    · rintro (⟨-, h⟩ | h)
      · rw [hs] at h; exact absurd h (by decide)
      · exact h
    · exact fun h => Or.inr h

/-- C20 (as amended) at a concrete input: `first` adds `a.example.` TXT "x" and
`second` removes exactly that record; the merged changeset is empty. -/
theorem merge_cancels_owner_witness :
    (changeset_merge true merge_first merge_second_exact).ch.add = [] ∧
    (changeset_merge true merge_first merge_second_exact).ch.remove = [] ∧
    (changeset_merge true merge_first merge_second_exact).ret = KNOT_EOK ∧
    (∀ e ∈ (changeset_merge true merge_first merge_second_exact).ch.add ++
        (changeset_merge true merge_first merge_second_exact).ch.remove,
      dname_canonical e.owner ≠ dname_canonical merge_owner) ∧
    (∀ sorted, ∀ r ∈
        (changeset_iter_add (changeset_merge true merge_first merge_second_exact).ch
          sorted).remaining ++
        (changeset_iter_rem (changeset_merge true merge_first merge_second_exact).ch
          sorted).remaining ++
        (changeset_iter_all (changeset_merge true merge_first merge_second_exact).ch
          sorted).remaining,
      dname_canonical r.owner ≠ dname_canonical merge_owner) ∧
    (∀ (f s : changeset_t) (owner : knot_dname_t) (type : Nat) (rdata : List Nat),
      section_has s.add owner type rdata = true →
      section_has f.remove owner type rdata = true →
      (section_has (changeset_merge true f s).ch.remove owner type rdata = true ↔
        section_has s.remove owner type rdata = true ∧
          section_has f.add owner type rdata = false)) :=
  ⟨by decide, by decide,
    merge_cancels_owner merge_first merge_second_exact merge_owner (by decide) (by decide)
      (by decide) (by decide)⟩

/-- C21: for reachable changesets `first` and `second` such that no record
added by `second` is present in `first.remove`, no record removed by `second`
is present in `first.add`, and no entry of a section of `second` is for an
owner and type that the same section of `first` has an entry for,
`changeset_merge` returns `KNOT_EOK`, the merged add section is the add section
of `first` followed by the entries of the add section of `second`, likewise for
the remove section, `serial_to` is the one of `second`, and the size of the
result is the size of `first` plus the size of `second`. -/
theorem merge_carries_forward (first second : changeset_t)
    (h1 : changeset_reachable first) (h2 : changeset_reachable second)
    (hadd : ∀ e ∈ second.add, ∀ d ∈ e.rrs, section_has first.remove e.owner e.type d = false)
    (hrem : ∀ e ∈ second.remove, ∀ d ∈ e.rrs,
      section_has first.add e.owner e.type d = false)
    (hka : ∀ r ∈ second.add, ∀ e ∈ first.add, rrset_same_entry e r = false)
    (hkr : ∀ r ∈ second.remove, ∀ e ∈ first.remove, rrset_same_entry e r = false) :
    (changeset_merge true first second).ret = KNOT_EOK ∧
    (changeset_merge true first second).ch.add = first.add ++ second.add ∧
    (changeset_merge true first second).ch.remove = first.remove ++ second.remove ∧
    (changeset_merge true first second).ch.serial_to = second.serial_to ∧
    changeset_size (some (changeset_merge true first second).ch) =
      changeset_size (some first) + changeset_size (some second) := by
  have v1 := changeset_reachable_valid h1
  have v2 := changeset_reachable_valid h2
  have d2 := changeset_reachable_distinct h2
  simp only [List.forall_mem_append] at v1 v2
  have ea : (changeset_merge true first second).ch.add = first.add ++ second.add := by
    show (section_cancel second.add first.remove).foldl section_add
      (section_cancel first.add second.remove) = _
    rw [section_cancel_of_disjoint v2.1 hadd,
      section_cancel_of_disjoint v1.1 (section_has_false_symm hrem),
      foldl_section_add_of_new _ _ d2.1 hka]
  have er : (changeset_merge true first second).ch.remove = first.remove ++ second.remove := by
    show (section_cancel second.remove first.add).foldl section_add
      (section_cancel first.remove second.add) = _
    rw [section_cancel_of_disjoint v2.2 hrem,
      section_cancel_of_disjoint v1.2 (section_has_false_symm hadd),
      foldl_section_add_of_new _ _ d2.2 hkr]
  refine ⟨rfl, ea, er, rfl, ?_⟩
  simp only [changeset_size, ea, er, List.length_append]
  omega

/-- C21 at the changesets of the test: the merge of `ch2` (size 2) into `ch`
(size 4) returns `KNOT_EOK` and gives size 6. -/
theorem merge_carries_forward_witness :
    changeset_size (some test_ch) = 4 ∧ changeset_size (some test_ch2_merge) = 2 ∧
    changeset_size (some (changeset_merge true test_ch test_ch2_merge).ch) = 6 ∧
    (changeset_merge true test_ch test_ch2_merge).ret = KNOT_EOK ∧
    (changeset_merge true test_ch test_ch2_merge).ch.add = test_ch.add ++ test_ch2_merge.add ∧
    (changeset_merge true test_ch test_ch2_merge).ch.remove =
      test_ch.remove ++ test_ch2_merge.remove ∧
    (changeset_merge true test_ch test_ch2_merge).ch.serial_to = test_ch2_merge.serial_to ∧
    changeset_size (some (changeset_merge true test_ch test_ch2_merge).ch) =
      changeset_size (some test_ch) + changeset_size (some test_ch2_merge) :=
  ⟨rfl, rfl, by decide,
    merge_carries_forward test_ch test_ch2_merge changeset_reachable_test_ch
      changeset_reachable_test_ch2_merge (by decide) (by decide) (by decide) (by decide)⟩

/-- C22: for changesets `a`, `b`, `c` meant to be applied in sequence (each an
exact difference of the zone it is applied to), the two ways of merging them,
`merge(merge(a, b), c)` and `merge(a, merge(b, c))`, hold the same records in
the add section and the same records in the remove section, and both have the
`serial_to` of `c`. -/
theorem merge_associative (a b c : changeset_t) (h : changesets_sequential a b c) :
    (∀ owner type rdata,
      section_has (changeset_merge true (changeset_merge true a b).ch c).ch.add owner type
          rdata =
        section_has (changeset_merge true a (changeset_merge true b c).ch).ch.add owner type
          rdata) ∧
    (∀ owner type rdata,
      section_has (changeset_merge true (changeset_merge true a b).ch c).ch.remove owner type
          rdata =
        section_has (changeset_merge true a (changeset_merge true b c).ch).ch.remove owner type
          rdata) ∧
    (changeset_merge true (changeset_merge true a b).ch c).ch.serial_to = c.serial_to ∧
    (changeset_merge true a (changeset_merge true b c).ch).ch.serial_to = c.serial_to ∧
    (changeset_merge true (changeset_merge true a b).ch c).ret = KNOT_EOK ∧
    (changeset_merge true a (changeset_merge true b c).ch).ret = KNOT_EOK := by
  obtain ⟨zone, ha, hb, hc⟩ := h
  have key : ∀ owner type rdata,
      (section_has (changeset_merge true (changeset_merge true a b).ch c).ch.add owner type
          rdata = true ↔
        section_has (changeset_merge true a (changeset_merge true b c).ch).ch.add owner type
          rdata = true) ∧
      (section_has (changeset_merge true (changeset_merge true a b).ch c).ch.remove owner type
          rdata = true ↔
        section_has (changeset_merge true a (changeset_merge true b c).ch).ch.remove owner
          type rdata = true) := by
    intro owner type rdata
    have ha1 := ha owner type rdata
    have hb1 := hb owner type rdata
    have hc1 := hc owner type rdata
    simp only [changeset_apply] at hb1 hc1
    simp only [changeset_merge_records, ← Bool.not_eq_true] at hb1 hc1 ⊢
    by_cases z : zone owner type rdata <;>
      cases h1 : section_has a.add owner type rdata <;>
      cases h2 : section_has a.remove owner type rdata <;>
      cases h3 : section_has b.add owner type rdata <;>
      cases h4 : section_has b.remove owner type rdata <;>
      cases h5 : section_has c.add owner type rdata <;>
      cases h6 : section_has c.remove owner type rdata <;>
      simp_all
  refine ⟨fun o t d => ?_, fun o t d => ?_, rfl, rfl, rfl, rfl⟩
  · exact Bool.eq_iff_iff.mpr (key o t d).1
  · exact Bool.eq_iff_iff.mpr (key o t d).2

/-- C22 at a concrete input: `a` adds `a.example.` TXT "x", `b` removes it and
`c` adds it again. -/
theorem merge_associative_witness :
    changesets_sequential merge_first merge_second_exact merge_first ∧
    (∀ owner type rdata,
      section_has (changeset_merge true (changeset_merge true merge_first
          merge_second_exact).ch merge_first).ch.add owner type rdata =
        section_has (changeset_merge true merge_first (changeset_merge true
          merge_second_exact merge_first).ch).ch.add owner type rdata) ∧
    (∀ owner type rdata,
      section_has (changeset_merge true (changeset_merge true merge_first
          merge_second_exact).ch merge_first).ch.remove owner type rdata =
        section_has (changeset_merge true merge_first (changeset_merge true
          merge_second_exact merge_first).ch).ch.remove owner type rdata) ∧
    (changeset_merge true (changeset_merge true merge_first merge_second_exact).ch
      merge_first).ch.serial_to = merge_first.serial_to ∧
    (changeset_merge true merge_first (changeset_merge true merge_second_exact
      merge_first).ch).ch.serial_to = merge_first.serial_to ∧
    (changeset_merge true (changeset_merge true merge_first merge_second_exact).ch
      merge_first).ret = KNOT_EOK ∧
    (changeset_merge true merge_first (changeset_merge true merge_second_exact
      merge_first).ch).ret = KNOT_EOK :=
  ⟨changesets_sequential_example,
    merge_associative merge_first merge_second_exact merge_first changesets_sequential_example⟩

/-- C23: for every reachable changeset, adding an RRSet that is an entry of the
add section returns `KNOT_EOK` and leaves the changeset as it is, and so does
removing an RRSet that is an entry of the remove section.  For every changeset
and every RRSet, adding the RRSet twice gives the same changeset, of the same
size, as adding it once, and likewise for the remove section. -/
theorem add_identical_rrset_no_effect (ch : changeset_t) (h : changeset_reachable ch) :
    (∀ rrset ∈ ch.add, changeset_add_rrset true ch rrset = ⟨KNOT_EOK, ch⟩) ∧
    (∀ rrset ∈ ch.remove, changeset_rem_rrset true ch rrset = ⟨KNOT_EOK, ch⟩) ∧
    (∀ (c : changeset_t) (rrset : knot_rrset_t),
      changeset_add_rrset true (changeset_add_rrset true c rrset).ch rrset =
        changeset_add_rrset true c rrset ∧
      changeset_size (some (changeset_add_rrset true (changeset_add_rrset true c rrset).ch
          rrset).ch) =
        changeset_size (some (changeset_add_rrset true c rrset).ch) ∧
      changeset_rem_rrset true (changeset_rem_rrset true c rrset).ch rrset =
        changeset_rem_rrset true c rrset ∧
      changeset_size (some (changeset_rem_rrset true (changeset_rem_rrset true c rrset).ch
          rrset).ch) =
        changeset_size (some (changeset_rem_rrset true c rrset).ch)) := by
  have hd := changeset_reachable_distinct h
  have hadd : ∀ (c : changeset_t) (rrset : knot_rrset_t),
      changeset_add_rrset true (changeset_add_rrset true c rrset).ch rrset =
        changeset_add_rrset true c rrset := by
    intro c rrset
    simp only [changeset_add_rrset, if_true, section_add_idempotent]
  have hrem : ∀ (c : changeset_t) (rrset : knot_rrset_t),
      changeset_rem_rrset true (changeset_rem_rrset true c rrset).ch rrset =
        changeset_rem_rrset true c rrset := by
    intro c rrset
    simp only [changeset_rem_rrset, if_true, section_add_idempotent]
  refine ⟨?_, ?_, fun c rrset => ⟨hadd c rrset, by rw [hadd], hrem c rrset, by rw [hrem]⟩⟩
  · intro rrset hm
    simp only [changeset_add_rrset, if_true, section_add_of_mem hd.1 hm]
  · intro rrset hm
    simp only [changeset_rem_rrset, if_true, section_add_of_mem hd.2 hm]

/-- C23 at the changeset of the test, whose add section holds `apex_txt_rr`,
`apex_spf_rr` and `other_rr` and whose remove section holds `apex_txt_rr`. -/
theorem add_identical_rrset_no_effect_witness :
    changeset_reachable test_ch ∧ apex_txt_rr ∈ test_ch.add ∧ apex_txt_rr ∈ test_ch.remove ∧
    (∀ rrset ∈ test_ch.add, changeset_add_rrset true test_ch rrset = ⟨KNOT_EOK, test_ch⟩) ∧
    (∀ rrset ∈ test_ch.remove,
      changeset_rem_rrset true test_ch rrset = ⟨KNOT_EOK, test_ch⟩) ∧
    (∀ (c : changeset_t) (rrset : knot_rrset_t),
      changeset_add_rrset true (changeset_add_rrset true c rrset).ch rrset =
        changeset_add_rrset true c rrset ∧
      changeset_size (some (changeset_add_rrset true (changeset_add_rrset true c rrset).ch
          rrset).ch) =
        changeset_size (some (changeset_add_rrset true c rrset).ch) ∧
      changeset_rem_rrset true (changeset_rem_rrset true c rrset).ch rrset =
        changeset_rem_rrset true c rrset ∧
      changeset_size (some (changeset_rem_rrset true (changeset_rem_rrset true c rrset).ch
          rrset).ch) =
        changeset_size (some (changeset_rem_rrset true c rrset).ch)) :=
  ⟨changeset_reachable_test_ch, by decide, by decide,
    add_identical_rrset_no_effect test_ch changeset_reachable_test_ch⟩

/-- C24 (counterexample): on the changeset of the scenario (`a.example.` TXT
"x" added, `a.example.` SPF "x" added, then the TXT record removed), the loop
over an ALL-mode iterator collects 3 RRSets, not 2: the TXT addition, the SPF
addition and the TXT removal; the changeset has size 3. -/
theorem scenario_all_iteration_yields_three :
    changeset_iter_collect 4 (changeset_iter_all scenario_ch false) =
      some [scenario_txt, scenario_spf, scenario_txt] ∧
    changeset_iter_collect 4 (changeset_iter_all scenario_ch true) =
      some [scenario_txt, scenario_spf, scenario_txt] ∧
    changeset_size (some scenario_ch) = 3 ∧
    scenario_ch.add = [scenario_txt, scenario_spf] ∧ scenario_ch.remove = [scenario_txt] ∧
    ¬ ∃ ys, changeset_iter_collect 4 (changeset_iter_all scenario_ch false) = some ys ∧
      ys.length = 2 := by
  refine ⟨by decide, by decide, rfl, by decide, by decide, ?_⟩
  rintro ⟨ys, h1, h2⟩
  have h3 : changeset_iter_collect 4 (changeset_iter_all scenario_ch false) =
      some [scenario_txt, scenario_spf, scenario_txt] := by decide
  rw [h3] at h1
  cases h1
  simp at h2

/-- C24 (as amended): for two real RRSets `r1` and `r2` that are not of the
same owner and type, on the changeset built from an empty one by adding `r1`,
adding `r2` and then removing `r1`, the loop over an ALL-mode iterator collects
exactly 3 RRSets (in insertion order for an unsorted iterator: the addition of
`r1`, the addition of `r2`, the removal of `r1`), and the changeset has
size 3. -/
theorem add_add_remove_iterates_three (apex : knot_dname_t) (r1 r2 : knot_rrset_t)
    (h1 : knot_rrset_empty r1 = false) (h2 : knot_rrset_empty r2 = false)
    (h12 : rrset_same_entry r1 r2 = false) :
    changeset_iter_collect 4 (changeset_iter_all
      (changeset_rem_rrset true (changeset_add_rrset true
        (changeset_add_rrset true ⟨apex, none, none, [], []⟩ r1).ch r2).ch r1).ch false) =
      some [r1, r2, r1] ∧
    (∀ sorted, ∃ ys, changeset_iter_collect 4 (changeset_iter_all
      (changeset_rem_rrset true (changeset_add_rrset true
        (changeset_add_rrset true ⟨apex, none, none, [], []⟩ r1).ch r2).ch r1).ch sorted) =
      some ys ∧ ys.length = 3 ∧ ys.Perm [r1, r2, r1]) ∧
    changeset_size (some (changeset_rem_rrset true (changeset_add_rrset true
        (changeset_add_rrset true ⟨apex, none, none, [], []⟩ r1).ch r2).ch r1).ch) = 3 := by
  have hch : (changeset_rem_rrset true (changeset_add_rrset true
        (changeset_add_rrset true ⟨apex, none, none, [], []⟩ r1).ch r2).ch r1).ch =
      ⟨apex, none, none, [r1, r2], [r1]⟩ := by
    simp [changeset_rem_rrset, changeset_add_rrset, section_add, h12]
  rw [hch]
  have hv : ∀ r ∈ [r1, r2, r1], knot_rrset_empty r = false := by
    intro r hr
    simp only [List.mem_cons, List.mem_singleton, List.not_mem_nil, or_false] at hr
    rcases hr with rfl | rfl | rfl <;> assumption
  refine ⟨changeset_iter_collect_some _ hv 4 (by simp), ?_, rfl⟩
  intro sorted
  have hp := changeset_iter_order_perm sorted [r1, r2, r1]
  refine ⟨changeset_iter_order sorted [r1, r2, r1], ?_, hp.length_eq, hp⟩
  exact changeset_iter_collect_some _ (fun r hr => hv r (hp.mem_iff.mp hr)) 4
    (by rw [hp.length_eq]; simp)

/-- C24 (as amended) at the RRSets of the scenario. -/
theorem add_add_remove_iterates_three_witness :
    changeset_iter_collect 4 (changeset_iter_all
      (changeset_rem_rrset true (changeset_add_rrset true
        (changeset_add_rrset true ⟨knot_dname_from_str "example.", none, none, [], []⟩
          scenario_txt).ch scenario_spf).ch scenario_txt).ch false) =
      some [scenario_txt, scenario_spf, scenario_txt] ∧
    (∀ sorted, ∃ ys, changeset_iter_collect 4 (changeset_iter_all
      (changeset_rem_rrset true (changeset_add_rrset true
        (changeset_add_rrset true ⟨knot_dname_from_str "example.", none, none, [], []⟩
          scenario_txt).ch scenario_spf).ch scenario_txt).ch sorted) =
      some ys ∧ ys.length = 3 ∧ ys.Perm [scenario_txt, scenario_spf, scenario_txt]) ∧
    changeset_size (some (changeset_rem_rrset true (changeset_add_rrset true
        (changeset_add_rrset true ⟨knot_dname_from_str "example.", none, none, [], []⟩
          scenario_txt).ch scenario_spf).ch scenario_txt).ch) = 3 :=
  add_add_remove_iterates_three (knot_dname_from_str "example.") scenario_txt scenario_spf
    rfl rfl (by decide)

variable {α : Type}

/-- C25: for a dynarray in a valid state and an item `x` (the size being below
half of `SSIZE_MAX`), `dynarray_add` with a succeeding allocation writes `x` at
index `size`, increases `size` by one, leaves a valid state, and
`dynarray_foreach` then visits the items visited before followed by `x`; the
capacity stays the (fixed) capacity when `x` fits and becomes
`2 * capacity + 1` when the buffer, inline or heap, is full.  Consequently,
after adding the items of a list to a zero-initialised dynarray in turn,
`dynarray_foreach` visits exactly these items in insertion order. -/
theorem dynarray_add_appends (initial_capacity : Nat) (zero : α) (d : dynarray_t α) (x : α)
    (hv : dynarray_valid initial_capacity d) (hov : 2 * d.size + 1 ≤ SSIZE_MAX) :
    (∃ items r, dynarray_foreach initial_capacity d = some items ∧
      (items.length : Int) = d.size ∧
      dynarray_add initial_capacity zero true d x = some r ∧
      r.written = some d.size ∧ r.dynarray.size = d.size + 1 ∧
      dynarray_valid initial_capacity r.dynarray ∧
      dynarray_foreach initial_capacity r.dynarray = some (items ++ [x]) ∧
      (d.size < max d.capacity initial_capacity →
        r.dynarray.capacity = max d.capacity initial_capacity) ∧
      (d.size = max d.capacity initial_capacity →
        r.dynarray.capacity = 2 * max d.capacity initial_capacity + 1) ∧
      d.size < r.dynarray.capacity) ∧
    (∀ xs : List α, 2 * (xs.length : Int) + 1 ≤ SSIZE_MAX →
      ∃ d1 ws, dynarray_add_all initial_capacity zero (xs.map (fun x => (true, x)))
          (dynarray_zero initial_capacity zero) = some (d1, ws) ∧
        dynarray_foreach initial_capacity d1 = some xs ∧ d1.size = xs.length ∧
        ws = (List.range xs.length).map (fun (i : Nat) => some (i : Int))) := by
  refine ⟨dynarray_add_of_valid initial_capacity zero d x hv hov, ?_⟩
  intro xs hxs
  obtain ⟨d1, ws, e1, -, e3, e4, e5⟩ :=
    dynarray_add_all_of_valid initial_capacity zero xs (dynarray_zero initial_capacity zero) []
      (dynarray_valid_zero initial_capacity zero)
      (by simpa [dynarray_zero] using hxs)
      (by simp [dynarray_foreach, dynarray_fix, dynarray_zero, dynarray_buffer])
  refine ⟨d1, ws, e1, by simpa using e3, by simpa [dynarray_zero] using e4, ?_⟩
  simpa [dynarray_zero] using e5

/-- C25 at a concrete input: a dynarray with an inline buffer of two items that
is full; the third item moves the array to a block of five items. -/
theorem dynarray_add_appends_witness :
    dynarray_add 2 0 true ⟨2, 2, [10, 11], dynarray_arr.init⟩ 12 =
      some ⟨⟨5, 3, [10, 11], dynarray_arr.heap [10, 11, 12, 0, 0]⟩, some 2⟩ ∧
    (∃ items r, dynarray_foreach 2 (⟨2, 2, [10, 11], dynarray_arr.init⟩ : dynarray_t Nat) =
        some items ∧
      (items.length : Int) = (⟨2, 2, [10, 11], dynarray_arr.init⟩ : dynarray_t Nat).size ∧
      dynarray_add 2 0 true ⟨2, 2, [10, 11], dynarray_arr.init⟩ 12 = some r ∧
      r.written = some (⟨2, 2, [10, 11], dynarray_arr.init⟩ : dynarray_t Nat).size ∧
      r.dynarray.size = (⟨2, 2, [10, 11], dynarray_arr.init⟩ : dynarray_t Nat).size + 1 ∧
      dynarray_valid 2 r.dynarray ∧
      dynarray_foreach 2 r.dynarray = some (items ++ [12]) ∧
      ((⟨2, 2, [10, 11], dynarray_arr.init⟩ : dynarray_t Nat).size <
          max (⟨2, 2, [10, 11], dynarray_arr.init⟩ : dynarray_t Nat).capacity (2 : Nat) →
        r.dynarray.capacity =
          max (⟨2, 2, [10, 11], dynarray_arr.init⟩ : dynarray_t Nat).capacity (2 : Nat)) ∧
      ((⟨2, 2, [10, 11], dynarray_arr.init⟩ : dynarray_t Nat).size =
          max (⟨2, 2, [10, 11], dynarray_arr.init⟩ : dynarray_t Nat).capacity (2 : Nat) →
        r.dynarray.capacity =
          2 * max (⟨2, 2, [10, 11], dynarray_arr.init⟩ : dynarray_t Nat).capacity (2 : Nat) +
            1) ∧
      (⟨2, 2, [10, 11], dynarray_arr.init⟩ : dynarray_t Nat).size < r.dynarray.capacity) ∧
    (∀ xs : List Nat, 2 * (xs.length : Int) + 1 ≤ SSIZE_MAX →
      ∃ d1 ws, dynarray_add_all 2 0 (xs.map (fun x => (true, x))) (dynarray_zero 2 0) =
          some (d1, ws) ∧
        dynarray_foreach 2 d1 = some xs ∧ d1.size = xs.length ∧
        ws = (List.range xs.length).map (fun (i : Nat) => some (i : Int))) :=
  ⟨by decide,
    dynarray_add_appends 2 0 ⟨2, 2, [10, 11], dynarray_arr.init⟩ 12
      ⟨by decide, by decide, rfl, fun h => absurd h (by decide)⟩ (by decide)⟩

variable {π σ : Type}

/-- C26: a key returned by `dnssec_key_new` (the copy of the template being
exact) has the 4 template bytes 01 00 03 00 as RDATA and every other field
zero, so its flags read 256, its protocol 3, its algorithm 0 and its public key
part is empty; and `dnssec_key_clear` brings any key whose RDATA has at least 4
bytes to exactly this state.  `dnssec_key_new` succeeds when the two
allocations do. -/
theorem new_key_has_template_rdata (E : KeyEnv π)
    (hdup : ∀ b, (E.dnssec_binary_dup b).ret = DNSSEC_EOK → (E.dnssec_binary_dup b).binary = b) :
    (∀ key_ptr, (dnssec_key_new E key_ptr : KeyResult π σ).ret = DNSSEC_EOK →
      (dnssec_key_new E key_ptr : KeyResult π σ).key =
        some ⟨none, [1, 0, 3, 0], none, none, 0, []⟩) ∧
    (E.calloc = true → (E.dnssec_binary_dup DNSKEY_RDATA_TEMPLATE).ret = DNSSEC_EOK →
      (dnssec_key_new E true : KeyResult π σ).ret = DNSSEC_EOK) ∧
    (dnssec_key_get_flags (some (⟨none, [1, 0, 3, 0], none, none, 0, []⟩ : dnssec_key_t π σ)) =
        256 ∧
      dnssec_key_get_protocol E
        (some (⟨none, [1, 0, 3, 0], none, none, 0, []⟩ : dnssec_key_t π σ)) = 3 ∧
      dnssec_key_get_algorithm
        (some (⟨none, [1, 0, 3, 0], none, none, 0, []⟩ : dnssec_key_t π σ)) = 0 ∧
      dnssec_key_get_pubkey E
        (some (⟨none, [1, 0, 3, 0], none, none, 0, []⟩ : dnssec_key_t π σ)) true =
        (DNSSEC_EOK, some [])) ∧
    (∀ key : dnssec_key_t π σ, 4 ≤ key.rdata.length →
      dnssec_key_clear (some key) = some (some ⟨none, [1, 0, 3, 0], none, none, 0, []⟩)) := by
  refine ⟨?_, ?_, ⟨by simp [dnssec_key_get_flags, wire_read_u16],
    by simp [dnssec_key_get_protocol, wire_read_u8],
    by simp [dnssec_key_get_algorithm, wire_read_u8],
    by simp [dnssec_key_get_pubkey, wire_available_binary]⟩, ?_⟩
  · intro key_ptr h
    unfold dnssec_key_new at h ⊢
    by_cases h1 : key_ptr = false
    · simp only [h1, if_true] at h
      exact absurd h E.einval_ne
    · by_cases h2 : E.calloc = false
      · simp only [h1, h2, if_true, if_false] at h
        exact absurd h E.enomem_ne
      · by_cases h3 : (E.dnssec_binary_dup DNSKEY_RDATA_TEMPLATE).ret = DNSSEC_EOK
        · simp only [h1, h2, h3, if_false, ne_eq, not_true_eq_false]
          rw [hdup _ h3]
          rfl
        · simp only [h1, h2, h3, if_false, ne_eq, not_false_eq_true, if_true] at h
          exact absurd h E.enomem_ne
  · intro h1 h2
    simp [dnssec_key_new, h1, h2]
  · intro key h4
    have h5 : key.rdata.length ≥ DNSKEY_RDATA_MIN_SIZE := h4
    simp only [dnssec_key_clear, h5, if_true, key_free_internals]
    rfl

/-- C26 at concrete externals and a key with a public key. -/
theorem new_key_has_template_rdata_witness :
    (dnssec_key_new demoKeyEnv true : KeyResult (List Nat) Nat).ret = DNSSEC_EOK ∧
    dnssec_key_clear (some (⟨some [1, 97, 0], [1, 1, 3, 8, 5, 6], some [5, 6], some 7, 275,
        [97, 5, 6]⟩ : dnssec_key_t (List Nat) Nat)) =
      some (some ⟨none, [1, 0, 3, 0], none, none, 0, []⟩) ∧
    (∀ key_ptr, (dnssec_key_new demoKeyEnv key_ptr : KeyResult (List Nat) Nat).ret =
        DNSSEC_EOK →
      (dnssec_key_new demoKeyEnv key_ptr : KeyResult (List Nat) Nat).key =
        some ⟨none, [1, 0, 3, 0], none, none, 0, []⟩) ∧
    (demoKeyEnv.calloc = true →
      (demoKeyEnv.dnssec_binary_dup DNSKEY_RDATA_TEMPLATE).ret = DNSSEC_EOK →
      (dnssec_key_new demoKeyEnv true : KeyResult (List Nat) Nat).ret = DNSSEC_EOK) ∧
    (dnssec_key_get_flags
        (some (⟨none, [1, 0, 3, 0], none, none, 0, []⟩ : dnssec_key_t (List Nat) Nat)) = 256 ∧
      dnssec_key_get_protocol demoKeyEnv
        (some (⟨none, [1, 0, 3, 0], none, none, 0, []⟩ : dnssec_key_t (List Nat) Nat)) = 3 ∧
      dnssec_key_get_algorithm
        (some (⟨none, [1, 0, 3, 0], none, none, 0, []⟩ : dnssec_key_t (List Nat) Nat)) = 0 ∧
      dnssec_key_get_pubkey demoKeyEnv
        (some (⟨none, [1, 0, 3, 0], none, none, 0, []⟩ : dnssec_key_t (List Nat) Nat)) true =
        (DNSSEC_EOK, some [])) ∧
    (∀ key : dnssec_key_t (List Nat) Nat, 4 ≤ key.rdata.length →
      dnssec_key_clear (some key) = some (some ⟨none, [1, 0, 3, 0], none, none, 0, []⟩)) :=
  ⟨rfl, rfl, new_key_has_template_rdata demoKeyEnv (fun _ _ => rfl)⟩

/-- C27: for a key whose RDATA holds the 4 header bytes, after every successful
call of a setter the stored key tag is the one `dnssec_keytag` computes over the
RDATA the key then has (whenever it computes one).  `dnssec_key_set_flags`
changes bytes 0-1 only, `dnssec_key_set_protocol` byte 2 only and
`dnssec_key_set_algorithm` byte 3 only: the getter of the field returns the
value set (as a `uint16_t`, resp. `uint8_t`) and the two other getters return
what they returned before.  The two field setters without a check always
succeed, and so does `dnssec_key_set_algorithm` on a key without public key. -/
theorem keytag_follows_rdata (E : KeyEnv π) (k : dnssec_key_t π σ)
    (h4 : 4 ≤ k.rdata.length) :
    (∀ flags, ∃ k1, dnssec_key_set_flags E (some k) flags = ⟨DNSSEC_EOK, some k1⟩ ∧
      (∀ t, E.dnssec_keytag k1.rdata = some t → k1.keytag = t) ∧
      dnssec_key_get_flags (some k1) = flags % 65536 ∧
      dnssec_key_get_protocol E (some k1) = dnssec_key_get_protocol E (some k) ∧
      dnssec_key_get_algorithm (some k1) = dnssec_key_get_algorithm (some k) ∧
      k1.rdata.drop 2 = k.rdata.drop 2 ∧ k1.rdata.length = k.rdata.length) ∧
    (∀ protocol, ∃ k1, dnssec_key_set_protocol E (some k) protocol = ⟨DNSSEC_EOK, some k1⟩ ∧
      (∀ t, E.dnssec_keytag k1.rdata = some t → k1.keytag = t) ∧
      dnssec_key_get_protocol E (some k1) = protocol % 256 ∧
      dnssec_key_get_flags (some k1) = dnssec_key_get_flags (some k) ∧
      dnssec_key_get_algorithm (some k1) = dnssec_key_get_algorithm (some k) ∧
      k1.rdata.take 2 = k.rdata.take 2 ∧ k1.rdata.drop 3 = k.rdata.drop 3) ∧
    (∀ algorithm r, dnssec_key_set_algorithm E (some k) algorithm = some r →
      r.ret = DNSSEC_EOK →
      ∃ k1, r.key = some k1 ∧
        (∀ t, E.dnssec_keytag k1.rdata = some t → k1.keytag = t) ∧
        dnssec_key_get_algorithm (some k1) = algorithm % 256 ∧
        dnssec_key_get_flags (some k1) = dnssec_key_get_flags (some k) ∧
        dnssec_key_get_protocol E (some k1) = dnssec_key_get_protocol E (some k) ∧
        k1.rdata.take 3 = k.rdata.take 3 ∧ k1.rdata.drop 4 = k.rdata.drop 4) ∧
    (k.public_key = none → ∀ algorithm, ∃ r,
      dnssec_key_set_algorithm E (some k) algorithm = some r ∧ r.ret = DNSSEC_EOK) ∧
    (∀ pubkey r, dnssec_key_set_pubkey E (some k) pubkey = some r → r.ret = DNSSEC_EOK →
      ∃ k1, r.key = some k1 ∧ (∀ t, E.dnssec_keytag k1.rdata = some t → k1.keytag = t)) ∧
    (∀ rdata r, dnssec_key_set_rdata E (some k) rdata = some r → r.ret = DNSSEC_EOK →
      ∃ k1, r.key = some k1 ∧ (∀ t, E.dnssec_keytag k1.rdata = some t → k1.keytag = t)) := by
  obtain ⟨dname, rdata, pub, priv, keytag, id⟩ := k
  obtain ⟨a, b, c, d, rest, rfl⟩ := rdata_header rdata h4
  refine ⟨?_, ?_, ?_, ?_, ?_, ?_⟩
  · intro flags
    refine ⟨_, rfl, (update_keytag_spec E _).2.2.2.2.2, ?_⟩
    simp only [dnssec_key_get_flags, dnssec_key_get_protocol, dnssec_key_get_algorithm,
      (update_keytag_spec E _).1]
    simp [wire_read_u16, wire_read_u8, wire_write_u16]
    omega
  · intro protocol
    refine ⟨_, rfl, (update_keytag_spec E _).2.2.2.2.2, ?_⟩
    simp only [dnssec_key_get_flags, dnssec_key_get_protocol, dnssec_key_get_algorithm,
      (update_keytag_spec E _).1]
    simp [wire_read_u16, wire_read_u8, wire_write_u8]
  · intro algorithm r h hr
    unfold dnssec_key_set_algorithm at h
    simp only at h
    cases hc : can_change_algorithm E
        (⟨dname, a :: b :: c :: d :: rest, pub, priv, keytag, id⟩ : dnssec_key_t π σ)
        (algorithm % 256) with
    | none => simp [hc] at h
    | some v =>
      cases v with
      | false =>
        simp only [hc, Option.some.injEq] at h
        subst h
        exact absurd hr E.algorithm_ne
      | true =>
        simp only [hc, Option.some.injEq] at h
        subst h
        refine ⟨_, rfl, (update_keytag_spec E _).2.2.2.2.2, ?_⟩
        simp only [dnssec_key_get_flags, dnssec_key_get_protocol, dnssec_key_get_algorithm,
          (update_keytag_spec E _).1]
        simp [wire_read_u16, wire_read_u8, wire_write_u8]
  · intro hp algorithm
    simp only at hp
    subst hp
    exact ⟨_, rfl, rfl⟩
  · intro pubkey r h hr
    unfold dnssec_key_set_pubkey at h
    cases pubkey with
    | none =>
      simp only [Option.some.injEq] at h
      subst h
      exact absurd hr E.einval_ne
    | some p =>
      simp only at h
      split_ifs at h with g1 g2 g3 g4 g5
      · cases h; exact absurd hr E.einval_ne
      · cases h; exact absurd hr E.present_ne
      · cases h; exact absurd hr E.algorithm_ne
      · cases h; exact absurd hr g4
      · cases h; exact absurd hr g5
      · split at h
        · exact Option.noConfusion h
        · rename_i k3 hk3
          cases h
          exact ⟨k3, rfl, (key_update_identifiers_spec E _ _ hk3).2.2.2.2⟩
  · intro rd r h hr
    unfold dnssec_key_set_rdata at h
    cases rd with
    | none =>
      simp only [Option.some.injEq] at h
      subst h
      exact absurd hr E.einval_ne
    | some p =>
      simp only at h
      split_ifs at h with g1 g2 g3 g4 g5
      · cases h; exact absurd hr E.einval_ne
      · cases h; exact absurd hr E.malformed_ne
      · cases h; exact absurd hr E.present_ne
      · cases h; exact absurd hr g4
      · cases h; exact absurd hr g5
      · split at h
        · exact Option.noConfusion h
        · rename_i k3 hk3
          cases h
          exact ⟨k3, rfl, (key_update_identifiers_spec E _ _ hk3).2.2.2.2⟩

/-- C27 at concrete externals and the key `demoKey` (flags 257, protocol 3,
algorithm 8, no public key); setting the RDATA and setting the public key both
succeed there and leave the key tag of the new RDATA. -/
theorem keytag_follows_rdata_witness :
    dnssec_key_set_rdata demoKeyEnv (some demoKey) (some ⟨6, some [1, 0, 3, 8, 5, 6]⟩) =
      some ⟨DNSSEC_EOK, some ⟨none, [1, 0, 3, 8, 5, 6], some [5, 6], none, 23, [97, 5, 6]⟩⟩ ∧
    dnssec_key_set_pubkey demoKeyEnv (some demoKey) (some ⟨2, some [5, 6]⟩) =
      some ⟨DNSSEC_EOK, some ⟨none, [1, 1, 3, 8, 5, 6], some [5, 6], none, 24, [97, 5, 6]⟩⟩ ∧
    ((∀ flags, ∃ k1, dnssec_key_set_flags demoKeyEnv (some demoKey) flags =
        ⟨DNSSEC_EOK, some k1⟩ ∧
      (∀ t, demoKeyEnv.dnssec_keytag k1.rdata = some t → k1.keytag = t) ∧
      dnssec_key_get_flags (some k1) = flags % 65536 ∧
      dnssec_key_get_protocol demoKeyEnv (some k1) =
        dnssec_key_get_protocol demoKeyEnv (some demoKey) ∧
      dnssec_key_get_algorithm (some k1) = dnssec_key_get_algorithm (some demoKey) ∧
      k1.rdata.drop 2 = demoKey.rdata.drop 2 ∧ k1.rdata.length = demoKey.rdata.length) ∧
    (∀ protocol, ∃ k1, dnssec_key_set_protocol demoKeyEnv (some demoKey) protocol =
        ⟨DNSSEC_EOK, some k1⟩ ∧
      (∀ t, demoKeyEnv.dnssec_keytag k1.rdata = some t → k1.keytag = t) ∧
      dnssec_key_get_protocol demoKeyEnv (some k1) = protocol % 256 ∧
      dnssec_key_get_flags (some k1) = dnssec_key_get_flags (some demoKey) ∧
      dnssec_key_get_algorithm (some k1) = dnssec_key_get_algorithm (some demoKey) ∧
      k1.rdata.take 2 = demoKey.rdata.take 2 ∧ k1.rdata.drop 3 = demoKey.rdata.drop 3) ∧
    (∀ algorithm r, dnssec_key_set_algorithm demoKeyEnv (some demoKey) algorithm = some r →
      r.ret = DNSSEC_EOK →
      ∃ k1, r.key = some k1 ∧
        (∀ t, demoKeyEnv.dnssec_keytag k1.rdata = some t → k1.keytag = t) ∧
        dnssec_key_get_algorithm (some k1) = algorithm % 256 ∧
        dnssec_key_get_flags (some k1) = dnssec_key_get_flags (some demoKey) ∧
        dnssec_key_get_protocol demoKeyEnv (some k1) =
          dnssec_key_get_protocol demoKeyEnv (some demoKey) ∧
        k1.rdata.take 3 = demoKey.rdata.take 3 ∧ k1.rdata.drop 4 = demoKey.rdata.drop 4) ∧
    (demoKey.public_key = none → ∀ algorithm, ∃ r,
      dnssec_key_set_algorithm demoKeyEnv (some demoKey) algorithm = some r ∧
        r.ret = DNSSEC_EOK) ∧
    (∀ pubkey r, dnssec_key_set_pubkey demoKeyEnv (some demoKey) pubkey = some r →
      r.ret = DNSSEC_EOK →
      ∃ k1, r.key = some k1 ∧
        (∀ t, demoKeyEnv.dnssec_keytag k1.rdata = some t → k1.keytag = t)) ∧
    (∀ rdata r, dnssec_key_set_rdata demoKeyEnv (some demoKey) rdata = some r →
      r.ret = DNSSEC_EOK →
      ∃ k1, r.key = some k1 ∧
        (∀ t, demoKeyEnv.dnssec_keytag k1.rdata = some t → k1.keytag = t))) :=
  ⟨by decide, by decide, keytag_follows_rdata demoKeyEnv demoKey (by decide)⟩

/-- C28: `dnssec_key_set_rdata` checks in this order: a missing key, RDATA or
RDATA data gives `DNSSEC_EINVAL`; RDATA shorter than 4 bytes gives
`DNSSEC_MALFORMED_DATA`; a key that holds a public key gives
`DNSSEC_KEY_ALREADY_PRESENT`; then the error of the conversion to a public key,
then the error of the resize, is returned.  On every error the key is left
exactly as it was (a failed resize leaving the binary alone), and on success
the RDATA of the key is the given bytes (a successful resize giving the binary
the new size).  `dnssec_key_set_pubkey` returns `DNSSEC_KEY_ALREADY_PRESENT`
for a key that holds a public key and `DNSSEC_INVALID_KEY_ALGORITHM` for one
whose algorithm is 0, both times leaving the key as it was; and when the
conversion fails after the public key was written behind the header, the RDATA
is cut back to the 4 header bytes it had, so flags, protocol and algorithm read
as before. -/
theorem set_rdata_validation_order (E : KeyEnv π)
    (hfail : ∀ b n, (E.dnssec_binary_resize b n).ret ≠ DNSSEC_EOK →
      (E.dnssec_binary_resize b n).binary = b)
    (hsize : ∀ b n, (E.dnssec_binary_resize b n).ret = DNSSEC_EOK →
      (E.dnssec_binary_resize b n).binary.length = n)
    (hhead : ∀ b p, 4 ≤ b.length → (E.dnskey_rdata_set_pubkey b p).ret = DNSSEC_EOK →
      (E.dnskey_rdata_set_pubkey b p).binary.take 4 = b.take 4) :
    (∀ rdata, dnssec_key_set_rdata E (none : Option (dnssec_key_t π σ)) rdata =
      some ⟨E.DNSSEC_EINVAL, none⟩) ∧
    (∀ k : dnssec_key_t π σ,
      dnssec_key_set_rdata E (some k) none = some ⟨E.DNSSEC_EINVAL, some k⟩) ∧
    (∀ (k : dnssec_key_t π σ) (r : dnssec_binary_t), r.data = none →
      dnssec_key_set_rdata E (some k) (some r) = some ⟨E.DNSSEC_EINVAL, some k⟩) ∧
    (∀ (k : dnssec_key_t π σ) (r : dnssec_binary_t), r.data ≠ none → r.size < 4 →
      dnssec_key_set_rdata E (some k) (some r) = some ⟨E.DNSSEC_MALFORMED_DATA, some k⟩) ∧
    (∀ (k : dnssec_key_t π σ) (r : dnssec_binary_t), r.data ≠ none → 4 ≤ r.size →
      k.public_key ≠ none →
      dnssec_key_set_rdata E (some k) (some r) =
        some ⟨E.DNSSEC_KEY_ALREADY_PRESENT, some k⟩) ∧
    (∀ (k : dnssec_key_t π σ) (r : dnssec_binary_t), r.data ≠ none → 4 ≤ r.size →
      k.public_key = none → (E.dnskey_rdata_to_crypto_key r.bytes).ret ≠ DNSSEC_EOK →
      dnssec_key_set_rdata E (some k) (some r) =
        some ⟨(E.dnskey_rdata_to_crypto_key r.bytes).ret, some k⟩) ∧
    (∀ (k : dnssec_key_t π σ) (r : dnssec_binary_t), r.data ≠ none → 4 ≤ r.size →
      k.public_key = none → (E.dnskey_rdata_to_crypto_key r.bytes).ret = DNSSEC_EOK →
      (E.dnssec_binary_resize k.rdata r.size).ret ≠ DNSSEC_EOK →
      dnssec_key_set_rdata E (some k) (some r) =
        some ⟨(E.dnssec_binary_resize k.rdata r.size).ret, some k⟩) ∧
    (∀ (k : dnssec_key_t π σ) rdata res, dnssec_key_set_rdata E (some k) rdata = some res →
      (res.ret ≠ DNSSEC_EOK → res.key = some k) ∧
      (res.ret = DNSSEC_EOK → ∃ r k1, rdata = some r ∧ res.key = some k1 ∧
        k1.rdata = r.bytes ∧ 4 ≤ r.size)) ∧
    (∀ (k : dnssec_key_t π σ) (p : dnssec_binary_t), p.data ≠ none → k.public_key ≠ none →
      dnssec_key_set_pubkey E (some k) (some p) =
        some ⟨E.DNSSEC_KEY_ALREADY_PRESENT, some k⟩) ∧
    (∀ (k : dnssec_key_t π σ) (p : dnssec_binary_t), p.data ≠ none → k.public_key = none →
      dnssec_key_get_algorithm (some k) = 0 →
      dnssec_key_set_pubkey E (some k) (some p) =
        some ⟨E.DNSSEC_INVALID_KEY_ALGORITHM, some k⟩) ∧
    (∀ (k : dnssec_key_t π σ) (p : dnssec_binary_t), p.data ≠ none → k.public_key = none →
      dnssec_key_get_algorithm (some k) ≠ 0 → k.rdata.length = 4 →
      (E.dnskey_rdata_set_pubkey k.rdata p.bytes).ret = DNSSEC_EOK →
      (E.dnskey_rdata_to_crypto_key (E.dnskey_rdata_set_pubkey k.rdata p.bytes).binary).ret ≠
        DNSSEC_EOK →
      ∃ k1, dnssec_key_set_pubkey E (some k) (some p) =
          some ⟨(E.dnskey_rdata_to_crypto_key
            (E.dnskey_rdata_set_pubkey k.rdata p.bytes).binary).ret, some k1⟩ ∧
        k1.rdata = k.rdata ∧ k1.rdata.length = 4 ∧
        dnssec_key_get_flags (some k1) = dnssec_key_get_flags (some k) ∧
        dnssec_key_get_protocol E (some k1) = dnssec_key_get_protocol E (some k) ∧
        dnssec_key_get_algorithm (some k1) = dnssec_key_get_algorithm (some k)) := by
  refine ⟨?_, ?_, ?_, ?_, ?_, ?_, ?_, ?_, ?_, ?_, ?_⟩
  · intro rdata
    cases rdata <;> rfl
  · intro k
    rfl
  · intro k r hr
    simp [dnssec_key_set_rdata, hr]
  · intro k r hr hs
    have : r.data.isNone = false := by
      cases h : r.data with
      | none => exact absurd h hr
      | some _ => rfl
    simp [dnssec_key_set_rdata, this, hs]
  · intro k r hr hs hp
    have h1 : r.data.isNone = false := by
      cases h : r.data with
      | none => exact absurd h hr
      | some _ => rfl
    have h2 : k.public_key.isSome = true := by
      cases h : k.public_key with
      | none => exact absurd h hp
      | some _ => rfl
    have h3 : ¬ (r.size < 4) := by omega
    simp [dnssec_key_set_rdata, h1, h2, h3]
  · intro k r hr hs hp hc
    have h1 : r.data.isNone = false := by
      cases h : r.data with
      | none => exact absurd h hr
      | some _ => rfl
    have h3 : ¬ (r.size < 4) := by omega
    simp [dnssec_key_set_rdata, h1, hp, h3, hc]
  · intro k r hr hs hp hc hz
    have h1 : r.data.isNone = false := by
      cases h : r.data with
      | none => exact absurd h hr
      | some _ => rfl
    have h3 : ¬ (r.size < 4) := by omega
    simp [dnssec_key_set_rdata, h1, hp, h3, hc, hz, hfail _ _ hz]
    cases k
    simp_all
  · intro k rdata res h
    unfold dnssec_key_set_rdata at h
    cases rdata with
    | none =>
      simp only [Option.some.injEq] at h
      subst h
      exact ⟨fun _ => rfl, fun hr => absurd hr E.einval_ne⟩
    | some p =>
      simp only at h
      split_ifs at h with g1 g2 g3 g4 g5
      · cases h; exact ⟨fun _ => rfl, fun hr => absurd hr E.einval_ne⟩
      · cases h; exact ⟨fun _ => rfl, fun hr => absurd hr E.malformed_ne⟩
      · cases h; exact ⟨fun _ => rfl, fun hr => absurd hr E.present_ne⟩
      · cases h; exact ⟨fun _ => rfl, fun hr => absurd hr g4⟩
      · cases h
        refine ⟨fun _ => ?_, fun hr => absurd hr g5⟩
        simp only [hfail _ _ g5]
      · split at h
        · exact Option.noConfusion h
        · rename_i k3 hk3
          cases h
          refine ⟨fun hr => absurd rfl hr, fun _ => ⟨p, k3, rfl, rfl, ?_, Nat.le_of_not_lt g2⟩⟩
          rw [(key_update_identifiers_spec E _ _ hk3).1]
          simp only
          rw [List.drop_eq_nil_of_le (by rw [hsize _ _ (not_not.mp g5)]), List.append_nil]
  · intro k p hd hp
    have h1 : p.data.isNone = false := by
      cases h : p.data with
      | none => exact absurd h hd
      | some _ => rfl
    have h2 : k.public_key.isSome = true := by
      cases h : k.public_key with
      | none => exact absurd h hp
      | some _ => rfl
    simp [dnssec_key_set_pubkey, h1, h2]
  · intro k p hd hp ha
    have h1 : p.data.isNone = false := by
      cases h : p.data with
      | none => exact absurd h hd
      | some _ => rfl
    simp [dnssec_key_set_pubkey, h1, hp, ha]
  · intro k p hd hp ha hl hs hc
    have h1 : p.data.isNone = false := by
      cases h : p.data with
      | none => exact absurd h hd
      | some _ => rfl
    have hk : ((E.dnskey_rdata_set_pubkey k.rdata p.bytes).binary).take 4 = k.rdata := by
      rw [hhead _ _ (by omega) hs, List.take_of_length_le (by omega)]
    refine ⟨{ k with rdata := k.rdata, public_key :=
      (E.dnskey_rdata_to_crypto_key (E.dnskey_rdata_set_pubkey k.rdata p.bytes).binary).key },
      ?_, rfl, hl, rfl, rfl, rfl⟩
    simp [dnssec_key_set_pubkey, h1, hp, ha, hs, hc, hk]

/-- C28 at concrete externals under which no public key can be built from
RDATA: both setters return the error of the conversion and leave `demoKey` as
it was. -/
theorem set_rdata_validation_order_witness :
    dnssec_key_set_rdata badKeyEnv (some demoKey) (some ⟨6, some [1, 0, 3, 8, 5, 6]⟩) =
      some ⟨-1490, some demoKey⟩ ∧
    dnssec_key_set_pubkey badKeyEnv (some demoKey) (some ⟨2, some [5, 6]⟩) =
      some ⟨-1490, some demoKey⟩ ∧
    ((∀ rdata, dnssec_key_set_rdata badKeyEnv (none : Option (dnssec_key_t (List Nat) Nat)) rdata =
      some ⟨badKeyEnv.DNSSEC_EINVAL, none⟩) ∧
    (∀ k : dnssec_key_t (List Nat) Nat,
      dnssec_key_set_rdata badKeyEnv (some k) none = some ⟨badKeyEnv.DNSSEC_EINVAL, some k⟩) ∧
    (∀ (k : dnssec_key_t (List Nat) Nat) (r : dnssec_binary_t), r.data = none →
      dnssec_key_set_rdata badKeyEnv (some k) (some r) = some ⟨badKeyEnv.DNSSEC_EINVAL, some k⟩) ∧
    (∀ (k : dnssec_key_t (List Nat) Nat) (r : dnssec_binary_t), r.data ≠ none → r.size < 4 →
      dnssec_key_set_rdata badKeyEnv (some k) (some r) = some ⟨badKeyEnv.DNSSEC_MALFORMED_DATA, some k⟩) ∧
    (∀ (k : dnssec_key_t (List Nat) Nat) (r : dnssec_binary_t), r.data ≠ none → 4 ≤ r.size →
      k.public_key ≠ none →
      dnssec_key_set_rdata badKeyEnv (some k) (some r) =
        some ⟨badKeyEnv.DNSSEC_KEY_ALREADY_PRESENT, some k⟩) ∧
    (∀ (k : dnssec_key_t (List Nat) Nat) (r : dnssec_binary_t), r.data ≠ none → 4 ≤ r.size →
      k.public_key = none → (badKeyEnv.dnskey_rdata_to_crypto_key r.bytes).ret ≠ DNSSEC_EOK →
      dnssec_key_set_rdata badKeyEnv (some k) (some r) =
        some ⟨(badKeyEnv.dnskey_rdata_to_crypto_key r.bytes).ret, some k⟩) ∧
    (∀ (k : dnssec_key_t (List Nat) Nat) (r : dnssec_binary_t), r.data ≠ none → 4 ≤ r.size →
      k.public_key = none → (badKeyEnv.dnskey_rdata_to_crypto_key r.bytes).ret = DNSSEC_EOK →
      (badKeyEnv.dnssec_binary_resize k.rdata r.size).ret ≠ DNSSEC_EOK →
      dnssec_key_set_rdata badKeyEnv (some k) (some r) =
        some ⟨(badKeyEnv.dnssec_binary_resize k.rdata r.size).ret, some k⟩) ∧
    (∀ (k : dnssec_key_t (List Nat) Nat) rdata res, dnssec_key_set_rdata badKeyEnv (some k) rdata = some res →
      (res.ret ≠ DNSSEC_EOK → res.key = some k) ∧
      (res.ret = DNSSEC_EOK → ∃ r k1, rdata = some r ∧ res.key = some k1 ∧
        k1.rdata = r.bytes ∧ 4 ≤ r.size)) ∧
    (∀ (k : dnssec_key_t (List Nat) Nat) (p : dnssec_binary_t), p.data ≠ none → k.public_key ≠ none →
      dnssec_key_set_pubkey badKeyEnv (some k) (some p) =
        some ⟨badKeyEnv.DNSSEC_KEY_ALREADY_PRESENT, some k⟩) ∧
    (∀ (k : dnssec_key_t (List Nat) Nat) (p : dnssec_binary_t), p.data ≠ none → k.public_key = none →
      dnssec_key_get_algorithm (some k) = 0 →
      dnssec_key_set_pubkey badKeyEnv (some k) (some p) =
        some ⟨badKeyEnv.DNSSEC_INVALID_KEY_ALGORITHM, some k⟩) ∧
    (∀ (k : dnssec_key_t (List Nat) Nat) (p : dnssec_binary_t), p.data ≠ none → k.public_key = none →
      dnssec_key_get_algorithm (some k) ≠ 0 → k.rdata.length = 4 →
      (badKeyEnv.dnskey_rdata_set_pubkey k.rdata p.bytes).ret = DNSSEC_EOK →
      (badKeyEnv.dnskey_rdata_to_crypto_key (badKeyEnv.dnskey_rdata_set_pubkey k.rdata p.bytes).binary).ret ≠
        DNSSEC_EOK →
      ∃ k1, dnssec_key_set_pubkey badKeyEnv (some k) (some p) =
          some ⟨(badKeyEnv.dnskey_rdata_to_crypto_key
            (badKeyEnv.dnskey_rdata_set_pubkey k.rdata p.bytes).binary).ret, some k1⟩ ∧
        k1.rdata = k.rdata ∧ k1.rdata.length = 4 ∧
        dnssec_key_get_flags (some k1) = dnssec_key_get_flags (some k) ∧
        dnssec_key_get_protocol badKeyEnv (some k1) = dnssec_key_get_protocol badKeyEnv (some k) ∧
        dnssec_key_get_algorithm (some k1) = dnssec_key_get_algorithm (some k))) :=
  ⟨by decide, by decide,
    set_rdata_validation_order badKeyEnv (fun _ _ h => absurd rfl h)
      (fun b n _ => by
        show (b.take n ++ List.replicate (n - b.length) 0).length = n
        simp only [List.length_append, List.length_take, List.length_replicate]
        omega)
      (fun b p h _ => by
        show (b.take 4 ++ p).take 4 = b.take 4
        rw [List.take_append_of_le_length (by simp; omega), List.take_take, min_self])⟩

/-- C29 (the code departs from the claim): the element write of `dynarray_add`
is not always inside the buffer.  From a dynarray in a valid state
(`dynarray_valid`, the state of a zero-initialised dynarray and of every
dynarray on which additions have succeeded), every addition has a result that
passes the assertion `size <= capacity` of `dynarray_fix`; it writes the item
at index `size`, inside `0 <= i < capacity`, and leaves a valid state, unless
the buffer is full and the allocation fails, and then it writes nothing and
leaves `size = capacity = -1`.
From any dynarray with `size = capacity = -1` the next addition passes the
assertion of `dynarray_fix` (-1 <= -1), which resets the capacity to
`initial_capacity` and `arr` to the inline buffer; `size >= capacity` does not
hold, so no block is requested, and the element write `arr[size++] = *to_add`
goes to index -1, before the start of the buffer: the addition has no defined
result.  With an inline buffer of two items: two additions fit, the third fails
to allocate and leaves `size = capacity = -1`, the fourth writes to index
-1. -/
theorem dynarray_add_after_failed_allocation :
    (∀ (initial_capacity : Nat) (z : Nat) (alloc : Bool) (d : dynarray_t Nat) (x : Nat),
      dynarray_valid initial_capacity d → 2 * d.size + 1 ≤ SSIZE_MAX →
      ∃ r, dynarray_add initial_capacity z alloc d x = some r ∧
        r.dynarray.size ≤ r.dynarray.capacity ∧
        (∀ i, r.written = some i → i = d.size ∧ 0 ≤ i ∧ i < r.dynarray.capacity ∧
          dynarray_valid initial_capacity r.dynarray) ∧
        (r.written = none ↔ alloc = false ∧ d.size = max d.capacity initial_capacity) ∧
        (r.written = none → r.dynarray.size = -1 ∧ r.dynarray.capacity = -1)) ∧
    (∀ (initial_capacity : Nat) (z : Nat) (alloc : Bool) (init : List Nat)
        (arr : dynarray_arr Nat) (y : Nat),
      dynarray_fix initial_capacity ⟨-1, -1, init, arr⟩ =
        some ⟨initial_capacity, -1, init, dynarray_arr.init⟩ ∧
      ¬ ((-1 : Int) ≥ (initial_capacity : Int)) ∧
      dynarray_store ⟨initial_capacity, -1, init, dynarray_arr.init⟩ (-1) y = none ∧
      dynarray_add initial_capacity z alloc ⟨-1, -1, init, arr⟩ y = none) ∧
    dynarray_add_all 2 0 [(true, 10), (true, 11), (false, 12)] (dynarray_zero 2 0) =
      some (⟨-1, -1, [10, 11], dynarray_arr.init⟩, [some 0, some 1, none]) ∧
    dynarray_add_all 2 0 [(true, 10), (true, 11), (false, 12), (true, 13)]
        (dynarray_zero 2 0) = none := by
  refine ⟨?_, ?_, by decide, by decide⟩
  · intro ic z alloc d x hv hov
    exact dynarray_add_valid_result ic z alloc d x hv hov
  · intro ic z alloc init arr y
    have h1 : ¬ ((ic : Int) ≤ -1) := by omega
    have h2 : (-1 : Int) ≤ (ic : Int) := by omega
    refine ⟨by simp [dynarray_fix, h2], by omega, by simp [dynarray_store], ?_⟩
    simp [dynarray_add, dynarray_fix, dynarray_store, h1, h2]

/-- C30 (the code departs from the claim): whenever `init_update_respones`
fails, the request whose packet could not be allocated has no response, and
`set_rcodes`, which `updates_execute` runs on the whole batch before sending
anything, reads the RCODE of that missing response: `updates_execute` faults
and produces no result, so nothing is sent and nothing is released.  With
memory for one packet only and two queued requests: the first response is
created, the second is missing, `init_update_respones` returns `KNOT_ENOMEM`,
and `updates_execute` faults. -/
theorem init_failure_faults_in_set_rcodes :
    (∀ (E : Env κ χ ρ) (zone : zone_t κ) (tr : Trace κ),
      (init_update_respones E zone.ddns_queue tr).ret ≠ KNOT_EOK →
      (∃ r ∈ (init_update_respones E zone.ddns_queue tr).updates, r.resp = none) ∧
      set_rcodes (init_update_respones E zone.ddns_queue tr).updates KNOT_RCODE_SERVFAIL =
        none ∧
      updates_execute E zone tr = none) ∧
    ((init_update_respones onePacketEnv demoQueuedZone2.ddns_queue []).ret =
        onePacketEnv.KNOT_ENOMEM ∧
      (init_update_respones onePacketEnv demoQueuedZone2.ddns_queue []).updates.map
          (fun r => r.resp.isSome) = [true, false] ∧
      updates_execute onePacketEnv demoQueuedZone2 [] = none) := by
  refine ⟨?_, ⟨rfl, rfl, rfl⟩⟩
  intro E zone tr h
  have hm := init_update_respones_missing E zone.ddns_queue tr h
  have hs := set_rcodes_none_of_missing KNOT_RCODE_SERVFAIL _ hm
  refine ⟨hm, hs, ?_⟩
  unfold updates_execute
  have hq : (zone_update_dequeue zone).1 = zone.ddns_queue := rfl
  have hne : zone.ddns_queue.isEmpty = false := by
    cases hz : zone.ddns_queue with
    | nil => rw [hz] at h; simp [init_update_respones] at h
    | cons a l => rfl
  simp only [hq, hne, Bool.false_eq_true, if_false, h, ne_eq, not_false_eq_true, if_true, hs]

end Claims

end Knot
